import Mathlib

/-!
# Transform-data conversion pipeline (`transform_conversions.c`)

A shallow embedding of parts of
`source/blender/editors/transform/transform_conversions.c`.  Proportional editing:

* `sort_trans_data_selected_first_container` (selected records first),
* `set_prop_dist` (distance of every unselected record to the nearest selected one),
* `sort_trans_data_dist_container` (unselected suffix ordered by distance),
* `calc_distanceCurveVerts` (connectivity based distance along a curve),
* the steps of `createTransData` that call them, for edit-mode objects and for
  grease-pencil strokes (`createTransGPencil`).

Domain adapters:

* `posttrans_fcurve_clean` (merging of keyframes after a transform),
* `flushTransSeq` and `trans_update_seq` (sequencer strips),
* `createTransTrackingData` and `cancelTransTracking` (motion tracking),
* `createTransMaskingData` and `flushTransMasking` (masks),
* `createTransPaintCurveVerts` (paint curves),
* `count_set_pose_transflags` and the chain walk of `apply_targetless_ik` (pose mode),
* `flushTransGraphData`, `bezt_to_beztmaps` and `sort_time_beztmaps` (graph editor),
* `posttrans_gpd_clean` and `special_aftertrans_update` (clean-up after a transform in
  the animation editors),
* `flushTransTracking` (motion tracking),
* `countAndCleanTransDataContainer` (containers without records).

Conventions.  Floats are modelled by an arbitrary linearly ordered field `α` (exact
arithmetic); `sqrtf` is a parameter, instantiated with `Real.sqrt` where its value
matters, and `FLT_MAX` is a parameter.  A record array `TransData *data, int data_len` is
a `List`, a pointer into it is an index.  Code that can read outside an array returns an
`Option`, `none` being such a read.  The C library `qsort` is a parameter constrained by
its contract (`QsortSpec`).  Arrays allocated with `MEM_callocN` and filled through a
moving pointer are lists of zero records changed in place (`apply_at`); a write outside
the array gives `none`.  Functions defined outside the translated file are parameters.
-/

namespace TransformConversions

/-! ## Data model -/

/-- Modelled from the spec: a 3-vector (spec §3, `position`, `center`), the C type
`float[3]`. -/
structure V3 (α : Type) where
  x : α
  y : α
  z : α
deriving DecidableEq, Repr

/-- Modelled from the spec: a 3x3 change-of-basis matrix (spec §3, `local_to_global`), the
C type `float[3][3]`; the fields are `m[0]`, `m[1]`, `m[2]`. -/
structure M3 (α : Type) where
  m0 : V3 α
  m1 : V3 α
  m2 : V3 α
deriving DecidableEq, Repr

/-- Modelled from the spec: the matrix of a container (C type `float[4][4]`), restricted
to the entries `m[i][0..2]` that `mul_v3_m4v3` reads; the fields are `m[0]`, `m[1]`,
`m[2]`, `m[3]`. -/
structure M4 (α : Type) where
  m0 : V3 α
  m1 : V3 α
  m2 : V3 α
  m3 : V3 α
deriving DecidableEq, Repr

/-- Modelled from the spec: the record flags are a bit-set (spec §3, `flags`, `selected`);
the enumerator `TD_SELECTED` is declared in `transform.h`, outside the translated file.
It is taken as bit 0. -/
def TD_SELECTED : Nat := 1

/-- Modelled from the spec: the record flags are a bit-set (spec §3, `flags`, "not
connected"); the enumerator `TD_NOTCONNECTED` is declared in `transform.h`, outside the
translated file.  It is taken as bit 4. -/
def TD_NOTCONNECTED : Nat := 16

/-- Modelled from the spec: the record `TransData` (spec §3, TransformRecord), declared in
`transform.h`, outside the translated file; the fields are those the proportional-editing
code reads or writes, under their names in the code: `flag`, `center`, `iloc` (initial
position), `mtx` (local to global), `axismtx` (orientation), `dist` (distance) and `rdist`
(reference distance). -/
structure TransData (α : Type) where
  flag : Nat
  center : V3 α
  iloc : V3 α
  mtx : M3 α
  axismtx : M3 α
  dist : α
  rdist : α
deriving DecidableEq, Repr

/-- Modelled from the spec: the per-object container `TransDataContainer` (spec §3, the
record arrays of a session), declared in `transform.h`, outside the translated file, with
the fields the proportional-editing code uses; `data_len` is `data.length`. -/
structure TransDataContainer (α : Type) where
  data : List (TransData α)
  use_local_mat : Bool
  mat : M4 α
deriving DecidableEq, Repr

variable {α : Type}

/-- The test `td->flag & TD_SELECTED`. -/
def TransData.selected (td : TransData α) : Bool :=
  td.flag &&& TD_SELECTED != 0

/-- The test `td->flag & TD_NOTCONNECTED`. -/
def TransData.notconnected (td : TransData α) : Bool :=
  td.flag &&& TD_NOTCONNECTED != 0

/-- Selected records form a prefix of the array: no selected record comes
after an unselected one. -/
def Partitioned (l : List (TransData α)) : Prop :=
  l.Pairwise (fun a b => b.selected = true → a.selected = true)

instance (l : List (TransData α)) : Decidable (Partitioned l) :=
  (inferInstance :
    Decidable (List.Pairwise (fun a b : TransData α => b.selected = true → a.selected = true) l))

/-- Index form of the partition: the first `k` records are selected, the others are not. -/
def SplitAt (l : List (TransData α)) (k : Nat) : Prop :=
  ∀ i (hi : i < l.length), (i < k → l[i].selected = true) ∧ (k ≤ i → l[i].selected = false)

/-! ## `sort_trans_data_selected_first_container` -/

/-- The value swap `temp = *unsel; *unsel = *sel; *sel = temp;` on indices `i`, `j`. -/
def swapAt (data : List (TransData α)) (i j : Nat) (hi : i < data.length)
    (hj : j < data.length) : List (TransData α) :=
  (data.set i data[j]).set j data[i]

/-- The first inner loop
`while (unsel->flag & TD_SELECTED) { unsel++; if (unsel == sel) return; }`.
The result `none` is the `return`; otherwise the new value of `unsel`. -/
def scan_unsel (data : List (TransData α)) (sel : Nat) (hs : sel < data.length)
    (unsel : Nat) (h : unsel < sel) : Option { u : Nat // unsel ≤ u ∧ u < sel } :=
  if data[unsel].selected then
    if h1 : unsel + 1 = sel then none
    else
      match scan_unsel data sel hs (unsel + 1) (by omega) with
      | none => none
      | some u => some ⟨u.1, by have := u.2; omega⟩
  else some ⟨unsel, by omega⟩
termination_by sel - unsel

/-- The second inner loop
`while (!(sel->flag & TD_SELECTED)) { sel--; if (unsel == sel) return; }`.
The result `none` is the `return`; otherwise the new value of `sel`. -/
def scan_sel (data : List (TransData α)) (unsel : Nat) (sel : Nat)
    (hs : sel < data.length) (h : unsel < sel) :
    Option { s : Nat // unsel < s ∧ s ≤ sel } :=
  if !data[sel].selected then
    if h1 : unsel = sel - 1 then none
    else
      match scan_sel data unsel (sel - 1) (by omega) (by omega) with
      | none => none
      | some s => some ⟨s.1, by have := s.2; omega⟩
  else some ⟨sel, by omega⟩
termination_by sel

/-- The outer loop `while (sel > unsel) { ... }` of
`sort_trans_data_selected_first_container`, from the state `(unsel, sel)`. -/
def selected_first_loop (data : List (TransData α)) (unsel sel : Nat)
    (hs : sel < data.length) : List (TransData α) :=
  if h : sel > unsel then
    match scan_unsel data sel hs unsel h with
    | none => data
    | some u =>
      match scan_sel data u.1 sel hs u.2.2 with
      | none => data
      | some s =>
        selected_first_loop
          (swapAt data u.1 s.1 (by have := s.2; omega) (by have := s.2; omega))
          (u.1 + 1) (s.1 - 1)
          (by simp only [swapAt, List.length_set]; have := s.2; omega)
  else data
termination_by sel - unsel
decreasing_by
  have := u.2
  have := s.2
  omega

/-- The function `sort_trans_data_selected_first_container`: `unsel = tc->data`,
`sel = tc->data + tc->data_len - 1`, then the loop.  For `data_len == 0` the
pointer `sel` lies before `unsel` and the loop is not entered. -/
def sort_trans_data_selected_first_container (data : List (TransData α)) :
    List (TransData α) :=
  if h : 0 < data.length then
    selected_first_loop data 0 (data.length - 1) (by omega)
  else data

/-! ## Vector helpers (`BLI_math_vector`, `BLI_math_matrix`)

The helpers are defined outside the translated file; they are the usual operations on
3-vectors and matrices, over the field `α`, with `sqrtf` a parameter. -/

section Field

variable [LinearOrderedField α]

/-- Modelled from the spec: `dot_v3v3(a, b)` of the math library, the dot product. -/
def dot_v3v3 (a b : V3 α) : α :=
  a.x * b.x + a.y * b.y + a.z * b.z

/-- Modelled from the spec: `sub_v3_v3v3(r, a, b)` of the math library, `r = a - b`. -/
def sub_v3_v3v3 (a b : V3 α) : V3 α :=
  ⟨a.x - b.x, a.y - b.y, a.z - b.z⟩

/-- Modelled from the spec: `len_v3(a)` of the math library, the Euclidean length
`sqrtf(dot_v3v3(a, a))` (spec §4.2, geometric distance). -/
def len_v3 (sqrtf : α → α) (a : V3 α) : α :=
  sqrtf (dot_v3v3 a a)

/-- Modelled from the spec: `len_v3v3(a, b)` of the math library, the Euclidean distance,
the length of `b - a`. -/
def len_v3v3 (sqrtf : α → α) (a b : V3 α) : α :=
  len_v3 sqrtf (sub_v3_v3v3 b a)

/-- Modelled from the spec: `mul_v3_m3v3(r, M, a)` of the math library, the matrix applied
to a vector: `r[i] = M[0][i] * a[0] + M[1][i] * a[1] + M[2][i] * a[2]`. -/
def mul_v3_m3v3 (M : M3 α) (a : V3 α) : V3 α :=
  ⟨M.m0.x * a.x + M.m1.x * a.y + M.m2.x * a.z,
   M.m0.y * a.x + M.m1.y * a.y + M.m2.y * a.z,
   M.m0.z * a.x + M.m1.z * a.y + M.m2.z * a.z⟩

/-- Modelled from the spec: `mul_v3_m4v3(r, mat, vec)` of the math library, the affine map
applied to a point:
`r[i] = x * mat[0][i] + y * mat[1][i] + mat[2][i] * vec[2] + mat[3][i]`. -/
def mul_v3_m4v3 (mat : M4 α) (vec : V3 α) : V3 α :=
  ⟨vec.x * mat.m0.x + vec.y * mat.m1.x + mat.m2.x * vec.z + mat.m3.x,
   vec.x * mat.m0.y + vec.y * mat.m1.y + mat.m2.y * vec.z + mat.m3.y,
   vec.x * mat.m0.z + vec.y * mat.m1.z + mat.m2.z * vec.z + mat.m3.z⟩

/-- Modelled from the spec: `project_v3_v3v3(out, p, v_proj)` of the math library, the
projection of `p` onto `v_proj` (spec §4.2, projected proportional editing). -/
def project_v3_v3v3 (p v_proj : V3 α) : V3 α :=
  let mul := dot_v3v3 p v_proj / dot_v3v3 v_proj v_proj
  ⟨mul * v_proj.x, mul * v_proj.y, mul * v_proj.z⟩

/-- Modelled from the spec: `unit_m3` of the math library, the identity matrix. -/
def unit_m3 : M3 α :=
  ⟨⟨1, 0, 0⟩, ⟨0, 1, 0⟩, ⟨0, 0, 1⟩⟩

/-! ## Spatial index -/

/-- Modelled from the spec: the result record `KDTreeNearest_3d` of a nearest query (spec
§4.1, `(index_of_nearest, distance)`), with the point found. -/
structure KDTreeNearest_3d (α : Type) where
  index : Int
  dist : α
  co : V3 α

/-- Modelled from the spec: the kd-tree (`BLI_kdtree_3d_*`) is defined outside the
translated file; spec §4.1 gives `nearest(query) -> (index_of_nearest, distance)` over the
inserted points, "not found" only when built over zero points.  The tree is the list of inserted
`(index, co)` pairs and the query is an exact nearest-neighbour search; `none` stands for
the return value `-1`, `some n` for the return value `n.index` with `*r_nearest = n`. -/
def BLI_kdtree_3d_find_nearest (sqrtf : α → α) :
    List (Int × V3 α) → V3 α → Option (KDTreeNearest_3d α)
  | [], _ => none
  | e :: rest, co =>
    let d := len_v3v3 sqrtf co e.2
    match BLI_kdtree_3d_find_nearest sqrtf rest co with
    | none => some ⟨e.1, d, e.2⟩
    | some b => if b.dist < d then some b else some ⟨e.1, d, e.2⟩

/-! ## `set_prop_dist` -/

/-- The position of a record in global space, as computed in both loops of
`set_prop_dist`: `td->iloc` (island mode) or `td->center`, mapped by `tc->mat`
(`use_local_mat`) or `td->mtx`, then with its component along `proj_vec` removed when a
projection vector is active. -/
def prop_dist_vec (use_island : Bool) (proj_vec : Option (V3 α))
    (tc : TransDataContainer α) (td : TransData α) : V3 α :=
  let vec :=
    if use_island then
      if tc.use_local_mat then mul_v3_m4v3 tc.mat td.iloc else mul_v3_m3v3 td.mtx td.iloc
    else
      if tc.use_local_mat then mul_v3_m4v3 tc.mat td.center else mul_v3_m3v3 td.mtx td.center
  match proj_vec with
  | some p => sub_v3_v3v3 vec (project_v3_v3v3 vec p)
  | none => vec

/-- First loop of `set_prop_dist` on one container: the number of records counted into
`td_table_len`, the scan stops at the first unselected record. -/
def count_leading_selected : List (TransData α) → Nat
  | [] => 0
  | td :: rest => if td.selected then count_leading_selected rest + 1 else 0

/-- The value of `td_table_len` after the first loop of `set_prop_dist`. -/
def td_table_len (tcs : List (TransDataContainer α)) : Nat :=
  (tcs.map (fun tc => count_leading_selected tc.data)).sum

/-- State of the second loop of `set_prop_dist`: the kd-tree insertions so far and the
table `td_table`; `td_table_index` is `td_table.length`.  The table holds the records its
pointers refer to: they are selected, and the third loop only writes unselected records. -/
structure FillState (α : Type) where
  td_tree : List (Int × V3 α)
  td_table : List (TransData α)

/-- Second loop of `set_prop_dist` on the records of one container: every record of the
selected prefix gets `rdist = 0`, is inserted into the tree under the index
`td_table_index` and stored in the table; the scan stops at the first unselected one. -/
def fill_selected (use_island : Bool) (proj_vec : Option (V3 α))
    (tc : TransDataContainer α) :
    List (TransData α) → FillState α → List (TransData α) × FillState α
  | [], st => ([], st)
  | td :: rest, st =>
    if td.selected then
      let td1 := { td with rdist := 0 }
      let vec := prop_dist_vec use_island proj_vec tc td1
      let st1 : FillState α :=
        ⟨st.td_tree ++ [((st.td_table.length : Int), vec)], st.td_table ++ [td1]⟩
      let r := fill_selected use_island proj_vec tc rest st1
      (td1 :: r.1, r.2)
    else (td :: rest, st)

/-- Second loop of `set_prop_dist` over all containers. -/
def fill_selected_all (use_island : Bool) (proj_vec : Option (V3 α)) :
    List (TransDataContainer α) → FillState α →
      List (TransDataContainer α) × FillState α
  | [], st => ([], st)
  | tc :: rest, st =>
    let r := fill_selected use_island proj_vec tc tc.data st
    let r2 := fill_selected_all use_island proj_vec rest r.2
    ({ tc with data := r.1 } :: r2.1, r2.2)

/-- The read `td_table[td_index]`; `none` when the index is outside the table. -/
def td_table_get (td_table : List (TransData α)) (td_index : Int) : Option (TransData α) :=
  if 0 ≤ td_index then td_table[td_index.toNat]? else none

/-- Body of the third loop of `set_prop_dist` for one record; `none` is a read outside
`td_table`. -/
def prop_dist_record (sqrtf : α → α) (use_island : Bool) (proj_vec : Option (V3 α))
    (with_dist : Bool) (st : FillState α) (tc : TransDataContainer α)
    (td : TransData α) : Option (TransData α) :=
  if td.selected == false then
    let vec := prop_dist_vec use_island proj_vec tc td
    let nearest := BLI_kdtree_3d_find_nearest sqrtf st.td_tree vec
    let td_index : Int := match nearest with
      | none => -1
      | some n => n.index
    let td1 := { td with rdist := -1 }
    let td2 : Option (TransData α) :=
      if td_index != -1 then
        let td1a := { td1 with rdist := match nearest with
          | none => td1.rdist
          | some n => n.dist }
        if use_island then
          match td_table_get st.td_table td_index with
          | none => none
          | some s => some { td1a with center := s.center, axismtx := s.axismtx }
        else some td1a
      else some td1
    match td2 with
    | none => none
    | some t => some (if with_dist then { t with dist := t.rdist } else t)
  else some td

/-- Third loop of `set_prop_dist` on the records of one container. -/
def prop_dist_records (sqrtf : α → α) (use_island : Bool) (proj_vec : Option (V3 α))
    (with_dist : Bool) (st : FillState α) (tc : TransDataContainer α) :
    List (TransData α) → Option (List (TransData α))
  | [] => some []
  | td :: rest =>
    match prop_dist_record sqrtf use_island proj_vec with_dist st tc td with
    | none => none
    | some td1 =>
      match prop_dist_records sqrtf use_island proj_vec with_dist st tc rest with
      | none => none
      | some rest1 => some (td1 :: rest1)

/-- Third loop of `set_prop_dist` over all containers. -/
def prop_dist_all (sqrtf : α → α) (use_island : Bool) (proj_vec : Option (V3 α))
    (with_dist : Bool) (st : FillState α) :
    List (TransDataContainer α) → Option (List (TransDataContainer α))
  | [] => some []
  | tc :: rest =>
    match prop_dist_records sqrtf use_island proj_vec with_dist st tc tc.data with
    | none => none
    | some data1 =>
      match prop_dist_all sqrtf use_island proj_vec with_dist st rest with
      | none => none
      | some rest1 => some ({ tc with data := data1 } :: rest1)

/-- The function `set_prop_dist(t, with_dist)` on the containers of `t`.  `use_island` is
the value of `transdata_check_local_islands(t, t->around)`, `proj_vec` the normalised
view vector when `T_PROP_PROJECTED` applies.  The result is `none` when `td_table` is
read outside its `td_table_len` entries. -/
def set_prop_dist (sqrtf : α → α) (use_island : Bool) (proj_vec : Option (V3 α))
    (with_dist : Bool) (tcs : List (TransDataContainer α)) :
    Option (List (TransDataContainer α)) :=
  let filled := fill_selected_all use_island proj_vec tcs ⟨[], []⟩
  prop_dist_all sqrtf use_island proj_vec with_dist filled.2 filled.1

/-! ## `sort_trans_data_dist_container` -/

/-- The comparison function `trans_data_compare_dist`: order by `dist`. -/
def trans_data_compare_dist (a b : TransData α) : Int :=
  if a.dist < b.dist then -1 else if a.dist > b.dist then 1 else 0

/-- The comparison function `trans_data_compare_rdist`: order by `rdist`. -/
def trans_data_compare_rdist (a b : TransData α) : Int :=
  if a.rdist < b.rdist then -1 else if a.rdist > b.rdist then 1 else 0

/-- The scan `for (i = 0; i < tc->data_len && start->flag & TD_SELECTED; i++) start++;`
of `sort_trans_data_dist_container`: the final value of `i`. -/
def skip_selected : List (TransData α) → Nat
  | [] => 0
  | td :: rest => if td.selected then skip_selected rest + 1 else 0

/-- The function `sort_trans_data_dist_container(t, tc)` on the records of `tc`;
`prop_connected` is the test `t->flag & T_PROP_CONNECTED`, `qsort` the C library sort
applied to the `data_len - i` records from `start`. -/
def sort_trans_data_dist_container
    (qsort : (TransData α → TransData α → Int) → List (TransData α) → List (TransData α))
    (prop_connected : Bool) (data : List (TransData α)) : List (TransData α) :=
  let i := skip_selected data
  if i < data.length then
    if prop_connected then
      data.take i ++ qsort trans_data_compare_dist (data.drop i)
    else
      data.take i ++ qsort trans_data_compare_rdist (data.drop i)
  else data

/-- A comparison function that orders its arguments consistently: any two elements are
comparable and the order is transitive. -/
def ConsistentCmp {β : Type} (cmp : β → β → Int) : Prop :=
  (∀ a b, cmp a b ≤ 0 ∨ cmp b a ≤ 0) ∧ ∀ a b c, cmp a b ≤ 0 → cmp b c ≤ 0 → cmp a c ≤ 0

/-- The contract of the C library `qsort`: the array is rearranged (a permutation) and,
for a consistent comparison function, ends up in ascending order. -/
def QsortSpec {β : Type} (qsort : (β → β → Int) → List β → List β) : Prop :=
  ∀ cmp l, (qsort cmp l).Perm l ∧
    (ConsistentCmp cmp → (qsort cmp l).Pairwise (fun a b => cmp a b ≤ 0))

/-- An executable instance of `qsort`: insertion sort by the comparison function. -/
def qsort_insertion {β : Type} (cmp : β → β → Int) (l : List β) : List β :=
  l.insertionSort (fun a b => cmp a b ≤ 0)

end Field

/-! ## Specification-side notions for `set_prop_dist` -/

section Field

variable [LinearOrderedField α]

/-- The centre of a record mapped to global space: by `tc->mat` when the container has
`use_local_mat`, by `td->mtx` otherwise. -/
def global_center (tc : TransDataContainer α) (td : TransData α) : V3 α :=
  if tc.use_local_mat then mul_v3_m4v3 tc.mat td.center else mul_v3_m3v3 td.mtx td.center

/-- The Euclidean distance of two points, with `sqrtf` the square root. -/
def euclid_dist (sqrtf : α → α) (a b : V3 α) : α :=
  sqrtf ((a.x - b.x) ^ 2 + (a.y - b.y) ^ 2 + (a.z - b.z) ^ 2)

/-- The least distance from `q` to a point of `pts`, `none` for no points. -/
def min_dist (sqrtf : α → α) : List (V3 α) → V3 α → Option α
  | [], _ => none
  | p :: rest, q =>
    match min_dist sqrtf rest q with
    | none => some (len_v3v3 sqrtf q p)
    | some b => some (min b (len_v3v3 sqrtf q p))

/-- The points `set_prop_dist` inserts into the kd-tree: the positions of the records of
the selected prefix of every container, in container order. -/
def selected_points (use_island : Bool) (proj_vec : Option (V3 α))
    (tcs : List (TransDataContainer α)) : List (V3 α) :=
  tcs.flatMap (fun tc =>
    (tc.data.takeWhile (fun td => td.selected)).map (prop_dist_vec use_island proj_vec tc))

/-- The effect of `set_prop_dist` on the selected prefix of one record array. -/
def zero_leading_rdist : List (TransData α) → List (TransData α)
  | [] => []
  | td :: rest =>
    if td.selected then { td with rdist := 0 } :: zero_leading_rdist rest else td :: rest

/-- The indices stored in the kd-tree are positions of `td_table`. -/
def TreeIdxOK (st : FillState α) : Prop :=
  ∀ e ∈ st.td_tree, 0 ≤ e.1 ∧ e.1.toNat < st.td_table.length

/-- The effect of the third loop of `set_prop_dist` on one record `td` of container `tc`
(result `td1`), with `pts` the points of the kd-tree: a selected record is left as it
is; an unselected one gets `rdist` = the least distance to `pts` (`-1` for no points),
`dist = rdist` when `with_dist`, and keeps its other fields, except `center` and `axismtx`
in island mode. -/
def LoopRel (sqrtf : α → α) (use_island : Bool) (proj_vec : Option (V3 α))
    (with_dist : Bool) (pts : List (V3 α)) (tc : TransDataContainer α)
    (td td1 : TransData α) : Prop :=
  (td.selected = true → td1 = td) ∧
  (td.selected = false →
    td1.flag = td.flag ∧ td1.iloc = td.iloc ∧ td1.mtx = td.mtx ∧
    td1.rdist = (min_dist sqrtf pts (prop_dist_vec use_island proj_vec tc td)).getD (-1) ∧
    td1.dist = (if with_dist then td1.rdist else td.dist) ∧
    (use_island = false → td1.center = td.center ∧ td1.axismtx = td.axismtx))

end Field

/-! ## The proportional-editing steps of `createTransData` -/

section Field

variable [LinearOrderedField α]

/-- The function `sort_trans_data_selected_first(t)`: every container in turn. -/
def sort_trans_data_selected_first (tcs : List (TransDataContainer α)) :
    List (TransDataContainer α) :=
  tcs.map (fun tc => { tc with data := sort_trans_data_selected_first_container tc.data })

/-- The function `sort_trans_data_dist(t)`: every container in turn. -/
def sort_trans_data_dist
    (qsort : (TransData α → TransData α → Int) → List (TransData α) → List (TransData α))
    (prop_connected : Bool) (tcs : List (TransDataContainer α)) :
    List (TransDataContainer α) :=
  tcs.map (fun tc =>
    { tc with data := sort_trans_data_dist_container qsort prop_connected tc.data })

/-- The value of `t->data_len_all` after `countAndCleanTransDataContainer`. -/
def data_len_all (tcs : List (TransDataContainer α)) : Nat :=
  (tcs.map (fun tc => tc.data.length)).sum

/-- Modelled from the spec: the object types (spec §4.3, mesh, curve, surface, lattice,
metaball, armature), enumerators of `DNA_object_types.h`; the values of `t->obedit_type`
told apart by the edit-mode branch of `createTransData`. -/
inductive ObType where
  | OB_MESH
  | OB_CURVE
  | OB_SURF
  | OB_LATTICE
  | OB_MBALL
  | OB_ARMATURE
deriving DecidableEq, Repr

/-- The end of the edit-mode branch of `createTransData` (`t->obedit_type != -1`), after
the records were created and counted: `if (t->data_len_all) { if (t->flag & T_PROP_EDIT)
{ ... } else { ... } }`.  `prop_edit` and `prop_connected` are the tests of `T_PROP_EDIT`
and `T_PROP_CONNECTED` on `t->flag`. -/
def createTransData_obedit_sort (sqrtf : α → α)
    (qsort : (TransData α → TransData α → Int) → List (TransData α) → List (TransData α))
    (use_island : Bool) (proj_vec : Option (V3 α)) (obedit_type : ObType)
    (prop_edit prop_connected : Bool) (tcs : List (TransDataContainer α)) :
    Option (List (TransDataContainer α)) :=
  if data_len_all tcs != 0 then
    if prop_edit then
      if obedit_type = ObType.OB_CURVE ∨ obedit_type = ObType.OB_MESH then
        let t1 := sort_trans_data_selected_first tcs
        let t2 :=
          if obedit_type = ObType.OB_MESH ∧ prop_connected = true then some t1
          else set_prop_dist sqrtf use_island proj_vec false t1
        t2.map (sort_trans_data_dist qsort prop_connected)
      else
        (set_prop_dist sqrtf use_island proj_vec true
          (sort_trans_data_selected_first tcs)).map (sort_trans_data_dist qsort prop_connected)
    else
      if obedit_type = ObType.OB_CURVE then some (sort_trans_data_selected_first tcs)
      else some tcs
  else some tcs

/-! ## Example data -/

/-- A record with centre and initial location `(x, 0, 0)`, identity matrices and both
distances zero. -/
def rec_at (α : Type) [LinearOrderedField α] (flag : Nat) (x : α) : TransData α :=
  ⟨flag, ⟨x, 0, 0⟩, ⟨x, 0, 0⟩, unit_m3, unit_m3, 0, 0⟩

/-- Modelled from the spec: `unit_m4` of the math library, the identity as a
`float[4][4]` matrix. -/
def unit_m4 (α : Type) [LinearOrderedField α] : M4 α :=
  ⟨⟨1, 0, 0⟩, ⟨0, 1, 0⟩, ⟨0, 0, 1⟩, ⟨0, 0, 0⟩⟩

/-- Five mesh records: two selected at `(0,0,0)` and `(1,0,0)`, three unselected at
`(2,0,0)`, `(3,0,0)` and `(10,0,0)`. -/
def mesh5 (α : Type) [LinearOrderedField α] : List (TransData α) :=
  [rec_at α TD_SELECTED 0, rec_at α TD_SELECTED 1, rec_at α 0 2, rec_at α 0 3, rec_at α 0 10]

end Field

/-- The `rdist` the example `mesh5` ends with: `0` for a selected record, else the
distance of the `x` coordinate of the centre to the nearer of `0` and `1`. -/
def mesh5_rdist [LinearOrderedField α] (td : TransData α) : α :=
  if td.selected then 0 else min |1 - td.center.x| |0 - td.center.x|

/-- A session with one container holding `data`, with `use_local_mat` off. -/
def session_of [LinearOrderedField α] (data : List (TransData α)) :
    List (TransDataContainer α) :=
  [⟨data, false, unit_m4 α⟩]

/-! ## `calc_distanceCurveVerts` -/

section Field

variable [LinearOrderedField α]

/-- Modelled from the spec: `mul_m3_v3(M, r)` of the math library, `r = M * r`. -/
def mul_m3_v3 (M : M3 α) (r : V3 α) : V3 α :=
  mul_v3_m3v3 M r

/-- The statement `td->flag &= ~TD_NOTCONNECTED` on the flag word: the bit is removed,
the other bits are kept. -/
def clear_notconnected (flag : Nat) : Nat :=
  flag ^^^ (flag &&& TD_NOTCONNECTED)

/-- The distance both loops of `calc_distanceCurveVerts` compute for a record:
`sub_v3_v3v3(vec, td_near->center, td->center); mul_m3_v3(head->mtx, vec);
dist = len_v3(vec);`. -/
def curve_dist (sqrtf : α → α) (mtx : M3 α) (near_center center : V3 α) : α :=
  len_v3 sqrtf (mul_m3_v3 mtx (sub_v3_v3v3 near_center center))

/-- First loop of `calc_distanceCurveVerts`, `for (td = head; td <= tail; td++)`, on the
records from `td` to `tail`.  `td_near` is the centre of the record `td_near` points to
(`none` for `NULL`; the loop does not change centres), `prev` is `(td - 1)->dist`, `none`
when `td` is `head` and `td - 1` lies outside the range.  The result is `none` when the
loop reads `(td - 1)->dist` at `td == head`. -/
def calc_distance_forward (sqrtf : α → α) (FLT_MAX : α) (mtx : M3 α) :
    Option (V3 α) → Option α → List (TransData α) → Option (List (TransData α))
  | _, _, [] => some []
  | td_near, prev, td :: rest =>
    if td.selected then
      let td1 := { td with dist := 0 }
      (calc_distance_forward sqrtf FLT_MAX mtx (some td.center) (some td1.dist) rest).map
        (fun r => td1 :: r)
    else
      match td_near with
      | some c =>
        let dist := curve_dist sqrtf mtx c td.center
        match prev with
        | none => none
        | some p =>
          let td1 := { td with dist := if dist < p then p else dist }
          (calc_distance_forward sqrtf FLT_MAX mtx td_near (some td1.dist) rest).map
            (fun r => td1 :: r)
      | none =>
        let td1 := { td with dist := FLT_MAX, flag := td.flag ||| TD_NOTCONNECTED }
        (calc_distance_forward sqrtf FLT_MAX mtx none (some td1.dist) rest).map
          (fun r => td1 :: r)

/-- Second loop of `calc_distanceCurveVerts`, `for (td = tail; td >= head; td--)`, on the
records from `td` down to `head`, given in that order (the first element is `td`).
`td_near` is as in the first loop, `next` is `(td + 1)->dist`, `none` when `td` is `tail`.
The result, in the same order, is `none` when the loop reads `(td + 1)->dist` at
`td == tail`. -/
def calc_distance_backward (sqrtf : α → α) (mtx : M3 α) :
    Option (V3 α) → Option α → List (TransData α) → Option (List (TransData α))
  | _, _, [] => some []
  | td_near, next, td :: rest =>
    if td.selected then
      let td1 := { td with dist := 0 }
      (calc_distance_backward sqrtf mtx (some td.center) (some td1.dist) rest).map
        (fun r => td1 :: r)
    else
      match td_near with
      | some c =>
        let dist := curve_dist sqrtf mtx c td.center
        match next with
        | none => none
        | some nx =>
          let td1 :=
            if td.notconnected ∨ dist < td.dist ∨ nx < td.dist then
              { td with flag := clear_notconnected td.flag,
                        dist := if dist < nx then nx else dist }
            else td
          (calc_distance_backward sqrtf mtx td_near (some td1.dist) rest).map
            (fun r => td1 :: r)
      | none =>
        (calc_distance_backward sqrtf mtx none (some td.dist) rest).map (fun r => td :: r)

/-- The function `calc_distanceCurveVerts(head, tail)` on the records `head .. tail`
(both included); the empty list stands for a range with `head > tail`, on which neither
loop runs.  `FLT_MAX` is the constant of `<float.h>`.  The result is `none` when a record
outside `head .. tail` is read. -/
def calc_distanceCurveVerts (sqrtf : α → α) (FLT_MAX : α) (data : List (TransData α)) :
    Option (List (TransData α)) :=
  match data with
  | [] => some []
  | head :: _ =>
    match calc_distance_forward sqrtf FLT_MAX head.mtx none none data with
    | none => none
    | some d1 =>
      match calc_distance_backward sqrtf head.mtx none none d1.reverse with
      | none => none
      | some d2 => some d2.reverse

end Field

/-- The records of `l` with `dist` set to `k`, `k + 1`, ... in order. -/
def with_index_dist [LinearOrderedField α] (k : Nat) : List (TransData α) → List (TransData α)
  | [] => []
  | td :: rest => { td with dist := (k : α) } :: with_index_dist (k + 1) rest

/-! ## Specification-side estimates for `calc_distanceCurveVerts` -/

section Field

variable [LinearOrderedField α]

/-- The value stored for an estimate: `FLT_MAX` for an infinite one. -/
def est_value (FLT_MAX : α) : WithTop α → α
  | none => FLT_MAX
  | some x => x

/-- The running estimates along a sequence of records, in the words of the claim: `0` at
a selected record; at an unselected record the maximum of the straight-line distance to
the nearest selected record before it (`near` is its centre) and of the previous record's
estimate `prev`; infinite when no selected record lies before it. -/
def running_estimates (sqrtf : α → α) (mtx : M3 α) :
    Option (V3 α) → WithTop α → List (TransData α) → List (WithTop α)
  | _, _, [] => []
  | near, prev, td :: rest =>
    if td.selected then
      (0 : WithTop α) :: running_estimates sqrtf mtx (some td.center) 0 rest
    else
      match near with
      | some c =>
        (max ((curve_dist sqrtf mtx c td.center : α) : WithTop α) prev) ::
          running_estimates sqrtf mtx near
            (max ((curve_dist sqrtf mtx c td.center : α) : WithTop α) prev) rest
      | none => (⊤ : WithTop α) :: running_estimates sqrtf mtx none ⊤ rest

/-- The forward estimates of the records `head .. tail`, measured with `head->mtx`. -/
def forward_estimates (sqrtf : α → α) (data : List (TransData α)) : List (WithTop α) :=
  match data with
  | [] => []
  | head :: _ => running_estimates sqrtf head.mtx none ⊤ data

/-- The backward estimates: the same running estimates taken from `tail` down to
`head`. -/
def backward_estimates (sqrtf : α → α) (data : List (TransData α)) : List (WithTop α) :=
  match data with
  | [] => []
  | head :: _ => (running_estimates sqrtf head.mtx none ⊤ data.reverse).reverse

/-- Four records on a line: selected at `0`, unselected at `2` and `10`, selected at
`3`. -/
def curve4 (α : Type) [LinearOrderedField α] : List (TransData α) :=
  [rec_at α TD_SELECTED 0, rec_at α 0 2, rec_at α 0 10, rec_at α TD_SELECTED 3]

/-- Three records on a line, one unit apart, the first one selected. -/
def curve3 (α : Type) [LinearOrderedField α] : List (TransData α) :=
  [rec_at α TD_SELECTED 0, rec_at α 0 1, rec_at α 0 2]

/-- What `calc_distanceCurveVerts` guarantees for the final `dist` value `g` of an
unselected record with forward estimate `f` and backward estimate `b`: when one of the
estimates is infinite (selected records on at most one side), `g` is the value of
`min f b`; when both are finite (the record lies between selected records), `g` lies
between `min f b` and `b`. -/
def EstimateBounds (FLT_MAX : α) (f b : WithTop α) (g : α) : Prop :=
  ((f = ⊤ ∨ b = ⊤) → g = est_value FLT_MAX (min f b)) ∧
  (f ≠ ⊤ → b ≠ ⊤ → min f b ≤ (g : WithTop α) ∧ (g : WithTop α) ≤ b)

/-- State of a record after the first loop, paired with its forward estimate: an
unselected record holds the value of the estimate and is flagged `TD_NOTCONNECTED` when
the estimate is infinite; the estimate of a selected record is `0`. -/
def AfterForward (FLT_MAX : α) (p : TransData α × WithTop α) : Prop :=
  (p.1.selected = false →
    p.1.dist = est_value FLT_MAX p.2 ∧ (p.2 = ⊤ → p.1.notconnected = true)) ∧
  (p.1.selected = true → p.2 = 0)

/-- Relation between the forward estimates of two neighbouring unselected records, `a`
the one with the larger index: the estimates do not decrease with the index, and an
infinite estimate is followed by an infinite one. -/
def EstimateStep (a b : TransData α × WithTop α) : Prop :=
  a.1.selected = false → b.1.selected = false →
    (a.2 ≠ ⊤ → b.2 ≤ a.2) ∧ (b.2 = ⊤ → a.2 = ⊤)

end Field

/-! ## Grease-pencil strokes: `createTransGPencil` and its branch of `createTransData` -/

section Field

variable [LinearOrderedField α]

/-- Modelled from the spec: a stroke point `bGPDspoint` (spec §1, grease-pencil stroke
points), declared in `DNA_gpencil_types.h`: its coordinates `&pt->x` and the test
`pt->flag & GP_SPOINT_SELECT`. -/
structure bGPDspoint (α : Type) where
  co : V3 α
  select : Bool

/-- Modelled from the spec: a stroke `bGPDstroke` (spec §4.3, grease-pencil strokes),
declared in `DNA_gpencil_types.h`: its points (`totpoints` is their number), the test
`gps->flag & GP_STROKE_SELECT`, and the results of `ED_gpencil_stroke_can_use` and
`ED_gpencil_stroke_color_use` for it. -/
structure bGPDstroke (α : Type) where
  points : List (bGPDspoint α)
  select : Bool
  can_use : Bool
  color_use : Bool

/-- Modelled from the spec: a layer `bGPDlayer` (declared in `DNA_gpencil_types.h`) as
`createTransGPencil` reads it without multi-frame editing: the result of
`gpencil_layer_is_editable`, the strokes of the frame worked on (`none` for
`gpl->actframe == NULL`), and the 3x3 part of the matrix `diff_mat` that
`ED_gpencil_parent_location` computes for the layer. -/
structure bGPDlayer (α : Type) where
  editable : Bool
  actframe : Option (List (bGPDstroke α))
  diff_mat : M3 α

/-- Modelled from the spec: `add_v3_v3(r, a)` of the math library, `r += a`. -/
def add_v3_v3 (r a : V3 α) : V3 α :=
  ⟨r.x + a.x, r.y + a.y, r.z + a.z⟩

/-- Modelled from the spec: `mul_v3_fl(r, f)` of the math library, `r *= f`. -/
def mul_v3_fl (r : V3 α) (f : α) : V3 α :=
  ⟨r.x * f, r.y * f, r.z * f⟩

/-- The function `createTransGPencil_center_get`: the mean of the selected points of the
stroke, the zero vector when none is selected. -/
def createTransGPencil_center_get (gps : bGPDstroke α) : V3 α :=
  let sel := gps.points.filter (fun pt => pt.select)
  let r_center := sel.foldl (fun r pt => add_v3_v3 r pt.co) ⟨0, 0, 0⟩
  if sel.length > 0 then mul_v3_fl r_center (1 / (sel.length : α)) else r_center

/-- The record `createTransGPencil` fills for one point; the array comes from
`MEM_callocN`, so the fields it does not write are zero.  `local_origins` is the test
`ts->transform_pivot_point == V3D_AROUND_LOCAL_ORIGINS`. -/
def gp_point_to_transdata (local_origins : Bool) (diff_mat : M3 α) (gps : bGPDstroke α)
    (center : V3 α) (pt : bGPDspoint α) : TransData α :=
  { flag := if pt.select then 0 ||| TD_SELECTED else 0
    center := if gps.select && local_origins then center else pt.co
    iloc := pt.co
    mtx := diff_mat
    axismtx := diff_mat
    dist := 0
    rdist := 0 }

/-- The body of the stroke loop in the second pass of `createTransGPencil`: the records
added for one stroke, after `calc_distanceCurveVerts(head, tail - 1)` when proportional
editing is on. -/
def createTransGPencil_stroke (sqrtf : α → α) (FLT_MAX : α)
    (is_prop_edit is_prop_edit_connected local_origins : Bool) (diff_mat : M3 α)
    (gps : bGPDstroke α) : Option (List (TransData α)) :=
  if gps.can_use = false then some []
  else if gps.color_use = false then some []
  else
    let stroke_ok :=
      if is_prop_edit then (if is_prop_edit_connected then gps.select else true)
      else gps.select
    if stroke_ok ∧ gps.points.length ≠ 0 then
      let center := createTransGPencil_center_get gps
      let tds := (gps.points.filter (fun pt => if is_prop_edit then true else pt.select)).map
        (gp_point_to_transdata local_origins diff_mat gps center)
      if is_prop_edit ∧ tds ≠ [] then calc_distanceCurveVerts sqrtf FLT_MAX tds
      else some tds
    else some []

/-- The records of a list of strokes, one stroke after the other. -/
def createTransGPencil_strokes (sqrtf : α → α) (FLT_MAX : α)
    (is_prop_edit is_prop_edit_connected local_origins : Bool) (diff_mat : M3 α) :
    List (bGPDstroke α) → Option (List (TransData α))
  | [] => some []
  | gps :: rest =>
    match createTransGPencil_stroke sqrtf FLT_MAX is_prop_edit is_prop_edit_connected
        local_origins diff_mat gps with
    | none => none
    | some tds =>
      match createTransGPencil_strokes sqrtf FLT_MAX is_prop_edit is_prop_edit_connected
          local_origins diff_mat rest with
      | none => none
      | some more => some (tds ++ more)

/-- The function `createTransGPencil` without multi-frame editing: the record array
`tc->data` of the single container, built layer by layer from the strokes of the frame
worked on. -/
def createTransGPencil (sqrtf : α → α) (FLT_MAX : α)
    (is_prop_edit is_prop_edit_connected local_origins : Bool) :
    List (bGPDlayer α) → Option (List (TransData α))
  | [] => some []
  | gpl :: rest =>
    let here :=
      match gpl.editable, gpl.actframe with
      | true, some strokes =>
        createTransGPencil_strokes sqrtf FLT_MAX is_prop_edit is_prop_edit_connected
          local_origins gpl.diff_mat strokes
      | _, _ => some []
    match here with
    | none => none
    | some tds =>
      match createTransGPencil sqrtf FLT_MAX is_prop_edit is_prop_edit_connected
          local_origins rest with
      | none => none
      | some more => some (tds ++ more)

/-- The branch `t->options & CTX_GPENCIL_STROKES` of `createTransData`:
`createTransGPencil`, then `countAndCleanTransDataContainer` (the single container is
dropped when it is empty), then, with records and `T_PROP_EDIT`,
`sort_trans_data_selected_first`, `set_prop_dist(t, 1)` and `sort_trans_data_dist`.
`use_local_mat` and `mat` are the container fields set up by
`initTransDataContainers_FromObjectData`. -/
def createTransData_gpencil (sqrtf : α → α) (FLT_MAX : α)
    (qsort : (TransData α → TransData α → Int) → List (TransData α) → List (TransData α))
    (use_island : Bool) (proj_vec : Option (V3 α))
    (prop_edit prop_connected local_origins : Bool) (use_local_mat : Bool) (mat : M4 α)
    (layers : List (bGPDlayer α)) : Option (List (TransDataContainer α)) :=
  match createTransGPencil sqrtf FLT_MAX prop_edit prop_connected local_origins layers with
  | none => none
  | some data =>
    let tcs : List (TransDataContainer α) :=
      if data.length = 0 then [] else [⟨data, use_local_mat, mat⟩]
    if data_len_all tcs ≠ 0 ∧ prop_edit = true then
      (set_prop_dist sqrtf use_island proj_vec true
        (sort_trans_data_selected_first tcs)).map (sort_trans_data_dist qsort prop_connected)
    else some tcs

/-- One editable layer with the identity as `diff_mat` and one selected, usable stroke
of three points: `(0,0,0)` selected, `(10,0,0)` and `(1,0,0)` unselected. -/
def gp_example (α : Type) [LinearOrderedField α] : List (bGPDlayer α) :=
  [⟨true, some [⟨[⟨⟨0, 0, 0⟩, true⟩, ⟨⟨10, 0, 0⟩, false⟩, ⟨⟨1, 0, 0⟩, false⟩],
      true, true, true⟩], unit_m3⟩]

end Field

/-! ## F-curve keyframes: `posttrans_fcurve_clean` -/

/-- Modelled from the spec: the selection bit `SELECT` of the flag bytes of a point (spec
§4.3, partial selection), defined in `DNA_*` headers outside the translated file.  It is
taken as bit 0. -/
def SELECT : Nat := 1

/-- Modelled from the spec: the F-curve flag `FCURVE_INT_VALUES` (values are integers),
declared in `DNA_anim_types.h`, outside the translated file.  It is taken as bit 11. -/
def FCURVE_INT_VALUES : Nat := 2048

/-- Modelled from the spec: the F-curve flag `FCURVE_DISCRETE_VALUES` (values are not
interpolated), declared in `DNA_anim_types.h`, outside the translated file.  It is taken
as bit 12. -/
def FCURVE_DISCRETE_VALUES : Nat := 4096

/-- Modelled from the spec: a Bezier triple `BezTriple` (spec §4.3, keyframes and Bezier
handles), declared in `DNA_curve_types.h`, outside the translated file: the three points
`vec[0]`, `vec[1]`, `vec[2]` (left handle, knot, right handle), the handle types `h1`,
`h2` and the selection flag bytes `f1`, `f2`, `f3`.  For a keyframe `vec[1][0]` is the
frame and `vec[1][1]` the value. -/
structure BezTriple (α : Type) where
  vec0 : V3 α
  vec1 : V3 α
  vec2 : V3 α
  h1 : Nat
  h2 : Nat
  f1 : Nat
  f2 : Nat
  f3 : Nat
deriving DecidableEq, Repr

/-- Modelled from the spec: an animation curve `FCurve` (spec §4.3, animation keyframes),
declared in `DNA_anim_types.h`, outside the translated file: its `flag` and its keys
`bezt`; `totvert` is the number of keys, and a curve without keys (`totvert == 0` or
`bezt == NULL`) has the empty list. -/
structure FCurve (α : Type) where
  flag : Nat
  bezt : List (BezTriple α)
deriving DecidableEq, Repr

/-- The record `tRetainedKeyframe`: the frame to cluster around, the value (sum, then
average), the number of keys averaged and the number of keys deleted so far. -/
structure tRetainedKeyframe (α : Type) where
  frame : α
  val : α
  tot_count : Nat
  del_count : Nat
deriving DecidableEq, Repr

/-- Modelled from the spec: the macro `BEZT_ISSEL_ANY(bezt)` of `DNA_curve_types.h`: the
knot or one of the handles is selected. -/
def BEZT_ISSEL_ANY (bezt : BezTriple α) : Bool :=
  (bezt.f2 &&& SELECT != 0) || (bezt.f1 &&& SELECT != 0) || (bezt.f3 &&& SELECT != 0)

/-- The key data of a keyframe: frame, value and the three selection flags. -/
def key_data (bezt : BezTriple α) : α × α × Nat × Nat × Nat :=
  (bezt.vec1.x, bezt.vec1.y, bezt.f1, bezt.f2, bezt.f3)

section Field

variable [LinearOrderedField α]

/-- Modelled from the spec: the macro `IS_EQT(a, b, c)` of `BLI_utildefines.h`,
`((a > b) ? ((a - b) <= c) : ((b - a) <= c))`: `a` and `b` differ by at most `c`. -/
def IS_EQT (a b c : α) : Bool :=
  if a > b then a - b ≤ c else b - a ≤ c

/-- The search `for (rk = retained_keys.last; rk; rk = rk->prev)` of the first loop of
`posttrans_fcurve_clean` for the selected key `bezt`.  The list of retained keys is given
from `retained_keys.last` to `retained_keys.first`, the order of the search.  The result is
the list with `bezt` merged into a retained key (`found`), or `none` when no retained key
was found before the search ended or stopped at a retained key before the frame. -/
def retained_merge (thresh : α) (bezt : BezTriple α) :
    List (tRetainedKeyframe α) → Option (List (tRetainedKeyframe α))
  | [] => none
  | rk :: prev =>
    if IS_EQT rk.frame bezt.vec1.x thresh then
      some ({ rk with val := rk.val + bezt.vec1.y, tot_count := rk.tot_count + 1 } :: prev)
    else if rk.frame < bezt.vec1.x then none
    else (retained_merge thresh bezt prev).map (fun r => rk :: r)

/-- First loop of `posttrans_fcurve_clean`, `for (i = 0; i < fcu->totvert; i++)`, on the
keys from `i` on: a selected key is merged into a retained key or gets a new one, added
with `BLI_addtail`.  The retained keys are listed from last to first. -/
def retained_collect (thresh : α) :
    List (BezTriple α) → List (tRetainedKeyframe α) → List (tRetainedKeyframe α)
  | [], retained_keys => retained_keys
  | bezt :: rest, retained_keys =>
    if BEZT_ISSEL_ANY bezt then
      match retained_merge thresh bezt retained_keys with
      | some merged => retained_collect thresh rest merged
      | none =>
        retained_collect thresh rest (⟨bezt.vec1.x, bezt.vec1.y, 1, 0⟩ :: retained_keys)
    else retained_collect thresh rest retained_keys

/-- The loop `rk->val = rk->val / (float)rk->tot_count` over the retained keys. -/
def retained_average (retained_keys : List (tRetainedKeyframe α)) :
    List (tRetainedKeyframe α) :=
  retained_keys.map (fun rk => { rk with val := rk.val / (rk.tot_count : α) })

/-- The search of the second loop of `posttrans_fcurve_clean` for the key `bezt`, over the
retained keys from last to first.  At the first retained key within the threshold of the
frame of `bezt`: a selected key is updated (`some`) when `del_count == tot_count - 1` and
deleted (`none`) otherwise, and `del_count` is incremented; an unselected key is deleted.
A key matching no retained key is kept.  The type `size_t` of the counters is `Nat`;
`tot_count` is at least 1. -/
def clean_key (thresh : α) (can_average_points : Bool) (bezt : BezTriple α) :
    List (tRetainedKeyframe α) → Option (BezTriple α) × List (tRetainedKeyframe α)
  | [] => (some bezt, [])
  | rk :: prev =>
    if IS_EQT bezt.vec1.x rk.frame thresh then
      if BEZT_ISSEL_ANY bezt then
        let kept : Option (BezTriple α) :=
          if rk.del_count = rk.tot_count - 1 then
            some (if can_average_points then { bezt with vec1 := { bezt.vec1 with y := rk.val } }
              else bezt)
          else none
        (kept, { rk with del_count := rk.del_count + 1 } :: prev)
      else (none, rk :: prev)
    else
      let r := clean_key thresh can_average_points bezt prev
      (r.1, rk :: r.2)

/-- Second loop of `posttrans_fcurve_clean`, `for (i = fcu->totvert - 1; i >= 0; i--)`, on
the keys from index `i` down to `0`: the keys after `bezt` are handled first, then `bezt`.
Deleting key `i` with `delete_fcurve_key(fcu, i, 0)` moves the keys after it down by one
and leaves the keys before it in place, so the result is the list of the keys kept. -/
def clean_keys (thresh : α) (can_average_points : Bool) :
    List (BezTriple α) → List (tRetainedKeyframe α) →
      List (BezTriple α) × List (tRetainedKeyframe α)
  | [], retained_keys => ([], retained_keys)
  | bezt :: rest, retained_keys =>
    let r := clean_keys thresh can_average_points rest retained_keys
    let k := clean_key thresh can_average_points bezt r.2
    match k.1 with
    | some b => (b :: r.1, k.2)
    | none => (r.1, k.2)

/-- The function `posttrans_fcurve_clean(fcu, use_handle)`.  `testhandles_fcurve`
(recalculation of the handles, defined in `fcurve.c`) and the constant
`BEZT_BINARYSEARCH_THRESH` are defined outside the translated file and are parameters. -/
def posttrans_fcurve_clean
    (testhandles_fcurve : List (BezTriple α) → Bool → List (BezTriple α))
    (BEZT_BINARYSEARCH_THRESH : α) (fcu : FCurve α) (use_handle : Bool) : FCurve α :=
  let can_average_points : Bool :=
    fcu.flag &&& (FCURVE_INT_VALUES ||| FCURVE_DISCRETE_VALUES) == 0
  if fcu.bezt.length = 0 then fcu
  else
    let retained_keys := retained_collect BEZT_BINARYSEARCH_THRESH fcu.bezt []
    if retained_keys.isEmpty then fcu
    else
      let averaged := retained_average retained_keys
      let kept := (clean_keys BEZT_BINARYSEARCH_THRESH can_average_points fcu.bezt averaged).1
      { fcu with bezt := testhandles_fcurve kept use_handle }

/-- The contract of `testhandles_fcurve` used here: it recalculates handle types and
handle positions and leaves the key data (number of keys, frames, values, selection)
as it is. -/
def KeepsKeyData (testhandles_fcurve : List (BezTriple α) → Bool → List (BezTriple α)) :
    Prop :=
  ∀ l u, (testhandles_fcurve l u).map key_data = l.map key_data

/-- The frame `x` is farther than the threshold from the frame of every selected key of
`l`. -/
def far_from_selected (thresh : α) (l : List (BezTriple α)) (x : α) : Bool :=
  l.all (fun s => !BEZT_ISSEL_ANY s || decide (thresh < |x - s.vec1.x|))

/-- The retained keys `rks` hold the retained key `(f, v, n, d)` and every other one of
them lies farther than the threshold from `f`. -/
def RetainedAt (thresh f v : α) (n d : Nat) (rks : List (tRetainedKeyframe α)) : Prop :=
  ∃ X Y, rks = X ++ ⟨f, v, n, d⟩ :: Y ∧
    (∀ x ∈ X.map (fun rk => rk.frame), IS_EQT f x thresh = false) ∧
    (∀ x ∈ Y.map (fun rk => rk.frame), IS_EQT f x thresh = false)

/-- A keyframe at `frame` with value `value`, all three selection flags `sel`, and its
handles at the knot. -/
def key_at (α : Type) [LinearOrderedField α] (frame value : α) (sel : Nat) : BezTriple α :=
  ⟨⟨frame, value, 0⟩, ⟨frame, value, 0⟩, ⟨frame, value, 0⟩, 0, 0, sel, sel, sel⟩

/-- Seven selected keys at the frames 0, 0.008, 0.012, 0.016, 0.024, 0.028 and 0.036, with
the values 1, 2, 5, 10, 17, 26 and 37: neighbours are 0.004 or 0.008 apart, less than the
threshold 0.01, and keys two apart are 0.012 apart, more than the threshold. -/
def chain7 (α : Type) [LinearOrderedField α] : List (BezTriple α) :=
  [key_at α 0 1 SELECT, key_at α (8 / 1000) 2 SELECT, key_at α (12 / 1000) 5 SELECT,
    key_at α (16 / 1000) 10 SELECT, key_at α (24 / 1000) 17 SELECT,
    key_at α (28 / 1000) 26 SELECT, key_at α (36 / 1000) 37 SELECT]

end Field

/-! ## Sequencer strips: `flushTransSeq` -/

section Seq

variable {σ : Type}

end Seq

/-- Writes through a pointer into an allocated array: the functions `fs` are applied, one
after the other, to the elements at `pos`, `pos + 1`, ...; `none` is a write outside the
array. -/
def apply_at {R : Type} (arr : List R) (pos : Nat) : List (R → R) → Option (List R)
  | [] => some arr
  | f :: fs =>
    match arr[pos]? with
    | some r => apply_at (arr.set pos (f r)) (pos + 1) fs
    | none => none

/-- The statement `flag &= ~mask` on a flag word. -/
def clear_bits (flag mask : Nat) : Nat :=
  flag ^^^ (flag &&& mask)

/-! ## Motion tracking: `createTransTrackingData`, `cancelTransTracking` -/

/-- Modelled from the spec: the marker flag `MARKER_DISABLED`, declared in
`DNA_tracking_types.h`, outside the translated file.  It is taken as bit 0. -/
def MARKER_DISABLED : Nat := 1

/-- Modelled from the spec: the marker flag `MARKER_TRACKED`, declared in
`DNA_tracking_types.h`, outside the translated file.  It is taken as bit 1. -/
def MARKER_TRACKED : Nat := 2

/-- Modelled from the spec: the marker flag `MARKER_GRAPH_SEL_X` (selected on the X channel
of the graph), declared in `DNA_tracking_types.h`, outside the translated file.  It is
taken as bit 2. -/
def MARKER_GRAPH_SEL_X : Nat := 4

/-- Modelled from the spec: the marker flag `MARKER_GRAPH_SEL_Y` (selected on the Y channel
of the graph), declared in `DNA_tracking_types.h`, outside the translated file.  It is
taken as bit 3. -/
def MARKER_GRAPH_SEL_Y : Nat := 8

/-- Modelled from the spec: the plane marker flag `PLANE_MARKER_TRACKED`, declared in
`DNA_tracking_types.h`, outside the translated file.  It is taken as bit 1. -/
def PLANE_MARKER_TRACKED : Nat := 2

/-- Modelled from the spec: the track flag `TRACK_LOCKED`, declared in
`DNA_tracking_types.h`, outside the translated file.  It is taken as bit 6. -/
def TRACK_LOCKED : Nat := 64

/-- Modelled from the spec: the area `TRACK_AREA_POINT` of a track (spec §4.3, the
selected areas of a marker), defined in `BKE_tracking.h`, outside the translated file. -/
def TRACK_AREA_POINT : Nat := 1

/-- Modelled from the spec: the area `TRACK_AREA_PAT` of a track, defined in
`BKE_tracking.h`, outside the translated file. -/
def TRACK_AREA_PAT : Nat := 2

/-- Modelled from the spec: the area `TRACK_AREA_SEARCH` of a track, defined in
`BKE_tracking.h`, outside the translated file. -/
def TRACK_AREA_SEARCH : Nat := 4

/-- The enumerator `transDataTracking_ModeTracks`. -/
def transDataTracking_ModeTracks : Nat := 0

/-- The enumerator `transDataTracking_ModeCurves`. -/
def transDataTracking_ModeCurves : Nat := 1

/-- The enumerator `transDataTracking_ModePlaneTracks`. -/
def transDataTracking_ModePlaneTracks : Nat := 2

/-- Modelled from the spec: a marker `MovieTrackingMarker` (spec §4.3, motion-tracking
marker), declared in `DNA_tracking_types.h`, outside the translated file: its frame and
its flag. -/
structure MovieTrackingMarker where
  framenr : Int
  flag : Nat
deriving DecidableEq, Repr

/-- Modelled from the spec: a track `MovieTrackingTrack`, declared in
`DNA_tracking_types.h`, outside the translated file: the flags of its three areas (point,
pattern, search) and its markers; `markersnr` is their number. -/
structure MovieTrackingTrack where
  flag : Nat
  pat_flag : Nat
  search_flag : Nat
  markers : List MovieTrackingMarker
deriving DecidableEq, Repr

/-- Modelled from the spec: a plane marker `MovieTrackingPlaneMarker`, declared in
`DNA_tracking_types.h`, outside the translated file: its frame and its flag. -/
structure MovieTrackingPlaneMarker where
  framenr : Int
  flag : Nat
deriving DecidableEq, Repr

/-- Modelled from the spec: a plane track `MovieTrackingPlaneTrack`, declared in
`DNA_tracking_types.h`, outside the translated file: its flag and its markers. -/
structure MovieTrackingPlaneTrack where
  flag : Nat
  markers : List MovieTrackingPlaneMarker
deriving DecidableEq, Repr

/-- Modelled from the spec: the active clip `MovieClip` (spec §7, active clip, zero-sized
movie clip), declared in `DNA_movieclip_types.h`, outside the translated file: the size
`BKE_movieclip_get_size` reports, the tracks `BKE_tracking_get_active_tracks` lists and
the plane tracks `BKE_tracking_get_active_plane_tracks` lists. -/
structure MovieClip where
  width : Int
  height : Int
  tracks : List MovieTrackingTrack
  plane_tracks : List MovieTrackingPlaneTrack
deriving DecidableEq, Repr

/-- Modelled from the spec: what the tracking adapter takes from the clip editor, all
defined outside the translated file: the macros `TRACK_VIEW_SELECTED(sc, track)` and
`PLANE_TRACK_VIEW_SELECTED(plane_track)`; `marker_get`, the position in `track->markers`
of the marker `BKE_tracking_marker_get(track, framenr)` returns, a function of the frames
of the markers (the same for plane markers; `BKE_tracking_marker_ensure` is taken to
return that marker too, a marker it had to insert being in the array already); the frame
`ED_space_clip_get_clip_frame_number(sc)`; and the test
`sc->flag & SC_SHOW_GRAPH_TRACKS_MOTION`. -/
structure TrackingEnv where
  TRACK_VIEW_SELECTED : MovieTrackingTrack → Bool
  PLANE_TRACK_VIEW_SELECTED : MovieTrackingPlaneTrack → Bool
  marker_get : List Int → Int → Nat
  framenr : Int
  show_graph_tracks_motion : Bool

/-- The position of the marker `BKE_tracking_marker_get(track, framenr)` in
`track->markers`, for the current frame. -/
def marker_index (env : TrackingEnv) (track : MovieTrackingTrack) : Nat :=
  env.marker_get (track.markers.map (fun mk => mk.framenr)) env.framenr

/-- The position of the plane marker `BKE_tracking_plane_marker_get(plane_track, framenr)`
in `plane_track->markers`, for the current frame. -/
def plane_marker_index (env : TrackingEnv) (plane_track : MovieTrackingPlaneTrack) : Nat :=
  env.marker_get (plane_track.markers.map (fun mk => mk.framenr)) env.framenr

/-- The record `TransDataTracking` of the side table, with the fields the creation and the
cancelling of a transform use: `mode`, `flag` (the saved marker flag), `area`, `coord`,
and the pointers `track` and `plane_track`, here positions in the lists of the clip
(`none` for `NULL`). -/
structure TransDataTracking where
  mode : Nat
  flag : Nat
  area : Nat
  coord : Nat
  track : Option Nat
  plane_track : Option Nat
deriving DecidableEq, Repr

/-- A record as `MEM_callocN` leaves it: all fields zero. -/
def TransDataTracking.zero : TransDataTracking :=
  ⟨0, 0, 0, 0, none, none⟩

/-- The container after the tracking adapter ran: `data_len` and the arrays `tc->data`,
`tc->data_2d` and `tc->custom.type.data`, which are allocated together with `data_len`
elements each; `tdt` is the side table, `none` when the three arrays were not allocated. -/
structure TrackingContainer where
  data_len : Nat
  tdt : Option (List TransDataTracking)
deriving DecidableEq, Repr

/-- The effect of `markerToTransDataInit` on the record `tdt`: mode, area and track. -/
def markerToTransDataInit (track : Nat) (area : Nat) (tdt : TransDataTracking) :
    TransDataTracking :=
  { tdt with mode := transDataTracking_ModeTracks, area := area, track := some track }

/-- The number of records `createTransTrackingTracksData` counts for a track, which is
also the number its second loop moves the pointers by: one for the offset, one when the
point is selected, four for the pattern, two for the search area. -/
def track_record_count (track : MovieTrackingTrack) : Nat :=
  1 + (if track.flag &&& SELECT ≠ 0 then 1 else 0) +
    (if track.pat_flag &&& SELECT ≠ 0 then 4 else 0) +
    (if track.search_flag &&& SELECT ≠ 0 then 2 else 0)

/-- The test `TRACK_VIEW_SELECTED(sc, track) && (track->flag & TRACK_LOCKED) == 0`. -/
def track_editable (env : TrackingEnv) (track : MovieTrackingTrack) : Bool :=
  env.TRACK_VIEW_SELECTED track && (track.flag &&& TRACK_LOCKED == 0)

/-- The records `trackToTransData` writes for the track at position `k`, as changes of
the records at the pointer and after it: `tdt->flag = marker->flag` on the first one and
one call of `markerToTransDataInit` for the offset, one when the point is selected, four
for the pattern corners and two for the search area. -/
def trackToTransData_writes (k : Nat) (track : MovieTrackingTrack) (marker_flag : Nat) :
    List (TransDataTracking → TransDataTracking) :=
  [fun tdt => markerToTransDataInit k TRACK_AREA_POINT { tdt with flag := marker_flag }] ++
    (if track.flag &&& SELECT ≠ 0 then [markerToTransDataInit k TRACK_AREA_POINT] else []) ++
    (if track.pat_flag &&& SELECT ≠ 0 then
      List.replicate 4 (markerToTransDataInit k TRACK_AREA_PAT) else []) ++
    (if track.search_flag &&& SELECT ≠ 0 then
      List.replicate 2 (markerToTransDataInit k TRACK_AREA_SEARCH) else [])

/-- The function `trackToTransData` for the track at position `k`, writing from `td` on:
the marker flag is saved in the first record and the marker loses `MARKER_DISABLED` and
`MARKER_TRACKED`; then the records are initialised.  The result is `none` when the marker
is missing or a record lies outside the arrays. -/
def trackToTransData (env : TrackingEnv) (k : Nat) (track : MovieTrackingTrack)
    (arr : List TransDataTracking) (td : Nat) :
    Option (MovieTrackingTrack × List TransDataTracking) :=
  let m := marker_index env track
  match track.markers[m]? with
  | none => none
  | some marker =>
    let marker1 : MovieTrackingMarker :=
      { marker with flag := clear_bits marker.flag (MARKER_DISABLED ||| MARKER_TRACKED) }
    let track1 := { track with markers := track.markers.set m marker1 }
    (apply_at arr td (trackToTransData_writes k track marker.flag)).map
      (fun arr1 => (track1, arr1))

/-- The loop "create actual data" of `createTransTrackingTracksData` over the tracks from
position `k` on, with the pointer at `td`. -/
def tracks_to_transdata (env : TrackingEnv) :
    Nat → List MovieTrackingTrack → List TransDataTracking → Nat →
      Option (List MovieTrackingTrack × List TransDataTracking × Nat)
  | _, [], arr, td => some ([], arr, td)
  | k, track :: rest, arr, td =>
    if track_editable env track then
      match trackToTransData env k track arr td with
      | none => none
      | some (track1, arr1) =>
        (tracks_to_transdata env (k + 1) rest arr1 (td + track_record_count track)).map
          (fun r => (track1 :: r.1, r.2))
    else
      (tracks_to_transdata env (k + 1) rest arr td).map (fun r => (track :: r.1, r.2))

/-- The effect of `planeMarkerToTransDataInit` on the record `tdt`. -/
def planeMarkerToTransDataInit (plane_track : Nat) (tdt : TransDataTracking) :
    TransDataTracking :=
  { tdt with mode := transDataTracking_ModePlaneTracks, plane_track := some plane_track }

/-- The records `planeTrackToTransData` writes for the plane track at position `k`:
`tdt->flag = plane_marker->flag` on the first one and a call of
`planeMarkerToTransDataInit` for each of the four corners. -/
def planeTrackToTransData_writes (k : Nat) (marker_flag : Nat) :
    List (TransDataTracking → TransDataTracking) :=
  [fun tdt => planeMarkerToTransDataInit k { tdt with flag := marker_flag }] ++
    List.replicate 3 (planeMarkerToTransDataInit k)

/-- The function `planeTrackToTransData` for the plane track at position `k`. -/
def planeTrackToTransData (env : TrackingEnv) (k : Nat)
    (plane_track : MovieTrackingPlaneTrack) (arr : List TransDataTracking) (td : Nat) :
    Option (MovieTrackingPlaneTrack × List TransDataTracking) :=
  let m := plane_marker_index env plane_track
  match plane_track.markers[m]? with
  | none => none
  | some plane_marker =>
    let plane_marker1 : MovieTrackingPlaneMarker :=
      { plane_marker with flag := clear_bits plane_marker.flag PLANE_MARKER_TRACKED }
    let plane_track1 := { plane_track with markers := plane_track.markers.set m plane_marker1 }
    (apply_at arr td (planeTrackToTransData_writes k plane_marker.flag)).map
      (fun arr1 => (plane_track1, arr1))

/-- The loop over the plane tracks that ends `createTransTrackingTracksData`. -/
def plane_tracks_to_transdata (env : TrackingEnv) :
    Nat → List MovieTrackingPlaneTrack → List TransDataTracking → Nat →
      Option (List MovieTrackingPlaneTrack × List TransDataTracking × Nat)
  | _, [], arr, td => some ([], arr, td)
  | k, plane_track :: rest, arr, td =>
    if env.PLANE_TRACK_VIEW_SELECTED plane_track then
      match planeTrackToTransData env k plane_track arr td with
      | none => none
      | some (plane_track1, arr1) =>
        (plane_tracks_to_transdata env (k + 1) rest arr1 (td + 4)).map
          (fun r => (plane_track1 :: r.1, r.2))
    else
      (plane_tracks_to_transdata env (k + 1) rest arr td).map
        (fun r => (plane_track :: r.1, r.2))

/-- The value of `tc->data_len` after the counting loops of
`createTransTrackingTracksData`. -/
def tracks_data_len (env : TrackingEnv) (clip : MovieClip) : Nat :=
  (clip.tracks.map (fun track =>
    if track_editable env track then track_record_count track else 0)).sum +
  (clip.plane_tracks.map (fun plane_track =>
    if env.PLANE_TRACK_VIEW_SELECTED plane_track then 4 else 0)).sum

/-- The function `createTransTrackingTracksData`: the container and the clip afterwards;
`none` when a marker is missing or a record lies outside the arrays. -/
def createTransTrackingTracksData (env : TrackingEnv) (clip : MovieClip) :
    Option (TrackingContainer × MovieClip) :=
  let data_len := tracks_data_len env clip
  if data_len = 0 then some (⟨0, none⟩, clip)
  else
    match tracks_to_transdata env 0 clip.tracks
        (List.replicate data_len TransDataTracking.zero) 0 with
    | none => none
    | some (tracks1, arr1, td1) =>
      match plane_tracks_to_transdata env 0 clip.plane_tracks arr1 td1 with
      | none => none
      | some (plane_tracks1, arr2, _) =>
        some (⟨data_len, some arr2⟩,
          { clip with tracks := tracks1, plane_tracks := plane_tracks1 })

/-- The test `(marker->flag & MARKER_DISABLED) || (prev_marker->flag & MARKER_DISABLED)`. -/
def marker_pair_disabled (marker prev_marker : MovieTrackingMarker) : Bool :=
  (marker.flag &&& MARKER_DISABLED != 0) || (prev_marker.flag &&& MARKER_DISABLED != 0)

/-- The counting loop `for (i = 1; i < track->markersnr; i++)` of
`createTransTrackingCurvesData` on the markers from `i` on, `prev_marker` being
`track->markers[i - 1]`. -/
def curve_count_markers : MovieTrackingMarker → List MovieTrackingMarker → Nat
  | _, [] => 0
  | prev_marker, marker :: rest =>
    (if marker_pair_disabled marker prev_marker then 0
      else (if marker.flag &&& MARKER_GRAPH_SEL_X ≠ 0 then 1 else 0) +
        (if marker.flag &&& MARKER_GRAPH_SEL_Y ≠ 0 then 1 else 0)) +
      curve_count_markers marker rest

/-- The records counted for one track by `createTransTrackingCurvesData`. -/
def track_curve_count (track : MovieTrackingTrack) : Nat :=
  match track.markers with
  | [] => 0
  | marker0 :: rest => curve_count_markers marker0 rest

/-- The effect of `markerToTransCurveDataInit` on the record `tdt`, for the marker flag
`flag` at the time of the call. -/
def markerToTransCurveDataInit (track : Nat) (flag : Nat) (coord : Nat)
    (tdt : TransDataTracking) : TransDataTracking :=
  { tdt with flag := flag, mode := transDataTracking_ModeCurves, coord := coord,
             track := some track }

/-- The loop `for (i = 1; i < track->markersnr; i++)` of the second pass of
`createTransTrackingCurvesData` for the track at position `k`, on the markers from `i`
on; `prev_marker` is `track->markers[i - 1]` as it is now.  Each call of
`markerToTransCurveDataInit` saves the marker flag in the record at `td` and takes
`MARKER_TRACKED` off the marker. -/
def curve_markers_to_transdata (k : Nat) :
    MovieTrackingMarker → List MovieTrackingMarker → List TransDataTracking → Nat →
      Option (List MovieTrackingMarker × List TransDataTracking × Nat)
  | _, [], arr, td => some ([], arr, td)
  | prev_marker, marker :: rest, arr, td =>
    if marker_pair_disabled marker prev_marker then
      (curve_markers_to_transdata k marker rest arr td).map (fun r => (marker :: r.1, r.2))
    else
      let stepx : Option (MovieTrackingMarker × List TransDataTracking × Nat) :=
        if marker.flag &&& MARKER_GRAPH_SEL_X ≠ 0 then
          (apply_at arr td [markerToTransCurveDataInit k marker.flag 0]).map
            (fun arr1 =>
              ({ marker with flag := clear_bits marker.flag MARKER_TRACKED }, arr1, td + 1))
        else some (marker, arr, td)
      match stepx with
      | none => none
      | some (marker1, arr1, td1) =>
        let stepy : Option (MovieTrackingMarker × List TransDataTracking × Nat) :=
          if marker1.flag &&& MARKER_GRAPH_SEL_Y ≠ 0 then
            (apply_at arr1 td1 [markerToTransCurveDataInit k marker1.flag 1]).map
              (fun arr2 =>
                ({ marker1 with flag := clear_bits marker1.flag MARKER_TRACKED }, arr2, td1 + 1))
          else some (marker1, arr1, td1)
        match stepy with
        | none => none
        | some (marker2, arr2, td2) =>
          (curve_markers_to_transdata k marker2 rest arr2 td2).map
            (fun r => (marker2 :: r.1, r.2))

/-- The loop "create actual data" of `createTransTrackingCurvesData` over the tracks from
position `k` on. -/
def curves_to_transdata (env : TrackingEnv) :
    Nat → List MovieTrackingTrack → List TransDataTracking → Nat →
      Option (List MovieTrackingTrack × List TransDataTracking × Nat)
  | _, [], arr, td => some ([], arr, td)
  | k, track :: rest, arr, td =>
    if track_editable env track then
      match track.markers with
      | [] =>
        (curves_to_transdata env (k + 1) rest arr td).map (fun r => (track :: r.1, r.2))
      | marker0 :: markers =>
        match curve_markers_to_transdata k marker0 markers arr td with
        | none => none
        | some (markers1, arr1, td1) =>
          (curves_to_transdata env (k + 1) rest arr1 td1).map
            (fun r => ({ track with markers := marker0 :: markers1 } :: r.1, r.2))
    else
      (curves_to_transdata env (k + 1) rest arr td).map (fun r => (track :: r.1, r.2))

/-- The function `createTransTrackingCurvesData`. -/
def createTransTrackingCurvesData (env : TrackingEnv) (clip : MovieClip) :
    Option (TrackingContainer × MovieClip) :=
  if env.show_graph_tracks_motion = false then some (⟨0, none⟩, clip)
  else
    let data_len := (clip.tracks.map (fun track =>
      if track_editable env track then track_curve_count track else 0)).sum
    if data_len = 0 then some (⟨0, none⟩, clip)
    else
      match curves_to_transdata env 0 clip.tracks
          (List.replicate data_len TransDataTracking.zero) 0 with
      | none => none
      | some (tracks1, arr1, _) => some (⟨data_len, some arr1⟩, { clip with tracks := tracks1 })

/-- The function `createTransTrackingData`: `clip` is `ED_space_clip_get_clip(sc)`, `none`
for no clip, and `region_preview` the test `ar->regiontype == RGN_TYPE_PREVIEW`.  The
container is the one of a new session, without arrays. -/
def createTransTrackingData (env : TrackingEnv) (region_preview : Bool)
    (clip : Option MovieClip) : Option (TrackingContainer × Option MovieClip) :=
  match clip with
  | none => some (⟨0, none⟩, none)
  | some c =>
    if c.width = 0 ∨ c.height = 0 then some (⟨0, none⟩, some c)
    else if region_preview then
      (createTransTrackingCurvesData env c).map (fun r => (r.1, some r.2))
    else (createTransTrackingTracksData env c).map (fun r => (r.1, some r.2))

/-- The loop `for (a = 1; a < track->markersnr; a++)` of `cancelTransTracking` for a
record in curves mode whose saved flag is `flag`, on the markers from `a` on. -/
def cancel_curve_markers (flag : Nat) :
    MovieTrackingMarker → List MovieTrackingMarker → List MovieTrackingMarker
  | _, [] => []
  | prev_marker, marker :: rest =>
    let marker1 : MovieTrackingMarker :=
      if marker_pair_disabled marker prev_marker then marker
      else if marker.flag &&& (MARKER_GRAPH_SEL_X ||| MARKER_GRAPH_SEL_Y) ≠ 0 then
        { marker with flag := flag }
      else marker
    marker1 :: cancel_curve_markers flag marker1 rest

/-- The loop `while (i < tc->data_len)` of `cancelTransTracking`.  `fuel` bounds the
number of passes (`i` grows in each one, so `data_len` passes are enough); `visited`
lists the positions `i` at which a record was read.  The result is `none` for a read
outside the side table, a `NULL` track or a missing marker. -/
def cancel_tracking_loop (env : TrackingEnv) (tdt_array : List TransDataTracking)
    (data_len : Nat) : Nat → Nat → MovieClip → List Nat → Option (MovieClip × List Nat)
  | 0, i, clip, visited => if i < data_len then none else some (clip, visited)
  | fuel + 1, i, clip, visited =>
    if i < data_len then
      match tdt_array[i]? with
      | none => none
      | some tdt =>
        if tdt.mode = transDataTracking_ModeTracks then
          match tdt.track with
          | none => none
          | some k =>
            match clip.tracks[k]? with
            | none => none
            | some track =>
              let m := marker_index env track
              match track.markers[m]? with
              | none => none
              | some marker =>
                let marker1 : MovieTrackingMarker := { marker with flag := tdt.flag }
                let track1 := { track with markers := track.markers.set m marker1 }
                let i1 := i + (if track.flag &&& SELECT ≠ 0 then 1 else 0) +
                  (if track.pat_flag &&& SELECT ≠ 0 then 4 else 0) +
                  (if track.search_flag &&& SELECT ≠ 0 then 2 else 0)
                cancel_tracking_loop env tdt_array data_len fuel (i1 + 1)
                  { clip with tracks := clip.tracks.set k track1 } (visited ++ [i])
        else if tdt.mode = transDataTracking_ModeCurves then
          match tdt.track with
          | none => none
          | some k =>
            match clip.tracks[k]? with
            | none => none
            | some track =>
              let markers1 :=
                match track.markers with
                | [] => []
                | marker0 :: markers => marker0 :: cancel_curve_markers tdt.flag marker0 markers
              cancel_tracking_loop env tdt_array data_len fuel (i + 1)
                { clip with tracks := clip.tracks.set k { track with markers := markers1 } }
                (visited ++ [i])
        else if tdt.mode = transDataTracking_ModePlaneTracks then
          match tdt.plane_track with
          | none => none
          | some k =>
            match clip.plane_tracks[k]? with
            | none => none
            | some plane_track =>
              let m := plane_marker_index env plane_track
              match plane_track.markers[m]? with
              | none => none
              | some plane_marker =>
                let plane_marker1 : MovieTrackingPlaneMarker :=
                  { plane_marker with flag := tdt.flag }
                let plane_track1 :=
                  { plane_track with markers := plane_track.markers.set m plane_marker1 }
                cancel_tracking_loop env tdt_array data_len fuel (i + 3 + 1)
                  { clip with plane_tracks := clip.plane_tracks.set k plane_track1 }
                  (visited ++ [i])
        else cancel_tracking_loop env tdt_array data_len fuel (i + 1) clip (visited ++ [i])
    else some (clip, visited)

/-- The function `cancelTransTracking` on the container `tc`: the clip afterwards and the
positions of the side table that were read. -/
def cancelTransTracking (env : TrackingEnv) (tc : TrackingContainer) (clip : MovieClip) :
    Option (MovieClip × List Nat) :=
  match tc.tdt with
  | some tdt_array => cancel_tracking_loop env tdt_array tc.data_len tc.data_len 0 clip []
  | none => if tc.data_len = 0 then some (clip, []) else none

/-- The positions at which groups of the sizes `sizes` start in an array, the first one
at `o`. -/
def group_starts : Nat → List Nat → List Nat
  | _, [] => []
  | o, n :: ns => o :: group_starts (o + n) ns

/-- The flag of the marker of the track for the current frame, `0` when it is missing. -/
def current_marker_flag (env : TrackingEnv) (track : MovieTrackingTrack) : Nat :=
  match track.markers[marker_index env track]? with
  | some marker => marker.flag
  | none => 0

/-- The flag of the plane marker of the plane track for the current frame, `0` when it is
missing. -/
def current_plane_marker_flag (env : TrackingEnv) (plane_track : MovieTrackingPlaneTrack) :
    Nat :=
  match plane_track.markers[plane_marker_index env plane_track]? with
  | some marker => marker.flag
  | none => 0

/-- A clip editor for examples: every track counts as selected in the view, the marker of
the current frame is the one at position 1, the graph shows the motion curves. -/
def example_env : TrackingEnv :=
  { TRACK_VIEW_SELECTED := fun _ => true
    PLANE_TRACK_VIEW_SELECTED := fun _ => true
    marker_get := fun _ _ => 1
    framenr := 2
    show_graph_tracks_motion := true }

/-- A clip with one track of two markers, at frames 1 and 2; the second one is tracked
and selected on both channels of the graph. -/
def example_clip : MovieClip :=
  { width := 1920
    height := 1080
    tracks := [⟨SELECT, 0, 0, [⟨1, 0⟩,
      ⟨2, MARKER_TRACKED ||| MARKER_GRAPH_SEL_X ||| MARKER_GRAPH_SEL_Y⟩]⟩]
    plane_tracks := [] }

/-! ## Specification-side notions for the tracking adapter -/

/-- The records `trackToTransData` leaves for the track at position `k`: the first one
holds the flag of the marker, all of them the mode, the area and the track. -/
def track_group (env : TrackingEnv) (k : Nat) (track : MovieTrackingTrack) :
    List TransDataTracking :=
  [⟨transDataTracking_ModeTracks, current_marker_flag env track, TRACK_AREA_POINT, 0,
      some k, none⟩] ++
    (if track.flag &&& SELECT ≠ 0 then
      [⟨transDataTracking_ModeTracks, 0, TRACK_AREA_POINT, 0, some k, none⟩] else []) ++
    (if track.pat_flag &&& SELECT ≠ 0 then
      List.replicate 4 ⟨transDataTracking_ModeTracks, 0, TRACK_AREA_PAT, 0, some k, none⟩
      else []) ++
    (if track.search_flag &&& SELECT ≠ 0 then
      List.replicate 2 ⟨transDataTracking_ModeTracks, 0, TRACK_AREA_SEARCH, 0, some k, none⟩
      else [])

/-- The groups of the tracks from position `k` on, one after the other. -/
def track_groups (env : TrackingEnv) : Nat → List MovieTrackingTrack → List TransDataTracking
  | _, [] => []
  | k, track :: rest =>
    (if track_editable env track then track_group env k track else []) ++
      track_groups env (k + 1) rest

/-- A track after `createTransTrackingTracksData`: the marker of the current frame of a
track that takes part has lost `MARKER_DISABLED` and `MARKER_TRACKED`. -/
def track_built (env : TrackingEnv) (track : MovieTrackingTrack) : MovieTrackingTrack :=
  if track_editable env track then
    match track.markers[marker_index env track]? with
    | some marker =>
      let marker1 : MovieTrackingMarker :=
        { marker with flag := clear_bits marker.flag (MARKER_DISABLED ||| MARKER_TRACKED) }
      { track with markers := track.markers.set (marker_index env track) marker1 }
    | none => track
  else track

/-- The four records `planeTrackToTransData` leaves for the plane track at position `k`. -/
def plane_track_group (env : TrackingEnv) (k : Nat) (plane_track : MovieTrackingPlaneTrack) :
    List TransDataTracking :=
  ⟨transDataTracking_ModePlaneTracks, current_plane_marker_flag env plane_track, 0, 0, none,
      some k⟩ ::
    List.replicate 3 ⟨transDataTracking_ModePlaneTracks, 0, 0, 0, none, some k⟩

/-- The groups of the plane tracks from position `k` on. -/
def plane_track_groups (env : TrackingEnv) :
    Nat → List MovieTrackingPlaneTrack → List TransDataTracking
  | _, [] => []
  | k, plane_track :: rest =>
    (if env.PLANE_TRACK_VIEW_SELECTED plane_track then plane_track_group env k plane_track
      else []) ++ plane_track_groups env (k + 1) rest

/-- A plane track after `createTransTrackingTracksData`. -/
def plane_track_built (env : TrackingEnv) (plane_track : MovieTrackingPlaneTrack) :
    MovieTrackingPlaneTrack :=
  if env.PLANE_TRACK_VIEW_SELECTED plane_track then
    match plane_track.markers[plane_marker_index env plane_track]? with
    | some marker =>
      let marker1 : MovieTrackingPlaneMarker :=
        { marker with flag := clear_bits marker.flag PLANE_MARKER_TRACKED }
      { plane_track with markers :=
          plane_track.markers.set (plane_marker_index env plane_track) marker1 }
    | none => plane_track
  else plane_track

/-- The sizes of the groups of the tracks that take part, in order. -/
def track_group_sizes (env : TrackingEnv) (tracks : List MovieTrackingTrack) : List Nat :=
  (tracks.filter (track_editable env)).map track_record_count

/-- The sizes of the groups of the plane tracks that take part, in order. -/
def plane_group_sizes (env : TrackingEnv) (plane_tracks : List MovieTrackingPlaneTrack) :
    List Nat :=
  (plane_tracks.filter env.PLANE_TRACK_VIEW_SELECTED).map (fun _ => 4)

/-! ## Masks: `createTransMaskingData`, `flushTransMasking` -/

/-- Modelled from the spec: the handle type `HD_FREE` of `DNA_curve_types.h`, outside the
translated file (spec §4.3, handle types that roll back on cancel).  It is taken as 0. -/
def HD_FREE : Nat := 0

/-- Modelled from the spec: the handle type `HD_AUTO` of `DNA_curve_types.h`, outside the
translated file.  It is taken as 1. -/
def HD_AUTO : Nat := 1

/-- Modelled from the spec: the handle type `HD_VECT` of `DNA_curve_types.h`, outside the
translated file.  It is taken as 2. -/
def HD_VECT : Nat := 2

/-- Modelled from the spec: the handle type `HD_ALIGN` of `DNA_curve_types.h`, outside the
translated file.  It is taken as 3. -/
def HD_ALIGN : Nat := 3

/-- Modelled from the spec: the handle type `HD_ALIGN_DOUBLESIDE` of `DNA_curve_types.h`,
outside the translated file.  It is taken as 5. -/
def HD_ALIGN_DOUBLESIDE : Nat := 5

/-- Modelled from the spec: the value `MASK_WHICH_HANDLE_NONE` of `eMaskWhichHandle`
(`BKE_mask.h`, outside the translated file), the value of a record `MEM_callocN` left. -/
def MASK_WHICH_HANDLE_NONE : Nat := 0

/-- Modelled from the spec: the value `MASK_WHICH_HANDLE_STICK` of `eMaskWhichHandle`. -/
def MASK_WHICH_HANDLE_STICK : Nat := 1

/-- Modelled from the spec: the value `MASK_WHICH_HANDLE_LEFT` of `eMaskWhichHandle`. -/
def MASK_WHICH_HANDLE_LEFT : Nat := 2

/-- Modelled from the spec: the value `MASK_WHICH_HANDLE_RIGHT` of `eMaskWhichHandle`. -/
def MASK_WHICH_HANDLE_RIGHT : Nat := 3

/-- Modelled from the spec: the value `MASK_HANDLE_MODE_STICK` of `eMaskhandleMode`
(`BKE_mask.h`, outside the translated file): the two handles of the point move as one. -/
def MASK_HANDLE_MODE_STICK : Nat := 1

/-- Modelled from the spec: the value `MASK_HANDLE_MODE_INDIVIDUAL_HANDLES` of
`eMaskhandleMode`. -/
def MASK_HANDLE_MODE_INDIVIDUAL_HANDLES : Nat := 2

/-- Modelled from the spec: the layer flag `MASK_RESTRICT_VIEW` (hidden layer) of
`DNA_mask_types.h`, outside the translated file.  It is taken as bit 0. -/
def MASK_RESTRICT_VIEW : Nat := 1

/-- Modelled from the spec: the layer flag `MASK_RESTRICT_SELECT` (unselectable layer) of
`DNA_mask_types.h`, outside the translated file.  It is taken as bit 1. -/
def MASK_RESTRICT_SELECT : Nat := 2

/-- Modelled from the spec: a point `MaskSplinePoint` of a mask spline (spec §4.3, masks),
declared in `DNA_mask_types.h`, outside the translated file: its Bezier triple. -/
structure MaskSplinePoint (α : Type) where
  bezt : BezTriple α
deriving DecidableEq, Repr

/-- Modelled from the spec: a spline `MaskSpline`, declared in `DNA_mask_types.h`, outside
the translated file: its points; `tot_point` is their number. -/
structure MaskSpline (α : Type) where
  points : List (MaskSplinePoint α)
deriving DecidableEq, Repr

/-- Modelled from the spec: a layer `MaskLayer`, declared in `DNA_mask_types.h`, outside
the translated file: its `restrictflag` and its splines. -/
structure MaskLayer (α : Type) where
  restrictflag : Nat
  splines : List (MaskSpline α)
deriving DecidableEq, Repr

/-- Modelled from the spec: the mask being edited (spec §7, active mask), declared in
`DNA_mask_types.h`, outside the translated file: its layers. -/
structure Mask (α : Type) where
  masklayers : List (MaskLayer α)
deriving DecidableEq, Repr

/-- Modelled from the spec: the macro `MASKPOINT_ISSEL_ANY(p)` of `DNA_mask_types.h`,
`(((p)->bezt.f1 | (p)->bezt.f2 | (p)->bezt.f3) & SELECT)`. -/
def MASKPOINT_ISSEL_ANY (point : MaskSplinePoint α) : Bool :=
  (point.bezt.f1 ||| point.bezt.f2 ||| point.bezt.f3) &&& SELECT != 0

/-- Modelled from the spec: the macro `MASKPOINT_ISSEL_KNOT(p)` of `DNA_mask_types.h`,
`((p)->bezt.f2 & SELECT)`. -/
def MASKPOINT_ISSEL_KNOT (point : MaskSplinePoint α) : Bool :=
  point.bezt.f2 &&& SELECT != 0

/-- The record `TransDataMasking` of the side table, with the fields the cancelling of a
transform uses: `is_handle`, the pointer `point` (layer, spline and position of the point,
`none` for `NULL`), `orig_handle_type` and `which_handle`. -/
structure TransDataMasking where
  is_handle : Bool
  point : Option (Nat × Nat × Nat)
  orig_handle_type : Nat
  which_handle : Nat
deriving DecidableEq, Repr

/-- One element of the three parallel arrays `tc->data`, `tc->data_2d` and
`tc->custom.type.data` of the mask adapter: `flag` is `td->flag`, `axismtx22` is
`td->axismtx[2][2]` (0 after `MEM_callocN`, 1 once the record is initialised) and `tdm` is
the record of the side table. -/
structure MaskRecord where
  flag : Nat
  axismtx22 : Nat
  tdm : TransDataMasking
deriving DecidableEq, Repr

/-- A record as `MEM_callocN` leaves it: all fields zero. -/
def MaskRecord.zero : MaskRecord :=
  ⟨0, 0, ⟨false, none, 0, MASK_WHICH_HANDLE_NONE⟩⟩

/-- The container after the mask adapter ran: `data_len` and the three arrays, allocated
together with `data_len` elements each; `none` when they were not allocated. -/
structure MaskContainer where
  data_len : Nat
  records : Option (List MaskRecord)
deriving DecidableEq, Repr

/-- The function `MaskHandleToTransData` for the point at `ref` and the handle
`which_handle`, on the record at the pointers `td`, `td2d`, `tdm`. -/
def MaskHandleToTransData (point : MaskSplinePoint α) (ref : Nat × Nat × Nat)
    (which_handle : Nat) (r : MaskRecord) : MaskRecord :=
  { flag := if MASKPOINT_ISSEL_ANY point then TD_SELECTED else 0
    axismtx22 := 1
    tdm :=
      { point := some ref
        is_handle := true
        which_handle := which_handle
        orig_handle_type :=
          if which_handle = MASK_WHICH_HANDLE_LEFT then point.bezt.h1
          else if which_handle = MASK_WHICH_HANDLE_RIGHT then point.bezt.h2
          else r.tdm.orig_handle_type } }

/-- The pass `i` of the loop `for (i = 0; i < 3; i++)` of `MaskPointToTransData` on the
record at the pointers.  `tdm->point` is set before the loop, on the first record only. -/
def mask_point_init (point : MaskSplinePoint α) (ref : Nat × Nat × Nat) (i : Nat)
    (r : MaskRecord) : MaskRecord :=
  { flag := if MASKPOINT_ISSEL_ANY point then TD_SELECTED else 0
    axismtx22 := 1
    tdm :=
      { r.tdm with
        point := if i = 0 then some ref else r.tdm.point
        orig_handle_type :=
          if i = 0 then point.bezt.h1 else if i = 2 then point.bezt.h2
          else r.tdm.orig_handle_type } }

/-- The change of the handle types `MaskPointToTransData` makes for a selected left handle:
`HD_VECT` becomes `HD_FREE`, and for `HD_AUTO` both handles become
`HD_ALIGN_DOUBLESIDE`. -/
def mask_left_handle_types (point : MaskSplinePoint α) : MaskSplinePoint α :=
  if point.bezt.h1 = HD_VECT then { point with bezt := { point.bezt with h1 := HD_FREE } }
  else if point.bezt.h1 = HD_AUTO then
    { point with
      bezt := { point.bezt with h1 := HD_ALIGN_DOUBLESIDE, h2 := HD_ALIGN_DOUBLESIDE } }
  else point

/-- The change of the handle types `MaskPointToTransData` makes for a selected right
handle: `HD_VECT` becomes `HD_FREE`, and for `HD_AUTO` both handles become
`HD_ALIGN_DOUBLESIDE`. -/
def mask_right_handle_types (point : MaskSplinePoint α) : MaskSplinePoint α :=
  if point.bezt.h2 = HD_VECT then { point with bezt := { point.bezt with h2 := HD_FREE } }
  else if point.bezt.h2 = HD_AUTO then
    { point with
      bezt := { point.bezt with h1 := HD_ALIGN_DOUBLESIDE, h2 := HD_ALIGN_DOUBLESIDE } }
  else point

/-- The body of `MaskPointToTransData` for the point at `ref`: the point afterwards and the
records written, as changes of the records at the pointers and after them.
`BKE_mask_point_handles_mode_get` is defined in `mask.c`, outside the translated file, and
is a parameter. -/
def MaskPointToTransData_writes (BKE_mask_point_handles_mode_get : MaskSplinePoint α → Nat)
    (point : MaskSplinePoint α) (ref : Nat × Nat × Nat) (is_prop_edit : Bool) :
    MaskSplinePoint α × List (MaskRecord → MaskRecord) :=
  if is_prop_edit || MASKPOINT_ISSEL_KNOT point then
    (point, [mask_point_init point ref 0, mask_point_init point ref 1,
      mask_point_init point ref 2])
  else if BKE_mask_point_handles_mode_get point = MASK_HANDLE_MODE_STICK then
    (point, [MaskHandleToTransData point ref MASK_WHICH_HANDLE_STICK])
  else
    let left : MaskSplinePoint α × List (MaskRecord → MaskRecord) :=
      if point.bezt.f1 &&& SELECT ≠ 0 then
        (mask_left_handle_types point,
          [MaskHandleToTransData point ref MASK_WHICH_HANDLE_LEFT])
      else (point, [])
    let right : MaskSplinePoint α × List (MaskRecord → MaskRecord) :=
      if point.bezt.f3 &&& SELECT ≠ 0 then
        (mask_right_handle_types left.1,
          [MaskHandleToTransData left.1 ref MASK_WHICH_HANDLE_RIGHT])
      else (left.1, [])
    (right.1, left.2 ++ right.2)

/-- The function `MaskPointToTransData` for the point at `ref`, writing from `td` on;
`none` when a record lies outside the arrays. -/
def MaskPointToTransData (BKE_mask_point_handles_mode_get : MaskSplinePoint α → Nat)
    (point : MaskSplinePoint α) (ref : Nat × Nat × Nat) (arr : List MaskRecord) (td : Nat)
    (is_prop_edit : Bool) : Option (MaskSplinePoint α × List MaskRecord) :=
  let w := MaskPointToTransData_writes BKE_mask_point_handles_mode_get point ref is_prop_edit
  (apply_at arr td w.2).map (fun arr1 => (w.1, arr1))

/-- What the counting loop of `createTransMaskingData` adds to `countsel` for a point. -/
def mask_point_countsel (BKE_mask_point_handles_mode_get : MaskSplinePoint α → Nat)
    (point : MaskSplinePoint α) : Nat :=
  if MASKPOINT_ISSEL_ANY point then
    if MASKPOINT_ISSEL_KNOT point then 3
    else if BKE_mask_point_handles_mode_get point = MASK_HANDLE_MODE_STICK then 1
    else (if point.bezt.f1 &&& SELECT ≠ 0 then 1 else 0) +
      (if point.bezt.f3 &&& SELECT ≠ 0 then 1 else 0)
  else 0

/-- The counting loop `for (i = 0; i < spline->tot_point; i++)` of
`createTransMaskingData` on the points from `i` on, with the counters `count` and
`countsel`. -/
def mask_count_points (BKE_mask_point_handles_mode_get : MaskSplinePoint α → Nat)
    (is_prop_edit : Bool) : List (MaskSplinePoint α) → Nat × Nat → Nat × Nat
  | [], c => c
  | point :: rest, (count, countsel) =>
    mask_count_points BKE_mask_point_handles_mode_get is_prop_edit rest
      (if is_prop_edit then count + 3 else count,
        countsel + mask_point_countsel BKE_mask_point_handles_mode_get point)

/-- The counting loop over the splines of a layer. -/
def mask_count_splines (BKE_mask_point_handles_mode_get : MaskSplinePoint α → Nat)
    (is_prop_edit : Bool) : List (MaskSpline α) → Nat × Nat → Nat × Nat
  | [], c => c
  | spline :: rest, c =>
    mask_count_splines BKE_mask_point_handles_mode_get is_prop_edit rest
      (mask_count_points BKE_mask_point_handles_mode_get is_prop_edit spline.points c)

/-- The counting loop over the layers of the mask: hidden and unselectable layers are
skipped. -/
def mask_count_layers (BKE_mask_point_handles_mode_get : MaskSplinePoint α → Nat)
    (is_prop_edit : Bool) : List (MaskLayer α) → Nat × Nat → Nat × Nat
  | [], c => c
  | masklay :: rest, c =>
    if masklay.restrictflag &&& (MASK_RESTRICT_VIEW ||| MASK_RESTRICT_SELECT) ≠ 0 then
      mask_count_layers BKE_mask_point_handles_mode_get is_prop_edit rest c
    else
      mask_count_layers BKE_mask_point_handles_mode_get is_prop_edit rest
        (mask_count_splines BKE_mask_point_handles_mode_get is_prop_edit masklay.splines c)

/-- The number of records the loop "create data" of `createTransMaskingData` moves the
pointers by after the call of `MaskPointToTransData` for `point`, the point as that call
left it. -/
def mask_point_advance (BKE_mask_point_handles_mode_get : MaskSplinePoint α → Nat)
    (is_prop_edit : Bool) (point : MaskSplinePoint α) : Nat :=
  if is_prop_edit || MASKPOINT_ISSEL_KNOT point then 3
  else if BKE_mask_point_handles_mode_get point = MASK_HANDLE_MODE_STICK then 1
  else (if point.bezt.f1 &&& SELECT ≠ 0 then 1 else 0) +
    (if point.bezt.f3 &&& SELECT ≠ 0 then 1 else 0)

/-- The loop `for (i = 0; i < spline->tot_point; i++)` of the part "create data" of
`createTransMaskingData`, for the spline `s` of the layer `l`, on the points from `i`
on, with the pointers at `td`. -/
def mask_points_to_transdata (BKE_mask_point_handles_mode_get : MaskSplinePoint α → Nat)
    (is_prop_edit : Bool) (l s : Nat) :
    Nat → List (MaskSplinePoint α) → List MaskRecord → Nat →
      Option (List (MaskSplinePoint α) × List MaskRecord × Nat)
  | _, [], arr, td => some ([], arr, td)
  | i, point :: rest, arr, td =>
    if is_prop_edit || MASKPOINT_ISSEL_ANY point then
      match MaskPointToTransData BKE_mask_point_handles_mode_get point (l, s, i) arr td
          is_prop_edit with
      | none => none
      | some (point1, arr1) =>
        (mask_points_to_transdata BKE_mask_point_handles_mode_get is_prop_edit l s (i + 1)
          rest arr1
          (td + mask_point_advance BKE_mask_point_handles_mode_get is_prop_edit point1)).map
          (fun r => (point1 :: r.1, r.2))
    else
      (mask_points_to_transdata BKE_mask_point_handles_mode_get is_prop_edit l s (i + 1)
        rest arr td).map (fun r => (point :: r.1, r.2))

/-- The loop over the splines of the layer `l` of the part "create data", from the spline
`s` on. -/
def mask_splines_to_transdata (BKE_mask_point_handles_mode_get : MaskSplinePoint α → Nat)
    (is_prop_edit : Bool) (l : Nat) :
    Nat → List (MaskSpline α) → List MaskRecord → Nat →
      Option (List (MaskSpline α) × List MaskRecord × Nat)
  | _, [], arr, td => some ([], arr, td)
  | s, spline :: rest, arr, td =>
    match mask_points_to_transdata BKE_mask_point_handles_mode_get is_prop_edit l s 0
        spline.points arr td with
    | none => none
    | some (points1, arr1, td1) =>
      (mask_splines_to_transdata BKE_mask_point_handles_mode_get is_prop_edit l (s + 1) rest
        arr1 td1).map (fun r => (⟨points1⟩ :: r.1, r.2))

/-- The loop over the layers of the part "create data", from the layer `l` on. -/
def mask_layers_to_transdata (BKE_mask_point_handles_mode_get : MaskSplinePoint α → Nat)
    (is_prop_edit : Bool) :
    Nat → List (MaskLayer α) → List MaskRecord → Nat →
      Option (List (MaskLayer α) × List MaskRecord × Nat)
  | _, [], arr, td => some ([], arr, td)
  | l, masklay :: rest, arr, td =>
    if masklay.restrictflag &&& (MASK_RESTRICT_VIEW ||| MASK_RESTRICT_SELECT) ≠ 0 then
      (mask_layers_to_transdata BKE_mask_point_handles_mode_get is_prop_edit (l + 1) rest arr
        td).map (fun r => (masklay :: r.1, r.2))
    else
      match mask_splines_to_transdata BKE_mask_point_handles_mode_get is_prop_edit l 0
          masklay.splines arr td with
      | none => none
      | some (splines1, arr1, td1) =>
        (mask_layers_to_transdata BKE_mask_point_handles_mode_get is_prop_edit (l + 1) rest
          arr1 td1).map (fun r => ({ masklay with splines := splines1 } :: r.1, r.2))

/-- The function `createTransMaskingData`: `mask` is `CTX_data_edit_mask(C)`, `none` for
no mask; `spacetype_clip` is the test `t->spacetype == SPACE_CLIP` and `has_clip` tells
whether `ED_space_clip_get_clip(sc)` is a clip; `is_prop_edit` is `t->flag & T_PROP_EDIT`.
The result is the container, which is the one of a new session without arrays when the
function returns early, and the mask afterwards; `none` when a record lies outside the
arrays. -/
def createTransMaskingData (BKE_mask_point_handles_mode_get : MaskSplinePoint α → Nat)
    (is_prop_edit spacetype_clip has_clip : Bool) (mask : Option (Mask α)) :
    Option (MaskContainer × Option (Mask α)) :=
  match mask with
  | none => some (⟨0, none⟩, none)
  | some m =>
    if spacetype_clip && !has_clip then some (⟨0, none⟩, some m)
    else
      let c := mask_count_layers BKE_mask_point_handles_mode_get is_prop_edit m.masklayers
        (0, 0)
      if c.2 = 0 then some (⟨0, none⟩, some m)
      else
        let data_len := if is_prop_edit then c.1 else c.2
        match mask_layers_to_transdata BKE_mask_point_handles_mode_get is_prop_edit 0
            m.masklayers (List.replicate data_len MaskRecord.zero) 0 with
        | none => none
        | some (masklayers1, arr1, _) => some (⟨data_len, some arr1⟩, some ⟨masklayers1⟩)

/-- The point at `ref` of the mask changed by `f`; `none` when there is no such point. -/
def mask_point_modify (mask : Mask α) (ref : Nat × Nat × Nat)
    (f : MaskSplinePoint α → MaskSplinePoint α) : Option (Mask α) :=
  match mask.masklayers[ref.1]? with
  | none => none
  | some masklay =>
    match masklay.splines[ref.2.1]? with
    | none => none
    | some spline =>
      match spline.points[ref.2.2]? with
      | none => none
      | some point =>
        let spline1 : MaskSpline α := ⟨spline.points.set ref.2.2 (f point)⟩
        let masklay1 : MaskLayer α :=
          { masklay with splines := masklay.splines.set ref.2.1 spline1 }
        some ⟨mask.masklayers.set ref.1 masklay1⟩

/-- The part `if (t->state == TRANS_CANCEL)` of the body of the loop of
`flushTransMasking` for the record `tdm`: the handle type saved in the record goes back to
the handle the record stands for.  The result is `none` for a `NULL` point. -/
def flush_mask_cancel (tdm : TransDataMasking) (mask : Mask α) : Option (Mask α) :=
  if tdm.which_handle = MASK_WHICH_HANDLE_LEFT then
    match tdm.point with
    | none => none
    | some ref =>
      mask_point_modify mask ref
        (fun point => { point with bezt := { point.bezt with h1 := tdm.orig_handle_type } })
  else if tdm.which_handle = MASK_WHICH_HANDLE_RIGHT then
    match tdm.point with
    | none => none
    | some ref =>
      mask_point_modify mask ref
        (fun point => { point with bezt := { point.bezt with h2 := tdm.orig_handle_type } })
  else some mask

/-- The loop `for (a = 0; a < tc->data_len; a++, td++, tdm++)` of `flushTransMasking` on
the records from `a` on.  The first part of the body writes the position of the record
back to the point (`td->loc2d`, `BKE_mask_point_set_handle`); it depends on the positions
and on code outside the translated file and is the parameter `flush_position`. -/
def flush_mask_loop (flush_position : MaskRecord → Mask α → Mask α) (cancel : Bool) :
    List MaskRecord → Mask α → Option (Mask α)
  | [], mask => some mask
  | r :: rest, mask =>
    let mask1 := flush_position r mask
    if cancel then
      match flush_mask_cancel r.tdm mask1 with
      | none => none
      | some mask2 => flush_mask_loop flush_position cancel rest mask2
    else flush_mask_loop flush_position cancel rest mask1

/-- The function `flushTransMasking`; `cancel` is the test `t->state == TRANS_CANCEL`.
The result is `none` when the arrays hold less than `data_len` records or a record read
in the cancel part has a `NULL` point. -/
def flushTransMasking (flush_position : MaskRecord → Mask α → Mask α) (cancel : Bool)
    (tc : MaskContainer) (mask : Mask α) : Option (Mask α) :=
  match tc.records with
  | none => if tc.data_len = 0 then some mask else none
  | some arr =>
    if arr.length < tc.data_len then none
    else flush_mask_loop flush_position cancel (arr.take tc.data_len) mask

/-- The handles mode of `mask.c`, for examples: stick mode when both handle types are
`HD_ALIGN`, individual handles otherwise. -/
def example_handles_mode (point : MaskSplinePoint α) : Nat :=
  if point.bezt.h1 = point.bezt.h2 ∧ point.bezt.h1 = HD_ALIGN then MASK_HANDLE_MODE_STICK
  else MASK_HANDLE_MODE_INDIVIDUAL_HANDLES

/-- A mask point with all coordinates zero, the handle types `h1`, `h2` and the selection
flags `f1`, `f2`, `f3`. -/
def mask_point_at (h1 h2 f1 f2 f3 : Nat) : MaskSplinePoint Int :=
  ⟨⟨⟨0, 0, 0⟩, ⟨0, 0, 0⟩, ⟨0, 0, 0⟩, h1, h2, f1, f2, f3⟩⟩

/-- What the claim-side count says of a point: 3 when the knot is selected, otherwise 1
for a stick-mode point with a selected handle, otherwise one per selected handle. -/
def mask_point_records_spec (BKE_mask_point_handles_mode_get : MaskSplinePoint α → Nat)
    (point : MaskSplinePoint α) : Nat :=
  if point.bezt.f2 &&& SELECT ≠ 0 then 3
  else if BKE_mask_point_handles_mode_get point = MASK_HANDLE_MODE_STICK then
    (if point.bezt.f1 &&& SELECT ≠ 0 ∨ point.bezt.f3 &&& SELECT ≠ 0 then 1 else 0)
  else (if point.bezt.f1 &&& SELECT ≠ 0 then 1 else 0) +
    (if point.bezt.f3 &&& SELECT ≠ 0 then 1 else 0)

/-- The number of selected elements of the mask: the sum of `mask_point_records_spec` over
the points of the layers that are neither hidden nor unselectable. -/
def mask_selected_elements (BKE_mask_point_handles_mode_get : MaskSplinePoint α → Nat)
    (mask : Mask α) : Nat :=
  ((mask.masklayers.filter
      (fun masklay => masklay.restrictflag &&& MASK_RESTRICT_VIEW == 0 &&
        masklay.restrictflag &&& MASK_RESTRICT_SELECT == 0)).map
    (fun masklay => (masklay.splines.map
      (fun spline => (spline.points.map
        (mask_point_records_spec BKE_mask_point_handles_mode_get)).sum)).sum)).sum

/-- The handle types `(h1, h2)` of the points of a mask, by layer and spline. -/
def mask_handle_types (mask : Mask α) : List (List (List (Nat × Nat))) :=
  mask.masklayers.map (fun masklay => masklay.splines.map
    (fun spline => spline.points.map (fun point => (point.bezt.h1, point.bezt.h2))))

/-- A mask of one layer with one spline of one point. -/
def mask_of_point (point : MaskSplinePoint Int) : Mask Int :=
  ⟨[⟨0, [⟨[point]⟩]⟩]⟩

/-- Building the records of a mask and flushing them in the cancel state, with the
positions of the records as they were: the handle types afterwards. -/
def mask_build_cancel_handle_types (mask : Mask Int) : Option (List (List (List (Nat × Nat)))) :=
  (createTransMaskingData example_handles_mode false false false (some mask)).bind
    (fun r => r.2.bind (fun mask1 =>
      (flushTransMasking (fun _ m => m) true r.1 mask1).map mask_handle_types))

/-- A mask of two layers.  The first one has one spline of four points: one with the knot
selected, one with the left handle alone selected and automatic handles, one in stick mode
with the left handle selected, and one that is not selected.  The second layer is hidden
and has one point with the knot selected. -/
def example_mask : Mask Int :=
  ⟨[⟨0, [⟨[mask_point_at HD_FREE HD_FREE 0 SELECT 0, mask_point_at HD_AUTO HD_AUTO SELECT 0 0,
      mask_point_at HD_ALIGN HD_ALIGN SELECT 0 0, mask_point_at HD_FREE HD_FREE 0 0 0]⟩]⟩,
    ⟨MASK_RESTRICT_VIEW, [⟨[mask_point_at HD_FREE HD_FREE 0 SELECT 0]⟩]⟩]⟩

/-! ## Specification-side notions for the mask adapter -/

/-- The contract of `BKE_mask_point_handles_mode_get` used here: the changes of the handle
types `MaskPointToTransData` makes do not turn a point with individual handles into a
stick-mode point. -/
def HandlesModeStable (BKE_mask_point_handles_mode_get : MaskSplinePoint α → Nat) : Prop :=
  ∀ point, BKE_mask_point_handles_mode_get point ≠ MASK_HANDLE_MODE_STICK →
    BKE_mask_point_handles_mode_get (mask_left_handle_types point) ≠ MASK_HANDLE_MODE_STICK ∧
    BKE_mask_point_handles_mode_get (mask_right_handle_types point) ≠ MASK_HANDLE_MODE_STICK

/-- The records `MaskPointToTransData` leaves for the point at `ref`, without proportional
editing, in records that were zero. -/
def mask_point_group (BKE_mask_point_handles_mode_get : MaskSplinePoint α → Nat)
    (point : MaskSplinePoint α) (ref : Nat × Nat × Nat) : List MaskRecord :=
  (MaskPointToTransData_writes BKE_mask_point_handles_mode_get point ref false).2.map
    (fun f => f MaskRecord.zero)

/-- The groups of the points of the spline `s` of the layer `l`, from the point `i` on. -/
def mask_points_groups (BKE_mask_point_handles_mode_get : MaskSplinePoint α → Nat)
    (l s : Nat) : Nat → List (MaskSplinePoint α) → List MaskRecord
  | _, [] => []
  | i, point :: rest =>
    (if MASKPOINT_ISSEL_ANY point then
        mask_point_group BKE_mask_point_handles_mode_get point (l, s, i)
      else []) ++ mask_points_groups BKE_mask_point_handles_mode_get l s (i + 1) rest

/-- The groups of the splines of the layer `l`, from the spline `s` on. -/
def mask_splines_groups (BKE_mask_point_handles_mode_get : MaskSplinePoint α → Nat)
    (l : Nat) : Nat → List (MaskSpline α) → List MaskRecord
  | _, [] => []
  | s, spline :: rest =>
    mask_points_groups BKE_mask_point_handles_mode_get l s 0 spline.points ++
      mask_splines_groups BKE_mask_point_handles_mode_get l (s + 1) rest

/-- The groups of the layers from the layer `l` on. -/
def mask_layers_groups (BKE_mask_point_handles_mode_get : MaskSplinePoint α → Nat) :
    Nat → List (MaskLayer α) → List MaskRecord
  | _, [] => []
  | l, masklay :: rest =>
    (if masklay.restrictflag &&& (MASK_RESTRICT_VIEW ||| MASK_RESTRICT_SELECT) ≠ 0 then []
      else mask_splines_groups BKE_mask_point_handles_mode_get l 0 masklay.splines) ++
      mask_layers_groups BKE_mask_point_handles_mode_get (l + 1) rest

/-- The sum of what the counting loop adds to `countsel` for the points. -/
def mask_points_countsel (BKE_mask_point_handles_mode_get : MaskSplinePoint α → Nat)
    (points : List (MaskSplinePoint α)) : Nat :=
  (points.map (mask_point_countsel BKE_mask_point_handles_mode_get)).sum

/-- The sum of what the counting loop adds to `countsel` for the splines. -/
def mask_splines_countsel (BKE_mask_point_handles_mode_get : MaskSplinePoint α → Nat)
    (splines : List (MaskSpline α)) : Nat :=
  (splines.map
    (fun spline => mask_points_countsel BKE_mask_point_handles_mode_get spline.points)).sum

/-- The sum of what the counting loop adds to `countsel` for the layers. -/
def mask_layers_countsel (BKE_mask_point_handles_mode_get : MaskSplinePoint α → Nat)
    (masklayers : List (MaskLayer α)) : Nat :=
  (masklayers.map (fun masklay =>
    if masklay.restrictflag &&& (MASK_RESTRICT_VIEW ||| MASK_RESTRICT_SELECT) ≠ 0 then 0
    else mask_splines_countsel BKE_mask_point_handles_mode_get masklay.splines)).sum

/-! ## Paint curves: `createTransPaintCurveVerts` -/

/-- Modelled from the spec: a point `PaintCurvePoint` of a paint curve (spec §4.3,
paint-curve), declared in `DNA_brush_types.h`, outside the translated file: its Bezier
triple `bez`. -/
structure PaintCurvePoint (α : Type) where
  bez : BezTriple α
deriving DecidableEq, Repr

/-- Modelled from the spec: a paint curve `PaintCurve`, declared in `DNA_brush_types.h`,
outside the translated file: its points; `tot_points` is their number. -/
structure PaintCurve (α : Type) where
  points : List (PaintCurvePoint α)
deriving DecidableEq, Repr

/-- The record `TransDataPaintCurve` of the side table: the pointer `pcp`, here the
position of the point in the curve (`none` for `NULL`), and the handle `id`. -/
structure TransDataPaintCurve where
  pcp : Option Nat
  id : Nat
deriving DecidableEq, Repr

/-- One element of the three parallel arrays `tc->data`, `tc->data_2d` and
`tc->custom.type.data` of the paint-curve adapter: `flag` is `td->flag` and `tdpc` the
record of the side table. -/
structure PaintCurveRecord where
  flag : Nat
  tdpc : TransDataPaintCurve
deriving DecidableEq, Repr

/-- A record as `MEM_callocN` leaves it: all fields zero. -/
def PaintCurveRecord.zero : PaintCurveRecord :=
  ⟨0, ⟨none, 0⟩⟩

/-- The container after the paint-curve adapter ran: `data_len` and the three arrays,
allocated together with `data_len` elements each; `none` when they were not allocated. -/
structure PaintCurveContainer where
  data_len : Nat
  records : Option (List PaintCurveRecord)
deriving DecidableEq, Repr

/-- The macro `PC_IS_ANY_SEL(pc)`,
`(((pc)->bez.f1 | (pc)->bez.f2 | (pc)->bez.f3) & SELECT)`. -/
def PC_IS_ANY_SEL (pcp : PaintCurvePoint α) : Bool :=
  (pcp.bez.f1 ||| pcp.bez.f2 ||| pcp.bez.f3) &&& SELECT != 0

/-- The function `PaintCurveConvertHandle` for the point at `pcp` and the handle `id`, on
the record at the pointers. -/
def PaintCurveConvertHandle (pcp : Nat) (id : Nat) (_r : PaintCurveRecord) :
    PaintCurveRecord :=
  { flag := TD_SELECTED, tdpc := { pcp := some pcp, id := id } }

/-- The body of `PaintCurvePointToTransData` for the point `pcp` at position `ref`: the
records written, as changes of the records at the pointers and after them.  The first
branch is taken for `pcp->bez.f2 == SELECT`; its loop writes the same fields as
`PaintCurveConvertHandle`. -/
def PaintCurvePointToTransData_writes (pcp : PaintCurvePoint α) (ref : Nat) :
    List (PaintCurveRecord → PaintCurveRecord) :=
  if pcp.bez.f2 = SELECT then
    [PaintCurveConvertHandle ref 0, PaintCurveConvertHandle ref 1,
      PaintCurveConvertHandle ref 2]
  else
    (if pcp.bez.f3 &&& SELECT ≠ 0 then [PaintCurveConvertHandle ref 2] else []) ++
      (if pcp.bez.f1 &&& SELECT ≠ 0 then [PaintCurveConvertHandle ref 0] else [])

/-- The function `PaintCurvePointToTransData`, writing from `td` on; `none` when a record
lies outside the arrays. -/
def PaintCurvePointToTransData (pcp : PaintCurvePoint α) (ref : Nat)
    (arr : List PaintCurveRecord) (td : Nat) : Option (List PaintCurveRecord) :=
  apply_at arr td (PaintCurvePointToTransData_writes pcp ref)

/-- What the counting loop of `createTransPaintCurveVerts` adds to `total` for a point,
which is also the number its second loop moves the pointers by. -/
def paint_point_count (pcp : PaintCurvePoint α) : Nat :=
  if PC_IS_ANY_SEL pcp then
    if pcp.bez.f2 &&& SELECT ≠ 0 then 3
    else (if pcp.bez.f1 &&& SELECT ≠ 0 then 1 else 0) +
      (if pcp.bez.f3 &&& SELECT ≠ 0 then 1 else 0)
  else 0

/-- The counting loop `for (pcp = pc->points, i = 0; i < pc->tot_points; i++, pcp++)` of
`createTransPaintCurveVerts` on the points from `i` on. -/
def paint_count_points : List (PaintCurvePoint α) → Nat → Nat
  | [], total => total
  | pcp :: rest, total => paint_count_points rest (total + paint_point_count pcp)

/-- The second loop of `createTransPaintCurveVerts` on the points from `i` on, with the
pointers at `td`. -/
def paint_points_to_transdata :
    Nat → List (PaintCurvePoint α) → List PaintCurveRecord → Nat →
      Option (List PaintCurveRecord × Nat)
  | _, [], arr, td => some (arr, td)
  | i, pcp :: rest, arr, td =>
    if PC_IS_ANY_SEL pcp then
      match PaintCurvePointToTransData pcp i arr td with
      | none => none
      | some arr1 => paint_points_to_transdata (i + 1) rest arr1 (td + paint_point_count pcp)
    else paint_points_to_transdata (i + 1) rest arr td

/-- The function `createTransPaintCurveVerts`: `pc` is `paint->brush->paint_curve`, `none`
when there is no paint, no brush or no paint curve.  The result is the container, the one
of a new session without arrays when the function returns early; `none` when a record
lies outside the arrays. -/
def createTransPaintCurveVerts (pc : Option (PaintCurve α)) : Option PaintCurveContainer :=
  match pc with
  | none => some ⟨0, none⟩
  | some curve =>
    let total := paint_count_points curve.points 0
    if total = 0 then some ⟨0, none⟩
    else
      (paint_points_to_transdata 0 curve.points
        (List.replicate total PaintCurveRecord.zero) 0).map
        (fun r => ⟨total, some r.1⟩)

/-- A paint-curve point with all coordinates zero and the selection flags `f1`, `f2`,
`f3`. -/
def paint_point_at (f1 f2 f3 : Nat) : PaintCurvePoint Int :=
  ⟨⟨⟨0, 0, 0⟩, ⟨0, 0, 0⟩, ⟨0, 0, 0⟩, 0, 0, f1, f2, f3⟩⟩

/-! ## `countAndCleanTransDataContainer` -/

/-- The macro `SWAP(TransDataContainer, t->data_container[i], t->data_container[j])`;
`none` when a slot lies outside the array. -/
def swap_containers (data_container : List (TransDataContainer α)) (i j : Nat) :
    Option (List (TransDataContainer α)) :=
  match data_container[i]?, data_container[j]? with
  | some a, some b => some ((data_container.set i b).set j a)
  | _, _ => none

/-- The loop `for (tc = t->data_container + (t->data_container_len - 1); tc != th_end;
tc--)` of `countAndCleanTransDataContainer` with `n` slots left to visit, `tc` being the
slot `n - 1`: the state is the array, `t->data_container_len` and `t->data_len_all`.  The
result is `none` when a slot outside the array is read. -/
def count_clean_loop :
    Nat → List (TransDataContainer α) → Nat → Nat →
      Option (List (TransDataContainer α) × Nat × Nat)
  | 0, data_container, data_container_len, data_len_all =>
    some (data_container, data_container_len, data_len_all)
  | index + 1, data_container, data_container_len, data_len_all =>
    match data_container[index]? with
    | none => none
    | some tc =>
      if tc.data.length = 0 then
        let swapped :=
          if index + 1 ≠ data_container_len then
            swap_containers data_container index (data_container_len - 1)
          else some data_container
        match swapped with
        | none => none
        | some data_container1 =>
          count_clean_loop index data_container1 (data_container_len - 1) data_len_all
      else
        count_clean_loop index data_container data_container_len
          (data_len_all + tc.data.length)

/-- The function `countAndCleanTransDataContainer` on the array `t->data_container` of
`t->data_container_len` containers: the array afterwards (`MEM_reallocN` cuts it to the
new `data_container_len` slots), `t->data_container_len`, `t->data_len_all` and the value
returned.  The result is `none` when a slot outside the array is read.  The field
`data_container_len` is an `int` (declared in `transform.h`, outside the translated file),
so for an array without containers the loop starts at `th_end` and its body does not
run. -/
def countAndCleanTransDataContainer (data_container : List (TransDataContainer α)) :
    Option (List (TransDataContainer α) × Nat × Nat × Nat) :=
  match count_clean_loop data_container.length data_container data_container.length 0 with
  | none => none
  | some (data_container1, data_container_len, data_len_all) =>
    some (data_container1.take data_container_len, data_container_len, data_len_all,
      data_len_all)

/-! ## Transform modes -/

/-- Modelled from the spec: the transform mode `TFM_DUMMY` of `ED_transform.h`, outside
the translated file (spec §3, the mode of a session).  The modes are told apart by their
numbers only; these follow the order of the enumeration. -/
def TFM_DUMMY : Nat := 0

/-- Modelled from the spec: the transform mode `TFM_TRANSLATION` of `ED_transform.h`. -/
def TFM_TRANSLATION : Nat := 1

/-- Modelled from the spec: the transform mode `TFM_ROTATION` of `ED_transform.h`. -/
def TFM_ROTATION : Nat := 2

/-- Modelled from the spec: the transform mode `TFM_RESIZE` of `ED_transform.h`. -/
def TFM_RESIZE : Nat := 3

/-- Modelled from the spec: the transform mode `TFM_TRACKBALL` of `ED_transform.h`. -/
def TFM_TRACKBALL : Nat := 10

/-- Modelled from the spec: the transform mode `TFM_BONESIZE` of `ED_transform.h`. -/
def TFM_BONESIZE : Nat := 14

/-- Modelled from the spec: the transform mode `TFM_TIME_DUPLICATE` of `ED_transform.h`. -/
def TFM_TIME_DUPLICATE : Nat := 24

/-- Modelled from the spec: the transform mode `TFM_BONE_ENVELOPE_DIST` of
`ED_transform.h`. -/
def TFM_BONE_ENVELOPE_DIST : Nat := 32

/-! ## Graph editor: `flushTransGraphData` -/

/-- Modelled from the spec: the record flag `TD_NOTIMESNAP` of `transform.h`, outside the
translated file (spec §4.3, snapping policy of the editor).  It is taken as bit 14. -/
def TD_NOTIMESNAP : Nat := 16384

/-- Modelled from the spec: the record flag `TD_INTVALUES` of `transform.h`, outside the
translated file.  It is taken as bit 15. -/
def TD_INTVALUES : Nat := 32768

/-- Modelled from the spec: the record flag `TD_MOVEHANDLE1` of `transform.h`, outside the
translated file.  It is taken as bit 17. -/
def TD_MOVEHANDLE1 : Nat := 131072

/-- Modelled from the spec: the record flag `TD_MOVEHANDLE2` of `transform.h`, outside the
translated file.  It is taken as bit 18. -/
def TD_MOVEHANDLE2 : Nat := 262144

/-- Modelled from the spec: the auto-snap mode `SACTSNAP_OFF` (unsnapped) of
`DNA_action_types.h`, outside the translated file (spec §4.3: nearest integer frame,
nearest second, nearest marker, or unsnapped). -/
def SACTSNAP_OFF : Nat := 0

/-- Modelled from the spec: the auto-snap mode `SACTSNAP_STEP` (frame step). -/
def SACTSNAP_STEP : Nat := 1

/-- Modelled from the spec: the auto-snap mode `SACTSNAP_FRAME` (nearest frame). -/
def SACTSNAP_FRAME : Nat := 2

/-- Modelled from the spec: the auto-snap mode `SACTSNAP_MARKER` (nearest marker). -/
def SACTSNAP_MARKER : Nat := 3

/-- Modelled from the spec: the auto-snap mode `SACTSNAP_SECOND` (nearest second). -/
def SACTSNAP_SECOND : Nat := 4

/-- Modelled from the spec: the auto-snap mode `SACTSNAP_TSTEP` (second step). -/
def SACTSNAP_TSTEP : Nat := 5

/-- One element of the three parallel arrays of the graph editor, `tc->data`,
`tc->data_2d` and `tc->custom.type.data`, with the cells its pointers lead to: `flag` is
`td->flag`; `loc` is `td2d->loc`, to which `td->loc` points as in the adapters of the
translated file (`td->loc = td2d->loc`), and `iloc` is `td->iloc`;
`extra` is `td->extra`, the `AnimData` of an NLA mapping (`none` for `NULL`);
`unit_scale` and `offset` are the fields of `tdg`; `loc2d` is the point of the keyframe
`td2d->loc2d` points to (time and value); `h1`, `h2` are the handles `td2d->h1`, `td2d->h2`
point to (`none` for `NULL`) and `ih1`, `ih2` their initial values. -/
structure TransDataGraphRecord (α : Type) (σ : Type) where
  flag : Nat
  loc : V3 α
  iloc : V3 α
  extra : Option σ
  unit_scale : α
  offset : α
  loc2d : α × α
  h1 : Option (α × α)
  ih1 : α × α
  h2 : Option (α × α)
  ih2 : α × α

section Floor

variable [LinearOrderedField α] [FloorRing α]

/-- The expression `floor(x + 0.5)`. -/
def floor_half (x : α) : α :=
  ((Int.floor (x + 1 / 2) : Int) : α)

/-- The expression `floor((x / secf) + 0.5) * secf`. -/
def snap_second (secf x : α) : α :=
  floor_half (x / secf) * secf

/-- The body of the loop of `flushTransGraphData` for one record.  `canceled` is the test
`t->state == TRANS_CANCEL`, `autosnap` is `sipo->autosnap` and `secf` is `FPS`;
`BKE_nla_tweakedit_remap` (with `NLATIME_CONVERT_UNMAP`) and
`ED_markers_find_nearest_marker_time` are defined outside the translated file and are
parameters.  The steps are those of the source, in order: the snapping of `td2d->loc[0]`,
the time written to the keyframe, the step modes, the value, the handles. -/
def flush_graph_record {σ : Type} (BKE_nla_tweakedit_remap : σ → α → α)
    (ED_markers_find_nearest_marker_time : α → α) (secf : α) (canceled : Bool)
    (autosnap : Nat) (r : TransDataGraphRecord α σ) : TransDataGraphRecord α σ :=
  let inv_unit_scale : α := 1 / r.unit_scale
  let snap : Bool := !canceled && (r.flag &&& TD_NOTIMESNAP == 0)
  let loc_a : α :=
    if snap then
      if autosnap = SACTSNAP_FRAME then floor_half r.loc.x
      else if autosnap = SACTSNAP_SECOND then snap_second secf r.loc.x
      else if autosnap = SACTSNAP_MARKER then ED_markers_find_nearest_marker_time r.loc.x
      else r.loc.x
    else r.loc.x
  let loc2d_a : α :=
    match r.extra with
    | some adt => BKE_nla_tweakedit_remap adt loc_a
    | none => loc_a
  let step : α × α :=
    if snap && (autosnap = SACTSNAP_STEP || autosnap = SACTSNAP_TSTEP) then
      if autosnap = SACTSNAP_STEP then (floor_half loc_a, floor_half loc_a)
      else (loc2d_a, snap_second secf (snap_second secf loc_a))
    else (loc2d_a, loc_a)
  let loc2d_y : α :=
    if r.flag &&& TD_INTVALUES ≠ 0 then
      ((Int.floor (r.loc.y * inv_unit_scale - r.offset + 1 / 2) : Int) : α)
    else r.loc.y * inv_unit_scale - r.offset
  let h1 : Option (α × α) :=
    if r.flag &&& TD_MOVEHANDLE1 ≠ 0 then
      r.h1.map (fun _ =>
        (r.ih1.1 + step.2 - r.iloc.x, r.ih1.2 + (r.loc.y - r.iloc.y) * inv_unit_scale))
    else r.h1
  let h2 : Option (α × α) :=
    if r.flag &&& TD_MOVEHANDLE2 ≠ 0 then
      r.h2.map (fun _ =>
        (r.ih2.1 + step.2 - r.iloc.x, r.ih2.2 + (r.loc.y - r.iloc.y) * inv_unit_scale))
    else r.h2
  { r with loc := { r.loc with x := step.2 }, loc2d := (step.1, loc2d_y), h1 := h1, h2 := h2 }

/-- The function `flushTransGraphData` on the `data_len` records of the container. -/
def flushTransGraphData {σ : Type} (BKE_nla_tweakedit_remap : σ → α → α)
    (ED_markers_find_nearest_marker_time : α → α) (secf : α) (canceled : Bool)
    (autosnap : Nat) (data : List (TransDataGraphRecord α σ)) :
    List (TransDataGraphRecord α σ) :=
  data.map (flush_graph_record BKE_nla_tweakedit_remap ED_markers_find_nearest_marker_time
    secf canceled autosnap)

end Floor

/-! ## Animation editors: `special_aftertrans_update` -/

/-- Modelled from the spec: the editor type `SPACE_GRAPH` of `DNA_space_types.h`, outside
the translated file (spec §4.3, per-editor policy). -/
def SPACE_GRAPH : Nat := 2

/-- Modelled from the spec: the editor type `SPACE_ACTION` of `DNA_space_types.h`. -/
def SPACE_ACTION : Nat := 12

/-- Modelled from the spec: the flag `SACTION_NOTRANSKEYCULL` of the action editor
(`DNA_action_types.h`, outside the translated file): no cleanup of duplicate keys after a
transform.  It is taken as bit 4. -/
def SACTION_NOTRANSKEYCULL : Nat := 16

/-- Modelled from the spec: the flag `SIPO_NOTRANSKEYCULL` of the graph editor
(`DNA_space_types.h`, outside the translated file).  It is taken as bit 1. -/
def SIPO_NOTRANSKEYCULL : Nat := 2

/-- Modelled from the spec: the flag `SIPO_NOHANDLES` of the graph editor.  It is taken as
bit 2. -/
def SIPO_NOHANDLES : Nat := 4

/-- Modelled from the spec: the option `CTX_GPENCIL_STROKES` of `transform.h`, outside the
translated file.  It is taken as bit 7. -/
def CTX_GPENCIL_STROKES : Nat := 128

/-- Modelled from the spec: the kind of animation data `ANIMCONT_ACTION` of
`ED_anim_api.h`, outside the translated file. -/
def ANIMCONT_ACTION : Nat := 1

/-- Modelled from the spec: the kind of animation data `ANIMCONT_SHAPEKEY`. -/
def ANIMCONT_SHAPEKEY : Nat := 2

/-- Modelled from the spec: the kind of animation data `ANIMCONT_GPENCIL`. -/
def ANIMCONT_GPENCIL : Nat := 3

/-- Modelled from the spec: the kind of animation data `ANIMCONT_DOPESHEET`. -/
def ANIMCONT_DOPESHEET : Nat := 4

/-- Modelled from the spec: the kind of animation data `ANIMCONT_MASK`. -/
def ANIMCONT_MASK : Nat := 9

/-- Modelled from the spec: the kind of animation data `ANIMCONT_TIMELINE`. -/
def ANIMCONT_TIMELINE : Nat := 10

/-- Modelled from the spec: a channel `bAnimListElem` of the list `ANIM_animdata_filter`
returns (`ED_anim_api.h`, outside the translated file): the F-curve `key_data` and the
`AnimData` that `ANIM_nla_mapping_get` gives for it, `none` for `NULL`. -/
structure bAnimListElem (α : Type) (σ : Type) where
  adt : Option σ
  key_data : FCurve α

/-- A call made by `special_aftertrans_update`: `posttrans_fcurve_clean` on the F-curve of
the channel at a position of the list with `use_handle`, or
`ANIM_editkeyframes_refresh`. -/
inductive AnimEvent where
  | clean (channel : Nat) (use_handle : Bool)
  | refresh
deriving DecidableEq, Repr

/-- The functions of the animation system that `special_aftertrans_update` calls, all
defined outside the translated file: `ANIM_nla_mapping_apply_fcurve(adt, fcu, restore, 0)`,
`testhandles_fcurve` and the constant `BEZT_BINARYSEARCH_THRESH` used by
`posttrans_fcurve_clean`, and `ANIM_editkeyframes_refresh` as it acts on the F-curves of
the channels. -/
structure AnimOps (α : Type) (σ : Type) where
  ANIM_nla_mapping_apply_fcurve : σ → FCurve α → Bool → FCurve α
  testhandles_fcurve : List (BezTriple α) → Bool → List (BezTriple α)
  BEZT_BINARYSEARCH_THRESH : α
  ANIM_editkeyframes_refresh : List (bAnimListElem α σ) → List (bAnimListElem α σ)

section Field

variable [LinearOrderedField α] {σ : Type}

/-- The cleanup of one channel, the same statements in `posttrans_action_clean` and in the
two loops of `special_aftertrans_update`: with an NLA mapping the F-curve is mapped, cleaned
and mapped back, without one it is cleaned. -/
def anim_clean_channel (ops : AnimOps α σ) (use_handle : Bool) (ale : bAnimListElem α σ) :
    bAnimListElem α σ :=
  match ale.adt with
  | some adt =>
    let fcu1 := ops.ANIM_nla_mapping_apply_fcurve adt ale.key_data false
    let fcu2 := posttrans_fcurve_clean ops.testhandles_fcurve ops.BEZT_BINARYSEARCH_THRESH
      fcu1 use_handle
    { ale with key_data := ops.ANIM_nla_mapping_apply_fcurve adt fcu2 true }
  | none =>
    let fcu1 := posttrans_fcurve_clean ops.testhandles_fcurve ops.BEZT_BINARYSEARCH_THRESH
      ale.key_data use_handle
    { ale with key_data := fcu1 }

/-- The loop `for (ale = anim_data.first; ale; ale = ale->next)` of the action editor and of
the graph editor, from the channel at position `k` on; `cull` is the value of the test
`(flag & NOTRANSKEYCULL) == 0 && ((canceled == 0) || (duplicate))`, made for each
channel. -/
def anim_clean_loop (ops : AnimOps α σ) (cull : Bool) (use_handle : Bool) :
    Nat → List (bAnimListElem α σ) → List (bAnimListElem α σ) × List AnimEvent
  | _, [] => ([], [])
  | k, ale :: rest =>
    let r := anim_clean_loop ops cull use_handle (k + 1) rest
    if cull then
      (anim_clean_channel ops use_handle ale :: r.1, AnimEvent.clean k use_handle :: r.2)
    else (ale :: r.1, r.2)

/-- The function `posttrans_action_clean` on the channels of the action. -/
def posttrans_action_clean (ops : AnimOps α σ) (anim_data : List (bAnimListElem α σ)) :
    List (bAnimListElem α σ) × List AnimEvent :=
  anim_clean_loop ops true false 0 anim_data

/-- The function `special_aftertrans_update` in the action editor and the graph editor, as
it acts on F-curves: `spacetype`, `data_len_all`, `mode` and `options` are the fields
of `t`, `canceled` is `t->state == TRANS_CANCEL`, `editor_flag` is `saction->flag` or
`sipo->flag`, `datatype` is `ac.datatype` (`none` when `ANIM_animdata_get_context` fails)
and `anim_data` the channels `ANIM_animdata_filter` lists.  The result is the channels
afterwards and the calls made, in order.  The branches for grease-pencil frames and mask
shapes, and the moving of markers, act on other data and are left out, as are the other
editors. -/
def special_aftertrans_update (ops : AnimOps α σ) (spacetype data_len_all mode options : Nat)
    (canceled : Bool) (editor_flag : Nat) (datatype : Option Nat)
    (anim_data : List (bAnimListElem α σ)) : List (bAnimListElem α σ) × List AnimEvent :=
  let duplicate : Bool := mode = TFM_TIME_DUPLICATE
  if data_len_all = 0 ∨ mode = TFM_DUMMY then (anim_data, [])
  else if options &&& CTX_GPENCIL_STROKES ≠ 0 then (anim_data, [])
  else if spacetype = SPACE_ACTION then
    match datatype with
    | none => (anim_data, [])
    | some dt =>
      let cull : Bool :=
        (editor_flag &&& SACTION_NOTRANSKEYCULL == 0) && (!canceled || duplicate)
      let r : List (bAnimListElem α σ) × List AnimEvent :=
        if dt = ANIMCONT_DOPESHEET ∨ dt = ANIMCONT_SHAPEKEY ∨ dt = ANIMCONT_TIMELINE then
          anim_clean_loop ops cull false 0 anim_data
        else if dt = ANIMCONT_ACTION then
          if cull then posttrans_action_clean ops anim_data else (anim_data, [])
        else (anim_data, [])
      if dt ≠ ANIMCONT_GPENCIL ∧ dt ≠ ANIMCONT_MASK then
        (ops.ANIM_editkeyframes_refresh r.1, r.2 ++ [AnimEvent.refresh])
      else r
  else if spacetype = SPACE_GRAPH then
    match datatype with
    | none => (anim_data, [])
    | some dt =>
      let use_handle : Bool := editor_flag &&& SIPO_NOHANDLES == 0
      let cull : Bool :=
        (editor_flag &&& SIPO_NOTRANSKEYCULL == 0) && (!canceled || duplicate)
      let r : List (bAnimListElem α σ) × List AnimEvent :=
        if dt ≠ 0 then anim_clean_loop ops cull use_handle 0 anim_data else (anim_data, [])
      if !canceled then (ops.ANIM_editkeyframes_refresh r.1, r.2 ++ [AnimEvent.refresh])
      else r
  else (anim_data, [])

/-- The contexts in which the loops over the F-curves of an animation editor are reached:
something was transformed, the mode is not `TFM_DUMMY`, the option `CTX_GPENCIL_STROKES`
is off, and the editor is the action editor showing the dope sheet, shape keys, the
timeline or an action, or the graph editor with animation data. -/
def anim_editor_context (spacetype data_len_all mode options : Nat) (datatype : Option Nat) :
    Bool :=
  data_len_all != 0 && mode != TFM_DUMMY && (options &&& CTX_GPENCIL_STROKES == 0) &&
    ((spacetype == SPACE_ACTION &&
        (datatype == some ANIMCONT_DOPESHEET || datatype == some ANIMCONT_SHAPEKEY ||
          datatype == some ANIMCONT_TIMELINE || datatype == some ANIMCONT_ACTION)) ||
      (spacetype == SPACE_GRAPH && datatype.isSome && datatype != some 0))

/-- The flag `NOTRANSKEYCULL` of the editor. -/
def NOTRANSKEYCULL (spacetype : Nat) : Nat :=
  if spacetype = SPACE_ACTION then SACTION_NOTRANSKEYCULL else SIPO_NOTRANSKEYCULL

/-- The value of `use_handle` the editor passes to `posttrans_fcurve_clean`. -/
def anim_use_handle (spacetype editor_flag : Nat) : Bool :=
  if spacetype = SPACE_ACTION then false else editor_flag &&& SIPO_NOHANDLES == 0

/-- The calls of `posttrans_fcurve_clean` among the calls made. -/
def clean_events (events : List AnimEvent) : List AnimEvent :=
  events.filter (fun e => e != AnimEvent.refresh)

end Field

/-- Functions of the animation system for examples: no NLA mapping, handles and curves
left as they are, threshold 0.01. -/
def example_anim_ops : AnimOps ℚ Unit :=
  { ANIM_nla_mapping_apply_fcurve := fun _ fcu _ => fcu
    testhandles_fcurve := fun l _ => l
    BEZT_BINARYSEARCH_THRESH := 1 / 100
    ANIM_editkeyframes_refresh := fun l => l }

/-- Two channels for examples, each an F-curve with two selected keys on frame 1. -/
def example_channels : List (bAnimListElem ℚ Unit) :=
  [⟨none, ⟨0, [key_at ℚ 1 2 SELECT, key_at ℚ 1 4 SELECT]⟩⟩,
    ⟨none, ⟨0, [key_at ℚ 1 2 SELECT, key_at ℚ 1 4 SELECT]⟩⟩]

/-! ## Pose mode: the chain walk of `apply_targetless_ik` -/

/-- The loop `for (; parchan; parchan = parchan->parent)` of `apply_targetless_ik`: the
channels from `parchan` up to the root of the armature are given as a list (the parent
chain, `parchan` first), `chanlist` is the buffer `bPoseChannel *chanlist[256]`, an entry
`none` being one that was not written, and `rootbone` is `data->rootbone`.  The result is
the buffer and `segcount` after the loop; `none` is a write outside the buffer. -/
def ik_chain_walk {β : Type} (rootbone : Int) :
    List β → List (Option β) → Nat → Option (List (Option β) × Nat)
  | [], chanlist, segcount => some (chanlist, segcount)
  | parchan :: parents, chanlist, segcount =>
    if segcount < chanlist.length then
      let chanlist1 := chanlist.set segcount (some parchan)
      let segcount1 := segcount + 1
      if (segcount1 : Int) = rootbone ∨ segcount1 > 255 then some (chanlist1, segcount1)
      else ik_chain_walk rootbone parents chanlist1 segcount1
    else none

/-- The loop `for (; segcount; segcount--)` of `apply_targetless_ik`: the channels
`chanlist[segcount - 1]` it reads, in the order it reads them; their bones get
`BONE_TRANSFORM` and the channels the rotation and size of the solved pose.  The result is
`none` for a read outside the buffer or of an entry that was not written. -/
def ik_chain_apply {β : Type} : Nat → List (Option β) → Option (List β)
  | 0, _ => some []
  | segcount + 1, chanlist =>
    match chanlist[segcount]? with
    | some (some parchan) => (ik_chain_apply segcount chanlist).map (fun r => parchan :: r)
    | _ => none

/-- The body of the loop of `apply_targetless_ik` for a channel `pchan` with an automatic
target-less IK constraint, as far as the chain goes: `chain` is `pchan` followed by its
parents up to the root, `tip` the test `data->flag & CONSTRAINT_IK_TIP`, and the result the
channels the transformation is applied to, in order. -/
def apply_targetless_ik_chain {β : Type} (tip : Bool) (rootbone : Int) (chain : List β) :
    Option (List β) :=
  let start := if tip then chain else chain.tail
  match ik_chain_walk rootbone start (List.replicate 256 none) 0 with
  | none => none
  | some (chanlist, segcount) => ik_chain_apply segcount chanlist

/-! ## Motion tracking: `flushTransTracking` -/

/-- Modelled from the spec: the session flag `T_ALT_TRANSFORM` of `transform.h`, outside
the translated file.  It is taken as bit 24. -/
def T_ALT_TRANSFORM : Nat := 16777216

/-- The fields of the record `TransDataTracking` that the control flow of
`flushTransTracking` reads: `mode`, `area`, whether `relative` is set (it is for every
record `markerToTransDataInit` gets a `rel` for: the offset record, the pattern corners
and the search area) and `markersnr`, the number of markers of the track. -/
structure TransDataTrackingFlush where
  mode : Nat
  area : Nat
  relative : Bool
  markersnr : Nat
deriving DecidableEq, Repr

/-- The value of the variable `a` at the end of the body of the loop of
`flushTransTracking` for the record `tdt`.  The branch for `T_ALT_TRANSFORM`,
`TFM_TRANSLATION` and a record of the area `TRACK_AREA_POINT` with `relative` set runs
`for (a = 0; a < tdt->markersnr; a++)` with the counter `a` of the outer loop, which
leaves `a` at `tdt->markersnr`; every other path leaves `a` as it is. -/
def flush_tracking_body (t_mode t_flag : Nat) (tdt : TransDataTrackingFlush) (a : Nat) : Nat :=
  if tdt.mode = transDataTracking_ModeTracks then
    if t_mode = TFM_ROTATION ∧ tdt.area = TRACK_AREA_SEARCH then a
    else if t_flag &&& T_ALT_TRANSFORM ≠ 0 then
      if t_mode = TFM_RESIZE then a
      else if t_mode = TFM_TRANSLATION then
        if tdt.area = TRACK_AREA_POINT ∧ tdt.relative = true then tdt.markersnr else a
      else a
    else a
  else a

/-- The loop `for (a = 0, td = tc->data, td2d = tc->data_2d, tdt = tc->custom.type.data;
a < tc->data_len; a++, td2d++, td++, tdt++)` of `flushTransTracking`: `a` is the counter,
`i` the position the three pointers are at, `visited` the positions read so far.  The
arrays hold the records `records`; the result is `none` when the pointers are read at a
position outside them.  The first argument bounds the number of passes: the pointers move
by one in each pass, so one pass more than there are records ends in a read outside. -/
def flush_tracking_loop (t_mode t_flag : Nat) (records : List TransDataTrackingFlush)
    (data_len : Nat) : Nat → Nat → Nat → List Nat → Option (List Nat)
  | 0, _, _, _ => none
  | fuel + 1, a, i, visited =>
    if a < data_len then
      match records[i]? with
      | none => none
      | some tdt =>
        flush_tracking_loop t_mode t_flag records data_len fuel
          (flush_tracking_body t_mode t_flag tdt a + 1) (i + 1) (visited ++ [i])
    else some visited

/-- The function `flushTransTracking` on a container whose arrays hold the `data_len`
records `records`, for the mode `t->mode` and the flags `t->flag`: the positions of the
records visited, in order, or `none` when a record outside the arrays is read.  The call
of `cancelTransTracking` that a cancelled transform makes first does not change the
arrays or `data_len`. -/
def flushTransTracking (t_mode t_flag : Nat) (records : List TransDataTrackingFlush) :
    Option (List Nat) :=
  flush_tracking_loop t_mode t_flag records records.length (records.length + 2) 0 0 []

/-- The offset record of a track with `markersnr` markers, as `trackToTransData` makes
it. -/
def track_offset_record (markersnr : Nat) : TransDataTrackingFlush :=
  ⟨transDataTracking_ModeTracks, TRACK_AREA_POINT, true, markersnr⟩

/-- The record of the point of a track with `markersnr` markers, as `trackToTransData`
makes it when the point is selected. -/
def track_point_record (markersnr : Nat) : TransDataTrackingFlush :=
  ⟨transDataTracking_ModeTracks, TRACK_AREA_POINT, false, markersnr⟩

/-! ## F-curve keyframes: a second example -/

/-- Three selected keys at the frames 0, 0.008 and 0.016, with the values 1, 2 and 5:
neighbours are 0.008 apart, less than the threshold 0.01, and the first and the last are
0.016 apart, more than the threshold. -/
def chain3 (α : Type) [LinearOrderedField α] : List (BezTriple α) :=
  [key_at α 0 1 SELECT, key_at α (8 / 1000) 2 SELECT, key_at α (16 / 1000) 5 SELECT]

/-! ## Grease-pencil frames: `posttrans_gpd_clean` -/

/-- Modelled from the spec: the frame flag `GP_FRAME_SELECT` of `DNA_gpencil_types.h`,
outside the translated file.  It is taken as bit 1. -/
def GP_FRAME_SELECT : Nat := 2

/-- Modelled from the spec: a frame `bGPDframe` of a grease-pencil layer (spec §4.3,
keyframes of the animation editors), declared in `DNA_gpencil_types.h`, outside the
translated file: its frame number and its flag. -/
structure bGPDframe where
  framenum : Int
  flag : Nat
deriving DecidableEq, Repr

/-- The value `gpf_cmp_frame(thunk, a, b)` returns: frames in the order of their numbers,
and of two frames with the same number a selected one after one that is not. -/
def gpf_cmp_frame (frame_a frame_b : bGPDframe) : Int :=
  if frame_a.framenum < frame_b.framenum then -1
  else if frame_a.framenum > frame_b.framenum then 1
  else if frame_a.flag &&& GP_FRAME_SELECT ≠ 0 ∧ frame_b.flag &&& GP_FRAME_SELECT = 0 then 1
  else 0

/-- Whether the call `gpf_cmp_frame(thunk, a, b)` sets `*thunk` to `true`: it does when
the frames have the same number. -/
def gpf_cmp_frame_thunk (frame_a frame_b : bGPDframe) : Bool :=
  !(decide (frame_a.framenum < frame_b.framenum)) &&
    !(decide (frame_a.framenum > frame_b.framenum))

/-- The loop `for (gpf = gpl->frames.first; gpf; gpf = gpfn)` of `posttrans_gpd_clean`: a
frame followed by a frame of the same number is deleted
(`BKE_gpencil_layer_delframe`, which takes it out of the list). -/
def gp_delete_doubles : List bGPDframe → List bGPDframe
  | [] => []
  | [gpf] => [gpf]
  | gpf :: gpfn :: rest =>
    if gpf.framenum = gpfn.framenum then gp_delete_doubles (gpfn :: rest)
    else gpf :: gp_delete_doubles (gpfn :: rest)

/-- The body of the loop of `posttrans_gpd_clean` for the frames of one layer.
`BLI_listbase_sort_r` is defined outside the translated file and is a parameter: for a
callback and a list it gives the sorted list and the pairs of elements it called the
callback on, from which `is_double` follows. -/
def posttrans_gpd_clean_layer
    (BLI_listbase_sort_r : (bGPDframe → bGPDframe → Int) → List bGPDframe →
      List bGPDframe × List (bGPDframe × bGPDframe))
    (frames : List bGPDframe) : List bGPDframe :=
  let sorted := BLI_listbase_sort_r gpf_cmp_frame frames
  let is_double : Bool := sorted.2.any (fun p => gpf_cmp_frame_thunk p.1 p.2)
  if is_double then gp_delete_doubles sorted.1 else sorted.1

/-- The function `posttrans_gpd_clean` on the frames of the layers of `gpd`. -/
def posttrans_gpd_clean
    (BLI_listbase_sort_r : (bGPDframe → bGPDframe → Int) → List bGPDframe →
      List bGPDframe × List (bGPDframe × bGPDframe))
    (layers : List (List bGPDframe)) : List (List bGPDframe) :=
  layers.map (posttrans_gpd_clean_layer BLI_listbase_sort_r)

/-- The contract of `BLI_listbase_sort_r` used here: the list is rearranged, for a
consistent callback it ends up in ascending order, and two elements that end up next to
each other were compared by a call of the callback. -/
def ListSortSpec {β : Type} (sort : (β → β → Int) → List β → List β × List (β × β)) : Prop :=
  ∀ cmp l, (sort cmp l).1.Perm l ∧
    (ConsistentCmp cmp → (sort cmp l).1.Pairwise (fun a b => cmp a b ≤ 0)) ∧
    (sort cmp l).1.Chain' (fun a b => (a, b) ∈ (sort cmp l).2 ∨ (b, a) ∈ (sort cmp l).2)

/-- An executable instance of `BLI_listbase_sort_r`: insertion sort by the callback,
after the callback was called on every pair of elements. -/
def listbase_sort_insertion {β : Type} (cmp : β → β → Int) (l : List β) :
    List β × List (β × β) :=
  (l.insertionSort (fun a b => cmp a b ≤ 0), l.product l)

/-- Frames of a layer for examples: numbers 5, 3, 5, 3, 7 with the first frame of number
5 and the last of number 3 selected. -/
def example_frames : List bGPDframe :=
  [⟨5, GP_FRAME_SELECT⟩, ⟨3, 0⟩, ⟨5, 0⟩, ⟨3, GP_FRAME_SELECT⟩, ⟨7, 0⟩]

/-! ## Graph editor: `bezt_to_beztmaps` and `sort_time_beztmaps` -/

/-- The record `BeztMap`: `bezt` is the keyframe the record points to (the array
`fcu->bezt` is not changed while the records are sorted), `oldIndex` and `newIndex` its
index before and after sorting, and `swapHs` the order of the handles (-1 clear, 0 not
checked, 1 swap).  The fields `pipo` and `cipo`, copies of the interpolation of the
keyframes that the sorting does not read, are left out.  The indices are `unsigned int`;
they stay below the number of keyframes. -/
structure BeztMap (α : Type) where
  bezt : BezTriple α
  oldIndex : Nat
  newIndex : Nat
  swapHs : Int
deriving DecidableEq, Repr

/-- The loop of `bezt_to_beztmaps` on the keyframes from index `i` on, in records that
`MEM_callocN` left zero. -/
def bezt_to_beztmaps_from : Nat → List (BezTriple α) → List (BeztMap α)
  | _, [] => []
  | i, bezt :: rest => ⟨bezt, i, i, 0⟩ :: bezt_to_beztmaps_from (i + 1) rest

/-- The function `bezt_to_beztmaps`; the empty list stands for the result `NULL` for
`totvert == 0`. -/
def bezt_to_beztmaps (bezts : List (BezTriple α)) : List (BeztMap α) :=
  bezt_to_beztmaps_from 0 bezts

section Field

variable [LinearOrderedField α]

/-- The statement `if (bezm->swapHs == 0) { ... }` of `sort_time_beztmaps`: a record not
checked yet gets 1 when both handles lie on the wrong side of the keyframe and -1
otherwise. -/
def beztmap_check_handles (bezm : BeztMap α) : BeztMap α :=
  if bezm.swapHs = 0 then
    if bezm.bezt.vec0.x > bezm.bezt.vec1.x ∧ bezm.bezt.vec2.x < bezm.bezt.vec1.x then
      { bezm with swapHs := 1 }
    else { bezm with swapHs := -1 }
  else bezm

/-- The inner loop `while (i--)` of `sort_time_beztmaps` from a position on: `bezm` is the
record at the pointer, `rest` the records after it.  The result is the records from that
position on after the pass and whether a swap set `ok`.  In the records built by
`bezt_to_beztmaps` the `newIndex` of the record after the pointer is at least 1, so the
decrement does not wrap. -/
def sort_time_beztmaps_pass (bezm : BeztMap α) : List (BeztMap α) → List (BeztMap α) × Bool
  | [] => ([beztmap_check_handles bezm], false)
  | next :: rest =>
    if bezm.bezt.vec1.x > next.bezt.vec1.x then
      let bezm1 : BeztMap α := { bezm with newIndex := bezm.newIndex + 1 }
      let next1 : BeztMap α := { next with newIndex := next.newIndex - 1 }
      let r := sort_time_beztmaps_pass bezm1 rest
      (beztmap_check_handles next1 :: r.1, true)
    else
      let r := sort_time_beztmaps_pass next rest
      (beztmap_check_handles bezm :: r.1, r.2)

/-- The loop `while (ok)` of `sort_time_beztmaps`, with a bound on the number of passes;
`none` when the bound is reached. -/
def sort_time_beztmaps_loop : Nat → List (BeztMap α) → Option (List (BeztMap α))
  | 0, _ => none
  | fuel + 1, bezms =>
    match bezms with
    | [] => some []
    | bezm :: rest =>
      let r := sort_time_beztmaps_pass bezm rest
      if r.2 then sort_time_beztmaps_loop fuel r.1 else some r.1

/-- The function `sort_time_beztmaps` on the `totvert` records `bezms`.  Every pass but
the last one swaps two records that were out of order, of which there are less than
`totvert * totvert`; the result is `none` if more passes are needed. -/
def sort_time_beztmaps (bezms : List (BeztMap α)) : Option (List (BeztMap α)) :=
  sort_time_beztmaps_loop (bezms.length * bezms.length + 1) bezms

/-- The number of pairs of frames that are out of order. -/
def frame_inversions : List α → Nat
  | [] => 0
  | a :: l => l.countP (fun b => decide (b < a)) + frame_inversions l

end Field

/-! ## Pose mode: `bone_children_clear_transflag` and `count_set_pose_transflags` -/

/-- Modelled from the spec: the bone flag `BONE_SELECTED` of `DNA_armature_types.h`,
outside the translated file (spec §4.3, pose and armature: the tree walk marks and clears
bit flags).  It is taken as bit 0. -/
def BONE_SELECTED : Nat := 1

/-- Modelled from the spec: the bone flag `BONE_TRANSFORM` (the bone takes part in the
transform) of `DNA_armature_types.h`.  It is taken as bit 3. -/
def BONE_TRANSFORM : Nat := 8

/-- Modelled from the spec: the bone flag `BONE_CONNECTED` (the head of the bone is on the
tail of its parent) of `DNA_armature_types.h`.  It is taken as bit 4. -/
def BONE_CONNECTED : Nat := 16

/-- Modelled from the spec: the bone flag `BONE_HIDDEN_P` (hidden in pose mode) of
`DNA_armature_types.h`.  It is taken as bit 6. -/
def BONE_HIDDEN_P : Nat := 64

/-- Modelled from the spec: the bone flag `BONE_HINGE` (the bone does not inherit the
rotation of its parent) of `DNA_armature_types.h`.  It is taken as bit 9. -/
def BONE_HINGE : Nat := 512

/-- Modelled from the spec: the bone flag `BONE_HINGE_CHILD_TRANSFORM` of
`DNA_armature_types.h`.  It is taken as bit 14. -/
def BONE_HINGE_CHILD_TRANSFORM : Nat := 16384

/-- Modelled from the spec: the bone flag `BONE_TRANSFORM_CHILD` of
`DNA_armature_types.h`.  It is taken as bit 20. -/
def BONE_TRANSFORM_CHILD : Nat := 1048576

/-- Modelled from the spec: the bone flag `BONE_TRANSFORM_MIRROR` of
`DNA_armature_types.h`.  It is taken as bit 25. -/
def BONE_TRANSFORM_MIRROR : Nat := 33554432

/-- Modelled from the spec: the pivot setting `V3D_AROUND_LOCAL_ORIGINS` (every element
turns about its own origin) of `DNA_view3d_types.h`, outside the translated file.  The
pivot settings are told apart by their numbers only. -/
def V3D_AROUND_LOCAL_ORIGINS : Nat := 2

/-- Modelled from the spec: a pointer `Bone *` together with what can be reached from it
(spec §4.3, pose and armature: a tree of bones).  `null` is the pointer `NULL`; a bone has
its `flag`, its `layer`, the first bone of its `childbase` and the bone `next` in the list
it is in.  The fields of `Bone` that the flag pass does not read are left out. -/
inductive Bone where
  | null : Bone
  | mk (flag layer : Nat) (childbase next : Bone) : Bone
deriving DecidableEq, Repr

/-- One step from a bone: to the first bone of its `childbase` or to `next`. -/
inductive BoneStep where
  | child : BoneStep
  | next : BoneStep
deriving DecidableEq, Repr

/-- The bone reached from `bone` by the steps of `p`; the pointer `pchan->bone` of a pose
channel is given by the steps from the first bone of `arm->bonebase`. -/
def bone_at : Bone → List BoneStep → Bone
  | bone, [] => bone
  | Bone.null, _ :: _ => Bone.null
  | Bone.mk _ _ childbase _, BoneStep.child :: p => bone_at childbase p
  | Bone.mk _ _ _ next, BoneStep.next :: p => bone_at next p

/-- The flag and the layer of the bone reached by the steps of `p`. -/
def bone_node_at (bone : Bone) (p : List BoneStep) : Option (Nat × Nat) :=
  match bone_at bone p with
  | Bone.null => none
  | Bone.mk flag layer _ _ => some (flag, layer)

/-- The steps to every bone that can be reached from `bone`. -/
def bone_addresses : Bone → List (List BoneStep)
  | Bone.null => []
  | Bone.mk _ _ childbase next =>
    [] :: ((bone_addresses childbase).map (fun p => BoneStep.child :: p) ++
      (bone_addresses next).map (fun p => BoneStep.next :: p))

/-- An assignment through the pointer given by the steps of `p`: `f` gives the new flag
of the bone and the new content of its `childbase` from the old flag, the layer and the
old `childbase`; `none` when the pointer is `NULL`. -/
def bone_update (f : Nat → Nat → Bone → Nat × Bone) : List BoneStep → Bone → Option Bone
  | _, Bone.null => none
  | [], Bone.mk flag layer childbase next =>
    some (Bone.mk (f flag layer childbase).1 layer (f flag layer childbase).2 next)
  | BoneStep.child :: p, Bone.mk flag layer childbase next =>
    (bone_update f p childbase).map (fun childbase1 => Bone.mk flag layer childbase1 next)
  | BoneStep.next :: p, Bone.mk flag layer childbase next =>
    (bone_update f p next).map (fun next1 => Bone.mk flag layer childbase next1)

/-- Modelled from the spec: the test `PBONE_VISIBLE(arm, bone)` of `BKE_armature.h`,
outside the translated file (spec §4.3: the eligible bones are visible): the bone is on a
layer of the armature that is shown and is not hidden in pose mode. -/
def PBONE_VISIBLE (arm_layer flag layer : Nat) : Bool :=
  (layer &&& arm_layer != 0) && !(flag &&& BONE_HIDDEN_P != 0)

/-- The change of `bone->flag` in the loop body of `bone_children_clear_transflag`. -/
def bone_clear_transflag (mode around flag : Nat) : Nat :=
  if flag &&& BONE_HINGE ≠ 0 ∧ flag &&& BONE_CONNECTED ≠ 0 then
    flag ||| BONE_HINGE_CHILD_TRANSFORM
  else if flag &&& BONE_TRANSFORM ≠ 0 ∧ (mode = TFM_ROTATION ∨ mode = TFM_TRACKBALL) ∧
      around = V3D_AROUND_LOCAL_ORIGINS then
    flag ||| BONE_TRANSFORM_CHILD
  else clear_bits flag (BONE_TRANSFORM ||| BONE_TRANSFORM_MIRROR)

/-- The function `bone_children_clear_transflag` on the list that starts at the bone
`lb->first`: the loop over `next` with the call on the `childbase` of every bone. -/
def bone_children_clear_transflag (mode around : Nat) : Bone → Bone
  | Bone.null => Bone.null
  | Bone.mk flag layer childbase next =>
    Bone.mk (bone_clear_transflag mode around flag) layer
      (bone_children_clear_transflag mode around childbase)
      (bone_children_clear_transflag mode around next)

/-- The change of `bone->flag` in the body of the first loop of
`count_set_pose_transflags`. -/
def pose_set_transflag (arm_layer flag layer : Nat) : Nat :=
  if PBONE_VISIBLE arm_layer flag layer then
    let flag1 :=
      if flag &&& BONE_SELECTED ≠ 0 then flag ||| BONE_TRANSFORM
      else clear_bits flag (BONE_TRANSFORM ||| BONE_TRANSFORM_MIRROR)
    clear_bits (clear_bits flag1 BONE_HINGE_CHILD_TRANSFORM) BONE_TRANSFORM_CHILD
  else clear_bits flag (BONE_TRANSFORM ||| BONE_TRANSFORM_MIRROR)

/-- The first loop of `count_set_pose_transflags` over the pose channels; `none` when
`pchan->bone` is `NULL`. -/
def pose_set_loop (arm_layer : Nat) : List (List BoneStep) → Bone → Option Bone
  | [], bonebase => some bonebase
  | pchan :: rest, bonebase =>
    match bone_update (fun flag layer childbase =>
        (pose_set_transflag arm_layer flag layer, childbase)) pchan bonebase with
    | some bonebase1 => pose_set_loop arm_layer rest bonebase1
    | none => none

/-- The second loop of `count_set_pose_transflags`: the children of every bone that is
flagged `BONE_TRANSFORM` when its pose channel is reached are passed to
`bone_children_clear_transflag`. -/
def pose_clear_loop (mode around : Nat) : List (List BoneStep) → Bone → Option Bone
  | [], bonebase => some bonebase
  | pchan :: rest, bonebase =>
    match bone_update (fun flag _ childbase =>
        (flag, if flag &&& BONE_TRANSFORM ≠ 0 then
          bone_children_clear_transflag mode around childbase else childbase))
        pchan bonebase with
    | some bonebase1 => pose_clear_loop mode around rest bonebase1
    | none => none

/-- The third loop of `count_set_pose_transflags`, which counts in `total`. -/
def pose_count_loop (bonebase : Bone) : List (List BoneStep) → Nat → Option Nat
  | [], total => some total
  | pchan :: rest, total =>
    match bone_node_at bonebase pchan with
    | some node =>
      pose_count_loop bonebase rest (if node.1 &&& BONE_TRANSFORM ≠ 0 then total + 1 else total)
    | none => none

/-- The function `count_set_pose_transflags` on an armature with the layers `arm_layer`
shown and the bones reached from `bonebase` (the first bone of `arm->bonebase`), and a
pose whose channels have the bones given by `chanbase`, in the order of
`ob->pose->chanbase`.  The result is the bones with their new flags and the value
returned.  The argument `has_translate_rotate`, which the third loop fills from fields of
the pose channels and which has no part in the flags or in the count, is left out. -/
def count_set_pose_transflags (arm_layer mode around : Nat) (bonebase : Bone)
    (chanbase : List (List BoneStep)) : Option (Bone × Nat) :=
  match pose_set_loop arm_layer chanbase bonebase with
  | none => none
  | some bonebase1 =>
    match (if ¬ (mode = TFM_BONESIZE ∨ mode = TFM_BONE_ENVELOPE_DIST) then
        pose_clear_loop mode around chanbase bonebase1 else some bonebase1) with
    | none => none
    | some bonebase2 =>
      match pose_count_loop bonebase2 chanbase 0 with
      | none => none
      | some total => some (bonebase2, total)

/-- The flag and the layer of a bone after the loop body of
`bone_children_clear_transflag`. -/
def node_clear_transflag (mode around : Nat) (node : Nat × Nat) : Nat × Nat :=
  (bone_clear_transflag mode around node.1, node.2)

/-- An armature of two bones for the examples: a bone with one child, both selected, on
layer 1 and not hidden; the child is neither a hinge bone nor connected. -/
def example_bonebase : Bone :=
  Bone.mk BONE_SELECTED 1 (Bone.mk BONE_SELECTED 1 Bone.null Bone.null) Bone.null

/-- The pose channels of `example_bonebase`, the parent first. -/
def example_chanbase : List (List BoneStep) := [[], [BoneStep.child]]

/-- The flag and the layer of a bone after the body of the first loop of
`count_set_pose_transflags`. -/
def node_set_transflag (arm_layer : Nat) (node : Nat × Nat) : Nat × Nat :=
  (pose_set_transflag arm_layer node.1 node.2, node.2)

/-- The test `bone->flag & BONE_TRANSFORM` of the third loop of
`count_set_pose_transflags` for the pose channel whose bone is reached by `p`. -/
def bone_transform_at (bonebase : Bone) (p : List BoneStep) : Bool :=
  match bone_node_at bonebase p with
  | some node => decide (node.1 &&& BONE_TRANSFORM ≠ 0)
  | none => false

/-- An armature of two bones for the examples: a bone on layer 1 that is not selected and
still flagged `BONE_TRANSFORM`, with one child that is selected, on layer 1, not hidden,
and neither a hinge bone nor connected. -/
def example_stale_bonebase : Bone :=
  Bone.mk BONE_TRANSFORM 1 (Bone.mk BONE_SELECTED 1 Bone.null Bone.null) Bone.null

/-! ## Proofs: selected records first -/

theorem length_swapAt (data : List (TransData α)) (i j : Nat) (hi : i < data.length)
    (hj : j < data.length) : (swapAt data i j hi hj).length = data.length := by
  simp [swapAt]

theorem getElem_swapAt (data : List (TransData α)) (i j : Nat) (hi : i < data.length)
    (hj : j < data.length) (n : Nat) (hn : n < (swapAt data i j hi hj).length)
    (hn2 : n < data.length) :
    (swapAt data i j hi hj)[n] =
      if j = n then data[i] else if i = n then data[j] else data[n] := by
  simp only [swapAt, List.getElem_set]

theorem swapAt_perm (data : List (TransData α)) (i j : Nat) (hi : i < data.length)
    (hj : j < data.length) : (swapAt data i j hi hj).Perm data := by
  classical
  rw [List.perm_iff_count]
  intro b
  unfold swapAt
  have hj2 : j < (data.set i data[j]).length := by simpa using hj
  rw [List.count_set _ _ _ _ hj2, List.count_set _ _ _ _ hi]
  have e : (data.set i data[j])[j] = data[j] := by
    simp [List.getElem_set]
  rw [e]
  have h1 := List.boole_getElem_le_countP (fun x => x == b) data i hi
  simp only [List.count_eq_countP]
  simp only [beq_iff_eq] at h1 ⊢
  omega

theorem scan_unsel_none (data : List (TransData α)) (sel : Nat) (hs : sel < data.length)
    (unsel : Nat) (h : unsel < sel) (hr : scan_unsel data sel hs unsel h = none) :
    ∀ i (hi : i < data.length), unsel ≤ i → i < sel → data[i].selected = true := by
  induction' hk : sel - unsel with k ih generalizing unsel
  · omega
  · rw [scan_unsel] at hr
    split at hr
    · rename_i hsel
      split at hr
      · intro i hi h1 h2
        have : i = unsel := by omega
        subst this; exact hsel
      · rename_i hne
        have hrec : scan_unsel data sel hs (unsel + 1) (by omega) = none := by
          revert hr
          cases scan_unsel data sel hs (unsel + 1) (by omega) <;> simp
        intro i hi h1 h2
        by_cases hiu : i = unsel
        · subst hiu; exact hsel
        · exact ih (unsel + 1) (by omega) hrec (by omega) i hi (by omega) h2
    · simp at hr

theorem scan_unsel_some (data : List (TransData α)) (sel : Nat) (hs : sel < data.length)
    (unsel : Nat) (h : unsel < sel) (u : Nat) (hu : unsel ≤ u ∧ u < sel)
    (hr : scan_unsel data sel hs unsel h = some ⟨u, hu⟩) :
    (∀ i (hi : i < data.length), unsel ≤ i → i < u → data[i].selected = true) ∧
      data[u].selected = false := by
  induction' hk : sel - unsel with k ih generalizing unsel
  · omega
  · rw [scan_unsel] at hr
    split at hr
    · rename_i hsel
      split at hr
      · simp at hr
      · rename_i hne
        split at hr
        · simp at hr
        · rename_i v hrec
          obtain ⟨v, hv⟩ := v
          simp only [Option.some.injEq, Subtype.mk.injEq] at hr
          subst hr
          obtain ⟨a, b⟩ := ih (unsel + 1) (by omega) hv hrec (by omega)
          refine ⟨?_, b⟩
          intro i hi h1 h2
          by_cases hiu : i = unsel
          · subst hiu; exact hsel
          · exact a i hi (by omega) (by omega)
    · rename_i hsel
      simp only [Option.some.injEq, Subtype.mk.injEq] at hr
      subst hr
      refine ⟨fun i hi h1 h2 => by omega, ?_⟩
      simpa using hsel

theorem scan_sel_none (data : List (TransData α)) (unsel sel : Nat) (hs : sel < data.length)
    (h : unsel < sel) (hr : scan_sel data unsel sel hs h = none) :
    ∀ i (hi : i < data.length), unsel < i → i ≤ sel → data[i].selected = false := by
  induction' sel with k ih
  · omega
  · rw [scan_sel] at hr
    split at hr
    · rename_i hsel
      simp only [Bool.not_eq_true'] at hsel
      split at hr
      · intro i hi h1 h2
        have : i = k + 1 := by omega
        subst this; exact hsel
      · rename_i hne
        split at hr
        · rename_i hrec
          intro i hi h1 h2
          by_cases hiu : i = k + 1
          · subst hiu; exact hsel
          · exact ih (by omega) (by omega) hrec i hi h1 (by omega)
        · simp at hr
    · simp at hr

theorem scan_sel_some (data : List (TransData α)) (unsel sel : Nat) (hs : sel < data.length)
    (h : unsel < sel) (s : Nat) (hb : unsel < s ∧ s ≤ sel)
    (hr : scan_sel data unsel sel hs h = some ⟨s, hb⟩) :
    (∀ i (hi : i < data.length), s < i → i ≤ sel → data[i].selected = false) ∧
      data[s].selected = true := by
  induction' sel with k ih
  · omega
  · rw [scan_sel] at hr
    split at hr
    · rename_i hsel
      simp only [Bool.not_eq_true'] at hsel
      split at hr
      · simp at hr
      · rename_i hne
        split at hr
        · simp at hr
        · rename_i v hrec
          obtain ⟨v, hv⟩ := v
          simp only [Option.some.injEq, Subtype.mk.injEq] at hr
          subst hr
          obtain ⟨a, b⟩ := ih (by omega) (by omega) hv hrec
          refine ⟨?_, b⟩
          intro i hi h1 h2
          by_cases hiu : i = k + 1
          · subst hiu; exact hsel
          · exact a i hi (by omega) (by omega)
    · rename_i hsel
      simp only [Option.some.injEq, Subtype.mk.injEq] at hr
      subst hr
      refine ⟨fun i hi h1 h2 => by omega, ?_⟩
      simpa using hsel

theorem exists_splitAt_of_bounds (l : List (TransData α)) (a : Nat)
    (h1 : ∀ i (hi : i < l.length), i < a → l[i].selected = true)
    (h2 : ∀ i (hi : i < l.length), a < i → l[i].selected = false) :
    ∃ k, SplitAt l k := by
  by_cases ha : a < l.length
  · cases hsa : l[a].selected
    · refine ⟨a, fun i hi => ⟨h1 i hi, fun hk => ?_⟩⟩
      by_cases hia : i = a
      · subst hia; exact hsa
      · exact h2 i hi (by omega)
    · refine ⟨a + 1, fun i hi => ⟨fun hk => ?_, fun hk => h2 i hi (by omega)⟩⟩
      by_cases hia : i = a
      · subst hia; exact hsa
      · exact h1 i hi (by omega)
  · exact ⟨a, fun i hi => ⟨h1 i hi, fun hk => by omega⟩⟩

theorem selected_first_loop_spec (n : Nat) :
    ∀ (data : List (TransData α)) (unsel sel : Nat) (hs : sel < data.length),
      sel - unsel = n →
      (∀ i (hi : i < data.length), i < unsel → data[i].selected = true) →
      (∀ i (hi : i < data.length), sel < i → data[i].selected = false) →
      unsel ≤ sel + 1 →
      (selected_first_loop data unsel sel hs).Perm data ∧
        ∃ k, SplitAt (selected_first_loop data unsel sel hs) k := by
  induction n using Nat.strong_induction_on with
  | _ n ih =>
    intro data unsel sel hs hn h1 h2 hle
    rw [selected_first_loop]
    split
    · rename_i hgt
      split
      · rename_i hr
        refine ⟨List.Perm.refl _, exists_splitAt_of_bounds data sel ?_ h2⟩
        intro i hi hlt
        by_cases hiu : i < unsel
        · exact h1 i hi hiu
        · exact scan_unsel_none data sel hs unsel hgt hr i hi (by omega) hlt
      · rename_i u hr
        obtain ⟨u, hu⟩ := u
        obtain ⟨a1, a2⟩ := scan_unsel_some data sel hs unsel hgt u hu hr
        split
        · rename_i hr2
          refine ⟨List.Perm.refl _, u, fun i hi => ⟨fun hk => ?_, fun hk => ?_⟩⟩
          · by_cases hiu : i < unsel
            · exact h1 i hi hiu
            · exact a1 i hi (by omega) hk
          · by_cases hiu : i = u
            · subst hiu; exact a2
            · by_cases his : i ≤ sel
              · exact scan_sel_none data u sel hs hu.2 hr2 i hi (by omega) his
              · exact h2 i hi (by omega)
        · rename_i s hr2
          obtain ⟨s, hb⟩ := s
          obtain ⟨b1, b2⟩ := scan_sel_some data u sel hs hu.2 s hb hr2
          have hb2 : u < s ∧ s ≤ sel := hb
          have hul : u < data.length := by omega
          have hsl : s < data.length := by omega
          have key := ih (s - 1 - (u + 1)) (by omega) (swapAt data u s hul hsl) (u + 1) (s - 1)
            (by rw [length_swapAt]; omega) rfl ?_ ?_ (by omega)
          · exact ⟨key.1.trans (swapAt_perm data u s hul hsl), key.2⟩
          · intro i hi hlt
            have hi2 : i < data.length := by rw [length_swapAt] at hi; exact hi
            rw [getElem_swapAt data u s hul hsl i hi hi2]
            by_cases e1 : s = i
            · omega
            · rw [if_neg e1]
              by_cases e2 : u = i
              · rw [if_pos e2]; exact b2
              · rw [if_neg e2]
                by_cases hiu : i < unsel
                · exact h1 i hi2 hiu
                · exact a1 i hi2 (by omega) (by omega)
          · intro i hi hlt
            have hi2 : i < data.length := by rw [length_swapAt] at hi; exact hi
            rw [getElem_swapAt data u s hul hsl i hi hi2]
            by_cases e1 : s = i
            · rw [if_pos e1]; exact a2
            · rw [if_neg e1]
              have e2 : ¬ u = i := by omega
              rw [if_neg e2]
              by_cases his : i ≤ sel
              · exact b1 i hi2 (by omega) his
              · exact h2 i hi2 (by omega)
    · rename_i hgt
      refine ⟨List.Perm.refl _, ?_⟩
      by_cases e : unsel = sel + 1
      · exact ⟨unsel, fun i hi => ⟨h1 i hi, fun hk => h2 i hi (by omega)⟩⟩
      · have e2 : unsel = sel := by omega
        subst e2
        exact exists_splitAt_of_bounds data unsel h1 h2

theorem countP_of_splitAt (l : List (TransData α)) (k : Nat) (hk : k ≤ l.length)
    (h : SplitAt l k) : l.countP (fun td => td.selected) = k := by
  rw [← List.take_append_drop k l, List.countP_append]
  have e1 : (l.take k).countP (fun td => td.selected) = (l.take k).length := by
    rw [List.countP_eq_length]
    intro a ha
    obtain ⟨i, hi, rfl⟩ := List.getElem_of_mem ha
    rw [List.getElem_take]
    have hi2 : i < k := by
      rw [List.length_take] at hi; omega
    exact (h i (by omega)).1 hi2
  have e2 : (l.drop k).countP (fun td => td.selected) = 0 := by
    rw [List.countP_eq_zero]
    intro a ha
    obtain ⟨i, hi, rfl⟩ := List.getElem_of_mem ha
    rw [List.getElem_drop]
    rw [List.length_drop] at hi
    simpa using (h (k + i) (by omega)).2 (by omega)
  rw [e1, e2, List.length_take]
  omega

theorem splitAt_count (l : List (TransData α)) (k : Nat) (h : SplitAt l k) :
    SplitAt l (l.countP (fun td => td.selected)) := by
  by_cases hk : k ≤ l.length
  · rw [countP_of_splitAt l k hk h]; exact h
  · have h2 : SplitAt l l.length := fun i hi =>
      ⟨fun _ => (h i hi).1 (by omega), fun hh => by omega⟩
    rw [countP_of_splitAt l l.length (le_refl _) h2]; exact h2

theorem sort_selected_first_spec (data : List (TransData α)) :
    (sort_trans_data_selected_first_container data).Perm data ∧
      SplitAt (sort_trans_data_selected_first_container data)
        (data.countP (fun td => td.selected)) := by
  have main : (sort_trans_data_selected_first_container data).Perm data ∧
      ∃ k, SplitAt (sort_trans_data_selected_first_container data) k := by
    unfold sort_trans_data_selected_first_container
    split
    · rename_i h
      exact selected_first_loop_spec _ data 0 (data.length - 1) (by omega) rfl
        (fun i hi hlt => by omega) (fun i hi hlt => by omega) (by omega)
    · rename_i h
      exact ⟨List.Perm.refl _, 0, fun i hi => by omega⟩
  obtain ⟨hp, k, hk⟩ := main
  refine ⟨hp, ?_⟩
  rw [← hp.countP_eq]
  exact splitAt_count _ k hk

/-- C1: for every record array, `sort_trans_data_selected_first_container` returns a
permutation of its input in which, with `k` the number of selected records, the record
at index `i` is selected for `i < k` and unselected for `i ≥ k`. -/
theorem sort_trans_data_selected_first_container_partition (data : List (TransData α)) :
    (sort_trans_data_selected_first_container data).Perm data ∧
      ∀ i (hi : i < (sort_trans_data_selected_first_container data).length),
        (i < data.countP (fun td => td.selected) →
          (sort_trans_data_selected_first_container data)[i].selected = true) ∧
        (data.countP (fun td => td.selected) ≤ i →
          (sort_trans_data_selected_first_container data)[i].selected = false) :=
  sort_selected_first_spec data

/-! ## Proofs: partitioned record arrays -/

theorem partitioned_cons (td : TransData α) (l : List (TransData α)) :
    Partitioned (td :: l) ↔
      (∀ b ∈ l, b.selected = true → td.selected = true) ∧ Partitioned l := by
  unfold Partitioned
  rw [List.pairwise_cons]

theorem partitioned_unsel_tail (td : TransData α) (l : List (TransData α))
    (h : Partitioned (td :: l)) (hs : td.selected = false) :
    ∀ b ∈ l, b.selected = false := by
  intro b hb
  have := ((partitioned_cons td l).1 h).1 b hb
  cases hb2 : b.selected with
  | false => rfl
  | true => rw [this hb2] at hs; exact absurd hs (by decide)

theorem takeWhile_eq_filter_of_partitioned (l : List (TransData α)) (h : Partitioned l) :
    l.takeWhile (fun td => td.selected) = l.filter (fun td => td.selected) := by
  induction l with
  | nil => rfl
  | cons td rest ih =>
    cases hs : td.selected with
    | true =>
      rw [List.takeWhile_cons_of_pos hs, List.filter_cons_of_pos hs,
        ih ((partitioned_cons td rest).1 h).2]
    | false =>
      rw [List.takeWhile_cons_of_neg (by simp [hs]), List.filter_cons_of_neg (by simp [hs])]
      symm
      rw [List.filter_eq_nil_iff]
      intro b hb
      simp [partitioned_unsel_tail td rest h hs b hb]

theorem dropWhile_eq_filter_of_partitioned (l : List (TransData α)) (h : Partitioned l) :
    l.dropWhile (fun td => td.selected) = l.filter (fun td => !td.selected) := by
  induction l with
  | nil => rfl
  | cons td rest ih =>
    cases hs : td.selected with
    | true =>
      rw [List.dropWhile_cons_of_pos hs, List.filter_cons_of_neg (by simp [hs]),
        ih ((partitioned_cons td rest).1 h).2]
    | false =>
      rw [List.dropWhile_cons_of_neg (by simp [hs]), List.filter_cons_of_pos (by simp [hs])]
      congr 1
      symm
      rw [List.filter_eq_self]
      intro b hb
      simp [partitioned_unsel_tail td rest h hs b hb]

theorem partitioned_split (l : List (TransData α)) (h : Partitioned l) :
    l = l.filter (fun td => td.selected) ++ l.filter (fun td => !td.selected) := by
  rw [← takeWhile_eq_filter_of_partitioned l h, ← dropWhile_eq_filter_of_partitioned l h,
    List.takeWhile_append_dropWhile]

theorem partitioned_of_unselected (b : List (TransData α))
    (hb : ∀ td ∈ b, td.selected = false) : Partitioned b := by
  induction b with
  | nil => exact List.Pairwise.nil
  | cons td rest ih =>
    rw [partitioned_cons]
    refine ⟨fun c hc hsel => ?_, ih (fun c hc => hb c (List.mem_cons_of_mem _ hc))⟩
    rw [hb c (List.mem_cons_of_mem _ hc)] at hsel
    exact absurd hsel (by decide)

theorem partitioned_append (a b : List (TransData α))
    (ha : ∀ td ∈ a, td.selected = true) (hb : ∀ td ∈ b, td.selected = false) :
    Partitioned (a ++ b) := by
  induction a with
  | nil => exact partitioned_of_unselected b hb
  | cons td rest ih =>
    rw [List.cons_append, partitioned_cons]
    exact ⟨fun _ _ _ => ha td (List.mem_cons_self _ _),
      ih (fun c hc => ha c (List.mem_cons_of_mem _ hc))⟩

theorem partitioned_of_splitAt (l : List (TransData α)) (k : Nat) (h : SplitAt l k) :
    Partitioned l := by
  unfold Partitioned
  rw [List.pairwise_iff_getElem]
  intro i j hi hj hij hsel
  by_cases hk : j < k
  · exact (h i hi).1 (by omega)
  · rw [(h j hj).2 (by omega)] at hsel
    exact absurd hsel (by decide)


section Field

variable [LinearOrderedField α]

/-! ## Proofs: `set_prop_dist` -/

theorem prop_dist_vec_rdist (ui : Bool) (pv : Option (V3 α)) (tc : TransDataContainer α)
    (td : TransData α) (r : α) :
    prop_dist_vec ui pv tc { td with rdist := r } = prop_dist_vec ui pv tc td := rfl

theorem fill_selected_fst (ui : Bool) (pv : Option (V3 α)) (tc : TransDataContainer α)
    (data : List (TransData α)) (st : FillState α) :
    (fill_selected ui pv tc data st).1 = zero_leading_rdist data := by
  induction data generalizing st with
  | nil => rfl
  | cons td rest ih =>
    simp only [fill_selected, zero_leading_rdist]
    split
    · simp only [ih]
    · rfl

theorem fill_selected_tree (ui : Bool) (pv : Option (V3 α)) (tc : TransDataContainer α)
    (data : List (TransData α)) (st : FillState α) :
    (fill_selected ui pv tc data st).2.td_tree.map Prod.snd =
      st.td_tree.map Prod.snd ++
        (data.takeWhile (fun td => td.selected)).map (prop_dist_vec ui pv tc) := by
  induction data generalizing st with
  | nil => simp [fill_selected]
  | cons td rest ih =>
    simp only [fill_selected]
    by_cases h : td.selected = true
    · simp [h, ih, prop_dist_vec_rdist]
    · simp [h]

theorem fill_selected_idx (ui : Bool) (pv : Option (V3 α)) (tc : TransDataContainer α)
    (data : List (TransData α)) (st : FillState α) (h : TreeIdxOK st) :
    TreeIdxOK (fill_selected ui pv tc data st).2 := by
  induction data generalizing st with
  | nil => simpa [fill_selected] using h
  | cons td rest ih =>
    simp only [fill_selected]
    by_cases hs : td.selected = true
    · simp only [hs, if_true]
      apply ih
      intro e he
      simp only [List.mem_append, List.mem_singleton] at he
      rcases he with he | he
      · have := h e he
        simp only [List.length_append, List.length_singleton]
        omega
      · subst he
        simp only [List.length_append, List.length_singleton]
        omega
    · simpa [hs] using h

theorem fill_selected_all_fst (ui : Bool) (pv : Option (V3 α))
    (tcs : List (TransDataContainer α)) (st : FillState α) :
    (fill_selected_all ui pv tcs st).1 =
      tcs.map (fun tc => { tc with data := zero_leading_rdist tc.data }) := by
  induction tcs generalizing st with
  | nil => rfl
  | cons tc rest ih => simp [fill_selected_all, ih, fill_selected_fst]

theorem fill_selected_all_tree (ui : Bool) (pv : Option (V3 α))
    (tcs : List (TransDataContainer α)) (st : FillState α) :
    (fill_selected_all ui pv tcs st).2.td_tree.map Prod.snd =
      st.td_tree.map Prod.snd ++ selected_points ui pv tcs := by
  induction tcs generalizing st with
  | nil => simp [fill_selected_all, selected_points]
  | cons tc rest ih =>
    simp only [fill_selected_all, ih, fill_selected_tree, selected_points, List.flatMap_cons,
      List.append_assoc]

theorem fill_selected_all_idx (ui : Bool) (pv : Option (V3 α))
    (tcs : List (TransDataContainer α)) (st : FillState α) (h : TreeIdxOK st) :
    TreeIdxOK (fill_selected_all ui pv tcs st).2 := by
  induction tcs generalizing st with
  | nil => simpa [fill_selected_all] using h
  | cons tc rest ih =>
    simp only [fill_selected_all]
    exact ih _ (fill_selected_idx ui pv tc tc.data st h)

theorem find_nearest_dist (sqrtf : α → α) (tree : List (Int × V3 α)) (q : V3 α) :
    (BLI_kdtree_3d_find_nearest sqrtf tree q).map (fun n => n.dist) =
      min_dist sqrtf (tree.map Prod.snd) q := by
  induction tree with
  | nil => rfl
  | cons e rest ih =>
    simp only [BLI_kdtree_3d_find_nearest, List.map_cons, min_dist, ← ih]
    cases h : BLI_kdtree_3d_find_nearest sqrtf rest q with
    | none => simp
    | some b =>
      simp only [Option.map_some']
      split
      · rename_i hlt
        simp [min_eq_left (le_of_lt hlt)]
      · rename_i hlt
        simp [min_eq_right (not_lt.mp hlt)]

theorem find_nearest_index (sqrtf : α → α) (tree : List (Int × V3 α)) (q : V3 α)
    (n : KDTreeNearest_3d α) (h : BLI_kdtree_3d_find_nearest sqrtf tree q = some n) :
    ∃ e ∈ tree, e.1 = n.index := by
  induction tree generalizing n with
  | nil => simp [BLI_kdtree_3d_find_nearest] at h
  | cons e rest ih =>
    simp only [BLI_kdtree_3d_find_nearest] at h
    cases hr : BLI_kdtree_3d_find_nearest sqrtf rest q with
    | none =>
      rw [hr] at h
      simp only [Option.some.injEq] at h
      exact ⟨e, List.mem_cons_self _ _, by rw [← h]⟩
    | some b =>
      rw [hr] at h
      simp only at h
      split at h
      · simp only [Option.some.injEq] at h
        subst h
        obtain ⟨e1, he1, h1⟩ := ih b hr
        exact ⟨e1, List.mem_cons_of_mem _ he1, h1⟩
      · simp only [Option.some.injEq] at h
        exact ⟨e, List.mem_cons_self _ _, by rw [← h]⟩

omit [LinearOrderedField α] in
theorem td_table_get_isSome (st : FillState α) (h : TreeIdxOK st) (e : Int × V3 α)
    (he : e ∈ st.td_tree) : ∃ s, td_table_get st.td_table e.1 = some s := by
  obtain ⟨h0, h1⟩ := h e he
  unfold td_table_get
  rw [if_pos h0]
  exact ⟨st.td_table[e.1.toNat], List.getElem?_eq_getElem h1⟩

end Field

section Field

variable [LinearOrderedField α]

theorem prop_dist_record_rel (sqrtf : α → α) (ui : Bool) (pv : Option (V3 α)) (wd : Bool)
    (st : FillState α) (hok : TreeIdxOK st) (tc : TransDataContainer α) (td : TransData α) :
    ∃ td1, prop_dist_record sqrtf ui pv wd st tc td = some td1 ∧
      LoopRel sqrtf ui pv wd (st.td_tree.map Prod.snd) tc td td1 := by
  cases hs : td.selected with
  | true =>
    refine ⟨td, by simp [prop_dist_record, hs], fun _ => rfl, fun h => by rw [hs] at h; exact absurd h (by decide)⟩
  | false =>
    have hd := find_nearest_dist sqrtf st.td_tree (prop_dist_vec ui pv tc td)
    cases hn : BLI_kdtree_3d_find_nearest sqrtf st.td_tree (prop_dist_vec ui pv tc td) with
    | none =>
      rw [hn] at hd
      simp only [Option.map_none'] at hd
      refine ⟨if wd then { td with rdist := -1, dist := -1 } else { td with rdist := -1 },
        ?_, fun h => by rw [hs] at h; exact absurd h (by decide), fun _ => ?_⟩
      · simp only [prop_dist_record, hs, hn]
        cases wd <;> simp
      · rw [← hd]
        cases wd <;> simp
    | some n =>
      rw [hn] at hd
      simp only [Option.map_some'] at hd
      obtain ⟨e, he, hei⟩ := find_nearest_index sqrtf _ _ n hn
      obtain ⟨s, hs2⟩ := td_table_get_isSome st hok e he
      have hne : n.index ≠ -1 := by
        have := (hok e he).1
        omega
      rw [hei] at hs2
      cases ui with
      | false =>
        refine ⟨if wd then { td with rdist := n.dist, dist := n.dist }
          else { td with rdist := n.dist }, ?_, fun h => by rw [hs] at h; exact absurd h (by decide), fun _ => ?_⟩
        · simp only [prop_dist_record, hs, hn]
          cases wd <;> simp [hne]
        · rw [← hd]
          cases wd <;> simp
      | true =>
        refine ⟨if wd then
            { td with rdist := n.dist, dist := n.dist, center := s.center, axismtx := s.axismtx }
          else { td with rdist := n.dist, center := s.center, axismtx := s.axismtx },
          ?_, fun h => by rw [hs] at h; exact absurd h (by decide), fun _ => ?_⟩
        · simp only [prop_dist_record, hs, hn]
          cases wd <;> simp [hne, hs2]
        · rw [← hd]
          cases wd <;> simp

theorem prop_dist_records_rel (sqrtf : α → α) (ui : Bool) (pv : Option (V3 α)) (wd : Bool)
    (st : FillState α) (hok : TreeIdxOK st) (tc : TransDataContainer α)
    (data : List (TransData α)) :
    ∃ out, prop_dist_records sqrtf ui pv wd st tc data = some out ∧
      List.Forall₂ (LoopRel sqrtf ui pv wd (st.td_tree.map Prod.snd) tc) data out := by
  induction data with
  | nil => exact ⟨[], rfl, List.Forall₂.nil⟩
  | cons td rest ih =>
    obtain ⟨td1, h1, r1⟩ := prop_dist_record_rel sqrtf ui pv wd st hok tc td
    obtain ⟨out, h2, r2⟩ := ih
    exact ⟨td1 :: out, by simp [prop_dist_records, h1, h2], List.Forall₂.cons r1 r2⟩

theorem prop_dist_all_rel (sqrtf : α → α) (ui : Bool) (pv : Option (V3 α)) (wd : Bool)
    (st : FillState α) (hok : TreeIdxOK st) (tcs : List (TransDataContainer α)) :
    ∃ out, prop_dist_all sqrtf ui pv wd st tcs = some out ∧
      List.Forall₂ (fun tc tc1 => tc1.use_local_mat = tc.use_local_mat ∧ tc1.mat = tc.mat ∧
        List.Forall₂ (LoopRel sqrtf ui pv wd (st.td_tree.map Prod.snd) tc) tc.data tc1.data)
        tcs out := by
  induction tcs with
  | nil => exact ⟨[], rfl, List.Forall₂.nil⟩
  | cons tc rest ih =>
    obtain ⟨d1, h1, r1⟩ := prop_dist_records_rel sqrtf ui pv wd st hok tc tc.data
    obtain ⟨out, h2, r2⟩ := ih
    exact ⟨{ tc with data := d1 } :: out, by simp [prop_dist_all, h1, h2],
      List.Forall₂.cons ⟨rfl, rfl, r1⟩ r2⟩

omit [LinearOrderedField α] in
theorem forall₂_comp {β γ δ : Type} {R : β → γ → Prop} {S : γ → δ → Prop} :
    ∀ {l1 : List β} {l2 : List γ} {l3 : List δ}, List.Forall₂ R l1 l2 → List.Forall₂ S l2 l3 →
      List.Forall₂ (fun a c => ∃ b, R a b ∧ S b c) l1 l3
  | _, _, _, List.Forall₂.nil, List.Forall₂.nil => List.Forall₂.nil
  | _, _, _, List.Forall₂.cons h1 t1, List.Forall₂.cons h2 t2 =>
    List.Forall₂.cons ⟨_, h1, h2⟩ (forall₂_comp t1 t2)

/-- General description of `set_prop_dist`: it always returns (no read outside
`td_table`), keeps the containers, and every record is first related by `Z` (the second
loop) and then by `LoopRel` (the third loop), for every relation `Z` that holds between a
record array and its `zero_leading_rdist`. -/
theorem set_prop_dist_rel_of (sqrtf : α → α) (ui : Bool) (pv : Option (V3 α)) (wd : Bool)
    (tcs : List (TransDataContainer α)) (Z : TransData α → TransData α → Prop)
    (hZ : ∀ tc ∈ tcs, List.Forall₂ Z tc.data (zero_leading_rdist tc.data)) :
    ∃ out, set_prop_dist sqrtf ui pv wd tcs = some out ∧
      List.Forall₂ (fun tc tc1 => tc1.use_local_mat = tc.use_local_mat ∧ tc1.mat = tc.mat ∧
        List.Forall₂ (fun td td2 => ∃ td1, Z td td1 ∧
          LoopRel sqrtf ui pv wd (selected_points ui pv tcs) tc td1 td2) tc.data tc1.data)
        tcs out := by
  have hok : TreeIdxOK (fill_selected_all ui pv tcs ⟨[], []⟩).2 :=
    fill_selected_all_idx ui pv tcs ⟨[], []⟩ (fun e he => by simp at he)
  obtain ⟨out, h1, r1⟩ := prop_dist_all_rel sqrtf ui pv wd _ hok
    (fill_selected_all ui pv tcs ⟨[], []⟩).1
  refine ⟨out, h1, ?_⟩
  rw [fill_selected_all_tree, fill_selected_all_fst] at r1
  simp only [List.map_nil, List.nil_append] at r1
  rw [List.forall₂_map_left_iff] at r1
  have hmem : List.Forall₂ (fun (tc tc1 : TransDataContainer α) => tc ∈ tcs ∧
      (tc1.use_local_mat = tc.use_local_mat ∧ tc1.mat = tc.mat ∧
        List.Forall₂ (LoopRel sqrtf ui pv wd (selected_points ui pv tcs)
          { tc with data := zero_leading_rdist tc.data }) (zero_leading_rdist tc.data) tc1.data)) tcs out := by
    rw [List.forall₂_and_left]
    exact ⟨fun _ h => h, r1⟩
  refine hmem.imp ?_
  rintro tc tc1 ⟨hm, e1, e2, r⟩
  exact ⟨e1, e2, forall₂_comp (hZ tc hm) r⟩

end Field

section Field

variable [LinearOrderedField α]

theorem min_dist_eq_none (sqrtf : α → α) (pts : List (V3 α)) (q : V3 α) :
    min_dist sqrtf pts q = none ↔ pts = [] := by
  cases pts with
  | nil => simp [min_dist]
  | cons p rest =>
    simp only [min_dist]
    cases min_dist sqrtf rest q <;> simp

theorem min_dist_spec (sqrtf : α → α) (pts : List (V3 α)) (q : V3 α) (d : α)
    (h : min_dist sqrtf pts q = some d) :
    (∃ p ∈ pts, d = len_v3v3 sqrtf q p) ∧ ∀ p ∈ pts, d ≤ len_v3v3 sqrtf q p := by
  induction pts generalizing d with
  | nil => simp [min_dist] at h
  | cons p rest ih =>
    simp only [min_dist] at h
    cases hr : min_dist sqrtf rest q with
    | none =>
      rw [hr] at h
      simp only [Option.some.injEq] at h
      have hnil : rest = [] := (min_dist_eq_none sqrtf rest q).1 hr
      subst hnil
      subst h
      exact ⟨⟨p, List.mem_cons_self _ _, rfl⟩, fun p1 hp1 => by simp at hp1; rw [hp1]⟩
    | some b =>
      rw [hr] at h
      simp only [Option.some.injEq] at h
      obtain ⟨⟨p0, hp0, e0⟩, hle⟩ := ih b hr
      subst h
      refine ⟨?_, ?_⟩
      · rcases min_choice b (len_v3v3 sqrtf q p) with hm | hm
        · exact ⟨p0, List.mem_cons_of_mem _ hp0, by rw [hm, e0]⟩
        · exact ⟨p, List.mem_cons_self _ _, hm⟩
      · intro p1 hp1
        rcases List.mem_cons.1 hp1 with e | hm
        · subst e; exact min_le_right _ _
        · exact le_trans (min_le_left _ _) (hle p1 hm)

theorem min_dist_unique (sqrtf : α → α) (pts : List (V3 α)) (q : V3 α) (d : α)
    (h1 : ∃ p ∈ pts, d = len_v3v3 sqrtf q p) (h2 : ∀ p ∈ pts, d ≤ len_v3v3 sqrtf q p) :
    min_dist sqrtf pts q = some d := by
  cases h : min_dist sqrtf pts q with
  | none =>
    obtain ⟨p, hp, _⟩ := h1
    rw [(min_dist_eq_none sqrtf pts q).1 h] at hp
    simp at hp
  | some d1 =>
    obtain ⟨⟨p1, hp1, e1⟩, hle⟩ := min_dist_spec sqrtf pts q d1 h
    obtain ⟨p, hp, e⟩ := h1
    have a := h2 p1 hp1
    have b := hle p hp
    rw [← e1] at a
    rw [← e] at b
    rw [le_antisymm a b]

theorem min_dist_perm (sqrtf : α → α) (pts1 pts2 : List (V3 α)) (q : V3 α)
    (h : pts1.Perm pts2) : min_dist sqrtf pts1 q = min_dist sqrtf pts2 q := by
  cases h1 : min_dist sqrtf pts1 q with
  | none =>
    have := (min_dist_eq_none sqrtf pts1 q).1 h1
    subst this
    rw [List.nil_perm] at h
    subst h
    rfl
  | some d =>
    obtain ⟨⟨p, hp, e⟩, hle⟩ := min_dist_spec sqrtf pts1 q d h1
    symm
    exact min_dist_unique sqrtf pts2 q d ⟨p, h.mem_iff.1 hp, e⟩
      (fun p1 hp1 => hle p1 (h.mem_iff.2 hp1))

theorem len_v3v3_eq_euclid (sqrtf : α → α) (a b : V3 α) :
    len_v3v3 sqrtf a b = euclid_dist sqrtf a b := by
  unfold len_v3v3 len_v3 euclid_dist dot_v3v3 sub_v3_v3v3
  congr 1
  ring

theorem zero_leading_rdist_rel (data : List (TransData α)) :
    List.Forall₂ (fun td td1 => td1 = td ∨ (td.selected = true ∧ td1 = { td with rdist := 0 }))
      data (zero_leading_rdist data) := by
  induction data with
  | nil => exact List.Forall₂.nil
  | cons td rest ih =>
    simp only [zero_leading_rdist]
    split
    · rename_i hs
      exact List.Forall₂.cons (Or.inr ⟨hs, rfl⟩) ih
    · exact List.Forall₂.cons (Or.inl rfl) (List.forall₂_same.2 (fun _ _ => Or.inl rfl))

theorem zero_leading_rdist_rel_partitioned (data : List (TransData α)) (h : Partitioned data) :
    List.Forall₂ (fun td td1 => td1 = if td.selected then { td with rdist := 0 } else td)
      data (zero_leading_rdist data) := by
  induction data with
  | nil => exact List.Forall₂.nil
  | cons td rest ih =>
    simp only [zero_leading_rdist]
    split
    · rename_i hs
      exact List.Forall₂.cons (by simp [hs]) (ih ((partitioned_cons td rest).1 h).2)
    · rename_i hs
      refine List.Forall₂.cons (by simp [hs]) (List.forall₂_same.2 (fun b hb => ?_))
      simp [partitioned_unsel_tail td rest h (by simpa using hs) b hb]

theorem mem_selected_points (ui : Bool) (pv : Option (V3 α))
    (tcs : List (TransDataContainer α)) (hp : ∀ tc ∈ tcs, Partitioned tc.data) (p : V3 α) :
    p ∈ selected_points ui pv tcs ↔
      ∃ tc ∈ tcs, ∃ s ∈ tc.data, s.selected = true ∧ prop_dist_vec ui pv tc s = p := by
  unfold selected_points
  simp only [List.mem_flatMap, List.mem_map]
  constructor
  · rintro ⟨tc, htc, s, hs, e⟩
    rw [takeWhile_eq_filter_of_partitioned _ (hp tc htc), List.mem_filter] at hs
    exact ⟨tc, htc, s, hs.1, hs.2, e⟩
  · rintro ⟨tc, htc, s, hs, hsel, e⟩
    refine ⟨tc, htc, s, ?_, e⟩
    rw [takeWhile_eq_filter_of_partitioned _ (hp tc htc), List.mem_filter]
    exact ⟨hs, hsel⟩

theorem selected_points_nil (ui : Bool) (pv : Option (V3 α))
    (tcs : List (TransDataContainer α))
    (h : ∀ tc ∈ tcs, ∀ td ∈ tc.data, td.selected = false) :
    selected_points ui pv tcs = [] := by
  unfold selected_points
  rw [List.flatMap_eq_nil_iff]
  intro tc htc
  rw [List.map_eq_nil_iff, List.takeWhile_eq_nil_iff]
  intro hpos
  have := h tc htc _ (List.getElem_mem hpos)
  simp [this]

end Field

section Field

variable [LinearOrderedField α]

/-- C3 (amended): `set_prop_dist` always returns, and for every unselected record: the
record stays unselected; `rdist` is set to the nearest-selected result, the least distance
from the record to the points of the selected records put into the kd-tree, or `-1` when
there are none; `dist` equals `rdist` after the call when `with_dist` is set, and `dist`
keeps its value from before the call when `with_dist` is not set. -/
theorem set_prop_dist_dist_field (sqrtf : α → α) (use_island : Bool)
    (proj_vec : Option (V3 α)) (with_dist : Bool) (tcs : List (TransDataContainer α)) :
    ∃ out, set_prop_dist sqrtf use_island proj_vec with_dist tcs = some out ∧
      List.Forall₂ (fun tc tc1 => List.Forall₂ (fun td td1 =>
        td.selected = false →
          td1.selected = false ∧
          td1.rdist = (min_dist sqrtf (selected_points use_island proj_vec tcs)
            (prop_dist_vec use_island proj_vec tc td)).getD (-1) ∧
          (with_dist = true → td1.dist = td1.rdist) ∧
          (with_dist = false → td1.dist = td.dist)) tc.data tc1.data) tcs out := by
  obtain ⟨out, h, r⟩ := set_prop_dist_rel_of sqrtf use_island proj_vec with_dist tcs _
    (fun tc _ => zero_leading_rdist_rel tc.data)
  refine ⟨out, h, r.imp ?_⟩
  rintro tc tc1 ⟨_, _, r1⟩
  refine r1.imp ?_
  rintro td td2 ⟨td1, hz, hl⟩ hu
  have e : td1 = td := by
    rcases hz with e | ⟨hs, _⟩
    · exact e
    · rw [hs] at hu; exact absurd hu (by decide)
  subst e
  obtain ⟨hf, _, _, hr, hd, _⟩ := hl.2 hu
  refine ⟨?_, hr, ?_, ?_⟩
  · unfold TransData.selected at hu ⊢
    rw [hf]; exact hu
  · intro hw; rw [hd, if_pos hw]
  · intro hw; rw [hd, hw]; simp

/-- C4: when no record of any container is selected, `set_prop_dist` returns without
reading `td_table` outside its entries (the table is empty, `td_table_len = 0`), and
every record has `rdist = -1`, and `dist = -1` when `with_dist` is set. -/
theorem set_prop_dist_no_selection (sqrtf : α → α) (use_island : Bool)
    (proj_vec : Option (V3 α)) (with_dist : Bool) (tcs : List (TransDataContainer α))
    (hnone : ∀ tc ∈ tcs, ∀ td ∈ tc.data, td.selected = false) :
    td_table_len tcs = 0 ∧
    ∃ out, set_prop_dist sqrtf use_island proj_vec with_dist tcs = some out ∧
      List.Forall₂ (fun tc tc1 => List.Forall₂ (fun _ td1 =>
        td1.rdist = -1 ∧ (with_dist = true → td1.dist = -1)) tc.data tc1.data) tcs out := by
  refine ⟨?_, ?_⟩
  · unfold td_table_len
    apply List.sum_eq_zero
    intro n hn
    rw [List.mem_map] at hn
    obtain ⟨tc, htc, rfl⟩ := hn
    cases hd : tc.data with
    | nil => rfl
    | cons td rest =>
      have := hnone tc htc td (by rw [hd]; exact List.mem_cons_self _ _)
      simp [count_leading_selected, this]
  · obtain ⟨out, h, r⟩ := set_prop_dist_rel_of sqrtf use_island proj_vec with_dist tcs
      (fun td td1 => td ∈ tcs.flatMap (fun tc => tc.data) ∧
        (td1 = td ∨ (td.selected = true ∧ td1 = { td with rdist := 0 })))
      (fun tc htc => by
        rw [List.forall₂_and_left]
        exact ⟨fun td htd => List.mem_flatMap.2 ⟨tc, htc, htd⟩, zero_leading_rdist_rel tc.data⟩)
    refine ⟨out, h, r.imp ?_⟩
    rintro tc tc1 ⟨_, _, r1⟩
    refine r1.imp ?_
    rintro td td2 ⟨td1, ⟨hm, hz⟩, hl⟩
    obtain ⟨tc0, htc0, htd0⟩ := List.mem_flatMap.1 hm
    have hu := hnone tc0 htc0 td htd0
    have e : td1 = td := by
      rcases hz with e | ⟨hs, _⟩
      · exact e
      · rw [hs] at hu; exact absurd hu (by decide)
    subst e
    obtain ⟨_, _, _, hr, hd, _⟩ := hl.2 hu
    rw [selected_points_nil use_island proj_vec tcs hnone] at hr
    simp only [min_dist, Option.getD_none] at hr
    exact ⟨hr, fun hw => by rw [hd, if_pos hw, hr]⟩

end Field

section Field

variable [LinearOrderedField α]

theorem prop_dist_vec_plain (tc : TransDataContainer α) (td : TransData α) :
    prop_dist_vec false none tc td = global_center tc td := rfl

/-- Under the partition invariant: `set_prop_dist` returns, every selected record gets
`rdist = 0` and every unselected record `td` of container `tc` the least distance to the
selected points (`-1` if there are none), `dist` following `rdist` when `with_dist`. -/
theorem set_prop_dist_partitioned (sqrtf : α → α) (ui : Bool) (pv : Option (V3 α))
    (wd : Bool) (tcs : List (TransDataContainer α))
    (hpart : ∀ tc ∈ tcs, Partitioned tc.data) :
    ∃ out, set_prop_dist sqrtf ui pv wd tcs = some out ∧
      List.Forall₂ (fun tc tc1 => tc1.use_local_mat = tc.use_local_mat ∧ tc1.mat = tc.mat ∧
        List.Forall₂ (fun td td1 =>
          td1.flag = td.flag ∧
          (td.selected = true → td1 = { td with rdist := 0 }) ∧
          (td.selected = false →
            td1.rdist =
              (min_dist sqrtf (selected_points ui pv tcs) (prop_dist_vec ui pv tc td)).getD (-1) ∧
            td1.dist = (if wd then td1.rdist else td.dist)))
          tc.data tc1.data) tcs out := by
  obtain ⟨out, h, r⟩ := set_prop_dist_rel_of sqrtf ui pv wd tcs
    (fun td td1 => td1 = if td.selected then { td with rdist := 0 } else td)
    (fun tc htc => zero_leading_rdist_rel_partitioned tc.data (hpart tc htc))
  refine ⟨out, h, r.imp ?_⟩
  rintro tc tc1 ⟨e1, e2, r1⟩
  refine ⟨e1, e2, r1.imp ?_⟩
  rintro td td2 ⟨td1, hz, hl⟩
  cases hs : td.selected with
  | true =>
    rw [hs] at hz
    simp only [if_true] at hz
    have hs1 : td1.selected = true := by rw [hz]; exact hs
    have := hl.1 hs1
    subst this
    subst hz
    exact ⟨rfl, fun _ => rfl, fun hc => absurd hc (by decide)⟩
  | false =>
    rw [hs] at hz
    simp only [Bool.false_eq_true, if_false] at hz
    subst hz
    obtain ⟨hf, _, _, hr, hd, _⟩ := hl.2 hs
    exact ⟨hf, fun hc => absurd hc (by decide), fun _ => ⟨hr, hd⟩⟩

/-- C2: for a session whose containers satisfy the partition invariant and that has a
selected record, without island mode and without projection, `set_prop_dist` returns and
afterwards every selected record has `rdist = 0` and the `rdist` of every unselected
record is the minimum over the selected records of all containers of the Euclidean
distance between the two centres mapped to global space: it is attained at a selected
record and is at most the distance to any selected record. -/
theorem set_prop_dist_nearest_selected (sqrtf : α → α) (with_dist : Bool)
    (tcs : List (TransDataContainer α))
    (hpart : ∀ tc ∈ tcs, Partitioned tc.data)
    (hsel : ∃ tc ∈ tcs, ∃ s ∈ tc.data, s.selected = true) :
    ∃ out, set_prop_dist sqrtf false none with_dist tcs = some out ∧
      List.Forall₂ (fun tc tc1 => List.Forall₂ (fun td td1 =>
        (td.selected = true → td1.rdist = 0) ∧
        (td.selected = false →
          (∃ tc2 ∈ tcs, ∃ s ∈ tc2.data, s.selected = true ∧
            td1.rdist = euclid_dist sqrtf (global_center tc td) (global_center tc2 s)) ∧
          (∀ tc2 ∈ tcs, ∀ s ∈ tc2.data, s.selected = true →
            td1.rdist ≤ euclid_dist sqrtf (global_center tc td) (global_center tc2 s))))
        tc.data tc1.data) tcs out := by
  obtain ⟨out, h, r⟩ := set_prop_dist_partitioned sqrtf false none with_dist tcs hpart
  refine ⟨out, h, r.imp ?_⟩
  rintro tc tc1 ⟨_, _, r1⟩
  refine r1.imp ?_
  rintro td td1 ⟨_, h1, h2⟩
  refine ⟨fun hs => by rw [h1 hs], fun hu => ?_⟩
  obtain ⟨hr, _⟩ := h2 hu
  obtain ⟨tc0, htc0, s0, hs0, hsel0⟩ := hsel
  have hne : selected_points false none tcs ≠ [] := by
    intro hnil
    have := (mem_selected_points false none tcs hpart (prop_dist_vec false none tc0 s0)).2
      ⟨tc0, htc0, s0, hs0, hsel0, rfl⟩
    rw [hnil] at this
    simp at this
  cases hm : min_dist sqrtf (selected_points false none tcs) (prop_dist_vec false none tc td) with
  | none => exact absurd ((min_dist_eq_none sqrtf _ _).1 hm) hne
  | some d =>
    rw [hm] at hr
    simp only [Option.getD_some] at hr
    obtain ⟨⟨p, hp, e⟩, hle⟩ := min_dist_spec sqrtf _ _ d hm
    refine ⟨?_, ?_⟩
    · obtain ⟨tc2, htc2, s, hs, hsel2, e2⟩ := (mem_selected_points false none tcs hpart p).1 hp
      refine ⟨tc2, htc2, s, hs, hsel2, ?_⟩
      rw [hr, e, ← e2, len_v3v3_eq_euclid]
      rfl
    · intro tc2 htc2 s hs hsel2
      have := hle _ ((mem_selected_points false none tcs hpart _).2 ⟨tc2, htc2, s, hs, hsel2, rfl⟩)
      rw [hr]
      rw [len_v3v3_eq_euclid] at this
      exact this

end Field

theorem forall₂_getElem? {β γ : Type} {R : β → γ → Prop} {l1 : List β} {l2 : List γ}
    (h : List.Forall₂ R l1 l2) (i : Nat) (a : β) (b : γ) (ha : l1[i]? = some a)
    (hb : l2[i]? = some b) : R a b := by
  induction h generalizing i with
  | nil => simp at ha
  | cons hab _ ih =>
    cases i with
    | zero =>
      simp only [List.getElem?_cons_zero, Option.some.injEq] at ha hb
      subst ha; subst hb; exact hab
    | succ n =>
      simp only [List.getElem?_cons_succ] at ha hb
      exact ih n ha hb

section Field

variable [LinearOrderedField α]

theorem prop_dist_vec_congr (ui : Bool) (pv : Option (V3 α)) (a b : TransDataContainer α)
    (h1 : a.use_local_mat = b.use_local_mat) (h2 : a.mat = b.mat) (td : TransData α) :
    prop_dist_vec ui pv a td = prop_dist_vec ui pv b td := by
  unfold prop_dist_vec
  rw [h1, h2]

theorem selected_points_perm (ui : Bool) (pv : Option (V3 α))
    (tcs1 tcs2 : List (TransDataContainer α))
    (hperm : List.Forall₂ (fun a b => a.data.Perm b.data ∧
      a.use_local_mat = b.use_local_mat ∧ a.mat = b.mat) tcs1 tcs2)
    (hp1 : ∀ tc ∈ tcs1, Partitioned tc.data) (hp2 : ∀ tc ∈ tcs2, Partitioned tc.data) :
    (selected_points ui pv tcs1).Perm (selected_points ui pv tcs2) := by
  induction hperm with
  | nil => exact List.Perm.refl _
  | @cons a b l1 l2 hab _ ih =>
    unfold selected_points at ih ⊢
    rw [List.flatMap_cons, List.flatMap_cons]
    refine List.Perm.append ?_
      (ih (fun tc h => hp1 tc (List.mem_cons_of_mem _ h))
        (fun tc h => hp2 tc (List.mem_cons_of_mem _ h)))
    rw [takeWhile_eq_filter_of_partitioned _ (hp1 a (List.mem_cons_self _ _)),
      takeWhile_eq_filter_of_partitioned _ (hp2 b (List.mem_cons_self _ _))]
    have hf : prop_dist_vec ui pv a = prop_dist_vec ui pv b :=
      funext (prop_dist_vec_congr ui pv a b hab.2.1 hab.2.2)
    rw [hf]
    exact (hab.1.filter _).map _

/-- C6: the distance `set_prop_dist` computes does not depend on the order of the record
arrays.  For two sessions whose containers are pairwise permutations of one another (same
matrices) and all satisfy the partition invariant, both runs return, every unselected
record gets the same `rdist` in both runs wherever it is stored, and within a run two
unselected records at the same least distance from the selected points get the same
`rdist`. -/
theorem set_prop_dist_order_independent (sqrtf : α → α) (use_island : Bool)
    (proj_vec : Option (V3 α)) (with_dist : Bool) (tcs1 tcs2 : List (TransDataContainer α))
    (hperm : List.Forall₂ (fun a b => a.data.Perm b.data ∧
      a.use_local_mat = b.use_local_mat ∧ a.mat = b.mat) tcs1 tcs2)
    (hp1 : ∀ tc ∈ tcs1, Partitioned tc.data) (hp2 : ∀ tc ∈ tcs2, Partitioned tc.data) :
    ∃ out1 out2, set_prop_dist sqrtf use_island proj_vec with_dist tcs1 = some out1 ∧
      set_prop_dist sqrtf use_island proj_vec with_dist tcs2 = some out2 ∧
      (∀ (c i j : Nat) (tc1 tc2 o1 o2 : TransDataContainer α) (td r1 r2 : TransData α),
        tcs1[c]? = some tc1 → tcs2[c]? = some tc2 →
        out1[c]? = some o1 → out2[c]? = some o2 →
        tc1.data[i]? = some td → tc2.data[j]? = some td →
        o1.data[i]? = some r1 → o2.data[j]? = some r2 →
        td.selected = false → r1.rdist = r2.rdist) ∧
      (∀ (c i c' i' : Nat) (tc tc' o o' : TransDataContainer α) (td td' r r' : TransData α),
        tcs1[c]? = some tc → out1[c]? = some o →
        tc.data[i]? = some td → o.data[i]? = some r →
        tcs1[c']? = some tc' → out1[c']? = some o' →
        tc'.data[i']? = some td' → o'.data[i']? = some r' →
        td.selected = false → td'.selected = false →
        min_dist sqrtf (selected_points use_island proj_vec tcs1)
            (prop_dist_vec use_island proj_vec tc td) =
          min_dist sqrtf (selected_points use_island proj_vec tcs1)
            (prop_dist_vec use_island proj_vec tc' td') →
        r.rdist = r'.rdist) := by
  obtain ⟨out1, h1, r1⟩ :=
    set_prop_dist_partitioned sqrtf use_island proj_vec with_dist tcs1 hp1
  obtain ⟨out2, h2, r2⟩ :=
    set_prop_dist_partitioned sqrtf use_island proj_vec with_dist tcs2 hp2
  refine ⟨out1, out2, h1, h2, ?_, ?_⟩
  · intro c i j tc1 tc2 o1 o2 td ra rb a1 a2 a3 a4 a5 a6 a7 a8 hu
    obtain ⟨_, _, q1⟩ := forall₂_getElem? r1 c tc1 o1 a1 a3
    obtain ⟨_, _, q2⟩ := forall₂_getElem? r2 c tc2 o2 a2 a4
    obtain ⟨_, _, k1⟩ := forall₂_getElem? q1 i td ra a5 a7
    obtain ⟨_, _, k2⟩ := forall₂_getElem? q2 j td rb a6 a8
    obtain ⟨_, e1, e2⟩ := forall₂_getElem? hperm c tc1 tc2 a1 a2
    rw [(k1 hu).1, (k2 hu).1, prop_dist_vec_congr use_island proj_vec tc1 tc2 e1 e2,
      min_dist_perm sqrtf _ _ _
        (selected_points_perm use_island proj_vec tcs1 tcs2 hperm hp1 hp2)]
  · intro c i c' i' tc tc' o o' td td' r r' a1 a2 a3 a4 b1 b2 b3 b4 hu hu' heq
    obtain ⟨_, _, q1⟩ := forall₂_getElem? r1 c tc o a1 a2
    obtain ⟨_, _, q2⟩ := forall₂_getElem? r1 c' tc' o' b1 b2
    obtain ⟨_, _, k1⟩ := forall₂_getElem? q1 i td r a3 a4
    obtain ⟨_, _, k2⟩ := forall₂_getElem? q2 i' td' r' b3 b4
    rw [(k1 hu).1, (k2 hu').1, heq]

end Field

/-! ## Proofs: `sort_trans_data_dist_container` -/

theorem qsort_insertion_spec {β : Type} :
    QsortSpec (qsort_insertion : (β → β → Int) → List β → List β) := by
  intro cmp l
  refine ⟨List.perm_insertionSort _ l, fun h => ?_⟩
  haveI : IsTotal β (fun a b => cmp a b ≤ 0) := ⟨h.1⟩
  haveI : IsTrans β (fun a b => cmp a b ≤ 0) := ⟨h.2⟩
  exact List.sorted_insertionSort (fun a b => cmp a b ≤ 0) l

theorem skip_selected_le (data : List (TransData α)) : skip_selected data ≤ data.length := by
  induction data with
  | nil => exact Nat.le_refl _
  | cons td rest ih =>
    simp only [skip_selected, List.length_cons]
    split <;> omega

theorem skip_selected_take (data : List (TransData α)) :
    ∀ td ∈ data.take (skip_selected data), td.selected = true := by
  induction data with
  | nil => intro td h; simp [skip_selected] at h
  | cons t rest ih =>
    intro td h
    simp only [skip_selected] at h
    split at h
    · rename_i hs
      rw [List.take_succ_cons, List.mem_cons] at h
      rcases h with e | h
      · rw [e]; exact hs
      · exact ih td h
    · simp at h

theorem skip_selected_drop (data : List (TransData α)) (hp : Partitioned data) :
    ∀ td ∈ data.drop (skip_selected data), td.selected = false := by
  induction data with
  | nil => intro td h; simp [skip_selected] at h
  | cons t rest ih =>
    intro td h
    simp only [skip_selected] at h
    split at h
    · rw [List.drop_succ_cons] at h
      exact ih ((partitioned_cons t rest).1 hp).2 td h
    · rename_i hs
      rw [List.drop_zero, List.mem_cons] at h
      rcases h with e | h
      · rw [e]; simpa using hs
      · exact partitioned_unsel_tail t rest hp (by simpa using hs) td h

theorem skip_selected_eq_countP (data : List (TransData α)) (hp : Partitioned data) :
    skip_selected data = data.countP (fun td => td.selected) := by
  have h1 := skip_selected_take data
  have h2 := skip_selected_drop data hp
  conv_rhs => rw [← List.take_append_drop (skip_selected data) data]
  rw [List.countP_append, List.countP_eq_length.2 (fun a ha => h1 a ha),
    List.countP_eq_zero.2 (fun a ha => by simp [h2 a ha]), List.length_take]
  have := skip_selected_le data
  omega

section Field

variable [LinearOrderedField α]

theorem compare_dist_le (a b : TransData α) :
    trans_data_compare_dist a b ≤ 0 ↔ a.dist ≤ b.dist := by
  unfold trans_data_compare_dist
  split
  · rename_i h; simp [le_of_lt h]
  · split
    · rename_i h1 h2
      simp [not_le.2 h2]
    · rename_i h1 h2
      simp [not_lt.1 h2]

theorem compare_rdist_le (a b : TransData α) :
    trans_data_compare_rdist a b ≤ 0 ↔ a.rdist ≤ b.rdist := by
  unfold trans_data_compare_rdist
  split
  · rename_i h; simp [le_of_lt h]
  · split
    · rename_i h1 h2
      simp [not_le.2 h2]
    · rename_i h1 h2
      simp [not_lt.1 h2]

theorem compare_dist_consistent :
    ConsistentCmp (trans_data_compare_dist : TransData α → TransData α → Int) :=
  ⟨fun a b => by rw [compare_dist_le, compare_dist_le]; exact le_total _ _,
   fun a b c => by rw [compare_dist_le, compare_dist_le, compare_dist_le]; exact le_trans⟩

theorem compare_rdist_consistent :
    ConsistentCmp (trans_data_compare_rdist : TransData α → TransData α → Int) :=
  ⟨fun a b => by rw [compare_rdist_le, compare_rdist_le]; exact le_total _ _,
   fun a b c => by rw [compare_rdist_le, compare_rdist_le, compare_rdist_le]; exact le_trans⟩

/-- The result of `sort_trans_data_dist_container` on a partitioned array: the selected
prefix followed by a sorted permutation of the unselected suffix. -/
theorem sort_dist_container_spec
    (qsort : (TransData α → TransData α → Int) → List (TransData α) → List (TransData α))
    (hq : QsortSpec qsort) (pc : Bool) (data : List (TransData α)) :
    ∃ suffix, sort_trans_data_dist_container qsort pc data =
        data.take (skip_selected data) ++ suffix ∧
      suffix.Perm (data.drop (skip_selected data)) ∧
      suffix.Pairwise (fun a b =>
        (if pc then a.dist else a.rdist) ≤ (if pc then b.dist else b.rdist)) := by
  unfold sort_trans_data_dist_container
  simp only
  split
  · cases pc with
    | true =>
      refine ⟨qsort trans_data_compare_dist (data.drop (skip_selected data)), by simp,
        (hq _ _).1, ?_⟩
      exact ((hq _ _).2 compare_dist_consistent).imp
        (fun h => by simpa using (compare_dist_le _ _).1 h)
    | false =>
      refine ⟨qsort trans_data_compare_rdist (data.drop (skip_selected data)), by simp,
        (hq _ _).1, ?_⟩
      exact ((hq _ _).2 compare_rdist_consistent).imp
        (fun h => by simpa using (compare_rdist_le _ _).1 h)
  · rename_i h
    have hle := skip_selected_le data
    have e : skip_selected data = data.length := by omega
    refine ⟨[], ?_, ?_, List.Pairwise.nil⟩
    · rw [e, List.take_length, List.append_nil]
    · rw [e, List.drop_length]

/-- C5: for a container whose records satisfy the partition invariant, with `k` the number
of selected records, `sort_trans_data_dist_container` leaves the first `k` records (the
selected prefix) as they are, turns the remaining records (the unselected suffix) into a
permutation of themselves that is non-decreasing in `dist` when `T_PROP_CONNECTED` is set
and in `rdist` otherwise, and the result satisfies the partition invariant; `qsort` is any
sort that meets the contract of the C library function. -/
theorem sort_trans_data_dist_container_sorted
    (qsort : (TransData α → TransData α → Int) → List (TransData α) → List (TransData α))
    (hq : QsortSpec qsort) (prop_connected : Bool) (data : List (TransData α))
    (hp : Partitioned data) :
    (sort_trans_data_dist_container qsort prop_connected data).take
        (data.countP (fun td => td.selected)) =
      data.take (data.countP (fun td => td.selected)) ∧
    ((sort_trans_data_dist_container qsort prop_connected data).drop
        (data.countP (fun td => td.selected))).Perm
      (data.drop (data.countP (fun td => td.selected))) ∧
    ((sort_trans_data_dist_container qsort prop_connected data).drop
        (data.countP (fun td => td.selected))).Pairwise
      (fun a b => (if prop_connected then a.dist else a.rdist) ≤
        (if prop_connected then b.dist else b.rdist)) ∧
    Partitioned (sort_trans_data_dist_container qsort prop_connected data) := by
  obtain ⟨suffix, e, hperm, hsorted⟩ := sort_dist_container_spec qsort hq prop_connected data
  rw [← skip_selected_eq_countP data hp, e]
  have hlen : (data.take (skip_selected data)).length = skip_selected data := by
    rw [List.length_take]
    have := skip_selected_le data
    omega
  refine ⟨?_, ?_, ?_, ?_⟩
  · rw [List.take_left' hlen]
  · rw [List.drop_left' hlen]; exact hperm
  · rw [List.drop_left' hlen]; exact hsorted
  · exact partitioned_append _ _ (skip_selected_take data)
      (fun td h => skip_selected_drop data hp td (hperm.mem_iff.1 h))

end Field

/-! ## Proofs: the mesh pipeline -/

theorem take_skip_selected (data : List (TransData α)) :
    data.take (skip_selected data) = data.takeWhile (fun td => td.selected) := by
  induction data with
  | nil => rfl
  | cons td rest ih =>
    simp only [skip_selected]
    cases hs : td.selected with
    | true => simp [hs, List.takeWhile_cons, ih]
    | false => simp [hs, List.takeWhile_cons]

theorem drop_skip_selected (data : List (TransData α)) :
    data.drop (skip_selected data) = data.dropWhile (fun td => td.selected) := by
  induction data with
  | nil => rfl
  | cons td rest ih =>
    simp only [skip_selected]
    cases hs : td.selected with
    | true => simp [hs, List.dropWhile_cons, ih]
    | false => simp [hs, List.dropWhile_cons]

theorem forall₂_map_eq {β γ δ : Type} {f : β → δ} {g : γ → δ} {l1 : List β} {l2 : List γ}
    (h : List.Forall₂ (fun a b => g b = f a) l1 l2) : l2.map g = l1.map f := by
  induction h with
  | nil => rfl
  | cons hab _ ih => simp [hab, ih]

theorem partitioned_of_map_selected (l1 l2 : List (TransData α))
    (h : l2.map (fun td => td.selected) = l1.map (fun td => td.selected))
    (hp : Partitioned l1) : Partitioned l2 := by
  unfold Partitioned at hp ⊢
  have h1 : (l1.map (fun td => td.selected)).Pairwise (fun a b => b = true → a = true) :=
    List.pairwise_map.2 hp
  rw [← h] at h1
  exact List.pairwise_map.1 h1

section Field

variable [LinearOrderedField α]

/-- The result of `set_prop_dist` on a session with a single, partitioned container. -/
theorem set_prop_dist_single (sqrtf : α → α) (ui : Bool) (pv : Option (V3 α)) (wd : Bool)
    (tc : TransDataContainer α) (hp : Partitioned tc.data) :
    ∃ d2, set_prop_dist sqrtf ui pv wd [tc] = some [{ tc with data := d2 }] ∧
      List.Forall₂ (fun td td1 =>
        td1.flag = td.flag ∧
        (td.selected = true → td1 = { td with rdist := 0 }) ∧
        (td.selected = false →
          td1.rdist = (min_dist sqrtf
            ((tc.data.filter (fun td => td.selected)).map (prop_dist_vec ui pv tc))
            (prop_dist_vec ui pv tc td)).getD (-1) ∧
          td1.dist = (if wd then td1.rdist else td.dist))) tc.data d2 := by
  obtain ⟨out, h, r⟩ := set_prop_dist_partitioned sqrtf ui pv wd [tc]
    (fun t ht => by rw [List.mem_singleton.1 ht]; exact hp)
  rw [List.forall₂_cons_left_iff] at r
  obtain ⟨tc1, rest, ⟨e1, e2, r1⟩, hrest, rfl⟩ := r
  rw [List.forall₂_nil_left_iff] at hrest
  subst hrest
  refine ⟨tc1.data, ?_, ?_⟩
  · rw [h]
    congr 2
    cases tc1
    cases tc
    simp only at e1 e2
    simp [e1, e2]
  · have hpts : selected_points ui pv [tc] =
        (tc.data.filter (fun td => td.selected)).map (prop_dist_vec ui pv tc) := by
      simp [selected_points, takeWhile_eq_filter_of_partitioned _ hp]
    rw [hpts] at r1
    exact r1

end Field

/-! ## Proofs: the five-record mesh example -/


theorem len_v3v3_real_x (a b : ℝ) :
    len_v3v3 Real.sqrt (⟨a, 0, 0⟩ : V3 ℝ) ⟨b, 0, 0⟩ = |b - a| := by
  unfold len_v3v3 len_v3 dot_v3v3 sub_v3_v3v3
  simp only [sub_zero, mul_zero, add_zero]
  exact Real.sqrt_mul_self_eq_abs _

theorem prop_dist_vec_rec_at (ui : Bool) (tc : TransDataContainer ℝ)
    (htc : tc.use_local_mat = false) (f : Nat) (x : ℝ) :
    prop_dist_vec ui none tc (rec_at ℝ f x) = ⟨x, 0, 0⟩ := by
  cases ui <;> simp [prop_dist_vec, htc, rec_at, mul_v3_m3v3, unit_m3]

theorem mesh5_pairs :
    (mesh5 ℝ).map (fun td => (td.selected, mesh5_rdist td)) =
      [(true, 0), (true, 0), (false, 1), (false, 2), (false, 9)] := by
  simp [mesh5, mesh5_rdist, rec_at, TransData.selected, TD_SELECTED]
  norm_num [abs_of_nonneg, abs_of_nonpos]

theorem mem_mesh5 (td : TransData ℝ) (h : td ∈ mesh5 ℝ) :
    ∃ f x, td = rec_at ℝ f x := by
  simp only [mesh5, List.mem_cons, List.mem_singleton, List.not_mem_nil, or_false] at h
  rcases h with h | h | h | h | h <;> exact ⟨_, _, h⟩

theorem mesh5_selected_points (ui : Bool) (tc : TransDataContainer ℝ)
    (htc : tc.use_local_mat = false) :
    ((mesh5 ℝ).filter (fun td => td.selected)).map (prop_dist_vec ui none tc) =
      [⟨0, 0, 0⟩, ⟨1, 0, 0⟩] := by
  have e : (mesh5 ℝ).filter (fun td => td.selected) =
      [rec_at ℝ TD_SELECTED 0, rec_at ℝ TD_SELECTED 1] := by
    simp [mesh5, List.filter, rec_at, TransData.selected, TD_SELECTED]
  rw [e]
  simp [prop_dist_vec_rec_at ui tc htc]

/-- The mesh example through the three steps of `createTransData`, for any initial order
of the five records. -/
theorem mesh5_pipeline
    (qsort : (TransData ℝ → TransData ℝ → Int) → List (TransData ℝ) → List (TransData ℝ))
    (hq : QsortSpec qsort) (use_island : Bool) (l : List (TransData ℝ))
    (hl : l.Perm (mesh5 ℝ)) :
    ∃ out, createTransData_obedit_sort Real.sqrt qsort use_island none ObType.OB_MESH true false
        [⟨l, false, unit_m4 ℝ⟩] = some [⟨out, false, unit_m4 ℝ⟩] ∧
      out.map (fun td => td.rdist) = [0, 0, 1, 2, 9] ∧
      out.map (fun td => td.dist) = [0, 0, 0, 0, 0] := by
  -- step 1: selected records first
  obtain ⟨hp1, hs1⟩ := sort_selected_first_spec l
  have hpart1 := partitioned_of_splitAt _ _ hs1
  set d1 := sort_trans_data_selected_first_container l with hd1
  have hperm1 : d1.Perm (mesh5 ℝ) := hp1.trans hl
  -- step 2: distances
  obtain ⟨d2, h2, r2⟩ := set_prop_dist_single Real.sqrt use_island none false
    ⟨d1, false, unit_m4 ℝ⟩ hpart1
  simp only at h2 r2
  have hpts : min_dist Real.sqrt ((d1.filter (fun td => td.selected)).map
      (prop_dist_vec use_island none ⟨d1, false, unit_m4 ℝ⟩)) =
      min_dist Real.sqrt [⟨0, 0, 0⟩, ⟨1, 0, 0⟩] := by
    funext q
    rw [← mesh5_selected_points use_island ⟨d1, false, unit_m4 ℝ⟩ rfl]
    exact min_dist_perm _ _ _ _ ((hperm1.filter _).map _)
  rw [hpts] at r2
  have r3 : List.Forall₂ (fun td td1 =>
      (fun t : TransData ℝ => (t.selected, t.rdist)) td1 =
        (fun t : TransData ℝ => (t.selected, mesh5_rdist t)) td) d1 d2 := by
    have r2m : List.Forall₂ (fun td td1 => td ∈ d1 ∧ _) d1 d2 :=
      (List.forall₂_and_left _ _).2 ⟨fun _ h => h, r2⟩
    refine r2m.imp ?_
    rintro td td1 ⟨hm, hf, hsel, hun⟩
    have hs : td1.selected = td.selected := by
      unfold TransData.selected; rw [hf]
    obtain ⟨f, x, rfl⟩ := mem_mesh5 td (hperm1.mem_iff.1 hm)
    cases hc : (rec_at ℝ f x).selected with
    | true =>
      simp only [Prod.mk.injEq, hs, hc, true_and]
      rw [hsel hc]
      simp [mesh5_rdist, hc]
    | false =>
      simp only [Prod.mk.injEq, hs, hc, true_and]
      rw [(hun hc).1, prop_dist_vec_rec_at use_island _ rfl]
      simp only [min_dist, len_v3v3_real_x, mesh5_rdist, hc, Option.getD_some]
      simp [rec_at]
  have hmap := forall₂_map_eq r3
  have hpairs : (d2.map (fun t : TransData ℝ => (t.selected, t.rdist))).Perm
      [(true, 0), (true, 0), (false, 1), (false, 2), (false, 9)] := by
    rw [hmap, ← mesh5_pairs]
    exact hperm1.map _
  have hpart2 : Partitioned d2 := by
    refine partitioned_of_map_selected d1 d2 ?_ hpart1
    have := congrArg (List.map Prod.fst) hmap
    simpa [List.map_map] using this
  -- step 3: the unselected suffix by distance
  obtain ⟨suffix, e3, hperm3, hsorted3⟩ := sort_dist_container_spec qsort hq false d2
  rw [take_skip_selected, takeWhile_eq_filter_of_partitioned _ hpart2] at e3
  rw [drop_skip_selected, dropWhile_eq_filter_of_partitioned _ hpart2] at hperm3
  have hdist2 : d2.map (fun td => td.dist) = d1.map (fun td => td.dist) := by
    refine forall₂_map_eq (r2.imp ?_)
    rintro td td1 ⟨_, hsel, hun⟩
    cases hc : td.selected with
    | true => rw [hsel hc]
    | false => simpa using (hun hc).2
  have hperm32 : (sort_trans_data_dist_container qsort false d2).Perm d2 := by
    rw [e3]
    conv_rhs => rw [partitioned_split d2 hpart2]
    exact List.Perm.append_left _ hperm3
  refine ⟨sort_trans_data_dist_container qsort false d2, ?_, ?_, ?_⟩
  · have hlen : data_len_all [(⟨l, false, unit_m4 ℝ⟩ : TransDataContainer ℝ)] = 5 := by
      simp [data_len_all, hl.length_eq, mesh5]
    simp only [createTransData_obedit_sort, hlen]
    simp [sort_trans_data_selected_first, ← hd1, h2, sort_trans_data_dist]
  · rw [e3, List.map_append]
    have ha : (d2.filter (fun td => td.selected)).map (fun td => td.rdist) = [0, 0] := by
      have : (d2.filter (fun td => td.selected)).map (fun td => td.rdist) =
          ((d2.map (fun t : TransData ℝ => (t.selected, t.rdist))).filter
            (fun p => p.1)).map Prod.snd := by
        rw [List.filter_map, List.map_map]; rfl
      rw [this]
      have hq2 := (hpairs.filter (fun p => p.1)).map Prod.snd
      simp only [List.filter, List.map] at hq2
      exact (List.perm_replicate (n := 2)).1 hq2
    have hb : suffix.map (fun td => td.rdist) = [1, 2, 9] := by
      have h1 : (suffix.map (fun td => td.rdist)).Perm [1, 2, 9] := by
        refine (hperm3.map _).trans ?_
        have : (d2.filter (fun td => !td.selected)).map (fun td => td.rdist) =
            ((d2.map (fun t : TransData ℝ => (t.selected, t.rdist))).filter
              (fun p => !p.1)).map Prod.snd := by
          rw [List.filter_map, List.map_map]; rfl
        rw [this]
        have hq2 := (hpairs.filter (fun p => !p.1)).map Prod.snd
        simpa [List.filter, List.map] using hq2
      have h2 : (suffix.map (fun td => td.rdist)).Sorted (· ≤ ·) := by
        unfold List.Sorted
        rw [List.pairwise_map]
        exact hsorted3.imp (fun h => by simpa using h)
      have h3 : ([1, 2, 9] : List ℝ).Sorted (· ≤ ·) := by
        simp [List.Sorted]
        norm_num
      exact List.eq_of_perm_of_sorted h1 h2 h3
    rw [ha, hb]
    rfl
  · have hz : ((sort_trans_data_dist_container qsort false d2).map (fun td => td.dist)).Perm
        (List.replicate 5 0) := by
      refine (hperm32.map _).trans ?_
      rw [hdist2]
      refine (hperm1.map _).trans ?_
      simp [mesh5, rec_at]
    exact (List.perm_replicate (n := 5)).1 hz


/-! ## Examples, witnesses and counterexamples for `set_prop_dist` and the sorts -/

/-- Witness for C2: the five-record mesh example satisfies the hypotheses. -/
theorem set_prop_dist_nearest_selected_witness :
    (∀ tc ∈ session_of (mesh5 ℝ), Partitioned tc.data) ∧
    (∃ tc ∈ session_of (mesh5 ℝ), ∃ s ∈ tc.data, s.selected = true) ∧
    ∃ out, set_prop_dist Real.sqrt false none true (session_of (mesh5 ℝ)) = some out ∧
      List.Forall₂ (fun tc tc1 => List.Forall₂ (fun td td1 =>
        (td.selected = true → td1.rdist = 0) ∧
        (td.selected = false →
          (∃ tc2 ∈ session_of (mesh5 ℝ), ∃ s ∈ tc2.data, s.selected = true ∧
            td1.rdist = euclid_dist Real.sqrt (global_center tc td) (global_center tc2 s)) ∧
          (∀ tc2 ∈ session_of (mesh5 ℝ), ∀ s ∈ tc2.data, s.selected = true →
            td1.rdist ≤ euclid_dist Real.sqrt (global_center tc td) (global_center tc2 s))))
        tc.data tc1.data) (session_of (mesh5 ℝ)) out :=
  ⟨by decide, by decide,
    set_prop_dist_nearest_selected Real.sqrt true (session_of (mesh5 ℝ))
      (by decide) (by decide)⟩

/-- C3 (counterexample): with `with_dist` off, one selected record at the origin and one
unselected record at `(2,0,0)` whose `dist` is `0` before the call: afterwards the
unselected record has `rdist = 2` and still `dist = 0`, so `dist` differs from `rdist`. -/
theorem set_prop_dist_dist_field_counterexample :
    set_prop_dist Real.sqrt false none false
        (session_of [rec_at ℝ TD_SELECTED 0, rec_at ℝ 0 2]) =
      some (session_of [rec_at ℝ TD_SELECTED 0, { rec_at ℝ 0 2 with rdist := 2 }]) ∧
    ({ rec_at ℝ 0 2 with rdist := 2 } : TransData ℝ).selected = false ∧
    ({ rec_at ℝ 0 2 with rdist := 2 } : TransData ℝ).dist ≠
      ({ rec_at ℝ 0 2 with rdist := 2 } : TransData ℝ).rdist := by
  refine ⟨?_, by decide, ?_⟩
  · simp [session_of, set_prop_dist, fill_selected_all, fill_selected, prop_dist_all,
      prop_dist_records, prop_dist_record, rec_at, TransData.selected, TD_SELECTED,
      prop_dist_vec, BLI_kdtree_3d_find_nearest, mul_v3_m3v3, unit_m3, len_v3v3, len_v3,
      sub_v3_v3v3, dot_v3v3]
  · simp [rec_at]

/-- Witness for C4: two unselected records (one of them flagged `TD_NOTCONNECTED`). -/
theorem set_prop_dist_no_selection_witness :
    (∀ tc ∈ session_of [rec_at ℝ 0 2, rec_at ℝ TD_NOTCONNECTED 3],
      ∀ td ∈ tc.data, td.selected = false) ∧
    td_table_len (session_of [rec_at ℝ 0 2, rec_at ℝ TD_NOTCONNECTED 3]) = 0 ∧
    ∃ out, set_prop_dist Real.sqrt true none true
        (session_of [rec_at ℝ 0 2, rec_at ℝ TD_NOTCONNECTED 3]) = some out ∧
      List.Forall₂ (fun tc tc1 => List.Forall₂ (fun _ td1 =>
        td1.rdist = -1 ∧ ((true : Bool) = true → td1.dist = -1)) tc.data tc1.data)
        (session_of [rec_at ℝ 0 2, rec_at ℝ TD_NOTCONNECTED 3]) out :=
  ⟨by decide,
    set_prop_dist_no_selection Real.sqrt true none true
      (session_of [rec_at ℝ 0 2, rec_at ℝ TD_NOTCONNECTED 3]) (by decide)⟩

/-- Witness for C5: insertion sort as `qsort` on the reversed unselected part of the mesh
example. -/
theorem sort_trans_data_dist_container_sorted_witness :
    QsortSpec (qsort_insertion :
      (TransData ℝ → TransData ℝ → Int) → List (TransData ℝ) → List (TransData ℝ)) ∧
    Partitioned [rec_at ℝ TD_SELECTED 0, rec_at ℝ 0 10, rec_at ℝ 0 3] ∧
    Partitioned (sort_trans_data_dist_container qsort_insertion false
      [rec_at ℝ TD_SELECTED 0, rec_at ℝ 0 10, rec_at ℝ 0 3]) :=
  ⟨qsort_insertion_spec, by decide,
    (sort_trans_data_dist_container_sorted qsort_insertion qsort_insertion_spec false
      [rec_at ℝ TD_SELECTED 0, rec_at ℝ 0 10, rec_at ℝ 0 3] (by decide)).2.2.2⟩

/-- Witness for C6: the mesh example and its records in another order. -/
theorem set_prop_dist_order_independent_witness :
    List.Forall₂ (fun a b : TransDataContainer ℝ => a.data.Perm b.data ∧
      a.use_local_mat = b.use_local_mat ∧ a.mat = b.mat)
      (session_of [rec_at ℝ TD_SELECTED 0, rec_at ℝ 0 2, rec_at ℝ 0 3])
      (session_of [rec_at ℝ TD_SELECTED 0, rec_at ℝ 0 3, rec_at ℝ 0 2]) ∧
    ∃ out1 out2,
      set_prop_dist Real.sqrt false none true
        (session_of [rec_at ℝ TD_SELECTED 0, rec_at ℝ 0 2, rec_at ℝ 0 3]) = some out1 ∧
      set_prop_dist Real.sqrt false none true
        (session_of [rec_at ℝ TD_SELECTED 0, rec_at ℝ 0 3, rec_at ℝ 0 2]) = some out2 := by
  have hperm : List.Forall₂ (fun a b : TransDataContainer ℝ => a.data.Perm b.data ∧
      a.use_local_mat = b.use_local_mat ∧ a.mat = b.mat)
      (session_of [rec_at ℝ TD_SELECTED 0, rec_at ℝ 0 2, rec_at ℝ 0 3])
      (session_of [rec_at ℝ TD_SELECTED 0, rec_at ℝ 0 3, rec_at ℝ 0 2]) :=
    List.Forall₂.cons ⟨List.Perm.cons _ (List.Perm.swap _ _ _), rfl, rfl⟩ List.Forall₂.nil
  obtain ⟨out1, out2, h1, h2, _⟩ :=
    set_prop_dist_order_independent Real.sqrt false none true _ _ hperm
      (by decide) (by decide)
  exact ⟨hperm, out1, out2, h1, h2⟩

/-- C7 (amended): the five records of the mesh example, in any initial order, through the
steps `createTransData` runs for a mesh with proportional editing (selected first,
`set_prop_dist(t, 0)`, sort by distance) end with `rdist = [0, 0, 1, 2, 9]` in record
order, and with `dist` as it was created (`0` everywhere here); `qsort` is any sort that
meets the contract of the C library function. -/
theorem createTransData_mesh_example
    (qsort : (TransData ℝ → TransData ℝ → Int) → List (TransData ℝ) → List (TransData ℝ))
    (hq : QsortSpec qsort) (use_island : Bool) (l : List (TransData ℝ))
    (hl : l.Perm (mesh5 ℝ)) :
    ∃ out, createTransData_obedit_sort Real.sqrt qsort use_island none ObType.OB_MESH true false
        [⟨l, false, unit_m4 ℝ⟩] = some [⟨out, false, unit_m4 ℝ⟩] ∧
      out.map (fun td => td.rdist) = [0, 0, 1, 2, 9] ∧
      out.map (fun td => td.dist) = [0, 0, 0, 0, 0] :=
  mesh5_pipeline qsort hq use_island l hl

/-- Witness for C7: insertion sort as `qsort`, the five records in reverse order. -/
theorem createTransData_mesh_example_witness :
    QsortSpec (qsort_insertion :
      (TransData ℝ → TransData ℝ → Int) → List (TransData ℝ) → List (TransData ℝ)) ∧
    (mesh5 ℝ).reverse.Perm (mesh5 ℝ) ∧
    ∃ out, createTransData_obedit_sort Real.sqrt qsort_insertion false none ObType.OB_MESH
        true false [⟨(mesh5 ℝ).reverse, false, unit_m4 ℝ⟩] = some [⟨out, false, unit_m4 ℝ⟩] ∧
      out.map (fun td => td.rdist) = [0, 0, 1, 2, 9] ∧
      out.map (fun td => td.dist) = [0, 0, 0, 0, 0] :=
  ⟨qsort_insertion_spec, List.reverse_perm _,
    createTransData_mesh_example qsort_insertion qsort_insertion_spec false _
      (List.reverse_perm _)⟩

/-- C7 (counterexample): for the five records in the order of the claim, with insertion
sort as `qsort`, the steps end with `rdist = [0, 0, 1, 2, 9]` and `dist = [0, 0, 0, 0, 0]`:
neither field holds `[0, 0, 1, 2, 8]`. -/
theorem createTransData_mesh_example_counterexample :
    ∃ out, createTransData_obedit_sort Real.sqrt qsort_insertion false none ObType.OB_MESH
        true false [⟨mesh5 ℝ, false, unit_m4 ℝ⟩] = some [⟨out, false, unit_m4 ℝ⟩] ∧
      out.map (fun td => td.rdist) ≠ [0, 0, 1, 2, 8] ∧
      out.map (fun td => td.dist) ≠ [0, 0, 1, 2, 8] := by
  obtain ⟨out, h, hr, hd⟩ :=
    mesh5_pipeline qsort_insertion qsort_insertion_spec false (mesh5 ℝ) (List.Perm.refl _)
  refine ⟨out, h, ?_, ?_⟩
  · rw [hr]; norm_num
  · rw [hd]; norm_num


/-! ## Proofs: flag bits -/

theorem and_selected_or (f : Nat) :
    (f ||| TD_NOTCONNECTED) &&& TD_SELECTED = f &&& TD_SELECTED := by
  apply Nat.eq_of_testBit_eq
  intro i
  simp only [TD_SELECTED, TD_NOTCONNECTED, Nat.testBit_and, Nat.testBit_or]
  have h16 : Nat.testBit 16 i = decide (4 = i) := Nat.testBit_two_pow (n := 4)
  have h1 : Nat.testBit 1 i = decide (0 = i) := Nat.testBit_two_pow (n := 0)
  rw [h16, h1]
  by_cases h0 : 0 = i
  · subst h0; simp
  · simp [h0]

theorem and_selected_clear (f : Nat) :
    clear_notconnected f &&& TD_SELECTED = f &&& TD_SELECTED := by
  apply Nat.eq_of_testBit_eq
  intro i
  simp only [clear_notconnected, TD_SELECTED, TD_NOTCONNECTED, Nat.testBit_and,
    Nat.testBit_xor]
  have h16 : Nat.testBit 16 i = decide (4 = i) := Nat.testBit_two_pow (n := 4)
  have h1 : Nat.testBit 1 i = decide (0 = i) := Nat.testBit_two_pow (n := 0)
  rw [h16, h1]
  by_cases h0 : 0 = i
  · subst h0; simp
  · simp [h0]

theorem and_notconnected_clear (f : Nat) : clear_notconnected f &&& TD_NOTCONNECTED = 0 := by
  apply Nat.eq_of_testBit_eq
  intro i
  simp only [clear_notconnected, TD_NOTCONNECTED, Nat.testBit_and, Nat.testBit_xor,
    Nat.zero_testBit]
  have h16 : Nat.testBit 16 i = decide (4 = i) := Nat.testBit_two_pow (n := 4)
  rw [h16]
  by_cases h0 : 4 = i
  · subst h0; simp
  · simp [h0]

theorem and_notconnected_or (f : Nat) : (f ||| TD_NOTCONNECTED) &&& TD_NOTCONNECTED ≠ 0 := by
  intro h
  have h16 : Nat.testBit 16 4 = true := Nat.testBit_two_pow_self (n := 4)
  have := congrArg (fun x => Nat.testBit x 4) h
  simp [TD_NOTCONNECTED, Nat.testBit_and, Nat.testBit_or, h16] at this

theorem selected_set_notconnected (td : TransData α) (d : α) :
    ({ td with dist := d, flag := td.flag ||| TD_NOTCONNECTED } : TransData α).selected =
      td.selected := by
  unfold TransData.selected
  simp only [and_selected_or]

theorem selected_clear_notconnected (td : TransData α) (d : α) :
    ({ td with flag := clear_notconnected td.flag, dist := d } : TransData α).selected =
      td.selected := by
  unfold TransData.selected
  simp only [and_selected_clear]

theorem notconnected_set (td : TransData α) (d : α) :
    ({ td with dist := d, flag := td.flag ||| TD_NOTCONNECTED } : TransData α).notconnected =
      true := by
  unfold TransData.notconnected
  simpa using and_notconnected_or td.flag

theorem notconnected_clear (td : TransData α) (d : α) :
    ({ td with flag := clear_notconnected td.flag, dist := d } : TransData α).notconnected =
      false := by
  unfold TransData.notconnected
  simp [and_notconnected_clear]


/-! ## Proofs: `calc_distanceCurveVerts` on a straight, unit-spaced curve -/

section Field

variable [LinearOrderedField α]

theorem length_with_index_dist (k : Nat) (l : List (TransData α)) :
    (with_index_dist k l).length = l.length := by
  induction l generalizing k with
  | nil => rfl
  | cons td rest ih => simp [with_index_dist, ih]

theorem getElem_with_index_dist (k : Nat) (l : List (TransData α)) (j : Nat)
    (hj : j < l.length) (hj2 : j < (with_index_dist k l).length) :
    (with_index_dist k l)[j] = { l[j] with dist := ((k + j : Nat) : α) } := by
  induction l generalizing k j with
  | nil => simp at hj
  | cons td rest ih =>
    cases j with
    | zero => simp [with_index_dist]
    | succ n =>
      simp only [with_index_dist, List.getElem_cons_succ]
      rw [ih (k + 1) n (by simpa using hj) (by rw [length_with_index_dist]; simpa using hj)]
      rw [show k + 1 + n = k + (n + 1) by omega]

theorem with_index_dist_selected (k : Nat) (l : List (TransData α)) :
    ∀ td ∈ with_index_dist k l, ∃ t ∈ l, td.selected = t.selected := by
  induction l generalizing k with
  | nil => intro td h; simp [with_index_dist] at h
  | cons t rest ih =>
    intro td h
    simp only [with_index_dist, List.mem_cons] at h
    rcases h with e | h
    · exact ⟨t, List.mem_cons_self _ _, by rw [e]; rfl⟩
    · obtain ⟨t1, h1, e1⟩ := ih (k + 1) td h
      exact ⟨t1, List.mem_cons_of_mem _ h1, e1⟩

/-- The second loop, as long as no selected record was met: unselected records are left
as they are. -/
theorem backward_no_near (sqrtf : α → α) (mtx : M3 α) (l : List (TransData α))
    (hl : ∀ td ∈ l, td.selected = false) (h : TransData α) (hh : h.selected = true)
    (nx : Option α) :
    calc_distance_backward sqrtf mtx none nx (l ++ [h]) =
      some (l ++ [{ h with dist := 0 }]) := by
  induction l generalizing nx with
  | nil => simp [calc_distance_backward, hh]
  | cons td rest ih =>
    have hu : td.selected = false := hl td (List.mem_cons_self _ _)
    simp only [List.cons_append, calc_distance_backward, hu, List.append_eq,
      Bool.false_eq_true, if_false]
    rw [ih (fun t ht => hl t (List.mem_cons_of_mem _ ht))]
    simp

end Field

theorem curve_dist_colinear (u : V3 ℝ) (hu : dot_v3v3 u u = 1) (i : Nat) :
    curve_dist Real.sqrt unit_m3 ⟨(0 : Nat) * u.x, (0 : Nat) * u.y, (0 : Nat) * u.z⟩
      ⟨i * u.x, i * u.y, i * u.z⟩ = i := by
  unfold curve_dist len_v3 mul_m3_v3 mul_v3_m3v3 sub_v3_v3v3 dot_v3v3 unit_m3
  simp only
  have e : ∀ a b c : ℝ, (1 * a + 0 * b + 0 * c) * (1 * a + 0 * b + 0 * c) +
      (0 * a + 1 * b + 0 * c) * (0 * a + 1 * b + 0 * c) +
      (0 * a + 0 * b + 1 * c) * (0 * a + 0 * b + 1 * c) = a * a + b * b + c * c := by
    intro a b c; ring
  rw [e]
  unfold dot_v3v3 at hu
  have e2 : ((0 : Nat) * u.x - i * u.x) * ((0 : Nat) * u.x - i * u.x) +
      ((0 : Nat) * u.y - i * u.y) * ((0 : Nat) * u.y - i * u.y) +
      ((0 : Nat) * u.z - i * u.z) * ((0 : Nat) * u.z - i * u.z) = (i : ℝ) * i := by
    have : ((0 : Nat) * u.x - i * u.x) * ((0 : Nat) * u.x - i * u.x) +
      ((0 : Nat) * u.y - i * u.y) * ((0 : Nat) * u.y - i * u.y) +
      ((0 : Nat) * u.z - i * u.z) * ((0 : Nat) * u.z - i * u.z) =
        (i : ℝ) * i * (u.x * u.x + u.y * u.y + u.z * u.z) := by
      push_cast; ring
    rw [this, hu, mul_one]
  rw [e2]
  exact Real.sqrt_mul_self (Nat.cast_nonneg i)

/-- The first loop behind the selected record `0` of a straight, unit-spaced curve. -/
theorem forward_colinear (FLT_MAX : ℝ) (u : V3 ℝ) (hu : dot_v3v3 u u = 1)
    (mtx : M3 ℝ) (hm : mtx = unit_m3) (c0 : V3 ℝ)
    (hc0 : c0 = ⟨(0 : Nat) * u.x, (0 : Nat) * u.y, (0 : Nat) * u.z⟩)
    (l : List (TransData ℝ)) (k : Nat) (hk : 1 ≤ k) (p : ℝ) (hp : p = (k : ℝ) - 1)
    (hl : ∀ j (hj : j < l.length),
      l[j].center = ⟨((k + j : Nat) : ℝ) * u.x, ((k + j : Nat) : ℝ) * u.y,
        ((k + j : Nat) : ℝ) * u.z⟩ ∧ l[j].selected = false) :
    calc_distance_forward Real.sqrt FLT_MAX mtx (some c0) (some p) l =
      some (with_index_dist k l) := by
  subst hm hc0 hp
  induction l generalizing k with
  | nil => rfl
  | cons td rest ih =>
    obtain ⟨hc, hs⟩ := hl 0 (by simp)
    simp only [List.getElem_cons_zero, Nat.add_zero] at hc hs
    simp only [calc_distance_forward, hs, with_index_dist]
    rw [hc, curve_dist_colinear u hu k]
    have hlt : ¬ ((k : ℝ) < (k : ℝ) - 1) := by linarith
    simp only [hlt, if_false, Bool.false_eq_true]
    have := ih (k + 1) (by omega) (fun j hj => by
      have := hl (j + 1) (by simpa using hj)
      simp only [List.getElem_cons_succ] at this
      rw [show k + 1 + j = k + (j + 1) by omega]
      exact this)
    rw [show ((k + 1 : Nat) : ℝ) - 1 = (k : ℝ) by push_cast; ring] at this
    rw [this]
    simp [hc]


/-- C8: for `N ≥ 1` records whose centres are `i * u` for a unit vector `u`, with
`head->mtx` the identity and only record `0` selected, `calc_distanceCurveVerts` returns
and sets `dist_i = i` for every `i`; it changes no flag, so a record that is not flagged
`TD_NOTCONNECTED` on entry (as every record the adapters build) is not flagged
afterwards. -/
theorem calc_distanceCurveVerts_colinear (FLT_MAX : ℝ) (u : V3 ℝ)
    (hu : dot_v3v3 u u = 1) (data : List (TransData ℝ)) (hN : 0 < data.length)
    (hmtx : data[0].mtx = unit_m3)
    (hc : ∀ i (hi : i < data.length), data[i].center = ⟨i * u.x, i * u.y, i * u.z⟩)
    (hsel : ∀ i (hi : i < data.length), data[i].selected = decide (i = 0)) :
    ∃ out, calc_distanceCurveVerts Real.sqrt FLT_MAX data = some out ∧
      out.length = data.length ∧
      ∀ i (hi : i < data.length) (ho : i < out.length),
        out[i].dist = i ∧ out[i].flag = data[i].flag ∧
        (data[i].notconnected = false → out[i].notconnected = false) := by
  cases data with
  | nil => simp at hN
  | cons head rest =>
    simp only [List.getElem_cons_zero] at hmtx
    have hh : head.selected = true := by simpa using hsel 0 (by simp)
    have hc0 : head.center = ⟨(0 : Nat) * u.x, (0 : Nat) * u.y, (0 : Nat) * u.z⟩ := by
      simpa using hc 0 (by simp)
    have hrest : ∀ j (hj : j < rest.length),
        rest[j].center = ⟨((1 + j : Nat) : ℝ) * u.x, ((1 + j : Nat) : ℝ) * u.y,
          ((1 + j : Nat) : ℝ) * u.z⟩ ∧ rest[j].selected = false := by
      intro j hj
      have h1 := hc (j + 1) (by simpa using hj)
      have h2 := hsel (j + 1) (by simpa using hj)
      simp only [List.getElem_cons_succ] at h1 h2
      refine ⟨?_, by simpa using h2⟩
      rw [h1, show 1 + j = j + 1 by omega]
    have hf := forward_colinear FLT_MAX u hu head.mtx hmtx head.center hc0 rest 1 (le_refl 1)
      0 (by norm_num) hrest
    have hrev : ∀ td ∈ (with_index_dist 1 rest).reverse, td.selected = false := by
      intro td htd
      obtain ⟨t, ht, e⟩ := with_index_dist_selected 1 rest td (List.mem_reverse.1 htd)
      obtain ⟨j, hj, rfl⟩ := List.getElem_of_mem ht
      rw [e]; exact (hrest j hj).2
    have hb := backward_no_near Real.sqrt head.mtx _ hrev { head with dist := 0 } hh none
    have hout : calc_distanceCurveVerts Real.sqrt FLT_MAX (head :: rest) =
        some (with_index_dist 0 (head :: rest)) := by
      simp only [calc_distanceCurveVerts, calc_distance_forward, hh, if_true, hf,
        Option.map_some', List.reverse_cons, hb]
      simp [with_index_dist]
    refine ⟨_, hout, length_with_index_dist 0 _, ?_⟩
    intro i hi ho
    rw [getElem_with_index_dist 0 (head :: rest) i hi ho]
    refine ⟨by simp, rfl, fun h => h⟩


section Field

variable [LinearOrderedField α]

/-! ## Proofs: `calc_distanceCurveVerts` against the estimates -/

omit [LinearOrderedField α] in
theorem est_value_coe (FLT_MAX x : α) : est_value FLT_MAX (x : WithTop α) = x := rfl

omit [LinearOrderedField α] in
theorem est_value_top (FLT_MAX : α) : est_value FLT_MAX (⊤ : WithTop α) = FLT_MAX := rfl

theorem ite_lt_eq_max (d p : α) : (if d < p then p else d) = max d p := by
  split
  · rename_i h; exact (max_eq_right (le_of_lt h)).symm
  · rename_i h; exact (max_eq_left (not_lt.1 h)).symm

/-- The first loop against the running estimates. -/
theorem forward_rel (sqrtf : α → α) (FLT_MAX : α) (mtx : M3 α) (l : List (TransData α))
    (near : Option (V3 α)) (prev : Option α) (pE : WithTop α)
    (h : ∀ c, near = some c → ∃ p, prev = some p ∧ pE = (p : WithTop α)) :
    ∃ d1, calc_distance_forward sqrtf FLT_MAX mtx near prev l = some d1 ∧
      List.Forall₂ (fun td td1 => td1.center = td.center ∧ td1.selected = td.selected) l d1 ∧
      List.Forall₂ (fun td1 f => AfterForward FLT_MAX (td1, f)) d1
        (running_estimates sqrtf mtx near pE l) := by
  induction l generalizing near prev pE with
  | nil => exact ⟨[], rfl, List.Forall₂.nil, List.Forall₂.nil⟩
  | cons td rest ih =>
    cases hs : td.selected with
    | true =>
      obtain ⟨d1, e, r1, r2⟩ := ih (some td.center) (some 0) 0
        (fun c _ => ⟨0, rfl, rfl⟩)
      refine ⟨{ td with dist := 0 } :: d1, ?_, ?_, ?_⟩
      · simp only [calc_distance_forward, hs, if_true, e, Option.map_some']
      · exact List.Forall₂.cons ⟨rfl, rfl⟩ r1
      · simp only [running_estimates, hs, if_true]
        refine List.Forall₂.cons ⟨?_, fun _ => rfl⟩ r2
        intro hc
        have : td.selected = false := hc
        rw [hs] at this
        exact absurd this (by decide)
    | false =>
      have hsel0 : ∀ f : WithTop α, (td.selected = true → f = 0) := fun f h => by
        rw [hs] at h; exact absurd h (by decide)
      cases near with
      | some c =>
        obtain ⟨p, hp, hpE⟩ := h c rfl
        subst hp hpE
        obtain ⟨d1, e, r1, r2⟩ := ih (some c)
          (some (max (curve_dist sqrtf mtx c td.center) p))
          ((max (curve_dist sqrtf mtx c td.center) p : α) : WithTop α)
          (fun c _ => ⟨_, rfl, rfl⟩)
        refine ⟨{ td with dist := max (curve_dist sqrtf mtx c td.center) p } :: d1, ?_, ?_, ?_⟩
        · simp only [calc_distance_forward, hs, ite_lt_eq_max, Bool.false_eq_true, if_false,
            e, Option.map_some']
        · exact List.Forall₂.cons ⟨rfl, rfl⟩ r1
        · simp only [running_estimates, hs, Bool.false_eq_true, if_false, ← WithTop.coe_max]
          refine List.Forall₂.cons ⟨?_, hsel0 _⟩ r2
          intro _
          exact ⟨rfl, fun ht => absurd ht (WithTop.coe_ne_top)⟩
      | none =>
        obtain ⟨d1, e, r1, r2⟩ := ih none (some FLT_MAX) ⊤ (fun c hc => by cases hc)
        refine ⟨{ td with dist := FLT_MAX, flag := td.flag ||| TD_NOTCONNECTED } :: d1,
          ?_, ?_, ?_⟩
        · simp only [calc_distance_forward, hs, Bool.false_eq_true, if_false, e,
            Option.map_some']
        · exact List.Forall₂.cons ⟨rfl, selected_set_notconnected td FLT_MAX⟩ r1
        · simp only [running_estimates, hs, Bool.false_eq_true, if_false]
          refine List.Forall₂.cons ⟨?_, fun h => ?_⟩ r2
          · intro _
            exact ⟨rfl, fun _ => notconnected_set td FLT_MAX⟩
          · have h2 := selected_set_notconnected td FLT_MAX
            rw [hs] at h2
            have h3 : ({ td with dist := FLT_MAX, flag := td.flag ||| TD_NOTCONNECTED } :
                TransData α).selected = true := h
            rw [h2] at h3
            exact absurd h3 (by decide)

theorem running_estimates_congr (sqrtf : α → α) (mtx : M3 α) (l l1 : List (TransData α))
    (h : List.Forall₂ (fun td td1 => td1.center = td.center ∧ td1.selected = td.selected) l l1)
    (near : Option (V3 α)) (pE : WithTop α) :
    running_estimates sqrtf mtx near pE l1 = running_estimates sqrtf mtx near pE l := by
  induction h generalizing near pE with
  | nil => rfl
  | cons hab _ ih =>
    simp only [running_estimates, hab.1, hab.2, ih]

theorem length_running_estimates (sqrtf : α → α) (mtx : M3 α) (l : List (TransData α))
    (near : Option (V3 α)) (pE : WithTop α) :
    (running_estimates sqrtf mtx near pE l).length = l.length := by
  induction l generalizing near pE with
  | nil => rfl
  | cons td rest ih =>
    simp only [running_estimates]
    split
    · simp [ih]
    · split <;> simp [ih]

/-- Neighbouring running estimates: `EstimateStep` holds along the list, read from the
end. -/
theorem running_estimates_chain (sqrtf : α → α) (mtx : M3 α) (l : List (TransData α))
    (near : Option (V3 α)) (pE : WithTop α) (a : TransData α × WithTop α)
    (hinv : ∀ c, near = some c → pE ≠ ⊤)
    (ha : a.1.selected = false → (near = none ↔ a.2 = ⊤) ∧ pE = a.2) :
    List.Chain (fun x y => EstimateStep y x) a
      (l.zip (running_estimates sqrtf mtx near pE l)) := by
  induction l generalizing near pE a with
  | nil => exact List.Chain.nil
  | cons td rest ih =>
    cases hs : td.selected with
    | true =>
      simp only [running_estimates, hs, if_true, List.zip_cons_cons]
      refine List.Chain.cons ?_ (ih _ _ _ (fun _ _ => WithTop.zero_ne_top) ?_)
      · intro h1
        have : td.selected = false := h1
        rw [hs] at this
        exact absurd this (by decide)
      · intro h1
        have : td.selected = false := h1
        rw [hs] at this
        exact absurd this (by decide)
    | false =>
      cases near with
      | some c =>
        have hpE := hinv c rfl
        simp only [running_estimates, hs, Bool.false_eq_true, if_false, List.zip_cons_cons]
        have hne : max ((curve_dist sqrtf mtx c td.center : α) : WithTop α) pE ≠ ⊤ := by
          intro h
          rcases max_choice ((curve_dist sqrtf mtx c td.center : α) : WithTop α) pE with e | e
          · rw [e] at h; exact WithTop.coe_ne_top h
          · rw [e] at h; exact hpE h
        refine List.Chain.cons ?_ (ih _ _ _ (fun _ _ => hne) ?_)
        · intro _ h2
          obtain ⟨h3, h4⟩ := ha h2
          refine ⟨fun _ => ?_, fun ht => ?_⟩
          · rw [← h4]; exact le_max_right _ _
          · have := h3.2 ht
            cases this
        · intro _
          exact ⟨⟨fun h => Option.noConfusion h, fun h => absurd h hne⟩, rfl⟩
      | none =>
        simp only [running_estimates, hs, Bool.false_eq_true, if_false, List.zip_cons_cons]
        refine List.Chain.cons ?_ (ih _ _ _ (fun c hc => by cases hc) ?_)
        · intro _ _
          exact ⟨fun h => absurd rfl h, fun _ => rfl⟩
        · intro _
          exact ⟨⟨fun _ => rfl, fun _ => rfl⟩, rfl⟩

end Field

theorem min_max_le {β : Type} [LinearOrder β] (f d n g : β) (h : min f n ≤ g) :
    min f (max d n) ≤ max d g := by
  rcases le_total d n with h1 | h1
  · rw [max_eq_right h1]; exact le_trans h (le_max_right _ _)
  · rw [max_eq_left h1]; exact le_trans (min_le_right _ _) (le_max_left _ _)

section Field

variable [LinearOrderedField α]

/-- The second loop, on the records in the order it visits them, each paired with its
forward estimate: the final `dist` of every unselected record satisfies
`EstimateBounds` with the running estimate taken in that order. -/
theorem backward_rel (sqrtf : α → α) (FLT_MAX : α) (mtx : M3 α)
    (ps : List (TransData α × WithTop α)) (a : TransData α × WithTop α)
    (hchain : List.Chain EstimateStep a ps)
    (hP : ∀ p ∈ ps, AfterForward FLT_MAX p)
    (near : Option (V3 α)) (next : Option α) (nB : WithTop α)
    (hnone : near = none → nB = ⊤)
    (hsome : ∀ c, near = some c → ∃ g, next = some g ∧ nB ≠ ⊤ ∧ (g : WithTop α) ≤ nB ∧
      (a.1.selected = true → (g : WithTop α) = nB) ∧
      (a.1.selected = false →
        (a.2 = ⊤ → (g : WithTop α) = nB) ∧ (a.2 ≠ ⊤ → min a.2 nB ≤ (g : WithTop α)))) :
    ∃ out, calc_distance_backward sqrtf mtx near next (ps.map Prod.fst) = some out ∧
      List.Forall₂ (fun (x : WithTop α × WithTop α) r => EstimateBounds FLT_MAX x.1 x.2 r.dist)
        ((ps.map Prod.snd).zip (running_estimates sqrtf mtx near nB (ps.map Prod.fst)))
        out := by
  induction ps generalizing a near next nB with
  | nil => exact ⟨[], rfl, List.Forall₂.nil⟩
  | cons p rest ih =>
    obtain ⟨td, f⟩ := p
    rw [List.chain_cons] at hchain
    obtain ⟨hstep, hchain2⟩ := hchain
    have hPp := hP (td, f) (List.mem_cons_self _ _)
    have hP2 : ∀ p ∈ rest, AfterForward FLT_MAX p := fun p hp => hP p (List.mem_cons_of_mem _ hp)
    cases hs : td.selected with
    | true =>
      obtain ⟨out, e, r⟩ := ih (td, f) hchain2 hP2 (some td.center) (some 0) 0
        (fun h => Option.noConfusion h)
        (fun c _ => ⟨0, rfl, WithTop.zero_ne_top, le_refl _, fun _ => rfl, fun h => by
          have : td.selected = false := h
          rw [hs] at this
          exact absurd this (by decide)⟩)
      refine ⟨{ td with dist := 0 } :: out, ?_, ?_⟩
      · simp only [List.map_cons, calc_distance_backward, hs, if_true, e, Option.map_some']
      · simp only [List.map_cons, running_estimates, hs, if_true, List.zip_cons_cons]
        refine List.Forall₂.cons ?_ r
        have hf0 : f = 0 := hPp.2 hs
        subst hf0
        exact ⟨fun h => by
            rcases h with h | h
            · exact absurd h WithTop.zero_ne_top
            · exact absurd h WithTop.zero_ne_top,
          fun _ _ => ⟨by simp, le_refl _⟩⟩
    | false =>
      obtain ⟨hdist, hflag⟩ := hPp.1 hs
      simp only at hdist hflag
      cases near with
      | none =>
        have hnB := hnone rfl
        subst hnB
        obtain ⟨out, e, r⟩ := ih (td, f) hchain2 hP2 none (some td.dist) ⊤ (fun _ => rfl)
          (fun c hc => Option.noConfusion hc)
        refine ⟨td :: out, ?_, ?_⟩
        · simp only [List.map_cons, calc_distance_backward, hs, Bool.false_eq_true, if_false,
            e, Option.map_some']
        · simp only [List.map_cons, running_estimates, hs, Bool.false_eq_true, if_false,
            List.zip_cons_cons]
          refine List.Forall₂.cons ?_ r
          exact ⟨fun _ => by simp only [min_top_right]; exact hdist,
            fun _ hb => absurd rfl hb⟩
      | some c =>
        obtain ⟨g, hnext, hnB, hle, hsel, hunsel⟩ := hsome c rfl
        subst hnext
        -- the estimate and the value the loop may write
        have hbne : max ((curve_dist sqrtf mtx c td.center : α) : WithTop α) nB ≠ ⊤ := by
          intro h
          rcases max_choice ((curve_dist sqrtf mtx c td.center : α) : WithTop α) nB with e | e
          · rw [e] at h; exact WithTop.coe_ne_top h
          · rw [e] at h; exact hnB h
        -- the bounds for the record written by the loop
        have key : ∃ r : TransData α,
            (if td.notconnected = true ∨ curve_dist sqrtf mtx c td.center < td.dist ∨
                g < td.dist then
              { td with flag := clear_notconnected td.flag,
                        dist := if curve_dist sqrtf mtx c td.center < g then g
                          else curve_dist sqrtf mtx c td.center }
            else td) = r ∧
            EstimateBounds FLT_MAX f
              (max ((curve_dist sqrtf mtx c td.center : α) : WithTop α) nB) r.dist ∧
            (r.dist : WithTop α) ≤
              max ((curve_dist sqrtf mtx c td.center : α) : WithTop α) nB := by
          by_cases hcond : td.notconnected = true ∨ curve_dist sqrtf mtx c td.center < td.dist ∨
              g < td.dist
          · rw [if_pos hcond, ite_lt_eq_max]
            refine ⟨_, rfl, ?_, ?_⟩
            · refine ⟨fun hor => ?_, fun hf _ => ⟨?_, ?_⟩⟩
              · rcases hor with hft | hbt
                · -- no selected record before: the backward estimate is reached
                  have hg : (g : WithTop α) = nB := by
                    cases ha : a.1.selected with
                    | true => exact hsel ha
                    | false => exact (hunsel ha).1 ((hstep ha hs).2 hft)
                  subst hft
                  simp only [min_top_left, ← hg, ← WithTop.coe_max, est_value_coe]
                · exact absurd hbt hbne
              · -- lower bound
                show min f _ ≤ ((max (curve_dist sqrtf mtx c td.center) g : α) : WithTop α)
                rw [WithTop.coe_max]
                apply min_max_le
                cases ha : a.1.selected with
                | true => rw [hsel ha]; exact min_le_right _ _
                | false =>
                  by_cases hat : a.2 = ⊤
                  · rw [(hunsel ha).1 hat]; exact min_le_right _ _
                  · exact le_trans (min_le_min ((hstep ha hs).1 hat) (le_refl _))
                      ((hunsel ha).2 hat)
              · show ((max (curve_dist sqrtf mtx c td.center) g : α) : WithTop α) ≤ _
                rw [WithTop.coe_max]
                exact max_le_max (le_refl _) hle
            · show ((max (curve_dist sqrtf mtx c td.center) g : α) : WithTop α) ≤ _
              rw [WithTop.coe_max]
              exact max_le_max (le_refl _) hle
          · rw [if_neg hcond]
            push_neg at hcond
            obtain ⟨hnf, hd1, _⟩ := hcond
            have hfne : f ≠ ⊤ := fun h => hnf (hflag h)
            obtain ⟨x, rfl⟩ := WithTop.ne_top_iff_exists.1 hfne
            rw [est_value_coe] at hdist
            have hup : (td.dist : WithTop α) ≤
                max ((curve_dist sqrtf mtx c td.center : α) : WithTop α) nB :=
              le_trans (WithTop.coe_le_coe.2 hd1) (le_max_left _ _)
            refine ⟨_, rfl, ⟨fun hor => ?_, fun _ _ => ⟨?_, hup⟩⟩, hup⟩
            · rcases hor with h | h
              · exact absurd h WithTop.coe_ne_top
              · exact absurd h hbne
            · rw [hdist]; exact min_le_left _ _
        obtain ⟨r, hr, hbounds, hup⟩ := key
        obtain ⟨out, e, rr⟩ := ih (td, f) hchain2 hP2 (some c) (some r.dist)
          (max ((curve_dist sqrtf mtx c td.center : α) : WithTop α) nB)
          (fun h => Option.noConfusion h)
          (fun c1 _ => ⟨r.dist, rfl, hbne, hup, fun h => by
              have : td.selected = true := h
              rw [hs] at this
              exact absurd this (by decide),
            fun _ => ⟨fun hft => by
                have hft2 : f = ⊤ := hft
                have := hbounds.1 (Or.inl hft2)
                rw [hft2, min_top_left] at this
                obtain ⟨y, hy⟩ := WithTop.ne_top_iff_exists.1 hbne
                rw [← hy, est_value_coe] at this
                rw [this, hy],
              fun hfne => (hbounds.2 hfne hbne).1⟩⟩)
        refine ⟨r :: out, ?_, ?_⟩
        · simp only [List.map_cons, calc_distance_backward, hs, Bool.false_eq_true, if_false,
            hr, e, Option.map_some']
        · simp only [List.map_cons, running_estimates, hs, Bool.false_eq_true, if_false,
            List.zip_cons_cons]
          exact List.Forall₂.cons hbounds rr

end Field

section Field

variable [LinearOrderedField α]

/-- The call `calc_distanceCurveVerts` always returns, keeps the number of records, and
the final `dist` values satisfy `EstimateBounds` with the forward and backward
estimates. -/
theorem calc_distanceCurveVerts_bounds (sqrtf : α → α) (FLT_MAX : α)
    (data : List (TransData α)) :
    ∃ out, calc_distanceCurveVerts sqrtf FLT_MAX data = some out ∧
      out.length = data.length ∧
      List.Forall₂ (fun (x : WithTop α × WithTop α) r => EstimateBounds FLT_MAX x.1 x.2 r.dist)
        ((forward_estimates sqrtf data).zip (backward_estimates sqrtf data)) out := by
  cases data with
  | nil => exact ⟨[], rfl, rfl, List.Forall₂.nil⟩
  | cons head rest =>
    obtain ⟨d1, e1, rsame, rafter⟩ := forward_rel sqrtf FLT_MAX head.mtx (head :: rest)
      none none ⊤ (fun c hc => Option.noConfusion hc)
    have hlen1 : d1.length = (head :: rest).length := rsame.length_eq.symm
    have hlenF : (running_estimates sqrtf head.mtx none ⊤ (head :: rest)).length =
        (head :: rest).length := length_running_estimates _ _ _ _ _
    have hF1 : running_estimates sqrtf head.mtx none ⊤ d1 =
        running_estimates sqrtf head.mtx none ⊤ (head :: rest) :=
      running_estimates_congr sqrtf head.mtx _ _ rsame none ⊤
    -- the pairs (record after the first loop, forward estimate), in backward order
    let F := running_estimates sqrtf head.mtx none ⊤ (head :: rest)
    have hFlen : F.length = d1.length := by rw [hlen1]; exact hlenF
    let ps := (d1.zip F).reverse
    have hps1 : ps.map Prod.fst = d1.reverse := by
      show ((d1.zip F).reverse).map Prod.fst = d1.reverse
      rw [List.map_reverse, List.map_fst_zip _ _ (le_of_eq hFlen.symm)]
    have hps2 : ps.map Prod.snd = F.reverse := by
      show ((d1.zip F).reverse).map Prod.snd = F.reverse
      rw [List.map_reverse, List.map_snd_zip _ _ (le_of_eq hFlen)]
    have hP : ∀ p ∈ ps, AfterForward FLT_MAX p := by
      intro p hp
      have hp2 : p ∈ d1.zip F := List.mem_reverse.1 hp
      obtain ⟨td1, f⟩ := p
      exact List.forall₂_zip rafter hp2
    -- a dummy selected record in front of the chain
    let a : TransData α × WithTop α := ({ head with flag := TD_SELECTED }, 0)
    have ha : a.1.selected = true := by
      simp [a, TransData.selected, TD_SELECTED]
    have hchain0 : List.Chain (fun x y => EstimateStep y x) a (d1.zip F) := by
      have := running_estimates_chain sqrtf head.mtx d1 none ⊤ a
        (fun c hc => Option.noConfusion hc)
        (fun h => by rw [ha] at h; exact absurd h (by decide))
      rw [hF1] at this
      exact this
    have hchain1 : List.Chain' EstimateStep ps := by
      have h1 : List.Chain' (fun x y => EstimateStep y x) (d1.zip F) :=
        (List.chain'_cons'.1 hchain0).2
      exact List.chain'_reverse.2 h1
    have hchain : List.Chain EstimateStep a ps := by
      have : List.Chain' EstimateStep (a :: ps) :=
        hchain1.cons' (fun y _ h => by rw [ha] at h; exact absurd h (by decide))
      exact this
    obtain ⟨outr, e2, rb⟩ := backward_rel sqrtf FLT_MAX head.mtx ps a hchain hP none none ⊤
      (fun _ => rfl) (fun c hc => Option.noConfusion hc)
    rw [hps1] at e2
    rw [hps1, hps2] at rb
    have hB : running_estimates sqrtf head.mtx none ⊤ d1.reverse =
        running_estimates sqrtf head.mtx none ⊤ (head :: rest).reverse :=
      running_estimates_congr sqrtf head.mtx _ _ (List.rel_reverse rsame) none ⊤
    rw [hB] at rb
    have hlenB : (running_estimates sqrtf head.mtx none ⊤ (head :: rest).reverse).length =
        F.length := by
      rw [length_running_estimates, List.length_reverse, hlenF]
    refine ⟨outr.reverse, ?_, ?_, ?_⟩
    · simp only [calc_distanceCurveVerts, e1, e2]
    · have := rb.length_eq
      rw [List.length_reverse, ← this, List.length_zip, List.length_reverse, hlenB,
        Nat.min_self, hFlen, hlen1]
    · have h2 := List.rel_reverse rb
      rw [List.zip_eq_zipWith, List.reverse_zipWith (by rw [List.length_reverse, hlenB]),
        List.reverse_reverse, ← List.zip_eq_zipWith] at h2
      exact h2

/-- Where `calc_distanceCurveVerts` takes the minimum of the estimates and where it can
miss it: the function returns for every range of records and every selection pattern,
and for each record, with `f` its forward and `b` its backward
estimate (running maxima of the straight-line distance to the nearest selected record
before, respectively after, the record; infinite when no selected record lies on that
side; `0` at a selected record): when `f` or `b` is infinite, the final `dist` is the
value of `min f b` (`FLT_MAX` when both are infinite); when both are finite, `dist` lies
between `min f b` and `b`. -/
theorem calc_distanceCurveVerts_estimates (sqrtf : α → α) (FLT_MAX : α)
    (data : List (TransData α)) :
    ∃ out, calc_distanceCurveVerts sqrtf FLT_MAX data = some out ∧
      out.length = data.length ∧
      (forward_estimates sqrtf data).length = data.length ∧
      (backward_estimates sqrtf data).length = data.length ∧
      ∀ (i : Nat) (f b : WithTop α) (r : TransData α),
        (forward_estimates sqrtf data)[i]? = some f →
        (backward_estimates sqrtf data)[i]? = some b →
        out[i]? = some r →
        ((f = ⊤ ∨ b = ⊤) → r.dist = est_value FLT_MAX (min f b)) ∧
        (f ≠ ⊤ → b ≠ ⊤ → min f b ≤ (r.dist : WithTop α) ∧ (r.dist : WithTop α) ≤ b) := by
  obtain ⟨out, h, hlen, r⟩ := calc_distanceCurveVerts_bounds sqrtf FLT_MAX data
  refine ⟨out, h, hlen, ?_, ?_, ?_⟩
  · cases data with
    | nil => rfl
    | cons head rest => exact length_running_estimates _ _ _ _ _
  · cases data with
    | nil => rfl
    | cons head rest =>
      simp only [backward_estimates, List.length_reverse, length_running_estimates]
  · intro i f b rr hf hb hr
    have hz : ((forward_estimates sqrtf data).zip (backward_estimates sqrtf data))[i]? =
        some (f, b) := by
      rw [List.getElem?_zip_eq_some]
      exact ⟨hf, hb⟩
    exact forall₂_getElem? r i (f, b) rr hz hr

end Field

/-! ## Examples for `calc_distanceCurveVerts` -/

theorem curve_dist_real_x (a b : ℝ) :
    curve_dist Real.sqrt unit_m3 (⟨a, 0, 0⟩ : V3 ℝ) ⟨b, 0, 0⟩ = |a - b| := by
  unfold curve_dist len_v3 mul_m3_v3 mul_v3_m3v3 sub_v3_v3v3 dot_v3v3 unit_m3
  simp only [sub_self, mul_zero, add_zero, zero_mul, one_mul, zero_add]
  exact Real.sqrt_mul_self_eq_abs _

/-- Claim C9, evaluated on four records on a line, selected at `0`, unselected at `2` and
`10`, selected at `3`.  The forward estimates are `[0, 2, 10, 0]`, the backward estimates
`[0, 7, 7, 0]`.  The first loop leaves the forward estimates in `dist`.  In the second
loop the test `dist < td->dist || (td + 1)->dist < td->dist` holds at the record at `2`
(the distance 1 to the record at `3` is below 2, although `(td + 1)->dist` is 7), and
`td->dist` is raised from 2 to the maximum 7 of the two: `calc_distanceCurveVerts` leaves
`dist = 7` in the record at `2`, not `min 2 7 = 2`. -/
theorem calc_distanceCurveVerts_min_counterexample :
    calc_distance_forward Real.sqrt 1000 (unit_m3 : M3 ℝ) none none (curve4 ℝ) =
      some [rec_at ℝ TD_SELECTED 0, { rec_at ℝ 0 2 with dist := 2 },
        { rec_at ℝ 0 10 with dist := 10 }, rec_at ℝ TD_SELECTED 3] ∧
    calc_distanceCurveVerts Real.sqrt 1000 (curve4 ℝ) =
      some [rec_at ℝ TD_SELECTED 0, { rec_at ℝ 0 2 with dist := 7 },
        { rec_at ℝ 0 10 with dist := 7 }, rec_at ℝ TD_SELECTED 3] ∧
    forward_estimates Real.sqrt (curve4 ℝ) = [0, 2, 10, 0] ∧
    backward_estimates Real.sqrt (curve4 ℝ) = [0, 7, 7, 0] ∧
    ({ rec_at ℝ 0 2 with dist := 7 } : TransData ℝ).selected = false ∧
    ({ rec_at ℝ 0 2 with dist := 7 } : TransData ℝ).dist ≠
      est_value 1000 (min (2 : WithTop ℝ) 7) := by
  refine ⟨?_, ?_, ?_, ?_, by decide, ?_⟩
  · simp [curve4, calc_distance_forward,
      rec_at, TransData.selected, TransData.notconnected, TD_SELECTED, TD_NOTCONNECTED,
      curve_dist_real_x]
    norm_num [abs_of_nonneg, abs_of_nonpos]
  · simp [curve4, calc_distanceCurveVerts, calc_distance_forward, calc_distance_backward,
      rec_at, TransData.selected, TransData.notconnected, TD_SELECTED, TD_NOTCONNECTED,
      curve_dist_real_x, clear_notconnected]
    norm_num [abs_of_nonneg, abs_of_nonpos]
  · simp [curve4, forward_estimates, running_estimates,
      rec_at, TransData.selected, TD_SELECTED, curve_dist_real_x]
    exact_mod_cast (by norm_num : (2 : ℝ) ≤ 10)
  · have h1 : |(3 : ℝ) - 2| = 1 := by norm_num
    have h2 : |(3 : ℝ) - 10| = 7 := by norm_num [abs_of_nonpos]
    simp [curve4, backward_estimates, running_estimates,
      rec_at, TransData.selected, TD_SELECTED, curve_dist_real_x, h1, h2]
  · have e : min (2 : WithTop ℝ) 7 = ((2 : ℝ) : WithTop ℝ) := by
      rw [min_eq_left]
      · rfl
      · exact_mod_cast (by norm_num : (2 : ℝ) ≤ 7)
    rw [e, est_value_coe]
    norm_num

/-- Witness for C8: three records at `0`, `1`, `2` on the `x` axis, the first selected. -/
theorem calc_distanceCurveVerts_colinear_witness :
    dot_v3v3 (⟨1, 0, 0⟩ : V3 ℝ) ⟨1, 0, 0⟩ = 1 ∧
    0 < (curve3 ℝ).length ∧
    ∃ out, calc_distanceCurveVerts Real.sqrt 1000 (curve3 ℝ) = some out ∧
      out.length = (curve3 ℝ).length ∧
      ∀ i (hi : i < (curve3 ℝ).length) (ho : i < out.length),
        out[i].dist = i ∧ out[i].flag = (curve3 ℝ)[i].flag ∧
        ((curve3 ℝ)[i].notconnected = false → out[i].notconnected = false) := by
  have hu : dot_v3v3 (⟨1, 0, 0⟩ : V3 ℝ) ⟨1, 0, 0⟩ = 1 := by norm_num [dot_v3v3]
  refine ⟨hu, by decide, ?_⟩
  refine calc_distanceCurveVerts_colinear 1000 ⟨1, 0, 0⟩ hu (curve3 ℝ) (by decide) rfl ?_ ?_
  · intro i hi
    have hi3 : i < 3 := hi
    interval_cases i <;> simp [curve3, rec_at]
  · intro i hi
    have hi3 : i < 3 := hi
    interval_cases i <;> simp [curve3, rec_at, TransData.selected, TD_SELECTED]


/-! ## Grease-pencil strokes through `createTransData` -/

/-- C10 (code at the failing input): one stroke with the points `(0,0,0)` selected,
`(10,0,0)` and `(1,0,0)` unselected, proportional editing on.  `createTransGPencil` leaves
the connectivity-based `dist = 10` in the record of `(1,0,0)`; when `createTransData`
returns, that record holds `dist = 1`, the distance to the nearest selected point written
by `set_prop_dist(t, 1)`. -/
theorem createTransData_gpencil_overwrites_dist :
    createTransGPencil Real.sqrt 1000 true true false (gp_example ℝ) =
      some [rec_at ℝ TD_SELECTED 0, { rec_at ℝ 0 10 with dist := 10 },
        { rec_at ℝ 0 1 with dist := 10 }] ∧
    createTransData_gpencil Real.sqrt 1000 qsort_insertion false none true true false false
        (unit_m4 ℝ) (gp_example ℝ) =
      some [⟨[rec_at ℝ TD_SELECTED 0, { rec_at ℝ 0 1 with dist := 1, rdist := 1 },
        { rec_at ℝ 0 10 with dist := 10, rdist := 10 }], false, unit_m4 ℝ⟩] := by
  have h1 : createTransGPencil Real.sqrt 1000 true true false (gp_example ℝ) =
      some [rec_at ℝ TD_SELECTED 0, { rec_at ℝ 0 10 with dist := 10 },
        { rec_at ℝ 0 1 with dist := 10 }] := by
    simp [gp_example, createTransGPencil, createTransGPencil_strokes, createTransGPencil_stroke,
      gp_point_to_transdata, calc_distanceCurveVerts, calc_distance_forward,
      calc_distance_backward, rec_at, TransData.selected, TransData.notconnected, TD_SELECTED,
      TD_NOTCONNECTED, curve_dist_real_x, clear_notconnected]
    norm_num [abs_of_nonneg, abs_of_nonpos]
  refine ⟨h1, ?_⟩
  have h2 : sort_trans_data_selected_first_container
      [rec_at ℝ TD_SELECTED 0, { rec_at ℝ 0 10 with dist := 10 },
        { rec_at ℝ 0 1 with dist := 10 }] =
      [rec_at ℝ TD_SELECTED 0, { rec_at ℝ 0 10 with dist := 10 },
        { rec_at ℝ 0 1 with dist := 10 }] := by
    simp [sort_trans_data_selected_first_container, selected_first_loop, scan_unsel, scan_sel,
      rec_at, TransData.selected, TD_SELECTED]
  have h3 : set_prop_dist Real.sqrt false none true
      [⟨[rec_at ℝ TD_SELECTED 0, { rec_at ℝ 0 10 with dist := 10 },
        { rec_at ℝ 0 1 with dist := 10 }], false, unit_m4 ℝ⟩] =
      some [⟨[rec_at ℝ TD_SELECTED 0, { rec_at ℝ 0 10 with dist := 10, rdist := 10 },
        { rec_at ℝ 0 1 with dist := 1, rdist := 1 }], false, unit_m4 ℝ⟩] := by
    simp [set_prop_dist, fill_selected_all, fill_selected, prop_dist_all,
      prop_dist_records, prop_dist_record, rec_at, TransData.selected, TD_SELECTED,
      prop_dist_vec, BLI_kdtree_3d_find_nearest, mul_v3_m3v3, unit_m3, len_v3v3_real_x]
  have h4 : sort_trans_data_dist_container qsort_insertion true
      [rec_at ℝ TD_SELECTED 0, { rec_at ℝ 0 10 with dist := 10, rdist := 10 },
        { rec_at ℝ 0 1 with dist := 1, rdist := 1 }] =
      [rec_at ℝ TD_SELECTED 0, { rec_at ℝ 0 1 with dist := 1, rdist := 1 },
        { rec_at ℝ 0 10 with dist := 10, rdist := 10 }] := by
    simp [sort_trans_data_dist_container, skip_selected, qsort_insertion, rec_at,
      TransData.selected, TD_SELECTED, trans_data_compare_dist, List.insertionSort,
      List.orderedInsert]
  simp only [createTransData_gpencil, h1]
  simp [data_len_all, sort_trans_data_selected_first, h2, h3, sort_trans_data_dist, h4]


/-! ## Proofs: `posttrans_fcurve_clean`, retained keys -/

section Field

variable [LinearOrderedField α]

omit [LinearOrderedField α] in
theorem BEZT_ISSEL_ANY_key_data (a b : BezTriple α) (h : key_data a = key_data b) :
    BEZT_ISSEL_ANY a = BEZT_ISSEL_ANY b := by
  simp only [key_data, Prod.mk.injEq] at h
  simp [BEZT_ISSEL_ANY, h.2.2.1, h.2.2.2.1, h.2.2.2.2]

theorem IS_EQT_iff (a b c : α) : IS_EQT a b c = true ↔ |a - b| ≤ c := by
  unfold IS_EQT
  split
  · next h =>
    rw [abs_of_pos (sub_pos.2 h)]
    simp
  · next h =>
    have h2 : a - b ≤ 0 := sub_nonpos.2 (not_lt.1 h)
    rw [abs_of_nonpos h2]
    simp

theorem IS_EQT_comm (a b c : α) : IS_EQT a b c = IS_EQT b a c := by
  rw [Bool.eq_iff_iff, IS_EQT_iff, IS_EQT_iff, abs_sub_comm]

theorem IS_EQT_self (a c : α) (hc : 0 ≤ c) : IS_EQT a a c = true := by
  rw [IS_EQT_iff]
  simpa using hc

theorem IS_EQT_false_iff (a b c : α) : IS_EQT a b c = false ↔ c < |a - b| := by
  rw [← not_le, ← IS_EQT_iff]
  simp

/-- The search of the first loop keeps the frames of the retained keys. -/
theorem retained_merge_frames (thresh : α) (bezt : BezTriple α) :
    ∀ (rks merged : List (tRetainedKeyframe α)),
      retained_merge thresh bezt rks = some merged →
        merged.map (fun rk => rk.frame) = rks.map (fun rk => rk.frame)
  | [], merged, h => by simp [retained_merge] at h
  | rk :: prev, merged, h => by
    simp only [retained_merge] at h
    split at h
    · cases h
      simp
    · split at h
      · cases h
      · cases hm : retained_merge thresh bezt prev with
        | none => simp [hm] at h
        | some r =>
          simp only [hm, Option.map_some'] at h
          cases h
          simp [retained_merge_frames thresh bezt prev r hm]

/-- A key merged by the search lies within the threshold of a retained key. -/
theorem retained_merge_covers (thresh : α) (bezt : BezTriple α) :
    ∀ (rks merged : List (tRetainedKeyframe α)),
      retained_merge thresh bezt rks = some merged →
        ∃ rk ∈ rks, IS_EQT rk.frame bezt.vec1.x thresh = true
  | [], merged, h => by simp [retained_merge] at h
  | rk :: prev, merged, h => by
    simp only [retained_merge] at h
    split at h
    · next hq => exact ⟨rk, List.mem_cons_self _ _, hq⟩
    · split at h
      · cases h
      · cases hm : retained_merge thresh bezt prev with
        | none => simp [hm] at h
        | some r =>
          obtain ⟨rk2, hrk2, hq⟩ := retained_merge_covers thresh bezt prev r hm
          exact ⟨rk2, List.mem_cons_of_mem _ hrk2, hq⟩

/-- The frames of the retained keys after the first loop: those before it, preceded by
frames of selected keys. -/
theorem retained_collect_frames (thresh : α) :
    ∀ (l : List (BezTriple α)) (rks : List (tRetainedKeyframe α)),
      ∃ added : List α,
        (retained_collect thresh l rks).map (fun rk => rk.frame) =
          added ++ rks.map (fun rk => rk.frame) ∧
        ∀ x ∈ added, ∃ b ∈ l, BEZT_ISSEL_ANY b = true ∧ b.vec1.x = x
  | [], rks => ⟨[], by simp [retained_collect], by simp⟩
  | bezt :: rest, rks => by
    simp only [retained_collect]
    split
    · next hsel =>
      cases hm : retained_merge thresh bezt rks with
      | some merged =>
        obtain ⟨added, h1, h2⟩ := retained_collect_frames thresh rest merged
        refine ⟨added, ?_, ?_⟩
        · simp only [h1, retained_merge_frames thresh bezt rks merged hm]
        · intro x hx
          obtain ⟨b, hb, hb2⟩ := h2 x hx
          exact ⟨b, List.mem_cons_of_mem _ hb, hb2⟩
      | none =>
        obtain ⟨added, h1, h2⟩ :=
          retained_collect_frames thresh rest (⟨bezt.vec1.x, bezt.vec1.y, 1, 0⟩ :: rks)
        refine ⟨added ++ [bezt.vec1.x], ?_, ?_⟩
        · simp only [h1]
          simp
        · intro x hx
          rcases List.mem_append.1 hx with hx | hx
          · obtain ⟨b, hb, hb2⟩ := h2 x hx
            exact ⟨b, List.mem_cons_of_mem _ hb, hb2⟩
          · simp only [List.mem_singleton] at hx
            exact ⟨bezt, List.mem_cons_self _ _, hsel, hx.symm⟩
    · obtain ⟨added, h1, h2⟩ := retained_collect_frames thresh rest rks
      refine ⟨added, h1, ?_⟩
      intro x hx
      obtain ⟨b, hb, hb2⟩ := h2 x hx
      exact ⟨b, List.mem_cons_of_mem _ hb, hb2⟩

/-- Every selected key lies within the threshold of a retained key after the first
loop. -/
theorem retained_collect_covers (thresh : α) (ht : 0 ≤ thresh) :
    ∀ (l : List (BezTriple α)) (rks : List (tRetainedKeyframe α)) (s : BezTriple α),
      s ∈ l → BEZT_ISSEL_ANY s = true →
        ∃ x ∈ (retained_collect thresh l rks).map (fun rk => rk.frame),
          IS_EQT x s.vec1.x thresh = true
  | [], _, s, hs, _ => by simp at hs
  | bezt :: rest, rks, s, hs, hsel => by
    rcases List.mem_cons.1 hs with rfl | hs
    · simp only [retained_collect, hsel, if_true]
      cases hm : retained_merge thresh s rks with
      | some merged =>
        obtain ⟨rk, hrk, hq⟩ := retained_merge_covers thresh s rks merged hm
        obtain ⟨added, h1, -⟩ := retained_collect_frames thresh rest merged
        refine ⟨rk.frame, ?_, hq⟩
        simp only [h1, retained_merge_frames thresh s rks merged hm]
        exact List.mem_append_right _ (List.mem_map_of_mem _ hrk)
      | none =>
        obtain ⟨added, h1, -⟩ :=
          retained_collect_frames thresh rest (⟨s.vec1.x, s.vec1.y, 1, 0⟩ :: rks)
        refine ⟨s.vec1.x, ?_, IS_EQT_self _ _ ht⟩
        simp only [h1]
        simp
    · simp only [retained_collect]
      split
      · cases hm : retained_merge thresh bezt rks with
        | some merged => exact retained_collect_covers thresh ht rest merged s hs hsel
        | none => exact retained_collect_covers thresh ht rest _ s hs hsel
      · exact retained_collect_covers thresh ht rest rks s hs hsel

theorem retained_average_frames (rks : List (tRetainedKeyframe α)) :
    (retained_average rks).map (fun rk => rk.frame) = rks.map (fun rk => rk.frame) := by
  simp [retained_average, Function.comp_def]

/-- No key is selected exactly when the first loop retains nothing. -/
theorem retained_collect_nil_iff (thresh : α) :
    ∀ (l : List (BezTriple α)) (rks : List (tRetainedKeyframe α)),
      retained_collect thresh l rks = [] ↔
        rks = [] ∧ ∀ b ∈ l, BEZT_ISSEL_ANY b = false
  | [], rks => by simp [retained_collect]
  | bezt :: rest, rks => by
    simp only [retained_collect]
    split
    · next hsel =>
      cases hm : retained_merge thresh bezt rks with
      | some merged =>
        have hf := retained_merge_frames thresh bezt rks merged hm
        have hne : merged ≠ [] := by
          intro h0
          rw [h0] at hf
          cases rks with
          | nil => simp [retained_merge] at hm
          | cons a as => simp at hf
        simp only [retained_collect_nil_iff thresh rest merged]
        constructor
        · intro h
          exact absurd h.1 hne
        · intro h
          have := h.2 bezt (List.mem_cons_self _ _)
          rw [hsel] at this
          cases this
      | none =>
        simp only [retained_collect_nil_iff thresh rest _]
        constructor
        · intro h
          cases h.1
        · intro h
          have := h.2 bezt (List.mem_cons_self _ _)
          rw [hsel] at this
          cases this
    · next hsel =>
      rw [retained_collect_nil_iff thresh rest rks]
      have hsel2 : BEZT_ISSEL_ANY bezt = false := by simpa using hsel
      constructor
      · rintro ⟨h1, h2⟩
        refine ⟨h1, ?_⟩
        intro b hb
        rcases List.mem_cons.1 hb with rfl | hb
        · exact hsel2
        · exact h2 b hb
      · rintro ⟨h1, h2⟩
        exact ⟨h1, fun b hb => h2 b (List.mem_cons_of_mem _ hb)⟩

end Field

/-! ## Proofs: `posttrans_fcurve_clean`, deletion loop -/

section Field

variable [LinearOrderedField α]

theorem clean_key_frames (thresh : α) (ca : Bool) (bezt : BezTriple α) :
    ∀ rks : List (tRetainedKeyframe α),
      (clean_key thresh ca bezt rks).2.map (fun rk => rk.frame) =
        rks.map (fun rk => rk.frame)
  | [] => by simp [clean_key]
  | rk :: prev => by
    simp only [clean_key]
    split
    · split <;> simp
    · simp [clean_key_frames thresh ca bezt prev]

/-- A key within the threshold of no retained key is kept as it is. -/
theorem clean_key_no_match (thresh : α) (ca : Bool) (bezt : BezTriple α) :
    ∀ rks : List (tRetainedKeyframe α),
      (∀ x ∈ rks.map (fun rk => rk.frame), IS_EQT bezt.vec1.x x thresh = false) →
        clean_key thresh ca bezt rks = (some bezt, rks)
  | [], _ => by simp [clean_key]
  | rk :: prev, h => by
    have h1 : IS_EQT bezt.vec1.x rk.frame thresh = false := h rk.frame (by simp)
    have h2 := clean_key_no_match thresh ca bezt prev
      (fun x hx => h x (by simp only [List.map_cons]; exact List.mem_cons_of_mem _ hx))
    simp [clean_key, h1, h2]

/-- A key that is kept has its frame, its flags, its handles and handle types. -/
theorem clean_key_kept (thresh : α) (ca : Bool) (bezt kept : BezTriple α) :
    ∀ rks : List (tRetainedKeyframe α),
      (clean_key thresh ca bezt rks).1 = some kept →
        ∃ y, kept = { bezt with vec1 := { bezt.vec1 with y := y } }
  | [], h => by
    simp only [clean_key, Option.some.injEq] at h
    exact ⟨bezt.vec1.y, by rw [← h]⟩
  | rk :: prev, h => by
    simp only [clean_key] at h
    split at h
    · split at h
      · simp only at h
        split at h
        · simp only [Option.some.injEq] at h
          split at h
          · exact ⟨rk.val, h.symm⟩
          · exact ⟨bezt.vec1.y, by rw [← h]⟩
        · cases h
      · cases h
    · exact clean_key_kept thresh ca bezt kept prev h

/-- An unselected key that is kept is unchanged and within the threshold of no retained
key. -/
theorem clean_key_unsel (thresh : α) (ca : Bool) (bezt kept : BezTriple α)
    (hsel : BEZT_ISSEL_ANY bezt = false) :
    ∀ rks : List (tRetainedKeyframe α),
      (clean_key thresh ca bezt rks).1 = some kept →
        kept = bezt ∧
          ∀ x ∈ rks.map (fun rk => rk.frame), IS_EQT bezt.vec1.x x thresh = false
  | [], h => by
    simp only [clean_key, Option.some.injEq] at h
    exact ⟨h.symm, by simp⟩
  | rk :: prev, h => by
    simp only [clean_key, hsel] at h
    split at h
    · simp at h
    · next hq =>
      obtain ⟨h1, h2⟩ := clean_key_unsel thresh ca bezt kept hsel prev h
      refine ⟨h1, ?_⟩
      intro x hx
      simp only [List.map_cons, List.mem_cons] at hx
      rcases hx with rfl | hx
      · simpa using hq
      · exact h2 x hx

theorem clean_keys_frames (thresh : α) (ca : Bool) :
    ∀ (l : List (BezTriple α)) (rks : List (tRetainedKeyframe α)),
      (clean_keys thresh ca l rks).2.map (fun rk => rk.frame) =
        rks.map (fun rk => rk.frame)
  | [], rks => by simp [clean_keys]
  | bezt :: rest, rks => by
    simp only [clean_keys]
    have h1 := clean_key_frames thresh ca bezt (clean_keys thresh ca rest rks).2
    have h2 := clean_keys_frames thresh ca rest rks
    split <;> simp only [h1, h2]

/-- An unselected key left by the second loop is a key of the curve within the threshold
of no retained key. -/
theorem clean_keys_unsel_mem (thresh : α) (ca : Bool) :
    ∀ (l : List (BezTriple α)) (rks : List (tRetainedKeyframe α)) (k : BezTriple α),
      k ∈ (clean_keys thresh ca l rks).1 → BEZT_ISSEL_ANY k = false →
        k ∈ l ∧ ∀ x ∈ rks.map (fun rk => rk.frame), IS_EQT k.vec1.x x thresh = false
  | [], rks, k, hk, _ => by simp [clean_keys] at hk
  | bezt :: rest, rks, k, hk, hsel => by
    simp only [clean_keys] at hk
    have hfr := clean_keys_frames thresh ca rest rks
    split at hk
    · next b hb =>
      simp only [List.mem_cons] at hk
      rcases hk with rfl | hk
      · obtain ⟨y, hy⟩ := clean_key_kept thresh ca bezt k _ hb
        have hsel2 : BEZT_ISSEL_ANY bezt = false := by
          rw [hy] at hsel
          simpa [BEZT_ISSEL_ANY] using hsel
        obtain ⟨h1, h2⟩ := clean_key_unsel thresh ca bezt k hsel2 _ hb
        rw [hfr] at h2
        rw [h1]
        exact ⟨List.mem_cons_self _ _, h2⟩
      · obtain ⟨h1, h2⟩ := clean_keys_unsel_mem thresh ca rest rks k hk hsel
        exact ⟨List.mem_cons_of_mem _ h1, h2⟩
    · obtain ⟨h1, h2⟩ := clean_keys_unsel_mem thresh ca rest rks k hk hsel
      exact ⟨List.mem_cons_of_mem _ h1, h2⟩

/-- The keys picked by a test `P` on the frame that holds only away from every retained
key are left by the second loop as they are. -/
theorem clean_keys_filter (thresh : α) (ca : Bool) (P : α → Bool)
    (frames : List α)
    (hP : ∀ a, P a = true → ∀ x ∈ frames, IS_EQT a x thresh = false) :
    ∀ (l : List (BezTriple α)) (rks : List (tRetainedKeyframe α)),
      rks.map (fun rk => rk.frame) = frames →
        (clean_keys thresh ca l rks).1.filter (fun b => P b.vec1.x) =
          l.filter (fun b => P b.vec1.x)
  | [], rks, _ => by simp [clean_keys]
  | bezt :: rest, rks, hfr => by
    have ih := clean_keys_filter thresh ca P frames hP rest rks hfr
    have hfr2 := clean_keys_frames thresh ca rest rks
    rw [hfr] at hfr2
    simp only [clean_keys]
    by_cases hp : P bezt.vec1.x = true
    · have hnm := clean_key_no_match thresh ca bezt (clean_keys thresh ca rest rks).2
        (by rw [hfr2]; exact hP _ hp)
      rw [hnm]
      simp only [List.filter_cons, hp, if_true, ih]
    · split
      · next b hb =>
        obtain ⟨y, hy⟩ := clean_key_kept thresh ca bezt b _ hb
        have hbx : b.vec1.x = bezt.vec1.x := by rw [hy]
        simp [List.filter_cons, hbx, hp, ih]
      · simp [List.filter_cons, hp, ih]

end Field

/-! ## `posttrans_fcurve_clean`: unselected keys -/

section Field

variable [LinearOrderedField α]

theorem far_from_selected_spec (thresh : α) (l : List (BezTriple α)) (x : α) :
    far_from_selected thresh l x = true ↔
      ∀ s ∈ l, BEZT_ISSEL_ANY s = true → thresh < |x - s.vec1.x| := by
  simp only [far_from_selected, List.all_eq_true, Bool.or_eq_true, Bool.not_eq_true',
    decide_eq_true_eq]
  constructor
  · intro h s hs hsel
    rcases h s hs with h1 | h1
    · rw [hsel] at h1
      cases h1
    · exact h1
  · intro h s hs
    cases hsel : BEZT_ISSEL_ANY s with
    | false => exact Or.inl rfl
    | true => exact Or.inr (h s hs hsel)

/-- The frames of the retained keys the second loop works with are frames of selected
keys. -/
theorem retained_frames_selected (thresh : α) (l : List (BezTriple α)) :
    ∀ x ∈ (retained_average (retained_collect thresh l [])).map (fun rk => rk.frame),
      ∃ s ∈ l, BEZT_ISSEL_ANY s = true ∧ s.vec1.x = x := by
  intro x hx
  rw [retained_average_frames] at hx
  obtain ⟨added, h1, h2⟩ := retained_collect_frames thresh l []
  rw [h1] at hx
  simp only [List.map_nil, List.append_nil] at hx
  exact h2 x hx

/-- C13: for every F-curve (sorted by frame or not) `posttrans_fcurve_clean` leaves no
unselected key at the frame of a selected key; the keys whose frame is farther than
`BEZT_BINARYSEARCH_THRESH` from the frame of every selected key keep their key data
(frame, value, selection) and their order; and a curve without a selected key is
returned unchanged.  `testhandles_fcurve` is any function that leaves key data alone. -/
theorem posttrans_fcurve_clean_unselected
    (testhandles_fcurve : List (BezTriple α) → Bool → List (BezTriple α)) (thresh : α)
    (fcu : FCurve α) (use_handle : Bool)
    (hth : KeepsKeyData testhandles_fcurve) (ht : 0 ≤ thresh) :
    (∀ k ∈ (posttrans_fcurve_clean testhandles_fcurve thresh fcu use_handle).bezt,
      BEZT_ISSEL_ANY k = false →
        ∀ s ∈ fcu.bezt, BEZT_ISSEL_ANY s = true → s.vec1.x ≠ k.vec1.x) ∧
    (((posttrans_fcurve_clean testhandles_fcurve thresh fcu use_handle).bezt.filter
        (fun b => far_from_selected thresh fcu.bezt b.vec1.x)).map key_data =
      (fcu.bezt.filter (fun b => far_from_selected thresh fcu.bezt b.vec1.x)).map key_data) ∧
    ((∀ b ∈ fcu.bezt, BEZT_ISSEL_ANY b = false) →
      posttrans_fcurve_clean testhandles_fcurve thresh fcu use_handle = fcu) := by
  have hsel_none : (∀ b ∈ fcu.bezt, BEZT_ISSEL_ANY b = false) →
      posttrans_fcurve_clean testhandles_fcurve thresh fcu use_handle = fcu := by
    intro hall
    simp only [posttrans_fcurve_clean]
    split
    · rfl
    · have : retained_collect thresh fcu.bezt [] = [] :=
        (retained_collect_nil_iff thresh fcu.bezt []).2 ⟨rfl, hall⟩
      simp [this]
  by_cases hlen : fcu.bezt.length = 0
  · have hnil : fcu.bezt = [] := List.length_eq_zero.1 hlen
    have hout : posttrans_fcurve_clean testhandles_fcurve thresh fcu use_handle = fcu := by
      simp [posttrans_fcurve_clean, hlen]
    rw [hout]
    refine ⟨?_, rfl, fun _ => rfl⟩
    intro k hk
    rw [hnil] at hk
    cases hk
  by_cases hemp : (retained_collect thresh fcu.bezt []).isEmpty = true
  · have hr : retained_collect thresh fcu.bezt [] = [] := List.isEmpty_iff.1 hemp
    have hall := ((retained_collect_nil_iff thresh fcu.bezt []).1 hr).2
    rw [hsel_none hall]
    refine ⟨?_, rfl, fun _ => rfl⟩
    intro k _ _ s hs hsel
    rw [hall s hs] at hsel
    cases hsel
  have hout : (posttrans_fcurve_clean testhandles_fcurve thresh fcu use_handle).bezt =
      testhandles_fcurve (clean_keys thresh
        (fcu.flag &&& (FCURVE_INT_VALUES ||| FCURVE_DISCRETE_VALUES) == 0) fcu.bezt
        (retained_average (retained_collect thresh fcu.bezt []))).1 use_handle := by
    simp [posttrans_fcurve_clean, hlen, hemp]
  rw [hout]
  have hkd := hth (clean_keys thresh
    (fcu.flag &&& (FCURVE_INT_VALUES ||| FCURVE_DISCRETE_VALUES) == 0) fcu.bezt
    (retained_average (retained_collect thresh fcu.bezt []))).1 use_handle
  refine ⟨?_, ?_, hsel_none⟩
  · intro k hk hksel s hs hssel hfr
    have hk2 : key_data k ∈ (clean_keys thresh
        (fcu.flag &&& (FCURVE_INT_VALUES ||| FCURVE_DISCRETE_VALUES) == 0) fcu.bezt
        (retained_average (retained_collect thresh fcu.bezt []))).1.map key_data := by
      rw [← hkd]
      exact List.mem_map_of_mem _ hk
    obtain ⟨k0, hk0, hk0d⟩ := List.mem_map.1 hk2
    have hk0sel : BEZT_ISSEL_ANY k0 = false := by
      rw [BEZT_ISSEL_ANY_key_data k0 k hk0d]
      exact hksel
    have hk0x : k0.vec1.x = k.vec1.x := by
      simp only [key_data, Prod.mk.injEq] at hk0d
      exact hk0d.1
    obtain ⟨-, hno⟩ := clean_keys_unsel_mem thresh _ fcu.bezt _ k0 hk0 hk0sel
    rw [retained_average_frames] at hno
    obtain ⟨x, hx, hq⟩ := retained_collect_covers thresh ht fcu.bezt [] s hs hssel
    have := hno x hx
    rw [hk0x, ← hfr, IS_EQT_comm, hq] at this
    cases this
  · have hP : ∀ a, far_from_selected thresh fcu.bezt a = true →
        ∀ x ∈ (retained_average (retained_collect thresh fcu.bezt [])).map
          (fun rk => rk.frame), IS_EQT a x thresh = false := by
      intro a ha x hx
      obtain ⟨s, hs, hssel, rfl⟩ := retained_frames_selected thresh fcu.bezt x hx
      rw [IS_EQT_false_iff]
      exact (far_from_selected_spec thresh fcu.bezt a).1 ha s hs hssel
    have hfilt := clean_keys_filter thresh
      (fcu.flag &&& (FCURVE_INT_VALUES ||| FCURVE_DISCRETE_VALUES) == 0)
      (far_from_selected thresh fcu.bezt) _ hP fcu.bezt
      (retained_average (retained_collect thresh fcu.bezt [])) rfl
    rw [← hfilt]
    have hcomm : ∀ l : List (BezTriple α),
        (l.filter (fun b => far_from_selected thresh fcu.bezt b.vec1.x)).map key_data =
          (l.map key_data).filter (fun d => far_from_selected thresh fcu.bezt d.1) := by
      intro l
      rw [List.filter_map]
      rfl
    rw [hcomm, hcomm, hkd]

/-- Witness for C13: a selected key and an unselected key at frame 1, an unselected key at
frame 3. -/
theorem posttrans_fcurve_clean_unselected_witness :
    KeepsKeyData (fun (l : List (BezTriple ℚ)) (_ : Bool) => l) ∧ (0 : ℚ) ≤ 1 / 100 ∧
    ∀ k ∈ (posttrans_fcurve_clean (fun l _ => l) (1 / 100 : ℚ)
        ⟨0, [key_at ℚ 1 2 SELECT, key_at ℚ 1 7 0, key_at ℚ 3 4 0]⟩ false).bezt,
      BEZT_ISSEL_ANY k = false →
        ∀ s ∈ [key_at ℚ 1 2 SELECT, key_at ℚ 1 7 0, key_at ℚ 3 4 0],
          BEZT_ISSEL_ANY s = true → s.vec1.x ≠ k.vec1.x :=
  ⟨fun _ _ => rfl, by norm_num,
    (posttrans_fcurve_clean_unselected (fun l _ => l) (1 / 100 : ℚ)
      ⟨0, [key_at ℚ 1 2 SELECT, key_at ℚ 1 7 0, key_at ℚ 3 4 0]⟩ false
      (fun _ _ => rfl) (by norm_num)).1⟩

end Field

/-! ## Proofs: `posttrans_fcurve_clean`, keys sharing an isolated frame -/

section Field

variable [LinearOrderedField α]

theorem retained_collect_append (thresh : α) :
    ∀ (l1 l2 : List (BezTriple α)) (rks : List (tRetainedKeyframe α)),
      retained_collect thresh (l1 ++ l2) rks =
        retained_collect thresh l2 (retained_collect thresh l1 rks)
  | [], l2, rks => by simp [retained_collect]
  | bezt :: rest, l2, rks => by
    simp only [List.cons_append, retained_collect]
    split
    · cases hm : retained_merge thresh bezt rks with
      | some merged => exact retained_collect_append thresh rest l2 merged
      | none => exact retained_collect_append thresh rest l2 _
    · exact retained_collect_append thresh rest l2 rks

/-- The search for a key after `f` never goes past the retained key at `f`. -/
theorem retained_merge_skip (thresh : α) (bezt : BezTriple α) (rkf : tRetainedKeyframe α)
    (Y : List (tRetainedKeyframe α))
    (h1 : IS_EQT rkf.frame bezt.vec1.x thresh = false) (h2 : rkf.frame < bezt.vec1.x) :
    ∀ X : List (tRetainedKeyframe α),
      retained_merge thresh bezt (X ++ rkf :: Y) =
        (retained_merge thresh bezt X).map (fun r => r ++ rkf :: Y)
  | [] => by simp [retained_merge, h1, h2]
  | rk :: prev => by
    simp only [List.cons_append, retained_merge]
    split
    · simp
    · split
      · simp
      · simp only [List.append_eq]
        rw [retained_merge_skip thresh bezt rkf Y h1 h2 prev]
        cases retained_merge thresh bezt prev <;> simp

/-- The keys after `f` leave the retained key at `f` and those before it alone. -/
theorem retained_collect_after (thresh : α) (rkf : tRetainedKeyframe α)
    (Y : List (tRetainedKeyframe α)) :
    ∀ (C : List (BezTriple α)) (X : List (tRetainedKeyframe α)),
      (∀ c ∈ C, IS_EQT rkf.frame c.vec1.x thresh = false ∧ rkf.frame < c.vec1.x) →
        retained_collect thresh C (X ++ rkf :: Y) = retained_collect thresh C X ++ rkf :: Y
  | [], X, _ => by simp [retained_collect]
  | c :: rest, X, h => by
    have hc := h c (List.mem_cons_self _ _)
    have hrest : ∀ c ∈ rest, IS_EQT rkf.frame c.vec1.x thresh = false ∧
        rkf.frame < c.vec1.x := fun c hc => h c (List.mem_cons_of_mem _ hc)
    simp only [retained_collect]
    split
    · rw [retained_merge_skip thresh c rkf Y hc.1 hc.2 X]
      cases hm : retained_merge thresh c X with
      | some merged =>
        simp only [Option.map_some']
        exact retained_collect_after thresh rkf Y rest merged hrest
      | none =>
        simp only [Option.map_none']
        exact retained_collect_after thresh rkf Y rest (_ :: X) hrest
    · exact retained_collect_after thresh rkf Y rest X hrest

/-- The keys at `f` are merged into a retained key at `f` that is the last one. -/
theorem retained_collect_at (thresh : α) (ht : 0 ≤ thresh) (f : α)
    (R : List (tRetainedKeyframe α)) :
    ∀ (B : List (BezTriple α)) (s : α) (c d : Nat), (∀ b ∈ B, b.vec1.x = f) →
      retained_collect thresh B (⟨f, s, c, d⟩ :: R) =
        ⟨f, s + ((B.filter BEZT_ISSEL_ANY).map (fun b => b.vec1.y)).sum,
          c + (B.filter BEZT_ISSEL_ANY).length, d⟩ :: R
  | [], s, c, d, _ => by simp [retained_collect]
  | b :: rest, s, c, d, h => by
    have hb := h b (List.mem_cons_self _ _)
    have hrest : ∀ b ∈ rest, b.vec1.x = f := fun b hb => h b (List.mem_cons_of_mem _ hb)
    simp only [retained_collect]
    split
    · next hsel =>
      simp only [retained_merge, hb, IS_EQT_self f thresh ht, if_true]
      rw [retained_collect_at thresh ht f R rest _ _ d hrest]
      simp only [List.filter_cons, hsel, if_true, List.map_cons, List.sum_cons,
        List.length_cons]
      congr 2
      · ring
      · omega
    · next hsel =>
      rw [retained_collect_at thresh ht f R rest s c d hrest]
      simp [List.filter_cons, hsel]

/-- The keys at `f`, met with every retained key before `f` and none close to it, give one
retained key at `f` when one of them is selected. -/
theorem retained_collect_at_new (thresh : α) (ht : 0 ≤ thresh) (f : α)
    (R : List (tRetainedKeyframe α))
    (hR : ∀ x ∈ R.map (fun rk => rk.frame), IS_EQT x f thresh = false ∧ x < f) :
    ∀ (B : List (BezTriple α)), (∀ b ∈ B, b.vec1.x = f) →
      retained_collect thresh B R =
        if (B.filter BEZT_ISSEL_ANY).length = 0 then R
        else ⟨f, ((B.filter BEZT_ISSEL_ANY).map (fun b => b.vec1.y)).sum,
          (B.filter BEZT_ISSEL_ANY).length, 0⟩ :: R
  | [], _ => by simp [retained_collect]
  | b :: rest, h => by
    have hb := h b (List.mem_cons_self _ _)
    have hrest : ∀ b ∈ rest, b.vec1.x = f := fun b hb => h b (List.mem_cons_of_mem _ hb)
    simp only [retained_collect]
    split
    · next hsel =>
      have hm : retained_merge thresh b R = none := by
        cases R with
        | nil => rfl
        | cons rk prev =>
          have := hR rk.frame (by simp)
          simp [retained_merge, hb, this.1, this.2]
      rw [hm]
      simp only
      rw [hb, retained_collect_at thresh ht f R rest _ _ 0 hrest]
      simp only [List.filter_cons, hsel, if_true, List.map_cons, List.sum_cons,
        List.length_cons, hb]
      rw [if_neg (by omega), Nat.add_comm 1]
    · next hsel =>
      rw [retained_collect_at_new thresh ht f R hR rest hrest]
      simp [List.filter_cons, hsel]

end Field

/-! ## Proofs: `posttrans_fcurve_clean`, deletion around an isolated frame -/

section Field

variable [LinearOrderedField α]

theorem clean_keys_append (thresh : α) (ca : Bool) :
    ∀ (l1 l2 : List (BezTriple α)) (rks : List (tRetainedKeyframe α)),
      clean_keys thresh ca (l1 ++ l2) rks =
        ((clean_keys thresh ca l1 (clean_keys thresh ca l2 rks).2).1 ++
            (clean_keys thresh ca l2 rks).1,
          (clean_keys thresh ca l1 (clean_keys thresh ca l2 rks).2).2)
  | [], l2, rks => by simp [clean_keys]
  | bezt :: rest, l2, rks => by
    have ih := clean_keys_append thresh ca rest l2 rks
    simp only [List.cons_append, clean_keys]
    simp only [List.append_eq]
    rw [ih]
    simp only []
    split <;> simp

/-- Every key left by the second loop has the frame of a key of the curve. -/
theorem clean_keys_frame_mem (thresh : α) (ca : Bool) :
    ∀ (l : List (BezTriple α)) (rks : List (tRetainedKeyframe α)),
      ∀ k ∈ (clean_keys thresh ca l rks).1, ∃ b ∈ l, k.vec1.x = b.vec1.x
  | [], rks, k, hk => by simp [clean_keys] at hk
  | bezt :: rest, rks, k, hk => by
    simp only [clean_keys] at hk
    split at hk
    · next b hb =>
      simp only [List.mem_cons] at hk
      rcases hk with rfl | hk
      · obtain ⟨y, hy⟩ := clean_key_kept thresh ca bezt k _ hb
        exact ⟨bezt, List.mem_cons_self _ _, by rw [hy]⟩
      · obtain ⟨b2, hb2, h⟩ := clean_keys_frame_mem thresh ca rest rks k hk
        exact ⟨b2, List.mem_cons_of_mem _ hb2, h⟩
    · obtain ⟨b2, hb2, h⟩ := clean_keys_frame_mem thresh ca rest rks k hk
      exact ⟨b2, List.mem_cons_of_mem _ hb2, h⟩

/-- A key away from `f` leaves the retained key at `f` as it is. -/
theorem clean_key_far (thresh : α) (ca : Bool) (f v : α) (n d : Nat) (c : BezTriple α)
    (hc : IS_EQT c.vec1.x f thresh = false) (Y : List (tRetainedKeyframe α)) :
    ∀ X : List (tRetainedKeyframe α),
      ∃ X2 Y2, (clean_key thresh ca c (X ++ ⟨f, v, n, d⟩ :: Y)).2 = X2 ++ ⟨f, v, n, d⟩ :: Y2 ∧
        X2.map (fun rk => rk.frame) = X.map (fun rk => rk.frame) ∧
        Y2.map (fun rk => rk.frame) = Y.map (fun rk => rk.frame)
  | [] => by
    refine ⟨[], (clean_key thresh ca c Y).2, ?_, rfl, clean_key_frames thresh ca c Y⟩
    simp [clean_key, hc]
  | rk :: prev => by
    simp only [List.cons_append, clean_key]
    split
    · split
      · exact ⟨{ rk with del_count := rk.del_count + 1 } :: prev, Y, rfl, by simp, rfl⟩
      · exact ⟨rk :: prev, Y, rfl, rfl, rfl⟩
    · obtain ⟨X2, Y2, h1, h2, h3⟩ := clean_key_far thresh ca f v n d c hc Y prev
      refine ⟨rk :: X2, Y2, ?_, by simp [h2], h3⟩
      simp only [List.append_eq] at h1 ⊢
      simp [h1]

theorem clean_key_far_at (thresh : α) (ca : Bool) (f v : α) (n d : Nat) (c : BezTriple α)
    (hc : IS_EQT c.vec1.x f thresh = false) (rks : List (tRetainedKeyframe α))
    (h : RetainedAt thresh f v n d rks) :
    RetainedAt thresh f v n d (clean_key thresh ca c rks).2 := by
  obtain ⟨X, Y, rfl, hX, hY⟩ := h
  obtain ⟨X2, Y2, h1, h2, h3⟩ := clean_key_far thresh ca f v n d c hc Y X
  exact ⟨X2, Y2, h1, by rw [h2]; exact hX, by rw [h3]; exact hY⟩

/-- A key at `f` is matched with the retained key at `f`: a selected one is updated when
`d = n - 1` and deleted otherwise, an unselected one is deleted. -/
theorem clean_key_at (thresh : α) (ht : 0 ≤ thresh) (ca : Bool) (f v : α) (n d : Nat)
    (b : BezTriple α) (hb : b.vec1.x = f) (Y : List (tRetainedKeyframe α)) :
    ∀ X : List (tRetainedKeyframe α),
      (∀ x ∈ X.map (fun rk => rk.frame), IS_EQT f x thresh = false) →
        clean_key thresh ca b (X ++ ⟨f, v, n, d⟩ :: Y) =
          if BEZT_ISSEL_ANY b then
            (if d = n - 1 then
                some (if ca then { b with vec1 := { b.vec1 with y := v } } else b)
              else none,
              X ++ ⟨f, v, n, d + 1⟩ :: Y)
          else (none, X ++ ⟨f, v, n, d⟩ :: Y)
  | [], _ => by
    simp only [List.nil_append, clean_key, hb, IS_EQT_self f thresh ht, if_true]
  | rk :: prev, h => by
    have h1 : IS_EQT b.vec1.x rk.frame thresh = false := by
      rw [hb]
      exact h rk.frame (by simp)
    have ih := clean_key_at thresh ht ca f v n d b hb Y prev
      (fun x hx => h x (by simp only [List.map_cons]; exact List.mem_cons_of_mem _ hx))
    simp only [List.cons_append, clean_key, h1, Bool.false_eq_true, if_false]
    simp only [List.append_eq] at ih ⊢
    rw [ih]
    split <;> rfl

theorem clean_keys_far_at (thresh : α) (ca : Bool) (f v : α) (n d : Nat) :
    ∀ (l : List (BezTriple α)) (rks : List (tRetainedKeyframe α)),
      (∀ c ∈ l, IS_EQT c.vec1.x f thresh = false) → RetainedAt thresh f v n d rks →
        RetainedAt thresh f v n d (clean_keys thresh ca l rks).2
  | [], rks, _, h => by simpa [clean_keys] using h
  | c :: rest, rks, hl, h => by
    have ih := clean_keys_far_at thresh ca f v n d rest rks
      (fun c hc => hl c (List.mem_cons_of_mem _ hc)) h
    have h2 := clean_key_far_at thresh ca f v n d c (hl c (List.mem_cons_self _ _)) _ ih
    simp only [clean_keys]
    split <;> exact h2

/-- The keys at `f`, handled from the last one down, with `d` of the `n` merged keys
already handled: the selected keys are deleted except the first one, which is updated
when the count comes out; the unselected keys are deleted. -/
theorem clean_keys_at (thresh : α) (ht : 0 ≤ thresh) (ca : Bool) (f v : α) (n : Nat) :
    ∀ (B : List (BezTriple α)) (d : Nat) (rks : List (tRetainedKeyframe α)),
      (∀ b ∈ B, b.vec1.x = f) → RetainedAt thresh f v n d rks →
      d + (B.filter BEZT_ISSEL_ANY).length ≤ n →
        (clean_keys thresh ca B rks).1 =
          (match B.find? BEZT_ISSEL_ANY with
            | some b =>
              if d + (B.filter BEZT_ISSEL_ANY).length = n then
                [if ca then { b with vec1 := { b.vec1 with y := v } } else b]
              else []
            | none => []) ∧
        RetainedAt thresh f v n (d + (B.filter BEZT_ISSEL_ANY).length)
          (clean_keys thresh ca B rks).2
  | [], d, rks, _, h, _ => by
    simpa [clean_keys] using h
  | b :: rest, d, rks, hB, h, hle => by
    have hb := hB b (List.mem_cons_self _ _)
    have hrest : ∀ b ∈ rest, b.vec1.x = f := fun b hb => hB b (List.mem_cons_of_mem _ hb)
    have hle2 : d + (rest.filter BEZT_ISSEL_ANY).length ≤ n := by
      refine le_trans ?_ hle
      simp only [List.filter_cons]
      split <;> simp
    obtain ⟨ih1, X, Y, hr, hX, hY⟩ := clean_keys_at thresh ht ca f v n rest d rks hrest h hle2
    have hk := clean_key_at thresh ht ca f v n (d + (rest.filter BEZT_ISSEL_ANY).length)
      b hb Y X hX
    simp only [clean_keys, hr, hk]
    cases hsel : BEZT_ISSEL_ANY b with
    | true =>
      have hlen : (List.filter BEZT_ISSEL_ANY (b :: rest)).length =
          (rest.filter BEZT_ISSEL_ANY).length + 1 := by
        simp [List.filter_cons, hsel]
      rw [hlen] at hle
      have hlt : d + (rest.filter BEZT_ISSEL_ANY).length < n := by omega
      have hrest_nil : (clean_keys thresh ca rest rks).1 = [] := by
        rw [ih1]
        split
        · rw [if_neg (by omega)]
        · rfl
      have hQ : RetainedAt thresh f v n (d + ((rest.filter BEZT_ISSEL_ANY).length + 1))
          (X ++ ⟨f, v, n, d + (rest.filter BEZT_ISSEL_ANY).length + 1⟩ :: Y) :=
        ⟨X, Y, by rw [Nat.add_assoc], hX, hY⟩
      by_cases hd : d + (rest.filter BEZT_ISSEL_ANY).length = n - 1
      · have hn : d + ((rest.filter BEZT_ISSEL_ANY).length + 1) = n := by omega
        simp only [if_true, List.find?_cons, hsel, hlen, hrest_nil, hd, hn]
        exact ⟨trivial, hn ▸ hQ⟩
      · have hn : ¬ d + ((rest.filter BEZT_ISSEL_ANY).length + 1) = n := by omega
        simp only [if_true, List.find?_cons, hsel, hlen, hrest_nil, hd, hn, if_false]
        exact ⟨trivial, hQ⟩
    | false =>
      have hlen : (List.filter BEZT_ISSEL_ANY (b :: rest)).length =
          (rest.filter BEZT_ISSEL_ANY).length := by
        simp [List.filter_cons, hsel]
      simp only [Bool.false_eq_true, if_false, List.find?_cons, hsel, hlen]
      exact ⟨ih1, X, Y, rfl, hX, hY⟩

end Field

/-! ## `posttrans_fcurve_clean`: selected keys sharing a frame -/

section Field

variable [LinearOrderedField α]

/-- A list sorted by frame is its keys before `f`, then those at `f`, then those after. -/
theorem sorted_split_at (f : α) :
    ∀ l : List (BezTriple α), l.Pairwise (fun a b => a.vec1.x ≤ b.vec1.x) →
      l = l.filter (fun b => decide (b.vec1.x < f)) ++
          l.filter (fun b => decide (b.vec1.x = f)) ++
          l.filter (fun b => decide (f < b.vec1.x))
  | [], _ => by simp
  | a :: l, h => by
    obtain ⟨ha, hl⟩ := List.pairwise_cons.1 h
    have ih := sorted_split_at f l hl
    rcases lt_trichotomy a.vec1.x f with hlt | heq | hgt
    · have h1 : ¬ a.vec1.x = f := ne_of_lt hlt
      have h2 : ¬ f < a.vec1.x := not_lt.2 (le_of_lt hlt)
      simp only [List.filter_cons, hlt, h1, h2, decide_True, decide_False, if_true,
        Bool.false_eq_true, if_false, List.cons_append]
      rw [← ih]
    · subst heq
      have h3 : l.filter (fun b => decide (b.vec1.x < a.vec1.x)) = [] := by
        rw [List.filter_eq_nil_iff]
        intro b hb
        have := ha b hb
        simpa using this
      simp only [List.filter_cons, lt_self_iff_false, decide_True, decide_False, if_true,
        Bool.false_eq_true, if_false, h3, List.nil_append, List.cons_append] at ih ⊢
      rw [← ih]
    · have h1 : ¬ a.vec1.x < f := not_lt.2 (le_of_lt hgt)
      have h2 : ¬ a.vec1.x = f := ne_of_gt hgt
      have h3 : l.filter (fun b => decide (b.vec1.x < f)) = [] := by
        rw [List.filter_eq_nil_iff]
        intro b hb
        have := ha b hb
        simp only [decide_eq_true_eq, not_lt]
        exact le_trans (le_of_lt hgt) this
      have h4 : l.filter (fun b => decide (b.vec1.x = f)) = [] := by
        rw [List.filter_eq_nil_iff]
        intro b hb
        have := ha b hb
        simp only [decide_eq_true_eq]
        exact ne_of_gt (lt_of_lt_of_le hgt this)
      simp only [List.filter_cons, hgt, h1, h2, decide_True, decide_False, if_true,
        Bool.false_eq_true, if_false, h3, h4, List.nil_append] at ih ⊢
      rw [← ih]

theorem retained_average_append (X Y : List (tRetainedKeyframe α)) :
    retained_average (X ++ Y) = retained_average X ++ retained_average Y := by
  simp [retained_average]

/-- The keys kept by `posttrans_fcurve_clean` at a frame `f` that carries `n >= 1` selected
keys, every other key of the curve being exactly at `f` or farther than the threshold
from it: the first selected key at `f`, with the mean of the selected values at `f`. -/
theorem clean_keys_isolated (thresh : α) (ht : 0 ≤ thresh) (ca : Bool)
    (l : List (BezTriple α)) (f : α)
    (hsorted : l.Pairwise (fun a b => a.vec1.x ≤ b.vec1.x))
    (hiso : ∀ b ∈ l, b.vec1.x = f ∨ thresh < |b.vec1.x - f|)
    (hn : 1 ≤ (l.filter (fun b => decide (b.vec1.x = f) && BEZT_ISSEL_ANY b)).length) :
    retained_collect thresh l [] ≠ [] ∧
    ∃ b, BEZT_ISSEL_ANY b = true ∧ b.vec1.x = f ∧
      ((clean_keys thresh ca l (retained_average (retained_collect thresh l []))).1.filter
        (fun k => decide (k.vec1.x = f))) =
        [if ca then { b with vec1 := { b.vec1 with y :=
            ((l.filter (fun b => decide (b.vec1.x = f) && BEZT_ISSEL_ANY b)).map
              (fun b => b.vec1.y)).sum /
            (((l.filter (fun b => decide (b.vec1.x = f) && BEZT_ISSEL_ANY b)).length : Nat) : α) } }
          else b] := by
  have hsplit := sorted_split_at f l hsorted
  generalize hA : l.filter (fun b => decide (b.vec1.x < f)) = A at hsplit
  generalize hB : l.filter (fun b => decide (b.vec1.x = f)) = B at hsplit
  generalize hC : l.filter (fun b => decide (f < b.vec1.x)) = C at hsplit
  have hAmem : ∀ a ∈ A, a.vec1.x < f ∧ IS_EQT a.vec1.x f thresh = false := by
    intro a ha
    rw [← hA, List.mem_filter] at ha
    have h1 : a.vec1.x < f := by simpa using ha.2
    rcases hiso a ha.1 with h2 | h2
    · exact absurd h2 (ne_of_lt h1)
    · exact ⟨h1, (IS_EQT_false_iff _ _ _).2 h2⟩
  have hBmem : ∀ b ∈ B, b.vec1.x = f := by
    intro b hb
    rw [← hB, List.mem_filter] at hb
    simpa using hb.2
  have hCmem : ∀ c ∈ C, f < c.vec1.x ∧ IS_EQT c.vec1.x f thresh = false := by
    intro c hc
    rw [← hC, List.mem_filter] at hc
    have h1 : f < c.vec1.x := by simpa using hc.2
    rcases hiso c hc.1 with h2 | h2
    · exact absurd h2 (ne_of_gt h1)
    · exact ⟨h1, (IS_EQT_false_iff _ _ _).2 h2⟩
  have hBsel : l.filter (fun b => decide (b.vec1.x = f) && BEZT_ISSEL_ANY b) =
      B.filter BEZT_ISSEL_ANY := by
    rw [← hB, List.filter_filter]
    congr 1
    funext b
    exact Bool.and_comm _ _
  rw [hBsel] at hn ⊢
  -- first loop
  obtain ⟨addedA, hRA1, hRA2⟩ := retained_collect_frames thresh A []
  simp only [List.map_nil, List.append_nil] at hRA1
  have hRA : ∀ x ∈ (retained_collect thresh A []).map (fun rk => rk.frame),
      IS_EQT x f thresh = false ∧ x < f := by
    intro x hx
    rw [hRA1] at hx
    obtain ⟨a, ha, -, rfl⟩ := hRA2 x hx
    exact ⟨(hAmem a ha).2, (hAmem a ha).1⟩
  obtain ⟨addedC, hRC1, hRC2⟩ := retained_collect_frames thresh C []
  simp only [List.map_nil, List.append_nil] at hRC1
  have hRC : ∀ x ∈ (retained_collect thresh C []).map (fun rk => rk.frame),
      IS_EQT f x thresh = false := by
    intro x hx
    rw [hRC1] at hx
    obtain ⟨c, hc, -, rfl⟩ := hRC2 x hx
    rw [IS_EQT_comm]
    exact (hCmem c hc).2
  have hcollect : retained_collect thresh l [] =
      retained_collect thresh C [] ++
        ⟨f, ((B.filter BEZT_ISSEL_ANY).map (fun b => b.vec1.y)).sum,
          (B.filter BEZT_ISSEL_ANY).length, 0⟩ :: retained_collect thresh A [] := by
    rw [hsplit, retained_collect_append, retained_collect_append,
      retained_collect_at_new thresh ht f _ hRA B hBmem, if_neg (by omega)]
    have := retained_collect_after thresh
      ⟨f, ((B.filter BEZT_ISSEL_ANY).map (fun b => b.vec1.y)).sum,
        (B.filter BEZT_ISSEL_ANY).length, 0⟩ (retained_collect thresh A []) C []
      (fun c hc => ⟨by rw [IS_EQT_comm]; exact (hCmem c hc).2, (hCmem c hc).1⟩)
    simpa using this
  refine ⟨by rw [hcollect]; simp, ?_⟩
  -- second loop
  have hstart : RetainedAt thresh f
      (((B.filter BEZT_ISSEL_ANY).map (fun b => b.vec1.y)).sum /
        (((B.filter BEZT_ISSEL_ANY).length : Nat) : α))
      (B.filter BEZT_ISSEL_ANY).length 0
      (retained_average (retained_collect thresh l [])) := by
    refine ⟨retained_average (retained_collect thresh C []),
      retained_average (retained_collect thresh A []), ?_, ?_, ?_⟩
    · rw [hcollect, retained_average_append]
      simp [retained_average]
    · rw [retained_average_frames]
      exact hRC
    · rw [retained_average_frames]
      intro x hx
      rw [IS_EQT_comm]
      exact (hRA x hx).1
  have hafterC := clean_keys_far_at thresh ca f _ _ 0 C _ (fun c hc => (hCmem c hc).2) hstart
  obtain ⟨hBout, hafterB⟩ := clean_keys_at thresh ht ca f _ _ B 0 _ hBmem hafterC (by omega)
  obtain ⟨b1, hb1⟩ : ∃ b1, B.find? BEZT_ISSEL_ANY = some b1 := by
    cases hfind : B.find? BEZT_ISSEL_ANY with
    | some b1 => exact ⟨b1, rfl⟩
    | none =>
      rw [List.find?_eq_none] at hfind
      have : B.filter BEZT_ISSEL_ANY = [] := by
        rw [List.filter_eq_nil_iff]
        intro b hb
        exact hfind b hb
      rw [this] at hn
      simp at hn
  simp only [hb1, Nat.zero_add, if_true] at hBout
  have hb1sel : BEZT_ISSEL_ANY b1 = true := List.find?_some hb1
  have hb1f : b1.vec1.x = f := hBmem b1 (List.mem_of_find?_eq_some hb1)
  refine ⟨b1, hb1sel, hb1f, ?_⟩
  have hkeys : ∀ R, (clean_keys thresh ca l R).1 =
      (clean_keys thresh ca A (clean_keys thresh ca B (clean_keys thresh ca C R).2).2).1 ++
        (clean_keys thresh ca B (clean_keys thresh ca C R).2).1 ++
        (clean_keys thresh ca C R).1 := by
    intro R
    rw [hsplit, clean_keys_append, clean_keys_append]
  rw [hkeys, hBout, List.filter_append, List.filter_append]
  have hAout : (clean_keys thresh ca A (clean_keys thresh ca B (clean_keys thresh ca C
      (retained_average (retained_collect thresh l []))).2).2).1.filter
      (fun k => decide (k.vec1.x = f)) = [] := by
    rw [List.filter_eq_nil_iff]
    intro k hk
    obtain ⟨a, ha, hka⟩ := clean_keys_frame_mem thresh ca A _ k hk
    simp only [decide_eq_true_eq]
    rw [hka]
    exact ne_of_lt (hAmem a ha).1
  have hCout : (clean_keys thresh ca C
      (retained_average (retained_collect thresh l []))).1.filter
      (fun k => decide (k.vec1.x = f)) = [] := by
    rw [List.filter_eq_nil_iff]
    intro k hk
    obtain ⟨c, hc, hkc⟩ := clean_keys_frame_mem thresh ca C _ k hk
    simp only [decide_eq_true_eq]
    rw [hkc]
    exact ne_of_gt (hCmem c hc).1
  rw [hAout, hCout]
  cases ca <;> simp [hb1f]

end Field

section Field

variable [LinearOrderedField α]

omit [LinearOrderedField α] in
/-- A test on the frame commutes with taking key data. -/
theorem filter_frame_key_data [DecidableEq α] (f : α) (l : List (BezTriple α)) :
    (l.filter (fun b => decide (b.vec1.x = f))).map key_data =
      (l.map key_data).filter (fun d => decide (d.1 = f)) := by
  rw [List.filter_map]
  rfl

/-- C11: for an F-curve with keys sorted by frame whose values may be averaged, and a frame
`f` carrying `n >= 1` selected keys while every other key is exactly at `f` or farther than
`BEZT_BINARYSEARCH_THRESH` from `f`: after `posttrans_fcurve_clean` exactly one key is at
`f`, it is selected, and its value is the arithmetic mean of the `n` selected values.
`testhandles_fcurve` is any function that leaves key data alone. -/
theorem posttrans_fcurve_clean_average
    (testhandles_fcurve : List (BezTriple α) → Bool → List (BezTriple α)) (thresh : α)
    (fcu : FCurve α) (use_handle : Bool) (f : α)
    (hth : KeepsKeyData testhandles_fcurve) (ht : 0 ≤ thresh)
    (hsorted : fcu.bezt.Pairwise (fun a b => a.vec1.x ≤ b.vec1.x))
    (havg : fcu.flag &&& (FCURVE_INT_VALUES ||| FCURVE_DISCRETE_VALUES) = 0)
    (hiso : ∀ b ∈ fcu.bezt, b.vec1.x = f ∨ thresh < |b.vec1.x - f|)
    (hn : 1 ≤ (fcu.bezt.filter
      (fun b => decide (b.vec1.x = f) && BEZT_ISSEL_ANY b)).length) :
    ∃ k, (posttrans_fcurve_clean testhandles_fcurve thresh fcu use_handle).bezt.filter
        (fun b => decide (b.vec1.x = f)) = [k] ∧
      BEZT_ISSEL_ANY k = true ∧
      k.vec1.y =
        ((fcu.bezt.filter (fun b => decide (b.vec1.x = f) && BEZT_ISSEL_ANY b)).map
          (fun b => b.vec1.y)).sum /
        (((fcu.bezt.filter
          (fun b => decide (b.vec1.x = f) && BEZT_ISSEL_ANY b)).length : Nat) : α) := by
  obtain ⟨hne, b, hbsel, hbf, hkept⟩ :=
    clean_keys_isolated thresh ht true fcu.bezt f hsorted hiso hn
  have hlen : ¬ fcu.bezt.length = 0 := by
    intro h0
    rw [List.length_eq_zero.1 h0] at hn
    simp at hn
  have hemp : (retained_collect thresh fcu.bezt []).isEmpty = false := by
    cases h : retained_collect thresh fcu.bezt [] with
    | nil => exact absurd h hne
    | cons a as => rfl
  have hca : (fcu.flag &&& (FCURVE_INT_VALUES ||| FCURVE_DISCRETE_VALUES) == 0) = true := by
    rw [havg]
    rfl
  have hout : (posttrans_fcurve_clean testhandles_fcurve thresh fcu use_handle).bezt =
      testhandles_fcurve (clean_keys thresh true fcu.bezt
        (retained_average (retained_collect thresh fcu.bezt []))).1 use_handle := by
    simp [posttrans_fcurve_clean, hlen, hemp, hca]
  have hkd := hth (clean_keys thresh true fcu.bezt
    (retained_average (retained_collect thresh fcu.bezt []))).1 use_handle
  have hmap : ((posttrans_fcurve_clean testhandles_fcurve thresh fcu use_handle).bezt.filter
      (fun b => decide (b.vec1.x = f))).map key_data =
      [key_data ({ b with vec1 := { b.vec1 with y :=
        ((fcu.bezt.filter (fun b => decide (b.vec1.x = f) && BEZT_ISSEL_ANY b)).map
          (fun b => b.vec1.y)).sum /
        (((fcu.bezt.filter
          (fun b => decide (b.vec1.x = f) && BEZT_ISSEL_ANY b)).length : Nat) : α) } })] := by
    rw [hout, filter_frame_key_data, hkd, ← filter_frame_key_data, hkept]
    simp
  obtain ⟨k, hk, hkk⟩ : ∃ k,
      (posttrans_fcurve_clean testhandles_fcurve thresh fcu use_handle).bezt.filter
        (fun b => decide (b.vec1.x = f)) = [k] ∧
      key_data k = key_data ({ b with vec1 := { b.vec1 with y :=
        ((fcu.bezt.filter (fun b => decide (b.vec1.x = f) && BEZT_ISSEL_ANY b)).map
          (fun b => b.vec1.y)).sum /
        (((fcu.bezt.filter
          (fun b => decide (b.vec1.x = f) && BEZT_ISSEL_ANY b)).length : Nat) : α) } }) := by
    cases hl : (posttrans_fcurve_clean testhandles_fcurve thresh fcu use_handle).bezt.filter
        (fun b => decide (b.vec1.x = f)) with
    | nil =>
      rw [hl] at hmap
      simp at hmap
    | cons k rest =>
      rw [hl] at hmap
      simp only [List.map_cons, List.cons.injEq, List.map_eq_nil_iff] at hmap
      exact ⟨k, by rw [hmap.2], hmap.1⟩
  refine ⟨k, hk, ?_, ?_⟩
  · rw [BEZT_ISSEL_ANY_key_data k _ hkk]
    simpa [BEZT_ISSEL_ANY] using hbsel
  · simp only [key_data, Prod.mk.injEq] at hkk
    exact hkk.2.1

/-- Witness for C11: two selected keys at frame 1 with values 2 and 4 and an unselected
key at frame 3 leave one key at frame 1, selected, with value 3. -/
theorem posttrans_fcurve_clean_average_witness :
    KeepsKeyData (fun (l : List (BezTriple ℚ)) (_ : Bool) => l) ∧ (0 : ℚ) ≤ 1 / 100 ∧
    ∃ k, (posttrans_fcurve_clean (fun l _ => l) (1 / 100 : ℚ)
        ⟨0, [key_at ℚ 1 2 SELECT, key_at ℚ 1 4 SELECT, key_at ℚ 3 5 0]⟩ false).bezt.filter
        (fun b => decide (b.vec1.x = 1)) = [k] ∧
      BEZT_ISSEL_ANY k = true ∧ k.vec1.y = 3 := by
  obtain ⟨k, h1, h2, h3⟩ := posttrans_fcurve_clean_average (fun l _ => l) (1 / 100 : ℚ)
    ⟨0, [key_at ℚ 1 2 SELECT, key_at ℚ 1 4 SELECT, key_at ℚ 3 5 0]⟩ false 1
    (fun _ _ => rfl) (by norm_num) (by norm_num [key_at]) (by decide)
    (by norm_num [key_at]) (by norm_num [key_at, BEZT_ISSEL_ANY, SELECT])
  refine ⟨fun _ _ => rfl, by norm_num, k, h1, h2, ?_⟩
  rw [h3]
  norm_num [key_at, BEZT_ISSEL_ANY, SELECT]

end Field

/-! ## `posttrans_fcurve_clean`: a second run -/

section Field

variable [LinearOrderedField α]

theorem retained_merge_congr (thresh : α) (b b2 : BezTriple α)
    (h : key_data b = key_data b2) (rks : List (tRetainedKeyframe α)) :
    retained_merge thresh b rks = retained_merge thresh b2 rks := by
  simp only [key_data, Prod.mk.injEq] at h
  induction rks with
  | nil => rfl
  | cons rk prev ih => simp only [retained_merge, h.1, h.2.1, ih]

theorem retained_collect_congr (thresh : α) :
    ∀ (l l2 : List (BezTriple α)) (rks : List (tRetainedKeyframe α)),
      l.map key_data = l2.map key_data →
        retained_collect thresh l rks = retained_collect thresh l2 rks
  | [], [], _, _ => rfl
  | [], _ :: _, _, h => by simp at h
  | _ :: _, [], _, h => by simp at h
  | b :: rest, b2 :: rest2, rks, h => by
    simp only [List.map_cons, List.cons.injEq] at h
    have hsel := BEZT_ISSEL_ANY_key_data b b2 h.1
    have hx : b.vec1.x = b2.vec1.x := by
      have := h.1
      simp only [key_data, Prod.mk.injEq] at this
      exact this.1
    have hy : b.vec1.y = b2.vec1.y := by
      have := h.1
      simp only [key_data, Prod.mk.injEq] at this
      exact this.2.1
    simp only [retained_collect, hsel, retained_merge_congr thresh b b2 h.1 rks, hx, hy]
    split
    · split
      · exact retained_collect_congr thresh rest rest2 _ h.2
      · exact retained_collect_congr thresh rest rest2 _ h.2
    · exact retained_collect_congr thresh rest rest2 _ h.2

theorem clean_key_congr (thresh : α) (ca : Bool) (b b2 : BezTriple α)
    (h : key_data b = key_data b2) :
    ∀ rks : List (tRetainedKeyframe α),
      (clean_key thresh ca b rks).1.map key_data =
          (clean_key thresh ca b2 rks).1.map key_data ∧
        (clean_key thresh ca b rks).2 = (clean_key thresh ca b2 rks).2
  | [] => by simp [clean_key, h]
  | rk :: prev => by
    have hsel := BEZT_ISSEL_ANY_key_data b b2 h
    have ih := clean_key_congr thresh ca b b2 h prev
    simp only [key_data, Prod.mk.injEq] at h
    simp only [clean_key, hsel, h.1]
    split
    · split
      · refine ⟨?_, rfl⟩
        split
        · cases ca <;> simp [key_data, h]
        · rfl
      · exact ⟨rfl, rfl⟩
    · exact ⟨ih.1, by rw [ih.2]⟩

theorem clean_keys_congr (thresh : α) (ca : Bool) :
    ∀ (l l2 : List (BezTriple α)) (rks : List (tRetainedKeyframe α)),
      l.map key_data = l2.map key_data →
        (clean_keys thresh ca l rks).1.map key_data =
            (clean_keys thresh ca l2 rks).1.map key_data ∧
          (clean_keys thresh ca l rks).2 = (clean_keys thresh ca l2 rks).2
  | [], [], _, _ => ⟨rfl, rfl⟩
  | [], _ :: _, _, h => by simp at h
  | _ :: _, [], _, h => by simp at h
  | b :: rest, b2 :: rest2, rks, h => by
    simp only [List.map_cons, List.cons.injEq] at h
    obtain ⟨ih1, ih2⟩ := clean_keys_congr thresh ca rest rest2 rks h.2
    obtain ⟨hk1, hk2⟩ := clean_key_congr thresh ca b b2 h.1 (clean_keys thresh ca rest rks).2
    simp only [clean_keys]
    rw [← ih2]
    cases h1 : (clean_key thresh ca b (clean_keys thresh ca rest rks).2).1 with
    | none =>
      rw [h1] at hk1
      cases h2 : (clean_key thresh ca b2 (clean_keys thresh ca rest rks).2).1 with
      | none => exact ⟨ih1, hk2⟩
      | some k2 =>
        rw [h2] at hk1
        simp at hk1
    | some k1 =>
      rw [h1] at hk1
      cases h2 : (clean_key thresh ca b2 (clean_keys thresh ca rest rks).2).1 with
      | none =>
        rw [h2] at hk1
        simp at hk1
      | some k2 =>
        rw [h2] at hk1
        simp only [Option.map_some', Option.some.injEq] at hk1
        exact ⟨by simp [hk1, ih1], hk2⟩

/-- The key data `posttrans_fcurve_clean` leaves depend on the key data of the curve
only, whatever the handles are and however `testhandles_fcurve` recalculates them. -/
theorem posttrans_fcurve_clean_congr
    (th th2 : List (BezTriple α) → Bool → List (BezTriple α)) (thresh : α)
    (hth : KeepsKeyData th) (hth2 : KeepsKeyData th2) (flag : Nat)
    (l l2 : List (BezTriple α)) (u u2 : Bool) (h : l.map key_data = l2.map key_data) :
    (posttrans_fcurve_clean th thresh ⟨flag, l⟩ u).bezt.map key_data =
      (posttrans_fcurve_clean th2 thresh ⟨flag, l2⟩ u2).bezt.map key_data := by
  have hlen : l.length = l2.length := by
    have := congrArg List.length h
    simpa using this
  have hr := retained_collect_congr thresh l l2 [] h
  simp only [posttrans_fcurve_clean, hlen, hr]
  split
  · exact h
  · split
    · exact h
    · simp only [hth _ _, hth2 _ _]
      exact (clean_keys_congr thresh _ l l2 _ h).1

omit [LinearOrderedField α] in
theorem posttrans_fcurve_clean_flag [LinearOrderedField α]
    (th : List (BezTriple α) → Bool → List (BezTriple α)) (thresh : α) (fcu : FCurve α)
    (u : Bool) : (posttrans_fcurve_clean th thresh fcu u).flag = fcu.flag := by
  simp only [posttrans_fcurve_clean]
  split
  · rfl
  · split <;> rfl

end Field

theorem chain7_once :
    (posttrans_fcurve_clean (fun l _ => l) (1 / 100 : ℚ) ⟨0, chain7 ℚ⟩ false).bezt.map
        key_data =
      [(1 / 125, 15 / 2, 1, 1, 1), (2 / 125, 43 / 2, 1, 1, 1), (9 / 250, 37, 1, 1, 1)] := by
  norm_num [chain7, posttrans_fcurve_clean, retained_collect, retained_merge,
    retained_average, clean_keys, clean_key, IS_EQT, BEZT_ISSEL_ANY, key_at, SELECT,
    FCURVE_INT_VALUES, FCURVE_DISCRETE_VALUES, key_data]

theorem chain7_twice :
    (posttrans_fcurve_clean (fun l _ => l) (1 / 100 : ℚ)
      ⟨0, [key_at ℚ (1 / 125) (15 / 2) 1, key_at ℚ (2 / 125) (43 / 2) 1,
        key_at ℚ (9 / 250) 37 1]⟩ false).bezt.map key_data =
      [(1 / 125, 29 / 2, 1, 1, 1), (9 / 250, 37, 1, 1, 1)] := by
  norm_num [posttrans_fcurve_clean, retained_collect, retained_merge,
    retained_average, clean_keys, clean_key, IS_EQT, BEZT_ISSEL_ANY, key_at, SELECT,
    FCURVE_INT_VALUES, FCURVE_DISCRETE_VALUES, key_data]

/-- C12 (code at the failing input): on the seven selected keys of `chain7`, with threshold
0.01, a first run of `posttrans_fcurve_clean` leaves three keys, at frames 0.008, 0.016
and 0.036, and a second run leaves two, at 0.008 and 0.036: the second run is not a
no-op.  `testhandles_fcurve` is any function that leaves key data alone. -/
theorem posttrans_fcurve_clean_second_run
    (testhandles_fcurve : List (BezTriple ℚ) → Bool → List (BezTriple ℚ)) (use_handle : Bool)
    (hth : KeepsKeyData testhandles_fcurve) :
    (posttrans_fcurve_clean testhandles_fcurve (1 / 100) ⟨0, chain7 ℚ⟩ use_handle).bezt.map
        key_data =
      [(1 / 125, 15 / 2, 1, 1, 1), (2 / 125, 43 / 2, 1, 1, 1), (9 / 250, 37, 1, 1, 1)] ∧
    (posttrans_fcurve_clean testhandles_fcurve (1 / 100)
      (posttrans_fcurve_clean testhandles_fcurve (1 / 100) ⟨0, chain7 ℚ⟩ use_handle)
      use_handle).bezt.map key_data =
      [(1 / 125, 29 / 2, 1, 1, 1), (9 / 250, 37, 1, 1, 1)] := by
  have hid : KeepsKeyData (fun (l : List (BezTriple ℚ)) (_ : Bool) => l) := fun _ _ => rfl
  have h1 : (posttrans_fcurve_clean testhandles_fcurve (1 / 100) ⟨0, chain7 ℚ⟩
      use_handle).bezt.map key_data =
      [(1 / 125, 15 / 2, 1, 1, 1), (2 / 125, 43 / 2, 1, 1, 1), (9 / 250, 37, 1, 1, 1)] := by
    rw [posttrans_fcurve_clean_congr testhandles_fcurve (fun l _ => l) (1 / 100) hth hid 0
      (chain7 ℚ) (chain7 ℚ) use_handle false rfl]
    exact chain7_once
  refine ⟨h1, ?_⟩
  have hflag := posttrans_fcurve_clean_flag testhandles_fcurve (1 / 100 : ℚ) ⟨0, chain7 ℚ⟩
    use_handle
  have hstruct : posttrans_fcurve_clean testhandles_fcurve (1 / 100) ⟨0, chain7 ℚ⟩ use_handle =
      ⟨0, (posttrans_fcurve_clean testhandles_fcurve (1 / 100) ⟨0, chain7 ℚ⟩
        use_handle).bezt⟩ := by
    cases hc : posttrans_fcurve_clean testhandles_fcurve (1 / 100) ⟨0, chain7 ℚ⟩ use_handle
    rw [hc] at hflag
    simp only at hflag
    simp [hflag]
  rw [hstruct, posttrans_fcurve_clean_congr testhandles_fcurve (fun l _ => l) (1 / 100) hth hid 0
    _ [key_at ℚ (1 / 125) (15 / 2) 1, key_at ℚ (2 / 125) (43 / 2) 1, key_at ℚ (9 / 250) 37 1]
    use_handle false (by rw [h1]; simp [key_at, key_data])]
  exact chain7_twice

/-- Witness for C12: `testhandles_fcurve` that changes nothing. -/
theorem posttrans_fcurve_clean_second_run_witness :
    KeepsKeyData (fun (l : List (BezTriple ℚ)) (_ : Bool) => l) ∧
    ((posttrans_fcurve_clean (fun l _ => l) (1 / 100)
      (posttrans_fcurve_clean (fun l _ => l) (1 / 100) ⟨0, chain7 ℚ⟩ false)
      false).bezt.map key_data).length = 2 ∧
    ((posttrans_fcurve_clean (fun l _ => l) (1 / 100) ⟨0, chain7 ℚ⟩ false).bezt.map
      key_data).length = 3 := by
  have h := posttrans_fcurve_clean_second_run (fun l _ => l) false (fun _ _ => rfl)
  exact ⟨fun _ _ => rfl, by rw [h.2]; rfl, by rw [h.1]; rfl⟩

/-! ## Proofs: `flushTransSeq` -/

section Seq

variable {σ : Type}

end Seq

section Seq

variable {σ : Type}

end Seq

theorem apply_at_spec {R : Type} :
    ∀ (fs : List (R → R)) (pre mid post : List R), mid.length = fs.length →
      apply_at (pre ++ mid ++ post) pre.length fs =
        some (pre ++ List.zipWith (fun f r => f r) fs mid ++ post)
  | [], pre, mid, post, h => by
    have : mid = [] := List.length_eq_zero.1 h
    simp [apply_at, this]
  | f :: fs, pre, [], post, h => by simp at h
  | f :: fs, pre, r :: mid, post, h => by
    have hlen : mid.length = fs.length := by simpa using h
    have hget : (pre ++ r :: mid ++ post)[pre.length]? = some r := by
      rw [List.append_assoc, List.getElem?_append_right (le_refl _)]
      simp
    have hset : (pre ++ r :: mid ++ post).set pre.length (f r) =
        (pre ++ [f r]) ++ mid ++ post := by
      simp [List.set_append_right]
    have ih := apply_at_spec fs (pre ++ [f r]) mid post hlen
    simp only [List.length_append, List.length_singleton] at ih
    simp only [apply_at, hget, hset, ih]
    simp

theorem apply_at_replicate {R : Type} (zero : R) (fs : List (R → R)) (pre post : List R) :
    apply_at (pre ++ List.replicate fs.length zero ++ post) pre.length fs =
      some (pre ++ fs.map (fun f => f zero) ++ post) := by
  rw [apply_at_spec fs pre _ post (by simp)]
  congr 3
  induction fs with
  | nil => rfl
  | cons f fs ih => simp [List.replicate_succ, ih]

/-! ## Proofs: the tracking adapter in tracks mode -/

theorem track_group_length (env : TrackingEnv) (k : Nat) (track : MovieTrackingTrack) :
    (track_group env k track).length = track_record_count track := by
  simp only [track_group, track_record_count, List.length_append, List.length_singleton]
  split <;> split <;> split <;> simp

theorem trackToTransData_spec (env : TrackingEnv) (k : Nat) (track : MovieTrackingTrack)
    (pre post : List TransDataTracking) (hed : track_editable env track = true)
    (hm : marker_index env track < track.markers.length) :
    trackToTransData env k track
        (pre ++ List.replicate (track_record_count track) TransDataTracking.zero ++ post)
        pre.length =
      some (track_built env track, pre ++ track_group env k track ++ post) := by
  have hget : track.markers[marker_index env track]? =
      some (track.markers[marker_index env track]) := List.getElem?_eq_getElem hm
  simp only [trackToTransData, hget]
  have hcount : track_record_count track =
      (trackToTransData_writes k track (track.markers[marker_index env track]).flag).length := by
    simp only [trackToTransData_writes, track_record_count, List.length_append,
      List.length_singleton]
    split <;> split <;> split <;> simp
  rw [hcount, apply_at_replicate]
  simp only [Option.map_some', Option.some.injEq, Prod.mk.injEq]
  constructor
  · simp [track_built, hed, hget]
  · congr 2
    simp only [track_group, current_marker_flag, hget, trackToTransData_writes,
      List.map_append, List.map_cons, List.map_nil, markerToTransDataInit,
      TransDataTracking.zero]
    split <;> split <;> split <;> simp [markerToTransDataInit, TransDataTracking.zero]

theorem tracks_to_transdata_spec (env : TrackingEnv) :
    ∀ (tracks : List MovieTrackingTrack) (k : Nat) (pre post : List TransDataTracking),
      (∀ track ∈ tracks, track_editable env track = true →
        marker_index env track < track.markers.length) →
      tracks_to_transdata env k tracks
          (pre ++ List.replicate (track_group_sizes env tracks).sum TransDataTracking.zero ++
            post) pre.length =
        some (tracks.map (track_built env), pre ++ track_groups env k tracks ++ post,
          pre.length + (track_group_sizes env tracks).sum)
  | [], k, pre, post, _ => by
    simp [tracks_to_transdata, track_group_sizes, track_groups]
  | track :: rest, k, pre, post, h => by
    have hrest : ∀ track ∈ rest, track_editable env track = true →
        marker_index env track < track.markers.length := fun t ht => h t (List.mem_cons_of_mem _ ht)
    by_cases hed : track_editable env track = true
    · have hsizes : track_group_sizes env (track :: rest) =
          track_record_count track :: track_group_sizes env rest := by
        simp [track_group_sizes, List.filter_cons, hed]
      have harr : pre ++ List.replicate (track_group_sizes env (track :: rest)).sum
            TransDataTracking.zero ++ post =
          pre ++ List.replicate (track_record_count track) TransDataTracking.zero ++
            (List.replicate (track_group_sizes env rest).sum TransDataTracking.zero ++
              post) := by
        rw [hsizes, List.sum_cons, List.replicate_add]
        simp only [List.append_assoc]
      have ih := tracks_to_transdata_spec env rest (k + 1) (pre ++ track_group env k track)
        post hrest
      simp only [List.length_append, track_group_length] at ih
      simp only [tracks_to_transdata, hed, if_true]
      rw [harr, trackToTransData_spec env k track pre _ hed
        (h track (List.mem_cons_self _ _) hed)]
      simp only
      have harr2 : pre ++ track_group env k track ++
            (List.replicate (track_group_sizes env rest).sum TransDataTracking.zero ++ post) =
          pre ++ track_group env k track ++
            List.replicate (track_group_sizes env rest).sum TransDataTracking.zero ++ post := by
        simp
      rw [harr2, ih]
      simp [track_groups, hed, hsizes, Nat.add_assoc]
    · have hsizes : track_group_sizes env (track :: rest) = track_group_sizes env rest := by
        simp [track_group_sizes, List.filter_cons, hed]
      have ih := tracks_to_transdata_spec env rest (k + 1) pre post hrest
      simp only [tracks_to_transdata, hed, Bool.false_eq_true, if_false, hsizes, ih]
      simp [track_groups, hed, track_built]

theorem plane_track_group_length (env : TrackingEnv) (k : Nat)
    (plane_track : MovieTrackingPlaneTrack) :
    (plane_track_group env k plane_track).length = 4 := by
  simp [plane_track_group]

theorem planeTrackToTransData_spec (env : TrackingEnv) (k : Nat)
    (plane_track : MovieTrackingPlaneTrack) (pre post : List TransDataTracking)
    (hed : env.PLANE_TRACK_VIEW_SELECTED plane_track = true)
    (hm : plane_marker_index env plane_track < plane_track.markers.length) :
    planeTrackToTransData env k plane_track
        (pre ++ List.replicate 4 TransDataTracking.zero ++ post) pre.length =
      some (plane_track_built env plane_track,
        pre ++ plane_track_group env k plane_track ++ post) := by
  have hget : plane_track.markers[plane_marker_index env plane_track]? =
      some (plane_track.markers[plane_marker_index env plane_track]) :=
    List.getElem?_eq_getElem hm
  simp only [planeTrackToTransData, hget]
  have h4 : (4 : Nat) = (planeTrackToTransData_writes k
      (plane_track.markers[plane_marker_index env plane_track]).flag).length := by
    simp [planeTrackToTransData_writes]
  rw [h4, apply_at_replicate]
  simp only [Option.map_some', Option.some.injEq, Prod.mk.injEq]
  constructor
  · simp [plane_track_built, hed, hget]
  · congr 2
    simp [plane_track_group, current_plane_marker_flag, hget, planeMarkerToTransDataInit,
      planeTrackToTransData_writes, TransDataTracking.zero, List.replicate]

theorem plane_tracks_to_transdata_spec (env : TrackingEnv) :
    ∀ (plane_tracks : List MovieTrackingPlaneTrack) (k : Nat)
      (pre post : List TransDataTracking),
      (∀ plane_track ∈ plane_tracks, env.PLANE_TRACK_VIEW_SELECTED plane_track = true →
        plane_marker_index env plane_track < plane_track.markers.length) →
      plane_tracks_to_transdata env k plane_tracks
          (pre ++ List.replicate (plane_group_sizes env plane_tracks).sum
            TransDataTracking.zero ++ post) pre.length =
        some (plane_tracks.map (plane_track_built env),
          pre ++ plane_track_groups env k plane_tracks ++ post,
          pre.length + (plane_group_sizes env plane_tracks).sum)
  | [], k, pre, post, _ => by
    simp [plane_tracks_to_transdata, plane_group_sizes, plane_track_groups]
  | plane_track :: rest, k, pre, post, h => by
    have hrest : ∀ plane_track ∈ rest, env.PLANE_TRACK_VIEW_SELECTED plane_track = true →
        plane_marker_index env plane_track < plane_track.markers.length :=
      fun t ht => h t (List.mem_cons_of_mem _ ht)
    by_cases hed : env.PLANE_TRACK_VIEW_SELECTED plane_track = true
    · have hsizes : plane_group_sizes env (plane_track :: rest) =
          4 :: plane_group_sizes env rest := by
        simp [plane_group_sizes, List.filter_cons, hed]
      have harr : pre ++ List.replicate (plane_group_sizes env (plane_track :: rest)).sum
            TransDataTracking.zero ++ post =
          pre ++ List.replicate 4 TransDataTracking.zero ++
            (List.replicate (plane_group_sizes env rest).sum TransDataTracking.zero ++
              post) := by
        rw [hsizes, List.sum_cons, List.replicate_add]
        simp only [List.append_assoc]
      have ih := plane_tracks_to_transdata_spec env rest (k + 1)
        (pre ++ plane_track_group env k plane_track) post hrest
      simp only [List.length_append, plane_track_group_length] at ih
      simp only [plane_tracks_to_transdata, hed, if_true]
      rw [harr, planeTrackToTransData_spec env k plane_track pre _ hed
        (h plane_track (List.mem_cons_self _ _) hed)]
      simp only
      have harr2 : pre ++ plane_track_group env k plane_track ++
            (List.replicate (plane_group_sizes env rest).sum TransDataTracking.zero ++ post) =
          pre ++ plane_track_group env k plane_track ++
            List.replicate (plane_group_sizes env rest).sum TransDataTracking.zero ++ post := by
        simp
      rw [harr2, ih]
      simp [plane_track_groups, hed, hsizes, Nat.add_assoc]
    · have hsizes : plane_group_sizes env (plane_track :: rest) =
          plane_group_sizes env rest := by
        simp [plane_group_sizes, List.filter_cons, hed]
      have ih := plane_tracks_to_transdata_spec env rest (k + 1) pre post hrest
      simp only [plane_tracks_to_transdata, hed, Bool.false_eq_true, if_false, hsizes, ih]
      simp [plane_track_groups, hed, plane_track_built]

theorem tracks_data_len_eq (env : TrackingEnv) (clip : MovieClip) :
    tracks_data_len env clip =
      (track_group_sizes env clip.tracks).sum + (plane_group_sizes env clip.plane_tracks).sum := by
  have h1 : ∀ l : List MovieTrackingTrack,
      (l.map (fun track =>
        if track_editable env track then track_record_count track else 0)).sum =
        (track_group_sizes env l).sum := by
    intro l
    induction l with
    | nil => rfl
    | cons t l ih =>
      by_cases hed : track_editable env t = true
      · simp [track_group_sizes, List.filter_cons, hed] at ih ⊢
        exact ih
      · simp [track_group_sizes, List.filter_cons, hed] at ih ⊢
        exact ih
  have h2 : ∀ l : List MovieTrackingPlaneTrack,
      (l.map (fun plane_track =>
        if env.PLANE_TRACK_VIEW_SELECTED plane_track then 4 else 0)).sum =
        (plane_group_sizes env l).sum := by
    intro l
    induction l with
    | nil => rfl
    | cons t l ih =>
      by_cases hed : env.PLANE_TRACK_VIEW_SELECTED t = true
      · simp [plane_group_sizes, List.filter_cons, hed] at ih ⊢
        exact ih
      · simp [plane_group_sizes, List.filter_cons, hed] at ih ⊢
        exact ih
  simp only [tracks_data_len, h1, h2]

/-- What `createTransTrackingTracksData` builds when there is something to transform: the
groups of the tracks, then those of the plane tracks, and the clip with the markers of the
current frame cleared of their tracking flags. -/
theorem createTransTrackingTracksData_spec (env : TrackingEnv) (clip : MovieClip)
    (hm : ∀ track ∈ clip.tracks, track_editable env track = true →
      marker_index env track < track.markers.length)
    (hp : ∀ plane_track ∈ clip.plane_tracks, env.PLANE_TRACK_VIEW_SELECTED plane_track = true →
      plane_marker_index env plane_track < plane_track.markers.length)
    (hlen : tracks_data_len env clip ≠ 0) :
    createTransTrackingTracksData env clip =
      some (⟨tracks_data_len env clip,
          some (track_groups env 0 clip.tracks ++ plane_track_groups env 0 clip.plane_tracks)⟩,
        { clip with tracks := clip.tracks.map (track_built env),
                    plane_tracks := clip.plane_tracks.map (plane_track_built env) }) := by
  simp only [createTransTrackingTracksData, hlen, if_false]
  have harr : List.replicate (tracks_data_len env clip) TransDataTracking.zero =
      [] ++ List.replicate (track_group_sizes env clip.tracks).sum TransDataTracking.zero ++
        List.replicate (plane_group_sizes env clip.plane_tracks).sum
          TransDataTracking.zero := by
    rw [tracks_data_len_eq, List.replicate_add]
    simp
  have h1 := tracks_to_transdata_spec env clip.tracks 0 []
    (List.replicate (plane_group_sizes env clip.plane_tracks).sum TransDataTracking.zero) hm
  simp only [List.length_nil] at h1
  rw [harr, h1]
  simp only
  have h2 := plane_tracks_to_transdata_spec env clip.plane_tracks 0
    (track_groups env 0 clip.tracks) [] hp
  simp only [List.append_nil] at h2
  have hlen2 : (track_groups env 0 clip.tracks).length =
      (track_group_sizes env clip.tracks).sum := by
    have : ∀ (l : List MovieTrackingTrack) (k : Nat),
        (track_groups env k l).length = (track_group_sizes env l).sum := by
      intro l
      induction l with
      | nil => intro k; rfl
      | cons t l ih =>
        intro k
        by_cases hed : track_editable env t = true
        · simp [track_groups, track_group_sizes, List.filter_cons, hed,
            track_group_length] at ih ⊢
          rw [ih]
        · simp [track_groups, track_group_sizes, List.filter_cons, hed] at ih ⊢
          rw [ih]
    exact this _ _
  simp only [List.nil_append, Nat.zero_add]
  rw [← hlen2, h2]


/-! ## Proofs: `cancelTransTracking` in tracks mode -/

theorem cancel_tracking_loop_done (env : TrackingEnv) (arr : List TransDataTracking)
    (data_len : Nat) (fuel i : Nat) (clip : MovieClip) (visited : List Nat)
    (h : data_len ≤ i) :
    cancel_tracking_loop env arr data_len fuel i clip visited = some (clip, visited) := by
  cases fuel with
  | zero => simp [cancel_tracking_loop, Nat.not_lt.2 h]
  | succ n => simp [cancel_tracking_loop, Nat.not_lt.2 h]

theorem track_built_fields (env : TrackingEnv) (track : MovieTrackingTrack) :
    (track_built env track).flag = track.flag ∧
    (track_built env track).pat_flag = track.pat_flag ∧
    (track_built env track).search_flag = track.search_flag ∧
    marker_index env (track_built env track) = marker_index env track := by
  simp only [track_built]
  split
  · split
    · next marker hmk =>
      refine ⟨rfl, rfl, rfl, ?_⟩
      simp only [marker_index]
      congr 1
      apply List.ext_getElem
      · simp
      · intro n h1 h2
        simp only [List.getElem_map, List.getElem_set]
        split
        · next heq =>
          subst heq
          obtain ⟨hlt, hv⟩ := List.getElem?_eq_some.1 hmk
          simp only [marker_index] at hv
          rw [← hv]
        · rfl
    · exact ⟨rfl, rfl, rfl, rfl⟩
  · exact ⟨rfl, rfl, rfl, rfl⟩

/-- One pass of the loop of `cancelTransTracking` at the first record of the group of a
track: the marker gets the saved flag back and `i` moves to the end of the group. -/
theorem cancel_tracking_step_track (env : TrackingEnv) (arr : List TransDataTracking)
    (data_len fuel i k : Nat) (clip : MovieClip) (visited : List Nat)
    (track : MovieTrackingTrack) (hi : i < data_len)
    (harr : arr[i]? = some ⟨transDataTracking_ModeTracks, current_marker_flag env track,
      TRACK_AREA_POINT, 0, some k, none⟩)
    (hed : track_editable env track = true)
    (hm : marker_index env track < track.markers.length)
    (hk : clip.tracks[k]? = some (track_built env track)) :
    cancel_tracking_loop env arr data_len (fuel + 1) i clip visited =
      cancel_tracking_loop env arr data_len fuel (i + track_record_count track)
        { clip with tracks := clip.tracks.set k track } (visited ++ [i]) := by
  obtain ⟨hf1, hf2, hf3, hf4⟩ := track_built_fields env track
  have hget : track.markers[marker_index env track]? =
      some (track.markers[marker_index env track]) := List.getElem?_eq_getElem hm
  have hbuilt : track_built env track =
      ⟨track.flag, track.pat_flag, track.search_flag,
        track.markers.set (marker_index env track)
          ⟨(track.markers[marker_index env track]).framenr,
            clear_bits (track.markers[marker_index env track]).flag
              (MARKER_DISABLED ||| MARKER_TRACKED)⟩⟩ := by
    simp [track_built, hed, hget]
  have hmk : (track_built env track).markers[marker_index env track]? =
      some ⟨(track.markers[marker_index env track]).framenr,
        clear_bits (track.markers[marker_index env track]).flag
          (MARKER_DISABLED ||| MARKER_TRACKED)⟩ := by
    rw [hbuilt]
    simp [List.getElem?_set, hm]
  have hrestore : (⟨(track_built env track).flag, (track_built env track).pat_flag,
      (track_built env track).search_flag,
      (track_built env track).markers.set (marker_index env track)
        ⟨(track.markers[marker_index env track]).framenr,
          current_marker_flag env track⟩⟩ : MovieTrackingTrack) = track := by
    rw [hbuilt]
    simp only [List.set_set, current_marker_flag, hget]
    cases track with
    | mk fl pf sf mks =>
      simp only [MovieTrackingTrack.mk.injEq, true_and]
      apply List.ext_getElem
      · simp
      · intro n h1 h2
        simp only [List.getElem_set]
        split
        · next heq =>
          subst heq
          rfl
        · rfl
  have hidx : i + (if track.flag &&& SELECT ≠ 0 then 1 else 0) +
      (if track.pat_flag &&& SELECT ≠ 0 then 4 else 0) +
      (if track.search_flag &&& SELECT ≠ 0 then 2 else 0) + 1 =
      i + track_record_count track := by
    simp only [track_record_count]
    omega
  simp only [hf1, hf2, hf3] at hrestore
  simp only [cancel_tracking_loop, hi, if_true, harr, hk, hf1, hf2, hf3, hf4, hmk, hidx]
  rw [hrestore]

theorem getElem?_set_append_self {R : Type} (done rest : List R) (a b : R) :
    (done ++ a :: rest)[done.length]? = some a ∧
      (done ++ a :: rest).set done.length b = done ++ b :: rest := by
  constructor
  · rw [List.getElem?_append_right (le_refl _)]
    simp
  · rw [List.set_append_right _ _ (le_refl _)]
    simp

/-- The loop of `cancelTransTracking` over the groups of the tracks: every track that
takes part gets its marker flag back, the others are not touched, and the positions read
are the starts of the groups. -/
theorem cancel_tracking_tracks (env : TrackingEnv) (w h : Int)
    (planes : List MovieTrackingPlaneTrack) :
    ∀ (tracks : List MovieTrackingTrack) (k : Nat) (pre post : List TransDataTracking)
      (done : List MovieTrackingTrack) (visited : List Nat) (n : Nat),
      done.length = k →
      (∀ track ∈ tracks, track_editable env track = true →
        marker_index env track < track.markers.length) →
      cancel_tracking_loop env (pre ++ track_groups env k tracks ++ post)
          (pre ++ track_groups env k tracks ++ post).length
          (n + (track_group_sizes env tracks).length) pre.length
          ⟨w, h, done ++ tracks.map (track_built env), planes⟩ visited =
        cancel_tracking_loop env (pre ++ track_groups env k tracks ++ post)
          (pre ++ track_groups env k tracks ++ post).length n
          (pre.length + (track_group_sizes env tracks).sum)
          ⟨w, h, done ++ tracks, planes⟩
          (visited ++ group_starts pre.length (track_group_sizes env tracks))
  | [], k, pre, post, done, visited, n, _, _ => by
    simp [track_group_sizes, group_starts]
  | track :: rest, k, pre, post, done, visited, n, hk, hm => by
    have hrest : ∀ track ∈ rest, track_editable env track = true →
        marker_index env track < track.markers.length :=
      fun t ht => hm t (List.mem_cons_of_mem _ ht)
    by_cases hed : track_editable env track = true
    · have hsizes : track_group_sizes env (track :: rest) =
          track_record_count track :: track_group_sizes env rest := by
        simp [track_group_sizes, List.filter_cons, hed]
      have hgroups : track_groups env k (track :: rest) =
          track_group env k track ++ track_groups env (k + 1) rest := by
        simp [track_groups, hed]
      have hgroup : track_group env k track =
          ⟨transDataTracking_ModeTracks, current_marker_flag env track, TRACK_AREA_POINT, 0,
            some k, none⟩ :: (track_group env k track).tail := by
        simp [track_group]
      have harr : (pre ++ track_groups env k (track :: rest) ++ post)[pre.length]? =
          some ⟨transDataTracking_ModeTracks, current_marker_flag env track,
            TRACK_AREA_POINT, 0, some k, none⟩ := by
        rw [hgroups, hgroup, List.append_assoc, List.getElem?_append_right (le_refl _)]
        simp
      have hi : pre.length < (pre ++ track_groups env k (track :: rest) ++ post).length := by
        rw [hgroups, hgroup]
        simp
      have htr := getElem?_set_append_self done (rest.map (track_built env))
        (track_built env track) track
      rw [hk] at htr
      have hfuel : n + (track_group_sizes env (track :: rest)).length =
          (n + (track_group_sizes env rest).length) + 1 := by
        rw [hsizes]
        simp
        omega
      rw [hfuel, List.map_cons, cancel_tracking_step_track env _ _ _ pre.length k _ visited
        track hi harr hed (hm track (List.mem_cons_self _ _) hed) htr.1]
      simp only [htr.2]
      have ih := cancel_tracking_tracks env w h planes rest (k + 1)
        (pre ++ track_group env k track) post (done ++ [track]) (visited ++ [pre.length]) n
        (by simp [hk]) hrest
      rw [hgroups]
      simp only [List.length_append, track_group_length, List.append_assoc,
        List.singleton_append] at ih ⊢
      rw [ih, hsizes]
      simp [group_starts, Nat.add_assoc]
    · have hsizes : track_group_sizes env (track :: rest) = track_group_sizes env rest := by
        simp [track_group_sizes, List.filter_cons, hed]
      have hgroups : track_groups env k (track :: rest) = track_groups env (k + 1) rest := by
        simp [track_groups, hed]
      have hb : track_built env track = track := by simp [track_built, hed]
      have ih := cancel_tracking_tracks env w h planes rest (k + 1) pre post (done ++ [track])
        visited n (by simp [hk]) hrest
      simp only [List.append_assoc, List.singleton_append] at ih
      rw [hsizes, hgroups, List.map_cons, hb]
      simp only [List.append_assoc] at ih ⊢
      exact ih

/-! ## Proofs: `cancelTransTracking`, plane tracks -/

theorem plane_track_built_index (env : TrackingEnv) (plane_track : MovieTrackingPlaneTrack) :
    (plane_track_built env plane_track).flag = plane_track.flag ∧
    plane_marker_index env (plane_track_built env plane_track) =
      plane_marker_index env plane_track := by
  simp only [plane_track_built]
  split
  · split
    · next marker hmk =>
      refine ⟨rfl, ?_⟩
      simp only [plane_marker_index]
      congr 1
      apply List.ext_getElem
      · simp
      · intro n h1 h2
        simp only [List.getElem_map, List.getElem_set]
        split
        · next heq =>
          subst heq
          obtain ⟨hlt, hv⟩ := List.getElem?_eq_some.1 hmk
          simp only [plane_marker_index] at hv
          rw [← hv]
        · rfl
    · exact ⟨rfl, rfl⟩
  · exact ⟨rfl, rfl⟩

/-- One pass of the loop of `cancelTransTracking` at the first record of the group of a
plane track: the plane marker gets the saved flag back and `i` moves four records on. -/
theorem cancel_tracking_step_plane (env : TrackingEnv) (arr : List TransDataTracking)
    (data_len fuel i k : Nat) (clip : MovieClip) (visited : List Nat)
    (plane_track : MovieTrackingPlaneTrack) (hi : i < data_len)
    (harr : arr[i]? = some ⟨transDataTracking_ModePlaneTracks,
      current_plane_marker_flag env plane_track, 0, 0, none, some k⟩)
    (hed : env.PLANE_TRACK_VIEW_SELECTED plane_track = true)
    (hm : plane_marker_index env plane_track < plane_track.markers.length)
    (hk : clip.plane_tracks[k]? = some (plane_track_built env plane_track)) :
    cancel_tracking_loop env arr data_len (fuel + 1) i clip visited =
      cancel_tracking_loop env arr data_len fuel (i + 4)
        { clip with plane_tracks := clip.plane_tracks.set k plane_track } (visited ++ [i]) := by
  obtain ⟨hf1, hf4⟩ := plane_track_built_index env plane_track
  have hget : plane_track.markers[plane_marker_index env plane_track]? =
      some (plane_track.markers[plane_marker_index env plane_track]) :=
    List.getElem?_eq_getElem hm
  have hbuilt : plane_track_built env plane_track =
      ⟨plane_track.flag,
        plane_track.markers.set (plane_marker_index env plane_track)
          ⟨(plane_track.markers[plane_marker_index env plane_track]).framenr,
            clear_bits (plane_track.markers[plane_marker_index env plane_track]).flag
              PLANE_MARKER_TRACKED⟩⟩ := by
    simp [plane_track_built, hed, hget]
  have hmk : (plane_track_built env plane_track).markers[plane_marker_index env plane_track]? =
      some ⟨(plane_track.markers[plane_marker_index env plane_track]).framenr,
        clear_bits (plane_track.markers[plane_marker_index env plane_track]).flag
          PLANE_MARKER_TRACKED⟩ := by
    rw [hbuilt]
    simp [List.getElem?_set, hm]
  have hrestore : (⟨(plane_track_built env plane_track).flag,
      (plane_track_built env plane_track).markers.set (plane_marker_index env plane_track)
        ⟨(plane_track.markers[plane_marker_index env plane_track]).framenr,
          current_plane_marker_flag env plane_track⟩⟩ : MovieTrackingPlaneTrack) =
      plane_track := by
    rw [hbuilt]
    simp only [List.set_set, current_plane_marker_flag, hget]
    cases plane_track with
    | mk fl mks =>
      simp only [MovieTrackingPlaneTrack.mk.injEq, true_and]
      apply List.ext_getElem
      · simp
      · intro n h1 h2
        simp only [List.getElem_set]
        split
        · next heq =>
          subst heq
          rfl
        · rfl
  have hmode : ¬ (transDataTracking_ModePlaneTracks = transDataTracking_ModeTracks) := by
    decide
  have hmode2 : ¬ (transDataTracking_ModePlaneTracks = transDataTracking_ModeCurves) := by
    decide
  simp only [hf1] at hrestore
  simp only [cancel_tracking_loop, hi, if_true, harr, hk, hf1, hf4, hmk, hmode, hmode2,
    if_false]
  rw [hrestore]

/-- The loop of `cancelTransTracking` over the groups of the plane tracks. -/
theorem cancel_tracking_planes (env : TrackingEnv) (w h : Int)
    (tracks : List MovieTrackingTrack) :
    ∀ (planes : List MovieTrackingPlaneTrack) (k : Nat) (pre post : List TransDataTracking)
      (done : List MovieTrackingPlaneTrack) (visited : List Nat) (n : Nat),
      done.length = k →
      (∀ plane_track ∈ planes, env.PLANE_TRACK_VIEW_SELECTED plane_track = true →
        plane_marker_index env plane_track < plane_track.markers.length) →
      cancel_tracking_loop env (pre ++ plane_track_groups env k planes ++ post)
          (pre ++ plane_track_groups env k planes ++ post).length
          (n + (plane_group_sizes env planes).length) pre.length
          ⟨w, h, tracks, done ++ planes.map (plane_track_built env)⟩ visited =
        cancel_tracking_loop env (pre ++ plane_track_groups env k planes ++ post)
          (pre ++ plane_track_groups env k planes ++ post).length n
          (pre.length + (plane_group_sizes env planes).sum)
          ⟨w, h, tracks, done ++ planes⟩
          (visited ++ group_starts pre.length (plane_group_sizes env planes))
  | [], k, pre, post, done, visited, n, _, _ => by
    simp [plane_group_sizes, group_starts]
  | plane_track :: rest, k, pre, post, done, visited, n, hk, hm => by
    have hrest : ∀ plane_track ∈ rest, env.PLANE_TRACK_VIEW_SELECTED plane_track = true →
        plane_marker_index env plane_track < plane_track.markers.length :=
      fun t ht => hm t (List.mem_cons_of_mem _ ht)
    by_cases hed : env.PLANE_TRACK_VIEW_SELECTED plane_track = true
    · have hsizes : plane_group_sizes env (plane_track :: rest) =
          4 :: plane_group_sizes env rest := by
        simp [plane_group_sizes, List.filter_cons, hed]
      have hgroups : plane_track_groups env k (plane_track :: rest) =
          plane_track_group env k plane_track ++ plane_track_groups env (k + 1) rest := by
        simp [plane_track_groups, hed]
      have hgroup : plane_track_group env k plane_track =
          ⟨transDataTracking_ModePlaneTracks, current_plane_marker_flag env plane_track, 0, 0,
            none, some k⟩ :: (plane_track_group env k plane_track).tail := by
        simp [plane_track_group]
      have harr : (pre ++ plane_track_groups env k (plane_track :: rest) ++ post)[pre.length]? =
          some ⟨transDataTracking_ModePlaneTracks, current_plane_marker_flag env plane_track,
            0, 0, none, some k⟩ := by
        rw [hgroups, hgroup, List.append_assoc, List.getElem?_append_right (le_refl _)]
        simp
      have hi : pre.length <
          (pre ++ plane_track_groups env k (plane_track :: rest) ++ post).length := by
        rw [hgroups, hgroup]
        simp
      have htr := getElem?_set_append_self done (rest.map (plane_track_built env))
        (plane_track_built env plane_track) plane_track
      rw [hk] at htr
      have hfuel : n + (plane_group_sizes env (plane_track :: rest)).length =
          (n + (plane_group_sizes env rest).length) + 1 := by
        rw [hsizes]
        simp
        omega
      rw [hfuel, List.map_cons, cancel_tracking_step_plane env _ _ _ pre.length k _ visited
        plane_track hi harr hed (hm plane_track (List.mem_cons_self _ _) hed) htr.1]
      simp only [htr.2]
      have ih := cancel_tracking_planes env w h tracks rest (k + 1)
        (pre ++ plane_track_group env k plane_track) post (done ++ [plane_track])
        (visited ++ [pre.length]) n (by simp [hk]) hrest
      rw [hgroups]
      simp only [List.length_append, plane_track_group_length, List.append_assoc,
        List.singleton_append] at ih ⊢
      rw [ih, hsizes]
      simp [group_starts, Nat.add_assoc]
    · have hsizes : plane_group_sizes env (plane_track :: rest) =
          plane_group_sizes env rest := by
        simp [plane_group_sizes, List.filter_cons, hed]
      have hgroups : plane_track_groups env k (plane_track :: rest) =
          plane_track_groups env (k + 1) rest := by
        simp [plane_track_groups, hed]
      have hb : plane_track_built env plane_track = plane_track := by
        simp [plane_track_built, hed]
      have ih := cancel_tracking_planes env w h tracks rest (k + 1) pre post
        (done ++ [plane_track]) visited n (by simp [hk]) hrest
      simp only [List.append_assoc, List.singleton_append] at ih
      rw [hsizes, hgroups, List.map_cons, hb]
      simp only [List.append_assoc] at ih ⊢
      exact ih

/-! ## Tracks mode: building and cancelling -/

theorem group_starts_append :
    ∀ (xs ys : List Nat) (o : Nat),
      group_starts o (xs ++ ys) = group_starts o xs ++ group_starts (o + xs.sum) ys
  | [], ys, o => by simp [group_starts]
  | x :: xs, ys, o => by
    simp [group_starts, group_starts_append xs ys (o + x), Nat.add_assoc]

theorem track_group_sizes_length_le (env : TrackingEnv) :
    ∀ tracks : List MovieTrackingTrack,
      (track_group_sizes env tracks).length ≤ (track_group_sizes env tracks).sum
  | [] => by simp [track_group_sizes]
  | track :: rest => by
    have ih := track_group_sizes_length_le env rest
    simp only [track_group_sizes] at ih ⊢
    rw [List.filter_cons]
    split
    · simp only [List.map_cons, List.length_cons, List.sum_cons, track_record_count]
      omega
    · exact ih

theorem plane_group_sizes_length_le (env : TrackingEnv) :
    ∀ planes : List MovieTrackingPlaneTrack,
      (plane_group_sizes env planes).length ≤ (plane_group_sizes env planes).sum
  | [] => by simp [plane_group_sizes]
  | plane_track :: rest => by
    have ih := plane_group_sizes_length_le env rest
    simp only [plane_group_sizes] at ih ⊢
    rw [List.filter_cons]
    split
    · simp only [List.map_cons, List.length_cons, List.sum_cons]
      omega
    · exact ih

theorem track_groups_length (env : TrackingEnv) :
    ∀ (tracks : List MovieTrackingTrack) (k : Nat),
      (track_groups env k tracks).length = (track_group_sizes env tracks).sum
  | [], k => by simp [track_groups, track_group_sizes]
  | track :: rest, k => by
    have ih := track_groups_length env rest (k + 1)
    simp only [track_group_sizes] at ih
    simp only [track_groups, track_group_sizes, List.length_append, ih, List.filter_cons]
    split <;> simp [track_group_length]

theorem plane_track_groups_length (env : TrackingEnv) :
    ∀ (planes : List MovieTrackingPlaneTrack) (k : Nat),
      (plane_track_groups env k planes).length = (plane_group_sizes env planes).sum
  | [], k => by simp [plane_track_groups, plane_group_sizes]
  | plane_track :: rest, k => by
    have ih := plane_track_groups_length env rest (k + 1)
    simp only [plane_group_sizes] at ih
    simp only [plane_track_groups, plane_group_sizes, List.length_append, ih, List.filter_cons]
    split <;> simp [plane_track_group_length]

/-- The records at the starts of the groups of the tracks hold the flags of the markers. -/
theorem track_groups_saved_flags (env : TrackingEnv) :
    ∀ (tracks : List MovieTrackingTrack) (k : Nat) (pre post : List TransDataTracking),
      (group_starts pre.length (track_group_sizes env tracks)).map
          (fun i => ((pre ++ track_groups env k tracks ++ post)[i]?).map (fun tdt => tdt.flag)) =
        (tracks.filter (track_editable env)).map
          (fun track => some (current_marker_flag env track))
  | [], k, pre, post => by simp [track_group_sizes, group_starts]
  | track :: rest, k, pre, post => by
    by_cases hed : track_editable env track = true
    · have ih := track_groups_saved_flags env rest (k + 1) (pre ++ track_group env k track) post
      have hgroup : track_group env k track =
          ⟨transDataTracking_ModeTracks, current_marker_flag env track, TRACK_AREA_POINT, 0,
            some k, none⟩ :: (track_group env k track).tail := by
        simp [track_group]
      have hhead : (pre ++ (track_group env k track ++
          (track_groups env (k + 1) rest ++ post)))[pre.length]? =
          some ⟨transDataTracking_ModeTracks, current_marker_flag env track, TRACK_AREA_POINT,
            0, some k, none⟩ := by
        rw [hgroup, List.getElem?_append_right (le_refl _)]
        simp
      simp only [List.length_append, track_group_length, List.append_assoc] at ih
      simp only [track_group_sizes, List.filter_cons, hed, if_true, List.map_cons,
        group_starts, track_groups, List.append_assoc, hhead, Option.map_some',
        List.cons.injEq, true_and]
      simp only [track_group_sizes] at ih
      exact ih
    · have ih := track_groups_saved_flags env rest (k + 1) pre post
      simp only [track_group_sizes] at ih
      simp only [track_group_sizes, List.filter_cons, hed, track_groups, List.nil_append]
      exact ih

/-- The records at the starts of the groups of the plane tracks hold the flags of the
plane markers. -/
theorem plane_track_groups_saved_flags (env : TrackingEnv) :
    ∀ (planes : List MovieTrackingPlaneTrack) (k : Nat) (pre post : List TransDataTracking),
      (group_starts pre.length (plane_group_sizes env planes)).map
          (fun i =>
            ((pre ++ plane_track_groups env k planes ++ post)[i]?).map (fun tdt => tdt.flag)) =
        (planes.filter env.PLANE_TRACK_VIEW_SELECTED).map
          (fun plane_track => some (current_plane_marker_flag env plane_track))
  | [], k, pre, post => by simp [plane_group_sizes, group_starts]
  | plane_track :: rest, k, pre, post => by
    by_cases hed : env.PLANE_TRACK_VIEW_SELECTED plane_track = true
    · have ih := plane_track_groups_saved_flags env rest (k + 1)
        (pre ++ plane_track_group env k plane_track) post
      have hgroup : plane_track_group env k plane_track =
          ⟨transDataTracking_ModePlaneTracks, current_plane_marker_flag env plane_track, 0, 0,
            none, some k⟩ :: (plane_track_group env k plane_track).tail := by
        simp [plane_track_group]
      have hhead : (pre ++ (plane_track_group env k plane_track ++
          (plane_track_groups env (k + 1) rest ++ post)))[pre.length]? =
          some ⟨transDataTracking_ModePlaneTracks, current_plane_marker_flag env plane_track,
            0, 0, none, some k⟩ := by
        rw [hgroup, List.getElem?_append_right (le_refl _)]
        simp
      simp only [List.length_append, plane_track_group_length, List.append_assoc] at ih
      simp only [plane_group_sizes, List.filter_cons, hed, if_true, List.map_cons,
        group_starts, plane_track_groups, List.append_assoc, hhead, Option.map_some',
        List.cons.injEq, true_and]
      simp only [plane_group_sizes] at ih
      exact ih
    · have ih := plane_track_groups_saved_flags env rest (k + 1) pre post
      simp only [plane_group_sizes] at ih
      simp only [plane_group_sizes, List.filter_cons, hed, plane_track_groups, List.nil_append]
      exact ih

/-- The loop of `cancelTransTracking` on the side table `createTransTrackingTracksData`
leaves: the clip is as before the build and the positions read are the group starts. -/
theorem cancel_tracking_loop_built (env : TrackingEnv) (clip : MovieClip)
    (hm : ∀ track ∈ clip.tracks, track_editable env track = true →
      marker_index env track < track.markers.length)
    (hp : ∀ plane_track ∈ clip.plane_tracks, env.PLANE_TRACK_VIEW_SELECTED plane_track = true →
      plane_marker_index env plane_track < plane_track.markers.length) :
    cancel_tracking_loop env
        (track_groups env 0 clip.tracks ++ plane_track_groups env 0 clip.plane_tracks)
        (tracks_data_len env clip) (tracks_data_len env clip) 0
        ⟨clip.width, clip.height, clip.tracks.map (track_built env),
          clip.plane_tracks.map (plane_track_built env)⟩ [] =
      some (clip, group_starts 0
        (track_group_sizes env clip.tracks ++ plane_group_sizes env clip.plane_tracks)) := by
  have hlen : tracks_data_len env clip =
      (track_groups env 0 clip.tracks ++ plane_track_groups env 0 clip.plane_tracks).length := by
    rw [tracks_data_len_eq, List.length_append, track_groups_length, plane_track_groups_length]
  have hle1 := track_group_sizes_length_le env clip.tracks
  have hle2 := plane_group_sizes_length_le env clip.plane_tracks
  obtain ⟨n, hn⟩ : ∃ n, tracks_data_len env clip =
      n + (plane_group_sizes env clip.plane_tracks).length +
        (track_group_sizes env clip.tracks).length := by
    refine ⟨tracks_data_len env clip - (plane_group_sizes env clip.plane_tracks).length -
      (track_group_sizes env clip.tracks).length, ?_⟩
    rw [tracks_data_len_eq]
    omega
  have h1 := cancel_tracking_tracks env clip.width clip.height
    (clip.plane_tracks.map (plane_track_built env)) clip.tracks 0 []
    (plane_track_groups env 0 clip.plane_tracks) [] []
    (n + (plane_group_sizes env clip.plane_tracks).length) rfl hm
  have h2 := cancel_tracking_planes env clip.width clip.height clip.tracks clip.plane_tracks 0
    (track_groups env 0 clip.tracks) [] []
    (group_starts 0 (track_group_sizes env clip.tracks)) n rfl hp
  simp only [List.nil_append, List.length_nil, Nat.zero_add, List.append_nil] at h1 h2
  rw [track_groups_length] at h2
  have key : ∀ L F : Nat,
      L = (track_groups env 0 clip.tracks ++ plane_track_groups env 0 clip.plane_tracks).length →
      F = n + (plane_group_sizes env clip.plane_tracks).length +
        (track_group_sizes env clip.tracks).length →
      cancel_tracking_loop env
          (track_groups env 0 clip.tracks ++ plane_track_groups env 0 clip.plane_tracks) L F 0
          ⟨clip.width, clip.height, clip.tracks.map (track_built env),
            clip.plane_tracks.map (plane_track_built env)⟩ [] =
        some (clip, group_starts 0
          (track_group_sizes env clip.tracks ++ plane_group_sizes env clip.plane_tracks)) := by
    intro L F hL hF
    rw [hL, hF, h1, h2, cancel_tracking_loop_done _ _ _ _ _ _ _ (by
      rw [List.length_append, track_groups_length, plane_track_groups_length]),
      group_starts_append]
    simp
  exact key _ _ hlen hn

/-- Claim C16.  In tracks mode, when the marker of the current frame exists for every track
and plane track that takes part, `createTransTrackingTracksData` returns a container,
`cancelTransTracking` on it returns, and afterwards the clip is the clip before the build:
every marker and plane marker has the flag it had.  The records `cancelTransTracking` reads
are the first records of the groups of the tracks and plane tracks, and these hold the
flags the markers had before the build. -/
theorem createTransTrackingTracksData_cancel (env : TrackingEnv) (clip : MovieClip)
    (hm : ∀ track ∈ clip.tracks, track_editable env track = true →
      marker_index env track < track.markers.length)
    (hp : ∀ plane_track ∈ clip.plane_tracks, env.PLANE_TRACK_VIEW_SELECTED plane_track = true →
      plane_marker_index env plane_track < plane_track.markers.length) :
    ∃ tc clip1,
      createTransTrackingTracksData env clip = some (tc, clip1) ∧
      cancelTransTracking env tc clip1 =
        some (clip, group_starts 0
          (track_group_sizes env clip.tracks ++ plane_group_sizes env clip.plane_tracks)) ∧
      (group_starts 0
          (track_group_sizes env clip.tracks ++ plane_group_sizes env clip.plane_tracks)).map
          (fun i => ((tc.tdt.getD [])[i]?).map (fun tdt => tdt.flag)) =
        (clip.tracks.filter (track_editable env)).map
            (fun track => some (current_marker_flag env track)) ++
          (clip.plane_tracks.filter env.PLANE_TRACK_VIEW_SELECTED).map
            (fun plane_track => some (current_plane_marker_flag env plane_track)) := by
  have hflags : (group_starts 0
      (track_group_sizes env clip.tracks ++ plane_group_sizes env clip.plane_tracks)).map
      (fun i => ((track_groups env 0 clip.tracks ++
        plane_track_groups env 0 clip.plane_tracks)[i]?).map (fun tdt => tdt.flag)) =
      (clip.tracks.filter (track_editable env)).map
          (fun track => some (current_marker_flag env track)) ++
        (clip.plane_tracks.filter env.PLANE_TRACK_VIEW_SELECTED).map
          (fun plane_track => some (current_plane_marker_flag env plane_track)) := by
    have h1 := track_groups_saved_flags env clip.tracks 0 []
      (plane_track_groups env 0 clip.plane_tracks)
    have h2 := plane_track_groups_saved_flags env clip.plane_tracks 0
      (track_groups env 0 clip.tracks) []
    simp only [List.nil_append, List.length_nil, List.append_nil] at h1 h2
    rw [track_groups_length] at h2
    rw [group_starts_append, List.map_append, h1, Nat.zero_add, h2]
  by_cases hlen : tracks_data_len env clip = 0
  · have hsum := tracks_data_len_eq env clip
    have hle1 := track_group_sizes_length_le env clip.tracks
    have hle2 := plane_group_sizes_length_le env clip.plane_tracks
    have hs1 : track_group_sizes env clip.tracks = [] :=
      List.length_eq_zero.1 (by omega)
    have hs2 : plane_group_sizes env clip.plane_tracks = [] :=
      List.length_eq_zero.1 (by omega)
    have hf1 : clip.tracks.filter (track_editable env) = [] := by
      simpa [track_group_sizes] using hs1
    have hf2 : clip.plane_tracks.filter env.PLANE_TRACK_VIEW_SELECTED = [] := by
      simpa [plane_group_sizes] using hs2
    refine ⟨⟨0, none⟩, clip, ?_, ?_, ?_⟩
    · simp [createTransTrackingTracksData, hlen]
    · simp [cancelTransTracking, hs1, hs2, group_starts]
    · simp [hs1, hs2, group_starts, hf1, hf2]
  · refine ⟨_, _, createTransTrackingTracksData_spec env clip hm hp hlen, ?_, hflags⟩
    simp only [cancelTransTracking]
    exact cancel_tracking_loop_built env clip hm hp

/-- Witness for C16: the example clip, one selected track whose marker of the current
frame has the flag 14; the side table has two records and the first one is read. -/
theorem createTransTrackingTracksData_cancel_witness :
    ∃ tc clip1,
      createTransTrackingTracksData example_env example_clip = some (tc, clip1) ∧
      cancelTransTracking example_env tc clip1 =
        some (example_clip, group_starts 0
          (track_group_sizes example_env example_clip.tracks ++
            plane_group_sizes example_env example_clip.plane_tracks)) ∧
      (group_starts 0
          (track_group_sizes example_env example_clip.tracks ++
            plane_group_sizes example_env example_clip.plane_tracks)).map
          (fun i => ((tc.tdt.getD [])[i]?).map (fun tdt => tdt.flag)) =
        (example_clip.tracks.filter (track_editable example_env)).map
            (fun track => some (current_marker_flag example_env track)) ++
          (example_clip.plane_tracks.filter example_env.PLANE_TRACK_VIEW_SELECTED).map
            (fun plane_track => some (current_plane_marker_flag example_env plane_track)) :=
  createTransTrackingTracksData_cancel example_env example_clip (by decide) (by decide)

/-! ## Curves mode: building and cancelling -/

/-- Claim C17, evaluated on the example clip: one track with the markers of the frames 1
and 2, the second one tracked and selected on both channels of the graph (flag 14).
`createTransTrackingCurvesData` makes two records for it; the record of the X channel
saves the flag 14 and the record of the Y channel the flag 12, `MARKER_TRACKED` having been
taken off by the first call of `markerToTransCurveDataInit`.  `cancelTransTracking` assigns
the flags of the records in turn, and the marker is left with the flag 12, not 14.  In
tracks mode building and cancelling on the same clip leaves the flag 14. -/
theorem createTransTrackingCurvesData_cancel_flags :
    example_clip.tracks.map (fun track => track.markers.map (fun mk => mk.flag)) = [[0, 14]] ∧
    (createTransTrackingCurvesData example_env example_clip).map
        (fun r => (r.1.data_len, (r.1.tdt.getD []).map (fun tdt => (tdt.coord, tdt.flag)))) =
      some (2, [(0, 14), (1, 12)]) ∧
    (createTransTrackingCurvesData example_env example_clip).bind
        (fun r => (cancelTransTracking example_env r.1 r.2).map
          (fun c => c.1.tracks.map (fun track => track.markers.map (fun mk => mk.flag)))) =
      some [[0, 12]] ∧
    (createTransTrackingTracksData example_env example_clip).bind
        (fun r => (cancelTransTracking example_env r.1 r.2).map
          (fun c => c.1.tracks.map (fun track => track.markers.map (fun mk => mk.flag)))) =
      some [[0, 14]] := by
  decide

/-! ## Masks: building and cancelling -/

/-- Claim C15, evaluated on a mask point whose left handle alone is selected and whose
handles both have the type `HD_AUTO`.  `MaskPointToTransData` makes one record, for the
left handle, which saves `h1`, and sets both handle types to `HD_ALIGN_DOUBLESIDE`.
`flushTransMasking` in the cancel state puts `h1` back from the record and leaves `h2`
at `HD_ALIGN_DOUBLESIDE`: the type of the right handle was saved nowhere.  With both
handles selected the record of the right handle saves `h2` after the change, and the
result is the same.  With the knot selected the handle types are not changed. -/
theorem MaskPointToTransData_cancel_handle_types :
    mask_handle_types (mask_of_point (mask_point_at HD_AUTO HD_AUTO SELECT 0 0)) =
      [[[(HD_AUTO, HD_AUTO)]]] ∧
    (createTransMaskingData example_handles_mode false false false
        (some (mask_of_point (mask_point_at HD_AUTO HD_AUTO SELECT 0 0)))).map
        (fun r => (r.1.data_len, (r.1.records.getD []).map
          (fun rec => (rec.tdm.which_handle, rec.tdm.orig_handle_type)))) =
      some (1, [(MASK_WHICH_HANDLE_LEFT, HD_AUTO)]) ∧
    (createTransMaskingData example_handles_mode false false false
        (some (mask_of_point (mask_point_at HD_AUTO HD_AUTO SELECT 0 0)))).bind
        (fun r => r.2.map mask_handle_types) =
      some [[[(HD_ALIGN_DOUBLESIDE, HD_ALIGN_DOUBLESIDE)]]] ∧
    mask_build_cancel_handle_types (mask_of_point (mask_point_at HD_AUTO HD_AUTO SELECT 0 0)) =
      some [[[(HD_AUTO, HD_ALIGN_DOUBLESIDE)]]] ∧
    mask_build_cancel_handle_types
        (mask_of_point (mask_point_at HD_AUTO HD_AUTO SELECT 0 SELECT)) =
      some [[[(HD_AUTO, HD_ALIGN_DOUBLESIDE)]]] ∧
    mask_build_cancel_handle_types
        (mask_of_point (mask_point_at HD_AUTO HD_AUTO SELECT SELECT SELECT)) =
      some [[[(HD_AUTO, HD_AUTO)]]] := by
  decide

/-! ## Proofs: the mask adapter, one point -/

theorem and_one_ne_zero_iff (x : Nat) : x &&& 1 ≠ 0 ↔ x.testBit 0 = true := by
  rw [Nat.and_one_is_mod, Nat.testBit_zero]
  simp

theorem MASKPOINT_ISSEL_ANY_iff (point : MaskSplinePoint α) :
    MASKPOINT_ISSEL_ANY point = true ↔
      (point.bezt.f1 &&& SELECT ≠ 0 ∨ point.bezt.f2 &&& SELECT ≠ 0 ∨
        point.bezt.f3 &&& SELECT ≠ 0) := by
  simp only [MASKPOINT_ISSEL_ANY, SELECT, bne_iff_ne, and_one_ne_zero_iff, Nat.testBit_or,
    Bool.or_eq_true, or_assoc]

theorem mask_left_handle_types_flags (point : MaskSplinePoint α) :
    (mask_left_handle_types point).bezt.f1 = point.bezt.f1 ∧
    (mask_left_handle_types point).bezt.f2 = point.bezt.f2 ∧
    (mask_left_handle_types point).bezt.f3 = point.bezt.f3 := by
  simp only [mask_left_handle_types]
  split
  · exact ⟨rfl, rfl, rfl⟩
  · split <;> exact ⟨rfl, rfl, rfl⟩

theorem mask_right_handle_types_flags (point : MaskSplinePoint α) :
    (mask_right_handle_types point).bezt.f1 = point.bezt.f1 ∧
    (mask_right_handle_types point).bezt.f2 = point.bezt.f2 ∧
    (mask_right_handle_types point).bezt.f3 = point.bezt.f3 := by
  simp only [mask_right_handle_types]
  split
  · exact ⟨rfl, rfl, rfl⟩
  · split <;> exact ⟨rfl, rfl, rfl⟩

/-- The number of records `MaskPointToTransData` writes for a selected point is the number
the counting loop counted for it. -/
theorem MaskPointToTransData_writes_length (mode : MaskSplinePoint α → Nat)
    (point : MaskSplinePoint α) (ref : Nat × Nat × Nat)
    (hany : MASKPOINT_ISSEL_ANY point = true) :
    (MaskPointToTransData_writes mode point ref false).2.length =
      mask_point_countsel mode point := by
  simp only [MaskPointToTransData_writes, mask_point_countsel, hany, if_true,
    Bool.false_or]
  by_cases hk : MASKPOINT_ISSEL_KNOT point = true
  · simp [hk]
  · by_cases hs : mode point = MASK_HANDLE_MODE_STICK
    · simp [hk, hs]
    · simp only [hk, hs, if_false, Bool.false_eq_true, List.length_append]
      split <;> split <;> simp

/-- The number of records the caller moves the pointers by after `MaskPointToTransData` is
the number the counting loop counted for the point. -/
theorem mask_point_advance_eq (mode : MaskSplinePoint α → Nat) (hmode : HandlesModeStable mode)
    (point : MaskSplinePoint α) (ref : Nat × Nat × Nat)
    (hany : MASKPOINT_ISSEL_ANY point = true) :
    mask_point_advance mode false (MaskPointToTransData_writes mode point ref false).1 =
      mask_point_countsel mode point := by
  simp only [MaskPointToTransData_writes, mask_point_countsel, hany, if_true,
    Bool.false_or]
  by_cases hk : MASKPOINT_ISSEL_KNOT point = true
  · simp [hk, mask_point_advance]
  · by_cases hs : mode point = MASK_HANDLE_MODE_STICK
    · simp [hk, hs, mask_point_advance]
    · obtain ⟨hl1, hl2, hl3⟩ := mask_left_handle_types_flags point
      obtain ⟨hr1, hr2, hr3⟩ := mask_right_handle_types_flags point
      obtain ⟨hlr1, hlr2, hlr3⟩ := mask_right_handle_types_flags (mask_left_handle_types point)
      have hml := (hmode point hs).1
      have hmr := (hmode point hs).2
      have hmlr := (hmode _ hml).2
      have hk2 : point.bezt.f2 &&& SELECT = 0 := by
        simpa [MASKPOINT_ISSEL_KNOT] using hk
      simp only [hk, hs, if_false, Bool.false_eq_true]
      by_cases h1 : point.bezt.f1 &&& SELECT ≠ 0
      · by_cases h3 : point.bezt.f3 &&& SELECT ≠ 0
        · simp [h1, h3, mask_point_advance, MASKPOINT_ISSEL_KNOT, hlr1, hlr2, hlr3, hl1,
            hl2, hl3, hk2, hmlr]
        · simp [h1, h3, mask_point_advance, MASKPOINT_ISSEL_KNOT, hl1, hl2, hl3, hk2, hml]
      · by_cases h3 : point.bezt.f3 &&& SELECT ≠ 0
        · simp [h1, h3, mask_point_advance, MASKPOINT_ISSEL_KNOT, hr1, hr2, hr3, hk2, hmr]
        · simp [h1, h3, mask_point_advance, MASKPOINT_ISSEL_KNOT, hk2, hs]

/-- Every record `MaskPointToTransData` writes for a selected point is initialised and
marked selected. -/
theorem mask_point_group_init (mode : MaskSplinePoint α → Nat)
    (point : MaskSplinePoint α) (ref : Nat × Nat × Nat)
    (hany : MASKPOINT_ISSEL_ANY point = true) :
    ∀ r ∈ mask_point_group mode point ref, r.axismtx22 = 1 ∧ r.flag = TD_SELECTED := by
  have hl : MASKPOINT_ISSEL_ANY (mask_left_handle_types point) = true := by
    obtain ⟨hl1, hl2, hl3⟩ := mask_left_handle_types_flags point
    simpa [MASKPOINT_ISSEL_ANY, hl1, hl2, hl3] using hany
  intro r hr
  simp only [mask_point_group, MaskPointToTransData_writes, Bool.false_or] at hr
  split at hr
  · simp only [List.map_cons, List.map_nil, List.mem_cons, List.mem_singleton,
      List.not_mem_nil, or_false] at hr
    rcases hr with rfl | rfl | rfl <;> simp [mask_point_init, hany]
  · split at hr
    · simp only [List.map_cons, List.map_nil, List.mem_singleton] at hr
      subst hr
      simp [MaskHandleToTransData, hany]
    · simp only [List.map_append, List.mem_append] at hr
      rcases hr with hr | hr
      · split at hr
        · simp only [List.map_cons, List.map_nil, List.mem_singleton] at hr
          subst hr
          simp [MaskHandleToTransData, hany]
        · simp at hr
      · split at hr
        · simp only [List.map_cons, List.map_nil, List.mem_singleton] at hr
          subst hr
          split <;> simp [MaskHandleToTransData, hany, hl]
        · simp at hr

theorem mask_point_group_length (mode : MaskSplinePoint α → Nat)
    (point : MaskSplinePoint α) (ref : Nat × Nat × Nat)
    (hany : MASKPOINT_ISSEL_ANY point = true) :
    (mask_point_group mode point ref).length = mask_point_countsel mode point := by
  simp only [mask_point_group, List.length_map]
  exact MaskPointToTransData_writes_length mode point ref hany

theorem mask_point_countsel_unselected (mode : MaskSplinePoint α → Nat)
    (point : MaskSplinePoint α) (hany : ¬ MASKPOINT_ISSEL_ANY point = true) :
    mask_point_countsel mode point = 0 := by
  simp [mask_point_countsel, hany]

/-- The call of `MaskPointToTransData` for a selected point at the start of enough zero
records. -/
theorem MaskPointToTransData_spec (mode : MaskSplinePoint α → Nat)
    (point : MaskSplinePoint α) (ref : Nat × Nat × Nat) (pre post : List MaskRecord)
    (hany : MASKPOINT_ISSEL_ANY point = true) :
    MaskPointToTransData mode point ref
        (pre ++ List.replicate (mask_point_countsel mode point) MaskRecord.zero ++ post)
        pre.length false =
      some ((MaskPointToTransData_writes mode point ref false).1,
        pre ++ mask_point_group mode point ref ++ post) := by
  simp only [MaskPointToTransData]
  rw [← MaskPointToTransData_writes_length mode point ref hany, apply_at_replicate]
  rfl

/-! ## Proofs: the mask adapter, the loops -/

theorem mask_points_to_transdata_spec (mode : MaskSplinePoint α → Nat)
    (hmode : HandlesModeStable mode) (l s : Nat) :
    ∀ (points : List (MaskSplinePoint α)) (i : Nat) (pre post : List MaskRecord),
      ∃ points1,
        mask_points_to_transdata mode false l s i points
            (pre ++ List.replicate (mask_points_countsel mode points) MaskRecord.zero ++ post)
            pre.length =
          some (points1, pre ++ mask_points_groups mode l s i points ++ post,
            pre.length + mask_points_countsel mode points)
  | [], i, pre, post => by
    exact ⟨[], by simp [mask_points_to_transdata, mask_points_countsel, mask_points_groups]⟩
  | point :: rest, i, pre, post => by
    by_cases hany : MASKPOINT_ISSEL_ANY point = true
    · obtain ⟨points1, ih⟩ := mask_points_to_transdata_spec mode hmode l s rest (i + 1)
        (pre ++ mask_point_group mode point (l, s, i)) post
      refine ⟨(MaskPointToTransData_writes mode point (l, s, i) false).1 :: points1, ?_⟩
      have harr : pre ++ List.replicate (mask_points_countsel mode (point :: rest))
            MaskRecord.zero ++ post =
          pre ++ List.replicate (mask_point_countsel mode point) MaskRecord.zero ++
            (List.replicate (mask_points_countsel mode rest) MaskRecord.zero ++ post) := by
        simp only [mask_points_countsel, List.map_cons, List.sum_cons, List.replicate_add,
          List.append_assoc]
      simp only [List.length_append, mask_point_group_length mode point (l, s, i) hany,
        List.append_assoc] at ih
      simp only [mask_points_to_transdata, hany, Bool.false_or, if_true]
      rw [harr, MaskPointToTransData_spec mode point (l, s, i) pre _ hany]
      simp only [mask_point_advance_eq mode hmode point (l, s, i) hany, List.append_assoc]
      rw [ih]
      simp [mask_points_groups, hany, mask_points_countsel, Nat.add_assoc]
    · obtain ⟨points1, ih⟩ := mask_points_to_transdata_spec mode hmode l s rest (i + 1) pre post
      refine ⟨point :: points1, ?_⟩
      have hc : mask_points_countsel mode (point :: rest) = mask_points_countsel mode rest := by
        simp [mask_points_countsel, mask_point_countsel_unselected mode point hany]
      simp only [mask_points_to_transdata, hany, Bool.false_or, Bool.false_eq_true, if_false,
        hc, ih]
      simp [mask_points_groups, hany]

theorem mask_points_groups_length (mode : MaskSplinePoint α → Nat) (l s : Nat) :
    ∀ (points : List (MaskSplinePoint α)) (i : Nat),
      (mask_points_groups mode l s i points).length = mask_points_countsel mode points
  | [], i => by simp [mask_points_groups, mask_points_countsel]
  | point :: rest, i => by
    have ih := mask_points_groups_length mode l s rest (i + 1)
    simp only [mask_points_countsel] at ih
    simp only [mask_points_groups, mask_points_countsel, List.length_append, ih, List.map_cons,
      List.sum_cons]
    split
    · next hany => rw [mask_point_group_length mode point _ hany]
    · next hany => simp [mask_point_countsel_unselected mode point hany]

theorem mask_splines_to_transdata_spec (mode : MaskSplinePoint α → Nat)
    (hmode : HandlesModeStable mode) (l : Nat) :
    ∀ (splines : List (MaskSpline α)) (s : Nat) (pre post : List MaskRecord),
      ∃ splines1,
        mask_splines_to_transdata mode false l s splines
            (pre ++ List.replicate (mask_splines_countsel mode splines) MaskRecord.zero ++ post)
            pre.length =
          some (splines1, pre ++ mask_splines_groups mode l s splines ++ post,
            pre.length + mask_splines_countsel mode splines)
  | [], s, pre, post => by
    exact ⟨[], by simp [mask_splines_to_transdata, mask_splines_countsel, mask_splines_groups]⟩
  | spline :: rest, s, pre, post => by
    obtain ⟨points1, hp⟩ := mask_points_to_transdata_spec mode hmode l s spline.points 0 pre
      (List.replicate (mask_splines_countsel mode rest) MaskRecord.zero ++ post)
    obtain ⟨splines1, ih⟩ := mask_splines_to_transdata_spec mode hmode l rest (s + 1)
      (pre ++ mask_points_groups mode l s 0 spline.points) post
    refine ⟨⟨points1⟩ :: splines1, ?_⟩
    have harr : pre ++ List.replicate (mask_splines_countsel mode (spline :: rest))
          MaskRecord.zero ++ post =
        pre ++ List.replicate (mask_points_countsel mode spline.points) MaskRecord.zero ++
          (List.replicate (mask_splines_countsel mode rest) MaskRecord.zero ++ post) := by
      simp only [mask_splines_countsel, List.map_cons, List.sum_cons, List.replicate_add,
        List.append_assoc]
    simp only [List.length_append, mask_points_groups_length, List.append_assoc] at ih
    simp only [mask_splines_to_transdata]
    rw [harr, hp]
    simp only [List.append_assoc]
    rw [ih]
    simp [mask_splines_groups, mask_splines_countsel, Nat.add_assoc]

theorem mask_splines_groups_length (mode : MaskSplinePoint α → Nat) (l : Nat) :
    ∀ (splines : List (MaskSpline α)) (s : Nat),
      (mask_splines_groups mode l s splines).length = mask_splines_countsel mode splines
  | [], s => by simp [mask_splines_groups, mask_splines_countsel]
  | spline :: rest, s => by
    have ih := mask_splines_groups_length mode l rest (s + 1)
    simp only [mask_splines_countsel] at ih
    simp [mask_splines_groups, mask_splines_countsel, ih, mask_points_groups_length]

theorem mask_layers_to_transdata_spec (mode : MaskSplinePoint α → Nat)
    (hmode : HandlesModeStable mode) :
    ∀ (masklayers : List (MaskLayer α)) (l : Nat) (pre post : List MaskRecord),
      ∃ masklayers1,
        mask_layers_to_transdata mode false l masklayers
            (pre ++ List.replicate (mask_layers_countsel mode masklayers) MaskRecord.zero ++
              post) pre.length =
          some (masklayers1, pre ++ mask_layers_groups mode l masklayers ++ post,
            pre.length + mask_layers_countsel mode masklayers)
  | [], l, pre, post => by
    exact ⟨[], by simp [mask_layers_to_transdata, mask_layers_countsel, mask_layers_groups]⟩
  | masklay :: rest, l, pre, post => by
    by_cases hr : masklay.restrictflag &&& (MASK_RESTRICT_VIEW ||| MASK_RESTRICT_SELECT) ≠ 0
    · obtain ⟨masklayers1, ih⟩ := mask_layers_to_transdata_spec mode hmode rest (l + 1) pre post
      refine ⟨masklay :: masklayers1, ?_⟩
      have hc : mask_layers_countsel mode (masklay :: rest) =
          mask_layers_countsel mode rest := by
        simp [mask_layers_countsel, hr]
      simp only [mask_layers_to_transdata, hr, if_true, hc, ih]
      simp [mask_layers_groups, hr]
    · obtain ⟨splines1, hs⟩ := mask_splines_to_transdata_spec mode hmode l masklay.splines 0 pre
        (List.replicate (mask_layers_countsel mode rest) MaskRecord.zero ++ post)
      obtain ⟨masklayers1, ih⟩ := mask_layers_to_transdata_spec mode hmode rest (l + 1)
        (pre ++ mask_splines_groups mode l 0 masklay.splines) post
      refine ⟨{ masklay with splines := splines1 } :: masklayers1, ?_⟩
      have harr : pre ++ List.replicate (mask_layers_countsel mode (masklay :: rest))
            MaskRecord.zero ++ post =
          pre ++ List.replicate (mask_splines_countsel mode masklay.splines) MaskRecord.zero ++
            (List.replicate (mask_layers_countsel mode rest) MaskRecord.zero ++ post) := by
        simp only [mask_layers_countsel, List.map_cons, List.sum_cons, hr, if_false,
          List.replicate_add, List.append_assoc]
      have hr0 : masklay.restrictflag &&& (MASK_RESTRICT_VIEW ||| MASK_RESTRICT_SELECT) = 0 :=
        not_not.1 hr
      simp only [List.length_append, mask_splines_groups_length, List.append_assoc] at ih
      simp only [mask_layers_to_transdata, hr, if_false]
      rw [harr, hs]
      simp only [List.append_assoc]
      rw [ih]
      simp [mask_layers_groups, mask_layers_countsel, hr0, Nat.add_assoc]

theorem mask_layers_groups_length (mode : MaskSplinePoint α → Nat) :
    ∀ (masklayers : List (MaskLayer α)) (l : Nat),
      (mask_layers_groups mode l masklayers).length = mask_layers_countsel mode masklayers
  | [], l => by simp [mask_layers_groups, mask_layers_countsel]
  | masklay :: rest, l => by
    have ih := mask_layers_groups_length mode rest (l + 1)
    simp only [mask_layers_countsel] at ih
    simp only [mask_layers_groups, mask_layers_countsel, List.length_append, ih, List.map_cons,
      List.sum_cons]
    split <;> simp [mask_splines_groups_length]

theorem mask_points_groups_init (mode : MaskSplinePoint α → Nat) (l s : Nat) :
    ∀ (points : List (MaskSplinePoint α)) (i : Nat),
      ∀ r ∈ mask_points_groups mode l s i points, r.axismtx22 = 1 ∧ r.flag = TD_SELECTED
  | [], i, r, hr => by simp [mask_points_groups] at hr
  | point :: rest, i, r, hr => by
    simp only [mask_points_groups, List.mem_append] at hr
    rcases hr with hr | hr
    · split at hr
      · next hany => exact mask_point_group_init mode point _ hany r hr
      · simp at hr
    · exact mask_points_groups_init mode l s rest (i + 1) r hr

theorem mask_splines_groups_init (mode : MaskSplinePoint α → Nat) (l : Nat) :
    ∀ (splines : List (MaskSpline α)) (s : Nat),
      ∀ r ∈ mask_splines_groups mode l s splines, r.axismtx22 = 1 ∧ r.flag = TD_SELECTED
  | [], s, r, hr => by simp [mask_splines_groups] at hr
  | spline :: rest, s, r, hr => by
    simp only [mask_splines_groups, List.mem_append] at hr
    rcases hr with hr | hr
    · exact mask_points_groups_init mode l s spline.points 0 r hr
    · exact mask_splines_groups_init mode l rest (s + 1) r hr

theorem mask_layers_groups_init (mode : MaskSplinePoint α → Nat) :
    ∀ (masklayers : List (MaskLayer α)) (l : Nat),
      ∀ r ∈ mask_layers_groups mode l masklayers, r.axismtx22 = 1 ∧ r.flag = TD_SELECTED
  | [], l, r, hr => by simp [mask_layers_groups] at hr
  | masklay :: rest, l, r, hr => by
    simp only [mask_layers_groups, List.mem_append] at hr
    rcases hr with hr | hr
    · split at hr
      · simp at hr
      · exact mask_splines_groups_init mode l masklay.splines 0 r hr
    · exact mask_layers_groups_init mode rest (l + 1) r hr

/-- The counting loops of `createTransMaskingData` without proportional editing. -/
theorem mask_count_points_eq (mode : MaskSplinePoint α → Nat) :
    ∀ (points : List (MaskSplinePoint α)) (c : Nat × Nat),
      mask_count_points mode false points c = (c.1, c.2 + mask_points_countsel mode points)
  | [], c => by simp [mask_count_points, mask_points_countsel]
  | point :: rest, (count, countsel) => by
    simp [mask_count_points, mask_count_points_eq mode rest, mask_points_countsel,
      Nat.add_assoc]

theorem mask_count_splines_eq (mode : MaskSplinePoint α → Nat) :
    ∀ (splines : List (MaskSpline α)) (c : Nat × Nat),
      mask_count_splines mode false splines c = (c.1, c.2 + mask_splines_countsel mode splines)
  | [], c => by simp [mask_count_splines, mask_splines_countsel]
  | spline :: rest, c => by
    simp [mask_count_splines, mask_count_splines_eq mode rest, mask_count_points_eq,
      mask_splines_countsel, Nat.add_assoc]

theorem mask_count_layers_eq (mode : MaskSplinePoint α → Nat) :
    ∀ (masklayers : List (MaskLayer α)) (c : Nat × Nat),
      mask_count_layers mode false masklayers c =
        (c.1, c.2 + mask_layers_countsel mode masklayers)
  | [], c => by simp [mask_count_layers, mask_layers_countsel]
  | masklay :: rest, c => by
    simp only [mask_count_layers]
    split
    · next hr => simp [mask_count_layers_eq mode rest, mask_layers_countsel, hr]
    · next hr =>
      have hr0 : masklay.restrictflag &&& (MASK_RESTRICT_VIEW ||| MASK_RESTRICT_SELECT) = 0 :=
        not_not.1 hr
      simp [mask_count_layers_eq mode rest, mask_count_splines_eq, mask_layers_countsel, hr0,
        Nat.add_assoc]

theorem mask_point_countsel_spec (mode : MaskSplinePoint α → Nat) (point : MaskSplinePoint α) :
    mask_point_countsel mode point = mask_point_records_spec mode point := by
  simp only [mask_point_countsel, mask_point_records_spec]
  by_cases h2 : point.bezt.f2 &&& SELECT ≠ 0
  · have hany : MASKPOINT_ISSEL_ANY point = true :=
      (MASKPOINT_ISSEL_ANY_iff point).2 (Or.inr (Or.inl h2))
    simp [hany, MASKPOINT_ISSEL_KNOT, h2]
  · have hk : MASKPOINT_ISSEL_KNOT point = false := by
      simpa [MASKPOINT_ISSEL_KNOT] using h2
    by_cases h1 : point.bezt.f1 &&& SELECT ≠ 0
    · have hany : MASKPOINT_ISSEL_ANY point = true :=
        (MASKPOINT_ISSEL_ANY_iff point).2 (Or.inl h1)
      simp [hany, hk, h2, h1]
    · by_cases h3 : point.bezt.f3 &&& SELECT ≠ 0
      · have hany : MASKPOINT_ISSEL_ANY point = true :=
          (MASKPOINT_ISSEL_ANY_iff point).2 (Or.inr (Or.inr h3))
        simp [hany, hk, h2, h1, h3]
      · have hany : ¬ MASKPOINT_ISSEL_ANY point = true := by
          rw [MASKPOINT_ISSEL_ANY_iff]
          tauto
        simp [hany, h2, h1, h3]

theorem and_three_eq_zero_iff (x : Nat) :
    x &&& (1 ||| 2) = 0 ↔ x &&& 1 = 0 ∧ x &&& 2 = 0 := by
  have h12 : (1 ||| 2 : Nat) = 3 := by decide
  rw [h12]
  constructor
  · intro h
    have e1 : x &&& 1 = (x &&& 3) &&& 1 := by
      rw [Nat.and_assoc]
      rfl
    have e2 : x &&& 2 = (x &&& 3) &&& 2 := by
      rw [Nat.and_assoc]
      rfl
    rw [e1, e2, h]
    exact ⟨by decide, by decide⟩
  · rintro ⟨h1, h2⟩
    apply Nat.eq_of_testBit_eq
    intro i
    have h3 : Nat.testBit 3 i = decide (i < 2) := Nat.testBit_two_pow_sub_one 2 i
    have b0 := congrArg (fun y => Nat.testBit y 0) h1
    have b1 := congrArg (fun y => Nat.testBit y 1) h2
    have t10 : Nat.testBit 1 0 = true := by decide
    have t21 : Nat.testBit 2 1 = true := by decide
    simp only [Nat.testBit_and, Nat.zero_testBit, t10, t21, Bool.and_true] at b0 b1
    simp only [Nat.testBit_and, Nat.zero_testBit, h3]
    by_cases hi : i < 2
    · have : i = 0 ∨ i = 1 := by omega
      rcases this with rfl | rfl
      · simp [b0]
      · simp [b1]
    · simp [hi]

theorem mask_layers_countsel_spec (mode : MaskSplinePoint α → Nat) (mask : Mask α) :
    mask_layers_countsel mode mask.masklayers = mask_selected_elements mode mask := by
  have hp : ∀ points : List (MaskSplinePoint α),
      mask_points_countsel mode points =
        (points.map (mask_point_records_spec mode)).sum := by
    intro points
    simp only [mask_points_countsel]
    congr 1
    exact List.map_congr_left (fun p _ => mask_point_countsel_spec mode p)
  have hr : ∀ x : Nat, (x &&& (MASK_RESTRICT_VIEW ||| MASK_RESTRICT_SELECT) ≠ 0) ↔
      ¬ ((x &&& MASK_RESTRICT_VIEW == 0 && x &&& MASK_RESTRICT_SELECT == 0) = true) := by
    intro x
    simp only [MASK_RESTRICT_VIEW, MASK_RESTRICT_SELECT, ne_eq, and_three_eq_zero_iff,
      Bool.and_eq_true, beq_iff_eq]
  simp only [mask_layers_countsel, mask_selected_elements, mask_splines_countsel, hp]
  induction mask.masklayers with
  | nil => simp
  | cons masklay rest ih =>
    simp only [List.map_cons, List.sum_cons, ih, List.filter_cons]
    by_cases hrr : masklay.restrictflag &&& (MASK_RESTRICT_VIEW ||| MASK_RESTRICT_SELECT) ≠ 0
    · have := (hr masklay.restrictflag).1 hrr
      simp [hrr, this]
    · have := (not_congr (hr masklay.restrictflag)).1 hrr
      simp only [not_not] at this
      simp [hrr, this]

/-! ## Masks: the number of records -/

theorem example_handles_mode_ne_stick (point : MaskSplinePoint α) :
    example_handles_mode point ≠ MASK_HANDLE_MODE_STICK ↔
      ¬ (point.bezt.h1 = point.bezt.h2 ∧ point.bezt.h1 = HD_ALIGN) := by
  simp only [example_handles_mode]
  split
  · next hc => simp [hc.1.symm, hc.2]
  · next hc => simp [hc, MASK_HANDLE_MODE_STICK, MASK_HANDLE_MODE_INDIVIDUAL_HANDLES]

theorem example_handles_mode_stable :
    HandlesModeStable (example_handles_mode : MaskSplinePoint α → Nat) := by
  intro point h
  rw [example_handles_mode_ne_stick] at h
  rw [example_handles_mode_ne_stick, example_handles_mode_ne_stick]
  constructor
  · simp only [mask_left_handle_types]
    split
    · simp [HD_FREE, HD_ALIGN]
    · split
      · simp [HD_ALIGN_DOUBLESIDE, HD_ALIGN]
      · exact h
  · simp only [mask_right_handle_types]
    split
    · simp only [HD_FREE, HD_ALIGN]
      omega
    · split
      · simp [HD_ALIGN_DOUBLESIDE, HD_ALIGN]
      · exact h

/-- Claim C18.  Without proportional editing, for a mask in a context that has what the
adapter needs, and a handles mode that the changes of the handle types leave as it is:
`createTransMaskingData` returns, no write lies outside the arrays, `data_len` is the
number of selected elements of the mask (3 for a point with the knot selected, otherwise
1 for a stick-mode point with a selected handle, otherwise one per selected handle, over
the layers that are neither hidden nor unselectable), the arrays hold `data_len` records,
and every one of them is initialised and marked selected. -/
theorem createTransMaskingData_count (mode : MaskSplinePoint α → Nat)
    (hmode : HandlesModeStable mode) (spacetype_clip has_clip : Bool)
    (hclip : spacetype_clip = true → has_clip = true) (mask : Mask α) :
    ∃ tc mask1,
      createTransMaskingData mode false spacetype_clip has_clip (some mask) =
        some (tc, some mask1) ∧
      tc.data_len = mask_selected_elements mode mask ∧
      (tc.records.getD []).length = tc.data_len ∧
      (tc.data_len ≠ 0 → tc.records.isSome = true) ∧
      ∀ r ∈ tc.records.getD [], r.axismtx22 = 1 ∧ r.flag = TD_SELECTED := by
  have hc : (spacetype_clip && !has_clip) = false := by
    cases spacetype_clip <;> cases has_clip <;> simp at hclip ⊢
  have hcount : (mask_count_layers mode false mask.masklayers (0, 0)).2 =
      mask_layers_countsel mode mask.masklayers := by
    rw [mask_count_layers_eq]
    simp
  by_cases h0 : mask_layers_countsel mode mask.masklayers = 0
  · refine ⟨⟨0, none⟩, mask, ?_, ?_, ?_, ?_, ?_⟩
    · simp only [createTransMaskingData, hc, hcount, h0]
      simp
    · rw [← mask_layers_countsel_spec, h0]
    · simp
    · simp
    · simp
  · obtain ⟨masklayers1, hl⟩ := mask_layers_to_transdata_spec mode hmode mask.masklayers 0 [] []
    simp only [List.nil_append, List.append_nil, List.length_nil, Nat.zero_add] at hl
    refine ⟨⟨mask_layers_countsel mode mask.masklayers,
      some (mask_layers_groups mode 0 mask.masklayers)⟩, ⟨masklayers1⟩, ?_, ?_, ?_, ?_, ?_⟩
    · simp only [createTransMaskingData, hc, hcount, h0, Bool.false_eq_true, if_false]
      rw [hl]
    · exact mask_layers_countsel_spec mode mask
    · simp [mask_layers_groups_length]
    · simp
    · intro r hr
      exact mask_layers_groups_init mode mask.masklayers 0 r (by simpa using hr)

/-- Witness for C18: the example mask, whose first layer has a point with the knot
selected (3 records), a point with the left handle selected (1), a stick-mode point (1)
and an unselected point (0), and whose second layer is hidden: 5 records. -/
theorem createTransMaskingData_count_witness :
    mask_selected_elements example_handles_mode example_mask = 5 ∧
    ∃ tc mask1,
      createTransMaskingData example_handles_mode false false false (some example_mask) =
        some (tc, some mask1) ∧
      tc.data_len = mask_selected_elements example_handles_mode example_mask ∧
      (tc.records.getD []).length = tc.data_len ∧
      (tc.data_len ≠ 0 → tc.records.isSome = true) ∧
      ∀ r ∈ tc.records.getD [], r.axismtx22 = 1 ∧ r.flag = TD_SELECTED :=
  ⟨by decide, createTransMaskingData_count example_handles_mode example_handles_mode_stable
    false false (by decide) example_mask⟩

/-! ## Missing context -/

/-- Claim C20.  Without a clip, and with a clip whose width or height is zero,
`createTransTrackingData` returns with `data_len = 0`, without arrays, and leaves the clip
as it is, whatever the region; without a mask, and in the clip editor without a clip,
`createTransMaskingData` returns with `data_len = 0`, without arrays, and leaves the mask
as it is. -/
theorem createTransData_missing_context (env : TrackingEnv) (region_preview : Bool)
    (clip : MovieClip) (hsize : clip.width = 0 ∨ clip.height = 0)
    (mode : MaskSplinePoint α → Nat) (is_prop_edit spacetype_clip has_clip : Bool)
    (mask : Mask α) :
    createTransTrackingData env region_preview none = some (⟨0, none⟩, none) ∧
    createTransTrackingData env region_preview (some clip) = some (⟨0, none⟩, some clip) ∧
    createTransMaskingData mode is_prop_edit spacetype_clip has_clip (none : Option (Mask α)) =
      some (⟨0, none⟩, none) ∧
    createTransMaskingData mode is_prop_edit true false (some mask) =
      some (⟨0, none⟩, some mask) := by
  refine ⟨rfl, ?_, rfl, ?_⟩
  · simp only [createTransTrackingData, hsize, if_true]
  · simp [createTransMaskingData]

/-- Witness for C20: the example clip with the width 0, which has a selected track, and the
example mask, which has selected points. -/
theorem createTransData_missing_context_witness :
    ((⟨0, 1080, example_clip.tracks, []⟩ : MovieClip).width = 0 ∨
      (⟨0, 1080, example_clip.tracks, []⟩ : MovieClip).height = 0) ∧
    createTransTrackingData example_env false none = some (⟨0, none⟩, none) ∧
    createTransTrackingData example_env false (some ⟨0, 1080, example_clip.tracks, []⟩) =
      some (⟨0, none⟩, some ⟨0, 1080, example_clip.tracks, []⟩) ∧
    createTransMaskingData example_handles_mode false false false (none : Option (Mask Int)) =
      some (⟨0, none⟩, none) ∧
    createTransMaskingData example_handles_mode false true false (some example_mask) =
      some (⟨0, none⟩, some example_mask) :=
  ⟨Or.inl rfl, createTransData_missing_context example_env false
    ⟨0, 1080, example_clip.tracks, []⟩ (Or.inl rfl) example_handles_mode false false false
    example_mask⟩

/-! ## Paint curves: the number of records -/

/-- Claim C19, evaluated on a paint curve of one point whose knot flag byte `f2` is 3 (the
selection bit and bit 1) and whose handles are not selected.  The counting loop tests
`f2 & SELECT` and counts three records, and the second loop moves the pointers by three;
`PaintCurvePointToTransData` tests `f2 == SELECT`, takes the branch of the handles and
writes no record.  The three records stay as `MEM_callocN` left them, without a curve
point.  With `f2 = SELECT` the three records get the point and the ids 0, 1 and 2. -/
theorem createTransPaintCurveVerts_records :
    paint_point_count (paint_point_at 0 3 0) = 3 ∧
    (PaintCurvePointToTransData_writes (paint_point_at 0 3 0) 0).length = 0 ∧
    createTransPaintCurveVerts (some ⟨[paint_point_at 0 3 0]⟩) =
      some ⟨3, some [PaintCurveRecord.zero, PaintCurveRecord.zero, PaintCurveRecord.zero]⟩ ∧
    createTransPaintCurveVerts (some ⟨[paint_point_at 0 SELECT 0]⟩) =
      some ⟨3, some [⟨TD_SELECTED, ⟨some 0, 0⟩⟩, ⟨TD_SELECTED, ⟨some 0, 1⟩⟩,
        ⟨TD_SELECTED, ⟨some 0, 2⟩⟩]⟩ := by
  decide

/-! ## `calc_distanceCurveVerts`: reads of the neighbours -/

section Field

variable [LinearOrderedField α]

/-- Claim C30.  For every range of records `head .. tail`, whatever the selection, the
dists and the flags, `calc_distanceCurveVerts` returns: the first loop never reads
`(td - 1)->dist` at `td == head` and the second loop never reads `(td + 1)->dist` at
`td == tail`, which is where the model gives `none`.  The records written are the
records of the range, one for one. -/
theorem calc_distanceCurveVerts_in_range (sqrtf : α → α) (FLT_MAX : α)
    (data : List (TransData α)) :
    (∃ out, calc_distanceCurveVerts sqrtf FLT_MAX data = some out ∧
      out.length = data.length) ∧
    (∀ (mtx : M3 α) (prev : Option α),
      (calc_distance_forward sqrtf FLT_MAX mtx none prev data).isSome = true) ∧
    (∀ (mtx : M3 α) (next : Option α),
      (calc_distance_backward sqrtf mtx none next data).isSome = true) := by
  refine ⟨?_, ?_, ?_⟩
  · obtain ⟨out, h1, h2, -⟩ := calc_distanceCurveVerts_bounds sqrtf FLT_MAX data
    exact ⟨out, h1, h2⟩
  · intro mtx prev
    have key : ∀ (l : List (TransData α)) (near : Option (V3 α)) (p : Option α),
        (near.isSome = true → p.isSome = true) →
        (calc_distance_forward sqrtf FLT_MAX mtx near p l).isSome = true := by
      intro l
      induction l with
      | nil => intro near p _; simp [calc_distance_forward]
      | cons td rest ih =>
        intro near p hp
        simp only [calc_distance_forward]
        split
        · simp [ih (some td.center) (some 0) (fun _ => rfl)]
        · cases near with
          | none => simp [ih none (some FLT_MAX) (fun _ => rfl)]
          | some c =>
            cases p with
            | none => simp at hp
            | some pv =>
              simp only [Option.isSome_map']
              exact ih (some c) (some _) (fun _ => rfl)
    exact key data none prev (fun h => by simp at h)
  · intro mtx next
    have key : ∀ (l : List (TransData α)) (near : Option (V3 α)) (p : Option α),
        (near.isSome = true → p.isSome = true) →
        (calc_distance_backward sqrtf mtx near p l).isSome = true := by
      intro l
      induction l with
      | nil => intro near p _; simp [calc_distance_backward]
      | cons td rest ih =>
        intro near p hp
        simp only [calc_distance_backward]
        split
        · simp [ih (some td.center) (some 0) (fun _ => rfl)]
        · cases near with
          | none => simp [ih none (some td.dist) (fun _ => rfl)]
          | some c =>
            cases p with
            | none => simp at hp
            | some pv =>
              simp only [Option.isSome_map']
              exact ih (some c) (some _) (fun _ => rfl)
    exact key data none next (fun h => by simp at h)

end Field

/-! ## Proofs: `countAndCleanTransDataContainer` -/

theorem swap_containers_spec (A B C : List (TransDataContainer α))
    (a b : TransDataContainer α) :
    swap_containers (A ++ a :: B ++ b :: C) A.length (A.length + 1 + B.length) =
      some (A ++ b :: B ++ a :: C) := by
  have h1 : (A ++ a :: B ++ b :: C)[A.length]? = some a := by
    rw [List.append_assoc, List.getElem?_append_right (le_refl _)]
    simp
  have hlen : A.length + 1 + B.length = (A ++ a :: B).length := by
    simp only [List.length_append, List.length_cons]
    omega
  have h2 : (A ++ a :: B ++ b :: C)[A.length + 1 + B.length]? = some b := by
    rw [hlen, List.getElem?_append_right (le_refl _)]
    simp
  simp only [swap_containers, h1, h2, Option.some.injEq]
  have e1 : (A ++ a :: B ++ b :: C).set A.length b = A ++ b :: B ++ b :: C := by
    rw [List.append_assoc, List.set_append_right _ _ (le_refl _)]
    simp
  rw [e1]
  have hlen2 : A.length + 1 + B.length = (A ++ b :: B).length := by
    simp only [List.length_append, List.length_cons]
    omega
  rw [hlen2, List.set_append_right _ _ (le_refl _)]
  simp

/-- The loop of `countAndCleanTransDataContainer` from a state in which the slots before
`index` are still to be visited (`A`), the slots from there to `data_container_len` hold
containers with records (`B`) and the slots after them hold empty containers (`C`). -/
theorem count_clean_loop_spec :
    ∀ (n : Nat) (A B C : List (TransDataContainer α)) (data_len_all0 : Nat),
      A.length = n →
      (∀ tc ∈ B, tc.data.length ≠ 0) → (∀ tc ∈ C, tc.data.length = 0) →
      ∃ B1 C1,
        count_clean_loop n (A ++ B ++ C) (n + B.length) data_len_all0 =
          some (B1 ++ C1, B1.length, data_len_all0 + data_len_all A) ∧
        (∀ tc ∈ B1, tc.data.length ≠ 0) ∧ (∀ tc ∈ C1, tc.data.length = 0) ∧
        (B1 ++ C1).Perm (A ++ B ++ C)
  | 0, A, B, C, d0, hA, hB, hC => by
    have : A = [] := List.length_eq_zero.1 hA
    subst this
    exact ⟨B, C, by simp [count_clean_loop, data_len_all], hB, hC, by simp⟩
  | n + 1, A, B, C, d0, hA, hB, hC => by
    rcases List.eq_nil_or_concat A with rfl | ⟨A1, tc, hAeq⟩
    · simp at hA
    · rw [List.concat_eq_append] at hAeq
      subst hAeq
      have hA1 : A1.length = n := by simpa using hA
      have hget : (A1 ++ [tc] ++ B ++ C)[n]? = some tc := by
        rw [← hA1, List.append_assoc, List.append_assoc,
          List.getElem?_append_right (le_refl _)]
        simp
      simp only [count_clean_loop, hget]
      by_cases htc : tc.data.length = 0
      · simp only [htc, if_true]
        rcases List.eq_nil_or_concat B with rfl | ⟨B2, b, hBeq⟩
        · obtain ⟨B1, C1, h1, h2, h3, h4⟩ := count_clean_loop_spec n A1 [] (tc :: C) d0 hA1
            (by simp) (by
              intro x hx
              rcases List.mem_cons.1 hx with rfl | hx
              · exact htc
              · exact hC x hx)
          refine ⟨B1, C1, ?_, h2, h3, ?_⟩
          · simp only [List.length_nil, Nat.add_zero, ne_eq, not_true_eq_false, if_false,
              Nat.add_sub_cancel]
            simp only [List.append_nil, List.length_nil, Nat.add_zero] at h1
            have e : A1 ++ [tc] ++ [] ++ C = A1 ++ tc :: C := by simp
            rw [e, h1]
            simp [data_len_all, htc]
          · refine h4.trans ?_
            simp
        · rw [List.concat_eq_append] at hBeq
          subst hBeq
          have hb : b.data.length ≠ 0 := hB b (by simp)
          obtain ⟨B1, C1, h1, h2, h3, h4⟩ := count_clean_loop_spec n A1 (b :: B2) (tc :: C) d0
            hA1 (by
              intro x hx
              rcases List.mem_cons.1 hx with rfl | hx
              · exact hb
              · exact hB x (by simp [hx]))
            (by
              intro x hx
              rcases List.mem_cons.1 hx with rfl | hx
              · exact htc
              · exact hC x hx)
          refine ⟨B1, C1, ?_, h2, h3, ?_⟩
          · have hne : n + 1 ≠ n + 1 + (B2 ++ [b]).length := by
              simp only [List.length_append, List.length_singleton]
              omega
            have hidx : n + 1 + (B2 ++ [b]).length - 1 = A1.length + 1 + B2.length := by
              simp only [List.length_append, List.length_singleton, hA1]
              omega
            have e : A1 ++ [tc] ++ (B2 ++ [b]) ++ C = A1 ++ tc :: B2 ++ b :: C := by simp
            simp only [hne, ne_eq, not_false_eq_true, if_true, hidx, e]
            rw [← hA1, swap_containers_spec A1 B2 C tc b]
            simp only
            have e2 : A1 ++ b :: B2 ++ tc :: C = A1 ++ (b :: B2) ++ (tc :: C) := by simp
            have e3 : A1.length + 1 + B2.length = A1.length + (b :: B2).length := by
              simp only [List.length_cons]
              omega
            rw [e2, e3, hA1, h1]
            simp [data_len_all, htc]
          · refine h4.trans ?_
            simp only [List.append_assoc, List.singleton_append, List.cons_append]
            refine List.Perm.append_left A1 ?_
            have p1 : (b :: (B2 ++ tc :: C)).Perm (tc :: (B2 ++ b :: C)) := by
              have q1 : (b :: (B2 ++ tc :: C)).Perm (b :: tc :: (B2 ++ C)) :=
                List.Perm.cons b List.perm_middle
              have q2 : (tc :: (B2 ++ b :: C)).Perm (tc :: b :: (B2 ++ C)) :=
                List.Perm.cons tc List.perm_middle
              exact q1.trans ((List.Perm.swap tc b _).trans q2.symm)
            exact p1
      · simp only [htc, if_false]
        obtain ⟨B1, C1, h1, h2, h3, h4⟩ := count_clean_loop_spec n A1 (tc :: B) C
          (d0 + tc.data.length) hA1 (by
            intro x hx
            rcases List.mem_cons.1 hx with rfl | hx
            · exact htc
            · exact hB x hx) hC
        refine ⟨B1, C1, ?_, h2, h3, ?_⟩
        · have e : A1 ++ [tc] ++ B ++ C = A1 ++ (tc :: B) ++ C := by simp
          have e3 : n + 1 + B.length = n + (tc :: B).length := by
            simp only [List.length_cons]
            omega
          rw [e, e3, h1]
          simp [data_len_all, Nat.add_assoc, Nat.add_comm]
        · refine h4.trans ?_
          simp

/-- Claim C29.  For every array of containers `countAndCleanTransDataContainer` returns
(no slot outside the array is read).  The value returned and `t->data_len_all` are the sum
of `data_len` over all containers, `t->data_container_len` is the number of containers
with records, and the array holds, in that many slots, exactly the containers with
records, each as often as before. -/
theorem countAndCleanTransDataContainer_spec (data_container : List (TransDataContainer α)) :
    ∃ out, countAndCleanTransDataContainer data_container =
        some (out, out.length, data_len_all data_container, data_len_all data_container) ∧
      out.length = data_container.countP (fun tc => tc.data.length != 0) ∧
      out.Perm (data_container.filter (fun tc => tc.data.length != 0)) := by
  obtain ⟨B1, C1, h1, h2, h3, h4⟩ := count_clean_loop_spec data_container.length
    data_container [] [] 0 rfl (by simp) (by simp)
  simp only [List.append_nil, List.length_nil, Nat.add_zero, Nat.zero_add] at h1 h4
  have hperm : B1.Perm (data_container.filter (fun tc => tc.data.length != 0)) := by
    have hf := h4.filter (fun tc => tc.data.length != 0)
    have e1 : (B1 ++ C1).filter (fun tc => tc.data.length != 0) = B1 := by
      rw [List.filter_append]
      have eB : B1.filter (fun tc => tc.data.length != 0) = B1 :=
        List.filter_eq_self.2 (fun x hx => by simpa using h2 x hx)
      have eC : C1.filter (fun tc => tc.data.length != 0) = [] :=
        List.filter_eq_nil_iff.2 (fun x hx => by simpa using h3 x hx)
      rw [eB, eC, List.append_nil]
    rw [e1] at hf
    exact hf
  refine ⟨B1, ?_, ?_, hperm⟩
  · simp only [countAndCleanTransDataContainer, h1]
    simp
  · rw [List.countP_eq_length_filter]
    exact hperm.length_eq

/-! ## Graph editor: snapping to the nearest frame -/

section Floor

variable [LinearOrderedField α] [FloorRing α]

/-- Claim C23.  With `sipo->autosnap` at `SACTSNAP_FRAME`, for every record of the
container without `TD_NOTIMESNAP` and without NLA mapping, the time `flushTransGraphData`
writes to the keyframe is `floor(x + 0.5)`, `x` being the time of the record, when the
transform is not cancelled, and `x` itself when it is. -/
theorem flushTransGraphData_nearest_frame {σ : Type} (BKE_nla_tweakedit_remap : σ → α → α)
    (ED_markers_find_nearest_marker_time : α → α) (secf : α) (canceled : Bool)
    (data : List (TransDataGraphRecord α σ)) (a : Nat) (r : TransDataGraphRecord α σ)
    (hr : data[a]? = some r) (hflag : r.flag &&& TD_NOTIMESNAP = 0) (hadt : r.extra = none) :
    ∃ r1, (flushTransGraphData BKE_nla_tweakedit_remap ED_markers_find_nearest_marker_time
        secf canceled SACTSNAP_FRAME data)[a]? = some r1 ∧
      r1.loc2d.1 = (if canceled then r.loc.x else ((Int.floor (r.loc.x + 1 / 2) : Int) : α)) ∧
      (flushTransGraphData BKE_nla_tweakedit_remap ED_markers_find_nearest_marker_time
        secf canceled SACTSNAP_FRAME data).length = data.length := by
  refine ⟨flush_graph_record BKE_nla_tweakedit_remap ED_markers_find_nearest_marker_time
    secf canceled SACTSNAP_FRAME r, ?_, ?_, ?_⟩
  · simp [flushTransGraphData, hr]
  · cases canceled <;>
      simp [flush_graph_record, hflag, hadt, floor_half, SACTSNAP_FRAME, SACTSNAP_STEP,
        SACTSNAP_TSTEP]
  · simp [flushTransGraphData]

end Floor

/-- Witness for C23: a record at time 5/2: written as 3 when the transform is confirmed and
as 5/2 when it is cancelled. -/
theorem flushTransGraphData_nearest_frame_witness :
    (∃ r1, (flushTransGraphData (fun (_ : Unit) (x : ℚ) => x) (fun x => x) 24 false
        SACTSNAP_FRAME
        [⟨0, ⟨5 / 2, 1, 0⟩, ⟨2, 1, 0⟩, none, 1, 0, (2, 1), none, (0, 0), none, (0, 0)⟩])[0]? =
          some r1 ∧ r1.loc2d.1 = 3) ∧
    (∃ r1, (flushTransGraphData (fun (_ : Unit) (x : ℚ) => x) (fun x => x) 24 true
        SACTSNAP_FRAME
        [⟨0, ⟨5 / 2, 1, 0⟩, ⟨2, 1, 0⟩, none, 1, 0, (2, 1), none, (0, 0), none, (0, 0)⟩])[0]? =
          some r1 ∧ r1.loc2d.1 = 5 / 2) := by
  constructor
  · obtain ⟨r1, h1, h2, -⟩ := flushTransGraphData_nearest_frame (fun (_ : Unit) (x : ℚ) => x)
      (fun x => x) 24 false
      [⟨0, ⟨5 / 2, 1, 0⟩, ⟨2, 1, 0⟩, none, 1, 0, (2, 1), none, (0, 0), none, (0, 0)⟩] 0 _ rfl
      (by decide) rfl
    refine ⟨r1, h1, ?_⟩
    rw [h2]
    have : Int.floor ((5 / 2 : ℚ) + 1 / 2) = 3 := by
      rw [Int.floor_eq_iff]
      norm_num
    simp only [Bool.false_eq_true, if_false, List.getElem_cons_zero, this]
    norm_num
  · obtain ⟨r1, h1, h2, -⟩ := flushTransGraphData_nearest_frame (fun (_ : Unit) (x : ℚ) => x)
      (fun x => x) 24 true
      [⟨0, ⟨5 / 2, 1, 0⟩, ⟨2, 1, 0⟩, none, 1, 0, (2, 1), none, (0, 0), none, (0, 0)⟩] 0 _ rfl
      (by decide) rfl
    exact ⟨r1, h1, by rw [h2]; simp⟩

/-! ## Animation editors: when duplicate keys are cleaned up -/

section Field

variable [LinearOrderedField α] {σ : Type}

theorem anim_clean_loop_cull (ops : AnimOps α σ) (use_handle : Bool) :
    ∀ (anim_data : List (bAnimListElem α σ)) (k : Nat),
      anim_clean_loop ops true use_handle k anim_data =
        (anim_data.map (anim_clean_channel ops use_handle),
          (List.range' k anim_data.length).map (fun c => AnimEvent.clean c use_handle))
  | [], k => by simp [anim_clean_loop]
  | ale :: rest, k => by
    simp [anim_clean_loop, anim_clean_loop_cull ops use_handle rest (k + 1), List.range'_succ]

theorem anim_clean_loop_keep (ops : AnimOps α σ) (use_handle : Bool) :
    ∀ (anim_data : List (bAnimListElem α σ)) (k : Nat),
      anim_clean_loop ops false use_handle k anim_data = (anim_data, [])
  | [], k => by simp [anim_clean_loop]
  | ale :: rest, k => by
    simp [anim_clean_loop, anim_clean_loop_keep ops use_handle rest (k + 1)]

theorem clean_events_append_refresh (events : List AnimEvent) :
    clean_events (events ++ [AnimEvent.refresh]) = clean_events events := by
  simp [clean_events, List.filter_append]

theorem clean_events_clean (use_handle : Bool) (l : List Nat) :
    clean_events (l.map (fun c => AnimEvent.clean c use_handle)) =
      l.map (fun c => AnimEvent.clean c use_handle) := by
  simp only [clean_events]
  exact List.filter_eq_self.2 (fun e he => by
    obtain ⟨c, -, rfl⟩ := List.mem_map.1 he
    rfl)

/-- The calls of `posttrans_fcurve_clean` that `special_aftertrans_update` makes in the
action editor and the graph editor, and the channels when it makes none. -/
theorem special_aftertrans_update_calls (ops : AnimOps α σ)
    (spacetype data_len_all mode options : Nat) (canceled : Bool) (editor_flag : Nat)
    (datatype : Option Nat) (anim_data : List (bAnimListElem α σ))
    (hctx : anim_editor_context spacetype data_len_all mode options datatype = true) :
    ((editor_flag &&& NOTRANSKEYCULL spacetype = 0 ∧
        (canceled = false ∨ mode = TFM_TIME_DUPLICATE)) →
      clean_events (special_aftertrans_update ops spacetype data_len_all mode options canceled
        editor_flag datatype anim_data).2 =
        (List.range anim_data.length).map
          (fun c => AnimEvent.clean c (anim_use_handle spacetype editor_flag))) ∧
    (¬ (editor_flag &&& NOTRANSKEYCULL spacetype = 0 ∧
        (canceled = false ∨ mode = TFM_TIME_DUPLICATE)) →
      clean_events (special_aftertrans_update ops spacetype data_len_all mode options canceled
        editor_flag datatype anim_data).2 = [] ∧
      ((special_aftertrans_update ops spacetype data_len_all mode options canceled
          editor_flag datatype anim_data).1 = anim_data ∨
        (special_aftertrans_update ops spacetype data_len_all mode options canceled
          editor_flag datatype anim_data).1 = ops.ANIM_editkeyframes_refresh anim_data) ∧
      ((∀ l, (ops.ANIM_editkeyframes_refresh l).map (fun ale => ale.key_data.bezt.length) =
          l.map (fun ale => ale.key_data.bezt.length)) →
        (special_aftertrans_update ops spacetype data_len_all mode options canceled
          editor_flag datatype anim_data).1.map (fun ale => ale.key_data.bezt.length) =
          anim_data.map (fun ale => ale.key_data.bezt.length))) := by
  simp only [anim_editor_context, Bool.and_eq_true, Bool.or_eq_true, bne_iff_ne, ne_eq,
    beq_iff_eq] at hctx
  obtain ⟨⟨⟨h0, hdummy⟩, hgp⟩, hed⟩ := hctx
  have hbase : ¬ (data_len_all = 0 ∨ mode = TFM_DUMMY) := by
    rintro (h | h)
    · exact h0 h
    · exact hdummy h
  have hgp2 : ¬ (options &&& CTX_GPENCIL_STROKES ≠ 0) := by simpa using hgp
  rcases hed with ⟨hsp, hdt⟩ | ⟨⟨hsp, hsome⟩, hdt⟩
  · -- action editor
    subst hsp
    have hne : ∀ dt, datatype = some dt →
        (dt = ANIMCONT_DOPESHEET ∨ dt = ANIMCONT_SHAPEKEY ∨ dt = ANIMCONT_TIMELINE ∨
          dt = ANIMCONT_ACTION) := by
      intro dt hd
      subst hd
      rcases hdt with ((h | h) | h) | h <;> simp only [Option.some.injEq] at h <;> simp [h]
    obtain ⟨dt, hd⟩ : ∃ dt, datatype = some dt := by
      rcases hdt with ((h | h) | h) | h <;> exact ⟨_, h⟩
    have hdt4 := hne dt hd
    have hngp : dt ≠ ANIMCONT_GPENCIL ∧ dt ≠ ANIMCONT_MASK := by
      rcases hdt4 with h | h | h | h <;> subst h <;> decide
    subst hd
    simp only [special_aftertrans_update, hbase, hgp2, if_false, if_true, NOTRANSKEYCULL,
      anim_use_handle, hngp, not_false_eq_true, and_self, ne_eq]
    constructor
    · rintro ⟨hflag, hconf⟩
      have hcull : ((editor_flag &&& SACTION_NOTRANSKEYCULL == 0) &&
          (!canceled || decide (mode = TFM_TIME_DUPLICATE))) = true := by
        rcases hconf with h | h <;> simp [hflag, h]
      simp only [hcull, if_true, posttrans_action_clean, anim_clean_loop_cull,
        clean_events_append_refresh]
      split
      · simp [clean_events_clean, List.range_eq_range']
      · split
        · simp [clean_events_clean, List.range_eq_range']
        · rename_i h1 h2
          rcases hdt4 with h | h | h | h
          · exact absurd (Or.inl h) h1
          · exact absurd (Or.inr (Or.inl h)) h1
          · exact absurd (Or.inr (Or.inr h)) h1
          · exact absurd h h2
    · intro hn
      have hcull : ((editor_flag &&& SACTION_NOTRANSKEYCULL == 0) &&
          (!canceled || decide (mode = TFM_TIME_DUPLICATE))) = false := by
        by_contra hc
        simp only [Bool.not_eq_false, Bool.and_eq_true, beq_iff_eq, Bool.or_eq_true,
          Bool.not_eq_true', decide_eq_true_eq] at hc
        exact hn hc
      have hr : (if dt = ANIMCONT_DOPESHEET ∨ dt = ANIMCONT_SHAPEKEY ∨ dt = ANIMCONT_TIMELINE
          then anim_clean_loop ops false false 0 anim_data
          else if dt = ANIMCONT_ACTION then
            if false = true then posttrans_action_clean ops anim_data else (anim_data, [])
          else (anim_data, [])) = (anim_data, []) := by
        split
        · exact anim_clean_loop_keep ops false anim_data 0
        · split <;> simp
      simp only [hcull, hr, List.nil_append]
      refine ⟨by simp [clean_events], Or.inr trivial, fun h => h _⟩
  · -- graph editor
    subst hsp
    obtain ⟨dt, hd⟩ := Option.isSome_iff_exists.1 hsome
    subst hd
    have hdt0 : dt ≠ 0 := by simpa using hdt
    have hsa : ¬ (SPACE_GRAPH = SPACE_ACTION) := by decide
    simp only [special_aftertrans_update, hbase, hgp2, if_false, if_true, hsa, NOTRANSKEYCULL,
      anim_use_handle, hdt0, ne_eq, not_false_eq_true]
    constructor
    · rintro ⟨hflag, hconf⟩
      have hcull : ((editor_flag &&& SIPO_NOTRANSKEYCULL == 0) &&
          (!canceled || decide (mode = TFM_TIME_DUPLICATE))) = true := by
        rcases hconf with h | h <;> simp [hflag, h]
      simp only [hcull, anim_clean_loop_cull]
      split
      · simp [clean_events_append_refresh, clean_events_clean, List.range_eq_range']
      · simp [clean_events_clean, List.range_eq_range']
    · intro hn
      have hcull : ((editor_flag &&& SIPO_NOTRANSKEYCULL == 0) &&
          (!canceled || decide (mode = TFM_TIME_DUPLICATE))) = false := by
        by_contra hc
        simp only [Bool.not_eq_false, Bool.and_eq_true, beq_iff_eq, Bool.or_eq_true,
          Bool.not_eq_true', decide_eq_true_eq] at hc
        exact hn hc
      simp only [hcull, anim_clean_loop_keep]
      split
      · exact ⟨by simp [clean_events], Or.inr rfl, fun h => h _⟩
      · exact ⟨by simp [clean_events], Or.inl rfl, fun _ => rfl⟩

/-- The statements for one channel, written out. -/
theorem anim_clean_channel_eq (ops : AnimOps α σ) (use_handle : Bool)
    (ale : bAnimListElem α σ) :
    anim_clean_channel ops use_handle ale =
      ⟨ale.adt,
        match ale.adt with
        | some adt =>
          ops.ANIM_nla_mapping_apply_fcurve adt
            (posttrans_fcurve_clean ops.testhandles_fcurve ops.BEZT_BINARYSEARCH_THRESH
              (ops.ANIM_nla_mapping_apply_fcurve adt ale.key_data false) use_handle) true
        | none =>
          posttrans_fcurve_clean ops.testhandles_fcurve ops.BEZT_BINARYSEARCH_THRESH
            ale.key_data use_handle⟩ := by
  unfold anim_clean_channel
  cases h : ale.adt <;> rfl

/-- The channels after `special_aftertrans_update` when the cleanup is made. -/
theorem special_aftertrans_update_cleaned (ops : AnimOps α σ)
    (spacetype data_len_all mode options : Nat) (canceled : Bool) (editor_flag : Nat)
    (datatype : Option Nat) (anim_data : List (bAnimListElem α σ))
    (hctx : anim_editor_context spacetype data_len_all mode options datatype = true)
    (hflag : editor_flag &&& NOTRANSKEYCULL spacetype = 0)
    (hconf : canceled = false ∨ mode = TFM_TIME_DUPLICATE) :
    (special_aftertrans_update ops spacetype data_len_all mode options canceled editor_flag
        datatype anim_data).1 =
      if spacetype = SPACE_ACTION ∨ canceled = false then
        ops.ANIM_editkeyframes_refresh
          (anim_data.map (anim_clean_channel ops (anim_use_handle spacetype editor_flag)))
      else anim_data.map (anim_clean_channel ops (anim_use_handle spacetype editor_flag)) := by
  simp only [anim_editor_context, Bool.and_eq_true, Bool.or_eq_true, bne_iff_ne, ne_eq,
    beq_iff_eq] at hctx
  obtain ⟨⟨⟨h0, hdummy⟩, hgp⟩, hed⟩ := hctx
  have hbase : ¬ (data_len_all = 0 ∨ mode = TFM_DUMMY) := by
    rintro (h | h)
    · exact h0 h
    · exact hdummy h
  have hgp2 : ¬ (options &&& CTX_GPENCIL_STROKES ≠ 0) := by simpa using hgp
  rcases hed with ⟨hsp, hdt⟩ | ⟨⟨hsp, hsome⟩, hdt⟩
  · -- action editor
    subst hsp
    obtain ⟨dt, hd⟩ : ∃ dt, datatype = some dt := by
      rcases hdt with ((h | h) | h) | h <;> exact ⟨_, h⟩
    subst hd
    have hdt4 : dt = ANIMCONT_DOPESHEET ∨ dt = ANIMCONT_SHAPEKEY ∨ dt = ANIMCONT_TIMELINE ∨
        dt = ANIMCONT_ACTION := by
      rcases hdt with ((h | h) | h) | h <;> simp only [Option.some.injEq] at h <;> simp [h]
    have hngp : dt ≠ ANIMCONT_GPENCIL ∧ dt ≠ ANIMCONT_MASK := by
      rcases hdt4 with h | h | h | h <;> subst h <;> decide
    simp only [NOTRANSKEYCULL, if_true] at hflag
    have hcull : ((editor_flag &&& SACTION_NOTRANSKEYCULL == 0) &&
        (!canceled || decide (mode = TFM_TIME_DUPLICATE))) = true := by
      rcases hconf with h | h <;> simp [hflag, h]
    simp only [special_aftertrans_update, hbase, hgp2, if_false, if_true, anim_use_handle,
      hngp, not_false_eq_true, and_self, ne_eq, hcull, posttrans_action_clean,
      anim_clean_loop_cull, true_or]
    split
    · rfl
    · split
      · rfl
      · rename_i h1 h2
        rcases hdt4 with h | h | h | h
        · exact absurd (Or.inl h) h1
        · exact absurd (Or.inr (Or.inl h)) h1
        · exact absurd (Or.inr (Or.inr h)) h1
        · exact absurd h h2
  · -- graph editor
    subst hsp
    obtain ⟨dt, hd⟩ := Option.isSome_iff_exists.1 hsome
    subst hd
    have hdt0 : dt ≠ 0 := by simpa using hdt
    have hsa : ¬ (SPACE_GRAPH = SPACE_ACTION) := by decide
    simp only [NOTRANSKEYCULL, hsa, if_false] at hflag
    have hcull : ((editor_flag &&& SIPO_NOTRANSKEYCULL == 0) &&
        (!canceled || decide (mode = TFM_TIME_DUPLICATE))) = true := by
      rcases hconf with h | h <;> simp [hflag, h]
    simp only [special_aftertrans_update, hbase, hgp2, if_false, if_true, hsa,
      anim_use_handle, hdt0, ne_eq, not_false_eq_true, hcull, anim_clean_loop_cull,
      false_or]
    cases canceled <;> simp

/-- Claim C26.  In the action editor (dope sheet, shape keys, timeline, action) and the
graph editor, when something was transformed: if the flag `NOTRANSKEYCULL` of the editor is
off and the transform was confirmed or is `TFM_TIME_DUPLICATE`,
`special_aftertrans_update` calls `posttrans_fcurve_clean` once on the F-curve of every
channel, in order, and the F-curve of every channel is the result of
`posttrans_fcurve_clean` on it (between the two calls of `ANIM_nla_mapping_apply_fcurve`
when the channel has an NLA mapping), passed through `ANIM_editkeyframes_refresh` in the
action editor and, when the transform was not cancelled, in the graph editor; otherwise
`posttrans_fcurve_clean` is not called, and the F-curves are those from before the call or
what `ANIM_editkeyframes_refresh` makes of them, so no key is deleted when that function
keeps the number of keys. -/
theorem special_aftertrans_update_cull (ops : AnimOps α σ)
    (spacetype data_len_all mode options : Nat) (canceled : Bool) (editor_flag : Nat)
    (datatype : Option Nat) (anim_data : List (bAnimListElem α σ))
    (hctx : anim_editor_context spacetype data_len_all mode options datatype = true) :
    ((editor_flag &&& NOTRANSKEYCULL spacetype = 0 ∧
        (canceled = false ∨ mode = TFM_TIME_DUPLICATE)) →
      clean_events (special_aftertrans_update ops spacetype data_len_all mode options canceled
        editor_flag datatype anim_data).2 =
        (List.range anim_data.length).map
          (fun c => AnimEvent.clean c (anim_use_handle spacetype editor_flag)) ∧
      (special_aftertrans_update ops spacetype data_len_all mode options canceled
        editor_flag datatype anim_data).1 =
        (if spacetype = SPACE_ACTION ∨ canceled = false then ops.ANIM_editkeyframes_refresh
          else id)
          (anim_data.map (fun ale =>
            (⟨ale.adt,
              match ale.adt with
              | some adt =>
                ops.ANIM_nla_mapping_apply_fcurve adt
                  (posttrans_fcurve_clean ops.testhandles_fcurve
                    ops.BEZT_BINARYSEARCH_THRESH
                    (ops.ANIM_nla_mapping_apply_fcurve adt ale.key_data false)
                    (anim_use_handle spacetype editor_flag)) true
              | none =>
                posttrans_fcurve_clean ops.testhandles_fcurve ops.BEZT_BINARYSEARCH_THRESH
                  ale.key_data (anim_use_handle spacetype editor_flag)⟩ :
              bAnimListElem α σ)))) ∧
    (¬ (editor_flag &&& NOTRANSKEYCULL spacetype = 0 ∧
        (canceled = false ∨ mode = TFM_TIME_DUPLICATE)) →
      clean_events (special_aftertrans_update ops spacetype data_len_all mode options canceled
        editor_flag datatype anim_data).2 = [] ∧
      ((special_aftertrans_update ops spacetype data_len_all mode options canceled
          editor_flag datatype anim_data).1 = anim_data ∨
        (special_aftertrans_update ops spacetype data_len_all mode options canceled
          editor_flag datatype anim_data).1 = ops.ANIM_editkeyframes_refresh anim_data) ∧
      ((∀ l, (ops.ANIM_editkeyframes_refresh l).map (fun ale => ale.key_data.bezt.length) =
          l.map (fun ale => ale.key_data.bezt.length)) →
        (special_aftertrans_update ops spacetype data_len_all mode options canceled
          editor_flag datatype anim_data).1.map (fun ale => ale.key_data.bezt.length) =
          anim_data.map (fun ale => ale.key_data.bezt.length))) := by
  obtain ⟨hpos, hneg⟩ := special_aftertrans_update_calls ops spacetype data_len_all mode
    options canceled editor_flag datatype anim_data hctx
  refine ⟨fun hc => ⟨hpos hc, ?_⟩, hneg⟩
  rw [special_aftertrans_update_cleaned ops spacetype data_len_all mode options canceled
    editor_flag datatype anim_data hctx hc.1 hc.2]
  have hmap : anim_data.map (anim_clean_channel ops (anim_use_handle spacetype editor_flag)) =
      anim_data.map (fun ale =>
        (⟨ale.adt,
          match ale.adt with
          | some adt =>
            ops.ANIM_nla_mapping_apply_fcurve adt
              (posttrans_fcurve_clean ops.testhandles_fcurve
                ops.BEZT_BINARYSEARCH_THRESH
                (ops.ANIM_nla_mapping_apply_fcurve adt ale.key_data false)
                (anim_use_handle spacetype editor_flag)) true
          | none =>
            posttrans_fcurve_clean ops.testhandles_fcurve ops.BEZT_BINARYSEARCH_THRESH
              ale.key_data (anim_use_handle spacetype editor_flag)⟩ :
          bAnimListElem α σ)) :=
    List.map_congr_left (fun ale _ => anim_clean_channel_eq ops _ ale)
  rw [hmap]
  split <;> rfl

end Field

/-- One run of `posttrans_fcurve_clean` on the F-curve of the example channels. -/
theorem example_channel_once :
    (posttrans_fcurve_clean (fun l _ => l) (1 / 100 : ℚ)
        ⟨0, [key_at ℚ 1 2 SELECT, key_at ℚ 1 4 SELECT]⟩ true).bezt.map key_data =
      [(1, 3, 1, 1, 1)] := by
  norm_num [posttrans_fcurve_clean, retained_collect, retained_merge,
    retained_average, clean_keys, clean_key, IS_EQT, BEZT_ISSEL_ANY, key_at, SELECT,
    FCURVE_INT_VALUES, FCURVE_DISCRETE_VALUES, key_data]

/-- Witness for C26: the graph editor with two channels, each with two selected keys on
frame 1 with the values 2 and 4, a confirmed translation and `SIPO_NOTRANSKEYCULL` off:
one call of `posttrans_fcurve_clean` per channel, and every channel is left with one key on
frame 1 with the value 3; with the flag on, no call. -/
theorem special_aftertrans_update_cull_witness :
    anim_editor_context SPACE_GRAPH 4 TFM_TRANSLATION 0 (some 5) = true ∧
    clean_events (special_aftertrans_update example_anim_ops SPACE_GRAPH 4 TFM_TRANSLATION 0
      false 0 (some 5) example_channels).2 =
      (List.range example_channels.length).map
        (fun c => AnimEvent.clean c (anim_use_handle SPACE_GRAPH 0)) ∧
    (special_aftertrans_update example_anim_ops SPACE_GRAPH 4 TFM_TRANSLATION 0
      false 0 (some 5) example_channels).1.map (fun ale => ale.key_data.bezt.map key_data) =
      [[(1, 3, 1, 1, 1)], [(1, 3, 1, 1, 1)]] ∧
    clean_events (special_aftertrans_update example_anim_ops SPACE_GRAPH 4 TFM_TRANSLATION 0
      false SIPO_NOTRANSKEYCULL (some 5) example_channels).2 = [] := by
  have hpos := (special_aftertrans_update_cull example_anim_ops SPACE_GRAPH 4 TFM_TRANSLATION
    0 false 0 (some 5) example_channels (by decide)).1 ⟨by decide, Or.inl rfl⟩
  have hneg := (special_aftertrans_update_cull example_anim_ops SPACE_GRAPH 4 TFM_TRANSLATION
    0 false SIPO_NOTRANSKEYCULL (some 5) example_channels (by decide)).2
      (fun h => absurd h.1 (by decide))
  refine ⟨by decide, hpos.1, ?_, hneg.1⟩
  rw [hpos.2]
  have huse : anim_use_handle SPACE_GRAPH 0 = true := by decide
  simp only [example_channels, example_anim_ops, huse, List.map_cons, List.map_nil,
    (by decide : SPACE_GRAPH ≠ SPACE_ACTION), false_or, if_true, example_channel_once]

/-! ## Proofs: the chain walk of `apply_targetless_ik` -/

/-- The chain walk from a state in which `pre` holds the entries written so far: it
writes the next `k` channels of the chain after them and stops. -/
theorem ik_chain_walk_spec {β : Type} (rootbone : Int) :
    ∀ (chain : List β) (pre rest : List (Option β)),
      (pre ++ rest).length = 256 → pre.length ≤ 255 →
      ∃ k,
        ik_chain_walk rootbone chain (pre ++ rest) pre.length =
          some (pre ++ (chain.take k).map some ++ rest.drop k, pre.length + k) ∧
        k ≤ chain.length ∧ pre.length + k ≤ 256 ∧
        pre.length + k = min (pre.length + chain.length)
          (min (if (pre.length : Int) < rootbone then rootbone.toNat else 256) 256)
  | [], pre, rest, hlen, hs => by
    refine ⟨0, by simp [ik_chain_walk], le_refl _, by omega, ?_⟩
    split
    · simp only [List.length_nil, Nat.add_zero]
      omega
    · simp only [List.length_nil, Nat.add_zero]
      omega
  | parchan :: parents, pre, rest, hlen, hs => by
    cases rest with
    | nil =>
      simp only [List.append_nil] at hlen
      omega
    | cons r rest1 =>
      have hlt : pre.length < (pre ++ r :: rest1).length := by
        simp only [List.length_append, List.length_cons]
        omega
      have hset : (pre ++ r :: rest1).set pre.length (some parchan) =
          pre ++ [some parchan] ++ rest1 := by
        rw [List.set_append_right _ _ (le_refl _)]
        simp
      simp only [ik_chain_walk, hlt, if_true, hset]
      by_cases hstop : ((pre.length + 1 : Nat) : Int) = rootbone ∨ pre.length + 1 > 255
      · refine ⟨1, ?_, by simp, by omega, ?_⟩
        · rw [if_pos hstop]
          simp
        · simp only [List.length_cons]
          split <;> omega
      · have hlen1 : (pre ++ [some parchan] ++ rest1).length = 256 := by
          simp only [List.length_append, List.length_cons, List.length_nil] at hlen ⊢
          omega
        obtain ⟨k, h1, h2, h3, h4⟩ := ik_chain_walk_spec rootbone parents
          (pre ++ [some parchan]) rest1 hlen1 (by
            simp only [List.length_append, List.length_singleton]
            omega)
        simp only [List.length_append, List.length_singleton] at h1 h3 h4
        refine ⟨k + 1, ?_, by simp only [List.length_cons]; omega, by omega, ?_⟩
        · rw [if_neg hstop, h1]
          simp [Nat.add_assoc, Nat.add_comm 1 k]
        · simp only [List.length_cons]
          split at h4 <;> split <;> omega

/-- The loop that reads the buffer back finds every entry it asks for. -/
theorem ik_chain_apply_spec {β : Type} :
    ∀ (stored : List β) (rest : List (Option β)),
      ik_chain_apply stored.length (stored.map some ++ rest) = some stored.reverse := by
  intro stored
  induction stored using List.reverseRecOn with
  | nil => intro rest; simp [ik_chain_apply]
  | append_singleton l a ih =>
    intro rest
    have hget : ((l ++ [a]).map some ++ rest)[l.length]? = some (some a) := by
      simp only [List.map_append, List.map_cons, List.map_nil, List.append_assoc]
      rw [List.getElem?_append_right (by simp)]
      simp
    have e : (l ++ [a]).map some ++ rest = l.map some ++ (some a :: rest) := by simp
    simp only [List.length_append, List.length_singleton, ik_chain_apply, hget]
    rw [e, ih]
    simp

/-- Claim C22.  For every parent chain and every `rootbone`, the chain walk of
`apply_targetless_ik` returns without a write outside the 256 entries of `chanlist`: it
stores the first `n` channels of the chain at the indices `0 .. n - 1`, with `n` at most
256, `n = min(depth, rootbone, 256)` for `rootbone > 0` and `n = min(depth, 256)`
otherwise; the loop that follows reads these `n` entries back, last one first. -/
theorem apply_targetless_ik_chain_stored {β : Type} (rootbone : Int) (chain : List β) :
    ∃ chanlist n,
      ik_chain_walk rootbone chain (List.replicate 256 none) 0 = some (chanlist, n) ∧
      chanlist.length = 256 ∧ n ≤ 256 ∧
      chanlist.take n = (chain.take n).map some ∧
      n = min chain.length (min (if 0 < rootbone then rootbone.toNat else 256) 256) ∧
      ik_chain_apply n chanlist = some (chain.take n).reverse := by
  obtain ⟨k, h1, h2, h3, h4⟩ := ik_chain_walk_spec rootbone chain []
    (List.replicate 256 none) (by rw [List.nil_append, List.length_replicate])
    (Nat.zero_le _)
  simp only [List.nil_append, List.length_nil, Nat.zero_add] at h1 h3 h4
  refine ⟨(chain.take k).map some ++ (List.replicate 256 none).drop k, k, h1, ?_, h3, ?_, ?_,
    ?_⟩
  · simp only [List.length_append, List.length_map, List.length_take, List.length_drop,
      List.length_replicate]
    omega
  · have hl : ((chain.take k).map some).length = k := by
      simp only [List.length_map, List.length_take]
      omega
    rw [List.take_append_of_le_length (by omega), List.take_of_length_le (by omega)]
  · simpa using h4
  · have hl : (chain.take k).length = k := by
      simp only [List.length_take]
      omega
    have := ik_chain_apply_spec (chain.take k) ((List.replicate 256 none).drop k)
    rw [hl] at this
    exact this

/-! ## Motion tracking: the records `flushTransTracking` visits -/

/-- Claim C27, evaluated on containers of tracks whose point is selected, each with an
offset record and a point record, in a translation with `T_ALT_TRANSFORM`.  For a track
with 10 markers the inner loops over the markers leave the counter `a` at 10, the outer
loop ends after the offset record and the point record is not visited.  For two tracks
of one marker each the counter is put back to 1 at each offset record, the fourth record
is visited with `a = 2`, and the loop goes on to read a fifth record, outside the arrays.
Without `T_ALT_TRANSFORM`, and in a rotation, the four records are visited once each, in
order. -/
theorem flushTransTracking_visits :
    flushTransTracking TFM_TRANSLATION T_ALT_TRANSFORM
      [track_offset_record 10, track_point_record 10] = some [0] ∧
    flushTransTracking TFM_TRANSLATION T_ALT_TRANSFORM
      [track_offset_record 1, track_point_record 1, track_offset_record 1,
        track_point_record 1] = none ∧
    flushTransTracking TFM_TRANSLATION 0
      [track_offset_record 1, track_point_record 1, track_offset_record 1,
        track_point_record 1] = some [0, 1, 2, 3] ∧
    flushTransTracking TFM_ROTATION T_ALT_TRANSFORM
      [track_offset_record 1, track_point_record 1, track_offset_record 1,
        track_point_record 1] = some [0, 1, 2, 3] := by
  decide

/-! ## F-curve keyframes: selected keys that lose their frame -/

theorem chain3_once :
    (posttrans_fcurve_clean (fun l _ => l) (1 / 100 : ℚ) ⟨0, chain3 ℚ⟩ false).bezt.map
        key_data = [(2 / 125, 5, 1, 1, 1)] := by
  norm_num [chain3, posttrans_fcurve_clean, retained_collect, retained_merge,
    retained_average, clean_keys, clean_key, IS_EQT, BEZT_ISSEL_ANY, key_at, SELECT,
    FCURVE_INT_VALUES, FCURVE_DISCRETE_VALUES, key_data]

/-- Claim C28, evaluated on the three selected keys of `chain3`, sorted by frame, with the
threshold 0.01.  The first loop of `posttrans_fcurve_clean` retains the frames 0 (two
keys) and 0.016 (one key).  The second loop charges the key at 0.008 to the retained key
at 0.016, which is within the threshold of it and comes first in the search, so the
retained key at 0 is charged one key only and gives up that key as if another one were
still to come.  The curve is left with the key at 0.016 alone: the key at frame 0 was
selected and no key within 0.01 of its frame is left.  `testhandles_fcurve` is any
function that leaves key data alone. -/
theorem posttrans_fcurve_clean_selected_lost
    (testhandles_fcurve : List (BezTriple ℚ) → Bool → List (BezTriple ℚ)) (use_handle : Bool)
    (hth : KeepsKeyData testhandles_fcurve) :
    (chain3 ℚ).map (fun b => (b.vec1.x, BEZT_ISSEL_ANY b)) =
      [(0, true), (1 / 125, true), (2 / 125, true)] ∧
    (posttrans_fcurve_clean testhandles_fcurve (1 / 100) ⟨0, chain3 ℚ⟩ use_handle).bezt.map
      key_data = [(2 / 125, 5, 1, 1, 1)] ∧
    ∀ k ∈ (posttrans_fcurve_clean testhandles_fcurve (1 / 100) ⟨0, chain3 ℚ⟩
        use_handle).bezt, (1 / 100 : ℚ) < |k.vec1.x - 0| := by
  have hid : KeepsKeyData (fun (l : List (BezTriple ℚ)) (_ : Bool) => l) := fun _ _ => rfl
  have h1 : (posttrans_fcurve_clean testhandles_fcurve (1 / 100) ⟨0, chain3 ℚ⟩
      use_handle).bezt.map key_data = [(2 / 125, 5, 1, 1, 1)] := by
    rw [posttrans_fcurve_clean_congr testhandles_fcurve (fun l _ => l) (1 / 100) hth hid 0
      (chain3 ℚ) (chain3 ℚ) use_handle false rfl]
    exact chain3_once
  refine ⟨?_, h1, ?_⟩
  · norm_num [chain3, key_at, BEZT_ISSEL_ANY, SELECT]
  · intro k hk
    have hkd : key_data k ∈ (posttrans_fcurve_clean testhandles_fcurve (1 / 100)
        ⟨0, chain3 ℚ⟩ use_handle).bezt.map key_data := List.mem_map_of_mem _ hk
    rw [h1] at hkd
    simp only [List.mem_singleton, key_data, Prod.mk.injEq] at hkd
    rw [hkd.1, sub_zero, abs_of_pos (by norm_num)]
    norm_num

/-- Witness for C28: `testhandles_fcurve` that changes nothing. -/
theorem posttrans_fcurve_clean_selected_lost_witness :
    KeepsKeyData (fun (l : List (BezTriple ℚ)) (_ : Bool) => l) ∧
    ((posttrans_fcurve_clean (fun l _ => l) (1 / 100) ⟨0, chain3 ℚ⟩ false).bezt.map
      key_data).length = 1 := by
  have h := posttrans_fcurve_clean_selected_lost (fun l _ => l) false (fun _ _ => rfl)
  exact ⟨fun _ _ => rfl, by rw [h.2.1]; rfl⟩

/-! ## Proofs: `posttrans_gpd_clean` -/

theorem gpf_cmp_frame_le (a b : bGPDframe) :
    gpf_cmp_frame a b ≤ 0 ↔
      a.framenum < b.framenum ∨
        (a.framenum = b.framenum ∧
          ¬ (a.flag &&& GP_FRAME_SELECT ≠ 0 ∧ b.flag &&& GP_FRAME_SELECT = 0)) := by
  simp only [gpf_cmp_frame]
  split
  · next h => simp [h]
  · next h =>
    split
    · next h2 =>
      constructor
      · intro hc
        omega
      · intro hc
        omega
    · next h2 =>
      have he : a.framenum = b.framenum := by omega
      split
      · next h3 => simp [he, h3]
      · next h3 => simp [he, h3]

theorem gpf_cmp_frame_consistent : ConsistentCmp gpf_cmp_frame := by
  constructor
  · intro a b
    simp only [gpf_cmp_frame_le]
    by_cases h1 : a.framenum < b.framenum
    · exact Or.inl (Or.inl h1)
    · by_cases h2 : b.framenum < a.framenum
      · exact Or.inr (Or.inl h2)
      · have he : a.framenum = b.framenum := by omega
        by_cases hs : a.flag &&& GP_FRAME_SELECT ≠ 0 ∧ b.flag &&& GP_FRAME_SELECT = 0
        · refine Or.inr (Or.inr ⟨he.symm, ?_⟩)
          rintro ⟨hb, -⟩
          exact hb hs.2
        · exact Or.inl (Or.inr ⟨he, hs⟩)
  · intro a b c hab hbc
    simp only [gpf_cmp_frame_le] at hab hbc ⊢
    rcases hab with hab | ⟨hab, sab⟩
    · rcases hbc with hbc | ⟨hbc, -⟩
      · exact Or.inl (by omega)
      · exact Or.inl (by omega)
    · rcases hbc with hbc | ⟨hbc, sbc⟩
      · exact Or.inl (by omega)
      · refine Or.inr ⟨by omega, ?_⟩
        rintro ⟨ha, hc⟩
        by_cases hb : b.flag &&& GP_FRAME_SELECT = 0
        · exact sab ⟨ha, hb⟩
        · exact sbc ⟨hb, hc⟩

theorem gp_delete_doubles_subset :
    ∀ (l : List bGPDframe) (g : bGPDframe), g ∈ gp_delete_doubles l → g ∈ l
  | [], g, h => by simp [gp_delete_doubles] at h
  | [f], g, h => by simpa [gp_delete_doubles] using h
  | f :: f2 :: rest, g, h => by
    simp only [gp_delete_doubles] at h
    split at h
    · exact List.mem_cons_of_mem _ (gp_delete_doubles_subset (f2 :: rest) g h)
    · rcases List.mem_cons.1 h with rfl | h
      · exact List.mem_cons_self _ _
      · exact List.mem_cons_of_mem _ (gp_delete_doubles_subset (f2 :: rest) g h)

/-- On a sorted list the loop leaves the frames in strictly increasing order. -/
theorem gp_delete_doubles_increasing :
    ∀ l : List bGPDframe, l.Pairwise (fun a b => gpf_cmp_frame a b ≤ 0) →
      (gp_delete_doubles l).Pairwise (fun a b => a.framenum < b.framenum)
  | [], _ => by simp [gp_delete_doubles]
  | [f], _ => by simp [gp_delete_doubles]
  | f :: f2 :: rest, h => by
    have htail : (f2 :: rest).Pairwise (fun a b => gpf_cmp_frame a b ≤ 0) :=
      (List.pairwise_cons.1 h).2
    have ih := gp_delete_doubles_increasing (f2 :: rest) htail
    simp only [gp_delete_doubles]
    split
    · exact ih
    · next hne =>
      refine List.pairwise_cons.2 ⟨?_, ih⟩
      intro g hg
      have hg2 := gp_delete_doubles_subset (f2 :: rest) g hg
      have hf2 : f.framenum ≤ f2.framenum := by
        have := (List.pairwise_cons.1 h).1 f2 (List.mem_cons_self _ _)
        rw [gpf_cmp_frame_le] at this
        omega
      have hle : f2.framenum ≤ g.framenum := by
        rcases List.mem_cons.1 hg2 with rfl | hg3
        · exact le_refl _
        · have := (List.pairwise_cons.1 htail).1 g hg3
          rw [gpf_cmp_frame_le] at this
          omega
      omega

/-- On a sorted list the loop leaves, for every frame, a frame with its number, selected
when the frame is. -/
theorem gp_delete_doubles_survivor :
    ∀ l : List bGPDframe, l.Pairwise (fun a b => gpf_cmp_frame a b ≤ 0) →
      ∀ f ∈ l, ∃ g ∈ gp_delete_doubles l, g.framenum = f.framenum ∧
        (f.flag &&& GP_FRAME_SELECT ≠ 0 → g.flag &&& GP_FRAME_SELECT ≠ 0)
  | [], _, f, hf => by simp at hf
  | [f1], _, f, hf => by
    simp only [List.mem_singleton] at hf
    subst hf
    exact ⟨f, by simp [gp_delete_doubles], rfl, fun h => h⟩
  | f1 :: f2 :: rest, h, f, hf => by
    have htail : (f2 :: rest).Pairwise (fun a b => gpf_cmp_frame a b ≤ 0) :=
      (List.pairwise_cons.1 h).2
    have ih := gp_delete_doubles_survivor (f2 :: rest) htail
    simp only [gp_delete_doubles]
    split
    · next heq =>
      rcases List.mem_cons.1 hf with rfl | hf2
      · obtain ⟨g, hg, hn, hs⟩ := ih f2 (List.mem_cons_self _ _)
        refine ⟨g, hg, by omega, ?_⟩
        intro hsel
        apply hs
        have := (List.pairwise_cons.1 h).1 f2 (List.mem_cons_self _ _)
        rw [gpf_cmp_frame_le] at this
        rcases this with hlt | ⟨-, hns⟩
        · omega
        · intro h0
          exact hns ⟨hsel, h0⟩
      · exact ih f hf2
    · rcases List.mem_cons.1 hf with rfl | hf2
      · exact ⟨f, List.mem_cons_self _ _, rfl, fun h => h⟩
      · obtain ⟨g, hg, hn, hs⟩ := ih f hf2
        exact ⟨g, List.mem_cons_of_mem _ hg, hn, hs⟩

theorem pairwise_lt_of_chain_ne :
    ∀ l : List bGPDframe, l.Pairwise (fun a b => gpf_cmp_frame a b ≤ 0) →
      l.Chain' (fun a b => a.framenum ≠ b.framenum) →
      l.Pairwise (fun a b => a.framenum < b.framenum)
  | [], _, _ => List.Pairwise.nil
  | [f], _, _ => by simp
  | f :: f2 :: rest, h, hc => by
    have htail : (f2 :: rest).Pairwise (fun a b => gpf_cmp_frame a b ≤ 0) :=
      (List.pairwise_cons.1 h).2
    have hc2 := List.chain'_cons.1 hc
    have ih := pairwise_lt_of_chain_ne (f2 :: rest) htail hc2.2
    refine List.pairwise_cons.2 ⟨?_, ih⟩
    intro g hg
    have hf2 : f.framenum < f2.framenum := by
      have := (List.pairwise_cons.1 h).1 f2 (List.mem_cons_self _ _)
      rw [gpf_cmp_frame_le] at this
      have := hc2.1
      omega
    rcases List.mem_cons.1 hg with rfl | hg3
    · exact hf2
    · have := (List.pairwise_cons.1 ih).1 g hg3
      omega

theorem eq_of_framenum_eq :
    ∀ l : List bGPDframe, l.Pairwise (fun a b => a.framenum < b.framenum) →
      ∀ a ∈ l, ∀ b ∈ l, a.framenum = b.framenum → a = b
  | [], _, a, ha, _, _, _ => by simp at ha
  | f :: rest, h, a, ha, b, hb, he => by
    have h1 := (List.pairwise_cons.1 h).1
    have h2 := (List.pairwise_cons.1 h).2
    rcases List.mem_cons.1 ha with rfl | ha2
    · rcases List.mem_cons.1 hb with rfl | hb2
      · rfl
      · have := h1 b hb2
        omega
    · rcases List.mem_cons.1 hb with rfl | hb2
      · have := h1 a ha2
        omega
      · exact eq_of_framenum_eq rest h2 a ha2 b hb2 he

/-- Claim C24.  When `BLI_listbase_sort_r` keeps its contract, `posttrans_gpd_clean` leaves
the frames of every layer in strictly increasing order of their numbers; every frame left
is a frame of the layer, every frame number of the layer is still there, and the frame
left for a number that a selected frame had is selected. -/
theorem posttrans_gpd_clean_spec
    (sort : (bGPDframe → bGPDframe → Int) → List bGPDframe →
      List bGPDframe × List (bGPDframe × bGPDframe))
    (hsort : ListSortSpec sort) (layers : List (List bGPDframe)) :
    (posttrans_gpd_clean sort layers).length = layers.length ∧
    ∀ (i : Nat) (frames : List bGPDframe), layers[i]? = some frames →
      ∃ out, (posttrans_gpd_clean sort layers)[i]? = some out ∧
        out.Pairwise (fun a b => a.framenum < b.framenum) ∧
        (∀ g ∈ out, g ∈ frames) ∧
        (∀ f ∈ frames, ∃ g ∈ out, g.framenum = f.framenum) ∧
        (∀ g ∈ out, (∃ f ∈ frames, f.framenum = g.framenum ∧ f.flag &&& GP_FRAME_SELECT ≠ 0) →
          g.flag &&& GP_FRAME_SELECT ≠ 0) := by
  refine ⟨by simp [posttrans_gpd_clean], ?_⟩
  intro i frames hi
  refine ⟨posttrans_gpd_clean_layer sort frames, by simp [posttrans_gpd_clean, hi], ?_⟩
  obtain ⟨hperm, hsorted, hcalls⟩ := hsort gpf_cmp_frame frames
  have hs := hsorted gpf_cmp_frame_consistent
  have key : (posttrans_gpd_clean_layer sort frames).Pairwise
        (fun a b => a.framenum < b.framenum) ∧
      (∀ g ∈ posttrans_gpd_clean_layer sort frames, g ∈ (sort gpf_cmp_frame frames).1) ∧
      (∀ f ∈ (sort gpf_cmp_frame frames).1, ∃ g ∈ posttrans_gpd_clean_layer sort frames,
        g.framenum = f.framenum ∧
          (f.flag &&& GP_FRAME_SELECT ≠ 0 → g.flag &&& GP_FRAME_SELECT ≠ 0)) := by
    simp only [posttrans_gpd_clean_layer]
    split
    · exact ⟨gp_delete_doubles_increasing _ hs, gp_delete_doubles_subset _,
        gp_delete_doubles_survivor _ hs⟩
    · next hnd =>
      refine ⟨pairwise_lt_of_chain_ne _ hs ?_, fun g hg => hg,
        fun f hf => ⟨f, hf, rfl, fun h => h⟩⟩
      refine List.Chain'.imp ?_ hcalls
      intro a b hab heq
      apply hnd
      rw [List.any_eq_true]
      rcases hab with hab | hab
      · exact ⟨(a, b), hab, by simp [gpf_cmp_frame_thunk, heq]⟩
      · exact ⟨(b, a), hab, by simp [gpf_cmp_frame_thunk, heq]⟩
  obtain ⟨k1, k2, k3⟩ := key
  refine ⟨k1, fun g hg => hperm.subset (k2 g hg), ?_, ?_⟩
  · intro f hf
    obtain ⟨g, hg, hn, -⟩ := k3 f (hperm.symm.subset hf)
    exact ⟨g, hg, hn⟩
  · rintro g hg ⟨f, hf, hn, hsel⟩
    obtain ⟨g2, hg2, hn2, hs2⟩ := k3 f (hperm.symm.subset hf)
    have heq : g2 = g := eq_of_framenum_eq _ k1 g2 hg2 g hg (by omega)
    rw [← heq]
    exact hs2 hsel

theorem listbase_sort_insertion_spec {β : Type} :
    ListSortSpec (listbase_sort_insertion : (β → β → Int) → List β → List β × List (β × β)) := by
  intro cmp l
  refine ⟨List.perm_insertionSort _ l, fun h => ?_, ?_⟩
  · haveI : IsTotal β (fun a b => cmp a b ≤ 0) := ⟨h.1⟩
    haveI : IsTrans β (fun a b => cmp a b ≤ 0) := ⟨h.2⟩
    exact List.sorted_insertionSort (fun a b => cmp a b ≤ 0) l
  · apply List.Pairwise.chain'
    have ht : (l.insertionSort (fun a b => cmp a b ≤ 0)).Pairwise (fun _ _ => True) :=
      List.pairwise_of_forall (fun _ _ => trivial)
    refine List.Pairwise.imp_of_mem ?_ ht
    intro a b ha hb _
    have ha2 : a ∈ l := (List.perm_insertionSort _ l).subset ha
    have hb2 : b ∈ l := (List.perm_insertionSort _ l).subset hb
    exact Or.inl (List.mem_product.2 ⟨ha2, hb2⟩)

/-- Witness for C24: the example layer, with the numbers 5, 3, 5, 3, 7, is left with the
selected frame of number 3, the selected frame of number 5 and the frame of number 7. -/
theorem posttrans_gpd_clean_spec_witness :
    ListSortSpec (listbase_sort_insertion :
      (bGPDframe → bGPDframe → Int) → List bGPDframe → List bGPDframe × List _) ∧
    posttrans_gpd_clean listbase_sort_insertion [example_frames] =
      [[⟨3, GP_FRAME_SELECT⟩, ⟨5, GP_FRAME_SELECT⟩, ⟨7, 0⟩]] ∧
    (posttrans_gpd_clean listbase_sort_insertion [example_frames]).length =
      [example_frames].length :=
  ⟨listbase_sort_insertion_spec, by decide,
    (posttrans_gpd_clean_spec listbase_sort_insertion listbase_sort_insertion_spec
      [example_frames]).1⟩

/-! ## Proofs: `sort_time_beztmaps` -/

/-- The records built by `bezt_to_beztmaps` from the index `i` on. -/
theorem bezt_to_beztmaps_from_spec :
    ∀ (bezts : List (BezTriple α)) (i : Nat),
      (bezt_to_beztmaps_from i bezts).length = bezts.length ∧
      (bezt_to_beztmaps_from i bezts).map (fun m => m.newIndex) =
        List.range' i bezts.length ∧
      (bezt_to_beztmaps_from i bezts).map (fun m => m.oldIndex) =
        List.range' i bezts.length ∧
      (∀ m ∈ bezt_to_beztmaps_from i bezts, m.swapHs = 0) ∧
      (∀ m ∈ bezt_to_beztmaps_from i bezts,
        ∃ j, m.oldIndex = i + j ∧ bezts[j]? = some m.bezt)
  | [], i => by simp [bezt_to_beztmaps_from]
  | bezt :: rest, i => by
    obtain ⟨h1, h2, h3, h4, h5⟩ := bezt_to_beztmaps_from_spec rest (i + 1)
    refine ⟨by simp [bezt_to_beztmaps_from, h1], ?_, ?_, ?_, ?_⟩
    · simp [bezt_to_beztmaps_from, h2, List.range'_succ]
    · simp [bezt_to_beztmaps_from, h3, List.range'_succ]
    · intro m hm
      rcases List.mem_cons.1 hm with rfl | hm
      · rfl
      · exact h4 m hm
    · intro m hm
      rcases List.mem_cons.1 hm with rfl | hm
      · exact ⟨0, rfl, by simp⟩
      · obtain ⟨j, e1, e2⟩ := h5 m hm
        exact ⟨j + 1, by omega, by simpa using e2⟩

section Field

variable [LinearOrderedField α]

theorem beztmap_check_handles_fields (bezm : BeztMap α) :
    (beztmap_check_handles bezm).bezt = bezm.bezt ∧
    (beztmap_check_handles bezm).oldIndex = bezm.oldIndex ∧
    (beztmap_check_handles bezm).newIndex = bezm.newIndex := by
  simp only [beztmap_check_handles]
  split
  · split <;> exact ⟨rfl, rfl, rfl⟩
  · exact ⟨rfl, rfl, rfl⟩

theorem beztmap_check_handles_checked (bezm : BeztMap α)
    (h : bezm.swapHs = 0 ∨ bezm.swapHs = 1 ∨ bezm.swapHs = -1) :
    (beztmap_check_handles bezm).swapHs = 1 ∨ (beztmap_check_handles bezm).swapHs = -1 := by
  simp only [beztmap_check_handles]
  split
  · split
    · exact Or.inl rfl
    · exact Or.inr rfl
  · next h0 =>
    rcases h with h | h | h
    · exact absurd h h0
    · exact Or.inl h
    · exact Or.inr h

theorem frame_inversions_le (l : List α) : frame_inversions l ≤ l.length * l.length := by
  induction l with
  | nil => simp [frame_inversions]
  | cons a l ih =>
    have hc : l.countP (fun b => decide (b < a)) ≤ l.length := List.countP_le_length _
    simp only [frame_inversions, List.length_cons]
    nlinarith

/-- One pass of `sort_time_beztmaps` from the position `k` on. -/
theorem sort_time_beztmaps_pass_spec :
    ∀ (rest : List (BeztMap α)) (bezm : BeztMap α) (k : Nat),
      bezm.newIndex = k →
      rest.map (fun m => m.newIndex) = List.range' (k + 1) rest.length →
      (∀ m ∈ bezm :: rest, m.swapHs = 0 ∨ m.swapHs = 1 ∨ m.swapHs = -1) →
      ((sort_time_beztmaps_pass bezm rest).1.map (fun m => m.newIndex) =
          List.range' k (rest.length + 1)) ∧
      ((sort_time_beztmaps_pass bezm rest).1.map (fun m => (m.oldIndex, m.bezt))).Perm
          ((bezm :: rest).map (fun m => (m.oldIndex, m.bezt))) ∧
      (∀ m ∈ (sort_time_beztmaps_pass bezm rest).1, m.swapHs = 1 ∨ m.swapHs = -1) ∧
      (frame_inversions ((sort_time_beztmaps_pass bezm rest).1.map (fun m => m.bezt.vec1.x)) +
          (if (sort_time_beztmaps_pass bezm rest).2 then 1 else 0) ≤
        frame_inversions ((bezm :: rest).map (fun m => m.bezt.vec1.x))) ∧
      ((sort_time_beztmaps_pass bezm rest).2 = false →
        (sort_time_beztmaps_pass bezm rest).1.map (fun m => m.bezt.vec1.x) =
          (bezm :: rest).map (fun m => m.bezt.vec1.x) ∧
        ((bezm :: rest).map (fun m => m.bezt.vec1.x)).Chain' (· ≤ ·))
  | [], bezm, k, hk, _, hsw => by
    obtain ⟨c1, c2, c3⟩ := beztmap_check_handles_fields bezm
    refine ⟨by simp [sort_time_beztmaps_pass, c3, hk, List.range'], ?_, ?_, ?_, ?_⟩
    · simp [sort_time_beztmaps_pass, c1, c2]
    · intro m hm
      simp only [sort_time_beztmaps_pass, List.mem_singleton] at hm
      subst hm
      exact beztmap_check_handles_checked bezm (hsw bezm (List.mem_cons_self _ _))
    · simp [sort_time_beztmaps_pass, c1]
    · intro _
      simp [sort_time_beztmaps_pass, c1]
  | next :: rest, bezm, k, hk, hidx, hsw => by
    have hnext : next.newIndex = k + 1 := by
      simp only [List.map_cons, List.length_cons, List.range'_succ, List.cons.injEq] at hidx
      exact hidx.1
    have hrest : rest.map (fun m => m.newIndex) = List.range' (k + 1 + 1) rest.length := by
      simp only [List.map_cons, List.length_cons, List.range'_succ, List.cons.injEq] at hidx
      exact hidx.2
    by_cases hgt : bezm.bezt.vec1.x > next.bezt.vec1.x
    · -- swap
      obtain ⟨i1, i2, i3, i4, -⟩ := sort_time_beztmaps_pass_spec rest
        { bezm with newIndex := bezm.newIndex + 1 } (k + 1) (by simp [hk]) hrest (by
          intro m hm
          rcases List.mem_cons.1 hm with rfl | hm
          · exact hsw bezm (List.mem_cons_self _ _)
          · exact hsw m (List.mem_cons_of_mem _ (List.mem_cons_of_mem _ hm)))
      obtain ⟨c1, c2, c3⟩ := beztmap_check_handles_fields
        ({ next with newIndex := next.newIndex - 1 } : BeztMap α)
      simp only [sort_time_beztmaps_pass, hgt, if_true]
      refine ⟨?_, ?_, ?_, ?_, ?_⟩
      · simp only [List.map_cons, c3, i1, List.length_cons]
        rw [List.range'_succ k]
        simp [hnext]
      · simp only [List.map_cons, c1, c2]
        refine (List.Perm.cons _ i2).trans ?_
        simp only [List.map_cons]
        exact List.Perm.swap _ _ _
      · intro m hm
        rcases List.mem_cons.1 hm with rfl | hm
        · exact beztmap_check_handles_checked _
            (hsw next (List.mem_cons_of_mem _ (List.mem_cons_self _ _)))
        · exact i3 m hm
      · have hp : ((sort_time_beztmaps_pass { bezm with newIndex := bezm.newIndex + 1 }
            rest).1.map (fun m => m.bezt.vec1.x)).Perm
            (bezm.bezt.vec1.x :: rest.map (fun m => m.bezt.vec1.x)) := by
          have := i2.map (fun (p : Nat × BezTriple α) => p.2.vec1.x)
          simpa [List.map_map, Function.comp_def] using this
        have hcount := hp.countP_eq (fun b => decide (b < next.bezt.vec1.x))
        have hnot : ¬ (bezm.bezt.vec1.x < next.bezt.vec1.x) := not_lt.2 (le_of_lt hgt)
        simp only [List.map_cons, frame_inversions, c1, hcount, List.countP_cons,
          decide_eq_true_eq, hnot, hgt, if_true, if_false] at i4 ⊢
        split at i4 <;> omega
      · intro h
        cases h
    · -- no swap
      obtain ⟨i1, i2, i3, i4, i5⟩ := sort_time_beztmaps_pass_spec rest next (k + 1) hnext hrest
        (fun m hm => hsw m (List.mem_cons_of_mem _ hm))
      obtain ⟨c1, c2, c3⟩ := beztmap_check_handles_fields bezm
      simp only [sort_time_beztmaps_pass, hgt, if_false]
      refine ⟨?_, ?_, ?_, ?_, ?_⟩
      · simp only [List.map_cons, c3, i1, List.length_cons]
        rw [List.range'_succ k]
        simp [hk]
      · simp only [List.map_cons, c1, c2]
        exact List.Perm.cons _ i2
      · intro m hm
        rcases List.mem_cons.1 hm with rfl | hm
        · exact beztmap_check_handles_checked _ (hsw bezm (List.mem_cons_self _ _))
        · exact i3 m hm
      · have hp : ((sort_time_beztmaps_pass next rest).1.map (fun m => m.bezt.vec1.x)).Perm
            ((next :: rest).map (fun m => m.bezt.vec1.x)) := by
          have := i2.map (fun (p : Nat × BezTriple α) => p.2.vec1.x)
          simpa [List.map_map, Function.comp_def] using this
        have hcount := hp.countP_eq (fun b => decide (b < bezm.bezt.vec1.x))
        simp only [List.map_cons, frame_inversions, c1, hcount] at i4 ⊢
        simp only [List.map_cons] at hcount
        omega
      · intro hok
        obtain ⟨e1, e2⟩ := i5 hok
        refine ⟨by simp only [List.map_cons, c1, e1], ?_⟩
        simp only [List.map_cons] at e2 ⊢
        exact List.Chain'.cons (not_lt.1 hgt) e2

/-- The passes of `sort_time_beztmaps` end when the bound exceeds the number of pairs out
of order. -/
theorem sort_time_beztmaps_loop_spec :
    ∀ (fuel : Nat) (l : List (BeztMap α)),
      l.map (fun m => m.newIndex) = List.range' 0 l.length →
      (∀ m ∈ l, m.swapHs = 0 ∨ m.swapHs = 1 ∨ m.swapHs = -1) →
      frame_inversions (l.map (fun m => m.bezt.vec1.x)) < fuel →
      ∃ out, sort_time_beztmaps_loop fuel l = some out ∧
        out.map (fun m => m.newIndex) = List.range' 0 l.length ∧
        (out.map (fun m => (m.oldIndex, m.bezt))).Perm
          (l.map (fun m => (m.oldIndex, m.bezt))) ∧
        (∀ m ∈ out, m.swapHs = 1 ∨ m.swapHs = -1) ∧
        (out.map (fun m => m.bezt.vec1.x)).Chain' (· ≤ ·)
  | 0, _, _, _, hlt => absurd hlt (Nat.not_lt_zero _)
  | fuel + 1, [], _, _, _ => ⟨[], rfl, rfl, List.Perm.refl _, by simp, by simp⟩
  | fuel + 1, bezm :: rest, hidx, hsw, hlt => by
    have h0 : bezm.newIndex = 0 := by
      simp only [List.map_cons, List.length_cons, List.range'_succ, List.cons.injEq] at hidx
      exact hidx.1
    have hrest : rest.map (fun m => m.newIndex) = List.range' (0 + 1) rest.length := by
      simp only [List.map_cons, List.length_cons, List.range'_succ, List.cons.injEq] at hidx
      exact hidx.2
    obtain ⟨i1, i2, i3, i4, i5⟩ := sort_time_beztmaps_pass_spec rest bezm 0 h0 hrest hsw
    have hlen : (sort_time_beztmaps_pass bezm rest).1.length = rest.length + 1 := by
      have := congrArg List.length i1
      simpa using this
    simp only [sort_time_beztmaps_loop]
    by_cases hok : (sort_time_beztmaps_pass bezm rest).2 = true
    · rw [if_pos hok]
      rw [if_pos hok] at i4
      obtain ⟨out, e, o1, o2, o3, o4⟩ := sort_time_beztmaps_loop_spec fuel
        (sort_time_beztmaps_pass bezm rest).1 (by rw [hlen]; exact i1)
        (fun m hm => Or.inr (i3 m hm)) (by omega)
      refine ⟨out, e, ?_, o2.trans i2, o3, o4⟩
      rw [o1, hlen, List.length_cons]
    · have hok2 : (sort_time_beztmaps_pass bezm rest).2 = false := by simpa using hok
      rw [if_neg hok]
      obtain ⟨e1, e2⟩ := i5 hok2
      exact ⟨_, rfl, by rw [i1, List.length_cons], i2, i3, by rw [e1]; exact e2⟩

/-- Claim C25: for every array of keyframes, `sort_time_beztmaps` on the records built by
`bezt_to_beztmaps` ends (the bound on the passes is not reached) with the records a
permutation of the input (the pairs of `oldIndex` and `bezt` are kept, and `oldIndex` is
still the index of `bezt` in the array of keyframes), in non-decreasing order of
`bezt->vec[1][0]`, with `newIndex` of every record its position, and with `swapHs` of every
record 1 or -1. -/
theorem sort_time_beztmaps_sorted (bezts : List (BezTriple α)) :
    ∃ out, sort_time_beztmaps (bezt_to_beztmaps bezts) = some out ∧
      out.length = bezts.length ∧
      (out.map (fun m => (m.oldIndex, m.bezt))).Perm
        ((bezt_to_beztmaps bezts).map (fun m => (m.oldIndex, m.bezt))) ∧
      (out.map (fun m => m.oldIndex)).Perm (List.range bezts.length) ∧
      (∀ m ∈ out, bezts[m.oldIndex]? = some m.bezt) ∧
      (out.map (fun m => m.bezt.vec1.x)).Pairwise (· ≤ ·) ∧
      out.map (fun m => m.newIndex) = List.range out.length ∧
      (∀ m ∈ out, m.swapHs = 1 ∨ m.swapHs = -1) := by
  obtain ⟨h1, h2, h3, h4, h5⟩ := bezt_to_beztmaps_from_spec bezts 0
  have hinv := frame_inversions_le ((bezt_to_beztmaps bezts).map (fun m => m.bezt.vec1.x))
  rw [List.length_map] at hinv
  obtain ⟨out, e, o1, o2, o3, o4⟩ := sort_time_beztmaps_loop_spec
    ((bezt_to_beztmaps bezts).length * (bezt_to_beztmaps bezts).length + 1)
    (bezt_to_beztmaps bezts) (by rw [bezt_to_beztmaps, h1]; exact h2)
    (fun m hm => Or.inl (h4 m hm)) (Nat.lt_succ_of_le hinv)
  have hlen : out.length = bezts.length := by
    have := o2.length_eq
    simpa [bezt_to_beztmaps, h1] using this
  refine ⟨out, e, hlen, o2, ?_, ?_, ?_, ?_, o3⟩
  · have := o2.map (fun (p : Nat × BezTriple α) => p.1)
    simp only [List.map_map, Function.comp_def, bezt_to_beztmaps, h3] at this
    rw [List.range_eq_range']
    exact this
  · intro m hm
    have hk : (m.oldIndex, m.bezt) ∈ out.map (fun m => (m.oldIndex, m.bezt)) :=
      List.mem_map.2 ⟨m, hm, rfl⟩
    obtain ⟨m1, hm1, hk1⟩ := List.mem_map.1 (o2.mem_iff.1 hk)
    obtain ⟨j, e1, e2⟩ := h5 m1 hm1
    simp only [Prod.mk.injEq] at hk1
    rw [← hk1.1, ← hk1.2, e1, Nat.zero_add]
    exact e2
  · exact List.chain'_iff_pairwise.1 o4
  · rw [o1, hlen, List.range_eq_range', bezt_to_beztmaps, h1]

end Field

/-! ## Proofs: the bone flags of `count_set_pose_transflags` -/

theorem and_two_pow_ne_zero_iff (x k : Nat) : x &&& 2 ^ k ≠ 0 ↔ x.testBit k = true := by
  constructor
  · intro h
    obtain ⟨i, hi⟩ := Nat.ne_zero_implies_bit_true h
    rw [Nat.testBit_and, Nat.testBit_two_pow, Bool.and_eq_true, decide_eq_true_eq] at hi
    rw [hi.2]
    exact hi.1
  · intro h h0
    have := congrArg (fun y => Nat.testBit y k) h0
    simp [Nat.testBit_and, Nat.testBit_two_pow_self, h] at this

theorem testBit_clear_bits (flag mask k : Nat) :
    (clear_bits flag mask).testBit k = (flag.testBit k && !mask.testBit k) := by
  simp only [clear_bits, Nat.testBit_xor, Nat.testBit_and]
  cases flag.testBit k <;> cases mask.testBit k <;> rfl

theorem bone_transform_iff (x : Nat) : x &&& BONE_TRANSFORM ≠ 0 ↔ x.testBit 3 = true :=
  and_two_pow_ne_zero_iff x 3

theorem bone_selected_iff (x : Nat) : x &&& BONE_SELECTED ≠ 0 ↔ x.testBit 0 = true :=
  and_two_pow_ne_zero_iff x 0

theorem bone_connected_iff (x : Nat) : x &&& BONE_CONNECTED ≠ 0 ↔ x.testBit 4 = true :=
  and_two_pow_ne_zero_iff x 4

theorem bone_hidden_iff (x : Nat) : x &&& BONE_HIDDEN_P ≠ 0 ↔ x.testBit 6 = true :=
  and_two_pow_ne_zero_iff x 6

theorem bone_hinge_iff (x : Nat) : x &&& BONE_HINGE ≠ 0 ↔ x.testBit 9 = true :=
  and_two_pow_ne_zero_iff x 9

theorem bone_hinge_child_iff (x : Nat) :
    x &&& BONE_HINGE_CHILD_TRANSFORM ≠ 0 ↔ x.testBit 14 = true :=
  and_two_pow_ne_zero_iff x 14

theorem bone_transform_child_iff (x : Nat) :
    x &&& BONE_TRANSFORM_CHILD ≠ 0 ↔ x.testBit 20 = true :=
  and_two_pow_ne_zero_iff x 20

/-- The bits of the flag after the loop body of `bone_children_clear_transflag`: the bits
other than 3, 14, 20 and 25 are kept, and bit 3 is not set. -/
theorem bone_clear_transflag_bits (mode around flag : Nat) :
    (∀ k, k ≠ 3 → k ≠ 14 → k ≠ 20 → k ≠ 25 →
      (bone_clear_transflag mode around flag).testBit k = flag.testBit k) ∧
    ((bone_clear_transflag mode around flag).testBit 3 = true → flag.testBit 3 = true) ∧
    ((bone_clear_transflag mode around flag).testBit 3 = true →
      (flag.testBit 9 = true ∧ flag.testBit 4 = true) ∨
      ((mode = TFM_ROTATION ∨ mode = TFM_TRACKBALL) ∧ around = V3D_AROUND_LOCAL_ORIGINS)) := by
  have e14 : BONE_HINGE_CHILD_TRANSFORM = 2 ^ 14 := by decide
  have e20 : BONE_TRANSFORM_CHILD = 2 ^ 20 := by decide
  have e3 : BONE_TRANSFORM = 2 ^ 3 := by decide
  have e25 : BONE_TRANSFORM_MIRROR = 2 ^ 25 := by decide
  simp only [bone_clear_transflag, bone_hinge_iff, bone_connected_iff, bone_transform_iff]
  split
  · next h =>
    refine ⟨?_, ?_, fun _ => Or.inl h⟩
    · intro k _ h14 _ _
      rw [Nat.testBit_or, e14, Nat.testBit_two_pow]
      simp [Ne.symm h14]
    · rw [Nat.testBit_or, e14, Nat.testBit_two_pow]
      simp
  · split
    · next h =>
      refine ⟨?_, ?_, fun _ => Or.inr h.2⟩
      · intro k _ _ h20 _
        rw [Nat.testBit_or, e20, Nat.testBit_two_pow]
        simp [Ne.symm h20]
      · rw [Nat.testBit_or, e20, Nat.testBit_two_pow]
        simp
    · have hc : (clear_bits flag (BONE_TRANSFORM ||| BONE_TRANSFORM_MIRROR)).testBit 3 =
          false := by
        rw [testBit_clear_bits, Nat.testBit_or, e3, Nat.testBit_two_pow_self]
        simp
      refine ⟨?_, ?_, ?_⟩
      · intro k h3 _ _ h25
        rw [testBit_clear_bits, Nat.testBit_or, e3, e25, Nat.testBit_two_pow,
          Nat.testBit_two_pow]
        simp [Ne.symm h3, Ne.symm h25]
      · rw [hc]
        intro h
        cases h
      · rw [hc]
        intro h
        cases h

/-- The bits of the flag after the body of the first loop of `count_set_pose_transflags`:
the bits other than 3, 14, 20 and 25 are kept, and bit 3 is set for the visible selected
bones only. -/
theorem pose_set_transflag_bits (arm_layer flag layer : Nat) :
    (∀ k, k ≠ 3 → k ≠ 14 → k ≠ 20 → k ≠ 25 →
      (pose_set_transflag arm_layer flag layer).testBit k = flag.testBit k) ∧
    ((pose_set_transflag arm_layer flag layer).testBit 3 = true →
      PBONE_VISIBLE arm_layer flag layer = true ∧ flag.testBit 0 = true) := by
  have e14 : BONE_HINGE_CHILD_TRANSFORM = 2 ^ 14 := by decide
  have e20 : BONE_TRANSFORM_CHILD = 2 ^ 20 := by decide
  have e3 : BONE_TRANSFORM = 2 ^ 3 := by decide
  have e25 : BONE_TRANSFORM_MIRROR = 2 ^ 25 := by decide
  have hc : ∀ x, (clear_bits x (BONE_TRANSFORM ||| BONE_TRANSFORM_MIRROR)).testBit 3 =
      false := by
    intro x
    rw [testBit_clear_bits, Nat.testBit_or, e3, Nat.testBit_two_pow_self]
    simp
  have hk : ∀ x k, k ≠ 3 → k ≠ 25 →
      (clear_bits x (BONE_TRANSFORM ||| BONE_TRANSFORM_MIRROR)).testBit k = x.testBit k := by
    intro x k h3 h25
    rw [testBit_clear_bits, Nat.testBit_or, e3, e25, Nat.testBit_two_pow,
      Nat.testBit_two_pow]
    simp [Ne.symm h3, Ne.symm h25]
  have h2 : ∀ x k, k ≠ 14 → k ≠ 20 →
      (clear_bits (clear_bits x BONE_HINGE_CHILD_TRANSFORM) BONE_TRANSFORM_CHILD).testBit k =
        x.testBit k := by
    intro x k h14 h20
    rw [testBit_clear_bits, testBit_clear_bits, e14, e20, Nat.testBit_two_pow,
      Nat.testBit_two_pow]
    simp [Ne.symm h14, Ne.symm h20]
  simp only [pose_set_transflag, bone_selected_iff]
  split
  · next hv =>
    split
    · next hs =>
      refine ⟨?_, fun _ => ⟨hv, hs⟩⟩
      intro k h3 h14 h20 _
      rw [h2 _ k h14 h20, Nat.testBit_or, e3, Nat.testBit_two_pow]
      simp [Ne.symm h3]
    · refine ⟨?_, ?_⟩
      · intro k h3 h14 h20 h25
        rw [h2 _ k h14 h20, hk _ k h3 h25]
      · rw [h2 _ 3 (by decide) (by decide), hc]
        intro h
        cases h
  · refine ⟨fun k h3 _ _ h25 => hk _ k h3 h25, ?_⟩
    rw [hc]
    intro h
    cases h

/-- The test `PBONE_VISIBLE` reads bit 6 of the flag only. -/
theorem PBONE_VISIBLE_congr (arm_layer flag flag1 layer : Nat)
    (h : flag1.testBit 6 = flag.testBit 6) :
    PBONE_VISIBLE arm_layer flag1 layer = PBONE_VISIBLE arm_layer flag layer := by
  have h1 : (flag1 &&& BONE_HIDDEN_P != 0) = (flag &&& BONE_HIDDEN_P != 0) := by
    rw [Bool.eq_iff_iff]
    simp only [bne_iff_ne, bone_hidden_iff, h]
  simp only [PBONE_VISIBLE, h1]

/-- A flag that is still `BONE_TRANSFORM` after the loop body of
`bone_children_clear_transflag` is that of a connected hinge bone, marked
`BONE_HINGE_CHILD_TRANSFORM`, or the mode is a rotation about the individual origins and
the flag is marked `BONE_TRANSFORM_CHILD`. -/
theorem bone_clear_transflag_marked (mode around flag : Nat)
    (h : (bone_clear_transflag mode around flag).testBit 3 = true) :
    ((bone_clear_transflag mode around flag).testBit 9 = true ∧
      (bone_clear_transflag mode around flag).testBit 4 = true ∧
      (bone_clear_transflag mode around flag).testBit 14 = true) ∨
    ((mode = TFM_ROTATION ∨ mode = TFM_TRACKBALL) ∧ around = V3D_AROUND_LOCAL_ORIGINS ∧
      (bone_clear_transflag mode around flag).testBit 20 = true) := by
  have e14 : BONE_HINGE_CHILD_TRANSFORM = 2 ^ 14 := by decide
  have e20 : BONE_TRANSFORM_CHILD = 2 ^ 20 := by decide
  have e3 : BONE_TRANSFORM = 2 ^ 3 := by decide
  revert h
  simp only [bone_clear_transflag, bone_hinge_iff, bone_connected_iff, bone_transform_iff]
  split
  · next hh =>
    intro _
    left
    rw [Nat.testBit_or, Nat.testBit_or, Nat.testBit_or, e14, Nat.testBit_two_pow,
      Nat.testBit_two_pow, Nat.testBit_two_pow]
    simp [hh.1, hh.2]
  · split
    · next hh =>
      intro _
      right
      refine ⟨hh.2.1, hh.2.2, ?_⟩
      rw [Nat.testBit_or, e20, Nat.testBit_two_pow]
      simp
    · intro h
      rw [testBit_clear_bits, Nat.testBit_or, e3, Nat.testBit_two_pow_self] at h
      simp at h

/-! ## Proofs: the bones reached by a pointer -/

theorem bone_at_null (p : List BoneStep) : bone_at Bone.null p = Bone.null := by
  cases p <;> rfl

theorem bone_at_append : ∀ (p r : List BoneStep) (bone : Bone),
    bone_at bone (p ++ r) = bone_at (bone_at bone p) r
  | [], _, _ => by simp only [List.nil_append, bone_at]
  | _ :: _, r, Bone.null => by rw [List.cons_append, bone_at, bone_at, bone_at_null]
  | BoneStep.child :: p, r, Bone.mk _ _ childbase _ => by
    rw [List.cons_append, bone_at, bone_at, bone_at_append p r childbase]
  | BoneStep.next :: p, r, Bone.mk _ _ _ next => by
    rw [List.cons_append, bone_at, bone_at, bone_at_append p r next]

theorem bone_node_at_child (flag layer : Nat) (childbase next : Bone) (r : List BoneStep) :
    bone_node_at (Bone.mk flag layer childbase next) (BoneStep.child :: r) =
      bone_node_at childbase r := rfl

theorem bone_node_at_next (flag layer : Nat) (childbase next : Bone) (r : List BoneStep) :
    bone_node_at (Bone.mk flag layer childbase next) (BoneStep.next :: r) =
      bone_node_at next r := rfl

theorem bone_node_at_some {bone : Bone} {p : List BoneStep} {node : Nat × Nat}
    (h : bone_node_at bone p = some node) :
    ∃ childbase next, bone_at bone p = Bone.mk node.1 node.2 childbase next := by
  simp only [bone_node_at] at h
  split at h
  · cases h
  · next flag layer childbase next heq =>
    cases h
    exact ⟨childbase, next, heq⟩

theorem bone_node_at_append (p r : List BoneStep) (bone : Bone) :
    bone_node_at bone (p ++ r) = bone_node_at (bone_at bone p) r := by
  simp only [bone_node_at, bone_at_append]

theorem mem_bone_addresses : ∀ (bone : Bone) (p : List BoneStep),
    p ∈ bone_addresses bone ↔ (bone_node_at bone p).isSome = true
  | Bone.null, p => by simp [bone_addresses, bone_node_at, bone_at_null]
  | Bone.mk flag layer childbase next, [] => by simp [bone_addresses, bone_node_at, bone_at]
  | Bone.mk flag layer childbase next, BoneStep.child :: p => by
    rw [bone_node_at_child, ← mem_bone_addresses childbase p]
    simp [bone_addresses]
  | Bone.mk flag layer childbase next, BoneStep.next :: p => by
    rw [bone_node_at_next, ← mem_bone_addresses next p]
    simp [bone_addresses]

theorem bone_at_clear_transflag (mode around : Nat) : ∀ (r : List BoneStep) (bone : Bone),
    bone_at (bone_children_clear_transflag mode around bone) r =
      bone_children_clear_transflag mode around (bone_at bone r)
  | [], _ => by simp only [bone_at]
  | _ :: _, Bone.null => by
    simp only [bone_children_clear_transflag, bone_at]
  | BoneStep.child :: r, Bone.mk _ _ childbase _ => by
    simp only [bone_children_clear_transflag, bone_at]
    exact bone_at_clear_transflag mode around r childbase
  | BoneStep.next :: r, Bone.mk _ _ _ next => by
    simp only [bone_children_clear_transflag, bone_at]
    exact bone_at_clear_transflag mode around r next

theorem bone_node_at_clear_transflag (mode around : Nat) (r : List BoneStep) (bone : Bone) :
    bone_node_at (bone_children_clear_transflag mode around bone) r =
      (bone_node_at bone r).map (node_clear_transflag mode around) := by
  simp only [bone_node_at, bone_at_clear_transflag]
  cases bone_at bone r <;> rfl

/-- An assignment through a pointer to a bone: the bone gets the new flag, the bones
below it are those of the new `childbase`, and every other bone is as before. -/
theorem bone_update_spec (f : Nat → Nat → Bone → Nat × Bone) :
    ∀ (p : List BoneStep) (bone : Bone) (flag layer : Nat) (childbase next : Bone),
      bone_at bone p = Bone.mk flag layer childbase next →
      ∃ bone1, bone_update f p bone = some bone1 ∧
        bone_node_at bone1 p = some ((f flag layer childbase).1, layer) ∧
        (∀ r, bone_node_at bone1 (p ++ BoneStep.child :: r) =
          bone_node_at (f flag layer childbase).2 r) ∧
        (∀ q, q ≠ p → (∀ r, q ≠ p ++ BoneStep.child :: r) →
          bone_node_at bone1 q = bone_node_at bone q)
  | [], bone, flag, layer, childbase, next, h => by
    simp only [bone_at] at h
    subst h
    refine ⟨_, rfl, rfl, fun r => rfl, ?_⟩
    intro q hq hr
    match q, hq, hr with
    | [], hq, _ => exact absurd rfl hq
    | BoneStep.child :: r, _, hr => exact absurd rfl (hr r)
    | BoneStep.next :: r, _, _ => rfl
  | s :: p, Bone.null, flag, layer, childbase, next, h => by
    rw [bone_at_null] at h
    cases h
  | BoneStep.child :: p, Bone.mk flag0 layer0 childbase0 next0, flag, layer, childbase, next,
      h => by
    simp only [bone_at] at h
    obtain ⟨c1, e, h1, h2, h3⟩ := bone_update_spec f p childbase0 flag layer childbase next h
    refine ⟨Bone.mk flag0 layer0 c1 next0, by simp [bone_update, e], ?_, ?_, ?_⟩
    · rw [bone_node_at_child, h1]
    · intro r
      rw [List.cons_append, bone_node_at_child, h2]
    · intro q hq hr
      match q, hq, hr with
      | [], _, _ => rfl
      | BoneStep.child :: q1, hq, hr =>
        rw [bone_node_at_child, bone_node_at_child]
        refine h3 q1 (fun e1 => hq (by rw [e1])) (fun r e1 => hr r (by rw [e1]; rfl))
      | BoneStep.next :: q1, _, _ => rfl
  | BoneStep.next :: p, Bone.mk flag0 layer0 childbase0 next0, flag, layer, childbase, next,
      h => by
    simp only [bone_at] at h
    obtain ⟨c1, e, h1, h2, h3⟩ := bone_update_spec f p next0 flag layer childbase next h
    refine ⟨Bone.mk flag0 layer0 childbase0 c1, by simp [bone_update, e], ?_, ?_, ?_⟩
    · rw [bone_node_at_next, h1]
    · intro r
      rw [List.cons_append, bone_node_at_next, h2]
    · intro q hq hr
      match q, hq, hr with
      | [], _, _ => rfl
      | BoneStep.child :: q1, _, _ => rfl
      | BoneStep.next :: q1, hq, hr =>
        rw [bone_node_at_next, bone_node_at_next]
        refine h3 q1 (fun e1 => hq (by rw [e1])) (fun r e1 => hr r (by rw [e1]; rfl))

/-- Two trees of bones in which the same pointers reach a bone have the same bones. -/
theorem bone_addresses_congr : ∀ (a b : Bone),
    (∀ q, (bone_node_at a q).isSome = (bone_node_at b q).isSome) →
    bone_addresses a = bone_addresses b
  | Bone.null, Bone.null, _ => rfl
  | Bone.null, Bone.mk _ _ _ _, h => by
    have := h []
    simp [bone_node_at, bone_at] at this
  | Bone.mk _ _ _ _, Bone.null, h => by
    have := h []
    simp [bone_node_at, bone_at] at this
  | Bone.mk _ _ c1 n1, Bone.mk _ _ c2 n2, h => by
    have hc := bone_addresses_congr c1 c2 (fun q => by
      have := h (BoneStep.child :: q)
      rwa [bone_node_at_child, bone_node_at_child] at this)
    have hn := bone_addresses_congr n1 n2 (fun q => by
      have := h (BoneStep.next :: q)
      rwa [bone_node_at_next, bone_node_at_next] at this)
    simp only [bone_addresses, hc, hn]

/-! ## Proofs: the loops of `count_set_pose_transflags` -/

theorem node_clear_transflag_iterate (mode around : Nat) : ∀ (n : Nat) (x : Nat × Nat),
    ((node_clear_transflag mode around)^[n] x).2 = x.2 ∧
    (∀ k, k ≠ 3 → k ≠ 14 → k ≠ 20 → k ≠ 25 →
      ((node_clear_transflag mode around)^[n] x).1.testBit k = x.1.testBit k) ∧
    (((node_clear_transflag mode around)^[n] x).1.testBit 3 = true → x.1.testBit 3 = true)
  | 0, x => ⟨rfl, fun _ _ _ _ _ => rfl, fun h => h⟩
  | n + 1, x => by
    obtain ⟨h1, h2, h3⟩ := node_clear_transflag_iterate mode around n x
    obtain ⟨b1, b2, -⟩ := bone_clear_transflag_bits mode around
      ((node_clear_transflag mode around)^[n] x).1
    rw [Function.iterate_succ_apply']
    refine ⟨h1, ?_, ?_⟩
    · intro k k3 k14 k20 k25
      simp only [node_clear_transflag]
      rw [b1 k k3 k14 k20 k25, h2 k k3 k14 k20 k25]
    · intro h
      exact h3 (b2 h)

theorem node_set_transflag_iterate (arm_layer : Nat) : ∀ (n : Nat) (x : Nat × Nat),
    ((node_set_transflag arm_layer)^[n] x).2 = x.2 ∧
    (∀ k, k ≠ 3 → k ≠ 14 → k ≠ 20 → k ≠ 25 →
      ((node_set_transflag arm_layer)^[n] x).1.testBit k = x.1.testBit k)
  | 0, x => ⟨rfl, fun _ _ _ _ _ => rfl⟩
  | n + 1, x => by
    obtain ⟨h1, h2⟩ := node_set_transflag_iterate arm_layer n x
    obtain ⟨b1, -⟩ := pose_set_transflag_bits arm_layer
      ((node_set_transflag arm_layer)^[n] x).1 ((node_set_transflag arm_layer)^[n] x).2
    rw [Function.iterate_succ_apply']
    refine ⟨h1, ?_⟩
    intro k k3 k14 k20 k25
    simp only [node_set_transflag]
    rw [b1 k k3 k14 k20 k25, h2 k k3 k14 k20 k25]

/-- A bone that the first loop of `count_set_pose_transflags` reached is flagged only if
it is visible and selected. -/
theorem node_set_transflag_eligible (arm_layer n : Nat) (x : Nat × Nat) (hn : 1 ≤ n)
    (h : ((node_set_transflag arm_layer)^[n] x).1.testBit 3 = true) :
    PBONE_VISIBLE arm_layer ((node_set_transflag arm_layer)^[n] x).1
      ((node_set_transflag arm_layer)^[n] x).2 = true ∧
    ((node_set_transflag arm_layer)^[n] x).1.testBit 0 = true := by
  obtain ⟨m, rfl⟩ : ∃ m, n = m + 1 := ⟨n - 1, by omega⟩
  rw [Function.iterate_succ_apply'] at h ⊢
  obtain ⟨b1, b2⟩ := pose_set_transflag_bits arm_layer
    ((node_set_transflag arm_layer)^[m] x).1 ((node_set_transflag arm_layer)^[m] x).2
  simp only [node_set_transflag] at h ⊢
  obtain ⟨v, s⟩ := b2 h
  refine ⟨?_, ?_⟩
  · rw [PBONE_VISIBLE_congr _ _ _ _ (b1 6 (by decide) (by decide) (by decide) (by decide))]
    exact v
  · rw [b1 0 (by decide) (by decide) (by decide) (by decide)]
    exact s

/-- The body of the first loop of `count_set_pose_transflags` changes the bone of the
pose channel only. -/
theorem pose_set_step (arm_layer : Nat) (p : List BoneStep) (bone : Bone) (x : Nat × Nat)
    (h : bone_node_at bone p = some x) :
    ∃ bone1, bone_update (fun flag layer childbase =>
        (pose_set_transflag arm_layer flag layer, childbase)) p bone = some bone1 ∧
      ∀ q, bone_node_at bone1 q =
        if q = p then some (node_set_transflag arm_layer x) else bone_node_at bone q := by
  obtain ⟨childbase, next, hb⟩ := bone_node_at_some h
  obtain ⟨bone1, e, h1, h2, h3⟩ := bone_update_spec (fun flag layer childbase =>
    (pose_set_transflag arm_layer flag layer, childbase)) p bone _ _ _ _ hb
  refine ⟨bone1, e, ?_⟩
  intro q
  by_cases hq : q = p
  · rw [if_pos hq, hq, h1]
    rfl
  · rw [if_neg hq]
    by_cases hr : ∃ r, q = p ++ BoneStep.child :: r
    · obtain ⟨r, rfl⟩ := hr
      rw [h2 r, bone_node_at_append, hb, bone_node_at_child]
    · exact h3 q hq (fun r e1 => hr ⟨r, e1⟩)

theorem pose_set_loop_spec (arm_layer : Nat) :
    ∀ (l : List (List BoneStep)) (bone : Bone),
      (∀ p ∈ l, (bone_node_at bone p).isSome = true) →
      ∃ bone1, pose_set_loop arm_layer l bone = some bone1 ∧
        ∀ q, ∃ n, bone_node_at bone1 q =
            (bone_node_at bone q).map (node_set_transflag arm_layer)^[n] ∧
          (q ∈ l → 1 ≤ n)
  | [], bone, _ => ⟨bone, rfl, fun q => ⟨0, by simp, fun h => by cases h⟩⟩
  | p :: rest, bone, hv => by
    obtain ⟨x, hx⟩ := Option.isSome_iff_exists.1 (hv p (List.mem_cons_self _ _))
    obtain ⟨bone1, e, h1⟩ := pose_set_step arm_layer p bone x hx
    have hv1 : ∀ p1 ∈ rest, (bone_node_at bone1 p1).isSome = true := by
      intro p1 hp1
      rw [h1 p1]
      split
      · rfl
      · exact hv p1 (List.mem_cons_of_mem _ hp1)
    obtain ⟨bone2, e2, h2⟩ := pose_set_loop_spec arm_layer rest bone1 hv1
    refine ⟨bone2, by simp only [pose_set_loop, e, e2], ?_⟩
    intro q
    obtain ⟨n, hn, hmem⟩ := h2 q
    by_cases hq : q = p
    · refine ⟨n + 1, ?_, fun _ => Nat.le_add_left 1 n⟩
      rw [hn, h1 q, if_pos hq, hq, hx, Option.map_some', Option.map_some',
        Function.iterate_succ_apply]
    · refine ⟨n, ?_, ?_⟩
      · rw [hn, h1 q, if_neg hq]
      · intro hm
        rcases List.mem_cons.1 hm with h | h
        · exact absurd h hq
        · exact hmem h

/-- The body of the second loop of `count_set_pose_transflags`: the bone of the pose
channel is kept, and when it is flagged every bone below it has been through the loop
body of `bone_children_clear_transflag`. -/
theorem pose_clear_step (mode around : Nat) (p : List BoneStep) (bone : Bone)
    (x : Nat × Nat) (h : bone_node_at bone p = some x) :
    ∃ bone1, bone_update (fun flag _ childbase =>
        (flag, if flag &&& BONE_TRANSFORM ≠ 0 then
          bone_children_clear_transflag mode around childbase else childbase))
        p bone = some bone1 ∧
      bone_node_at bone1 p = some x ∧
      (∀ q, ∃ n, bone_node_at bone1 q =
        (bone_node_at bone q).map (node_clear_transflag mode around)^[n]) ∧
      (x.1.testBit 3 = true → ∀ r, bone_node_at bone1 (p ++ BoneStep.child :: r) =
        (bone_node_at bone (p ++ BoneStep.child :: r)).map
          (node_clear_transflag mode around)) := by
  obtain ⟨childbase, next, hb⟩ := bone_node_at_some h
  obtain ⟨bone1, e, h1, h2, h3⟩ := bone_update_spec (fun flag _ childbase =>
    (flag, if flag &&& BONE_TRANSFORM ≠ 0 then
      bone_children_clear_transflag mode around childbase else childbase)) p bone _ _ _ _ hb
  have hchild : ∀ r, bone_node_at bone (p ++ BoneStep.child :: r) =
      bone_node_at childbase r := by
    intro r
    rw [bone_node_at_append, hb, bone_node_at_child]
  refine ⟨bone1, e, h1, ?_, ?_⟩
  · intro q
    by_cases hq : q = p
    · refine ⟨0, ?_⟩
      rw [hq, h1, h]
      rfl
    · by_cases hr : ∃ r, q = p ++ BoneStep.child :: r
      · obtain ⟨r, rfl⟩ := hr
        by_cases ht : x.1 &&& BONE_TRANSFORM ≠ 0
        · refine ⟨1, ?_⟩
          rw [h2 r, hchild r]
          simp only [ht, if_true, bone_node_at_clear_transflag, Function.iterate_one, ne_eq,
            not_false_eq_true]
        · refine ⟨0, ?_⟩
          rw [h2 r, hchild r]
          simp only [ht, if_false, Function.iterate_zero, Option.map_id_fun, id_eq]
      · refine ⟨0, ?_⟩
        rw [h3 q hq (fun r e1 => hr ⟨r, e1⟩)]
        simp
  · intro ht r
    have ht1 : x.1 &&& BONE_TRANSFORM ≠ 0 := (bone_transform_iff x.1).2 ht
    rw [h2 r, hchild r]
    simp only [ht1, if_true, bone_node_at_clear_transflag, ne_eq, not_false_eq_true]

theorem pose_clear_loop_spec (mode around : Nat) :
    ∀ (l : List (List BoneStep)) (bone : Bone),
      (∀ p ∈ l, (bone_node_at bone p).isSome = true) →
      ∃ bone1, pose_clear_loop mode around l bone = some bone1 ∧
        (∀ q, ∃ n, bone_node_at bone1 q =
          (bone_node_at bone q).map (node_clear_transflag mode around)^[n]) ∧
        (∀ p ∈ l, ∀ r y z, bone_node_at bone1 p = some y → y.1.testBit 3 = true →
          bone_node_at bone1 (p ++ BoneStep.child :: r) = some z →
          ∃ x, z = node_clear_transflag mode around x)
  | [], bone, _ => ⟨bone, rfl, fun q => ⟨0, by simp⟩, fun p hp => by cases hp⟩
  | p :: rest, bone, hv => by
    obtain ⟨x, hx⟩ := Option.isSome_iff_exists.1 (hv p (List.mem_cons_self _ _))
    obtain ⟨bone1, e, h1, h2, h3⟩ := pose_clear_step mode around p bone x hx
    have hv1 : ∀ p1 ∈ rest, (bone_node_at bone1 p1).isSome = true := by
      intro p1 hp1
      obtain ⟨n, hn⟩ := h2 p1
      rw [hn, Option.isSome_map']
      exact hv p1 (List.mem_cons_of_mem _ hp1)
    obtain ⟨bone2, e2, g2, g3⟩ := pose_clear_loop_spec mode around rest bone1 hv1
    refine ⟨bone2, by simp only [pose_clear_loop, e, e2], ?_, ?_⟩
    · intro q
      obtain ⟨n, hn⟩ := g2 q
      obtain ⟨m, hm⟩ := h2 q
      refine ⟨n + m, ?_⟩
      rw [hn, hm, Option.map_map, Function.iterate_add]
    · intro p0 hp0 r y z hy ht hz
      rcases List.mem_cons.1 hp0 with rfl | hp0
      · obtain ⟨n, hn⟩ := g2 p0
        rw [hn, h1, Option.map_some', Option.some.injEq] at hy
        have htx : x.1.testBit 3 = true := by
          rw [← hy] at ht
          exact (node_clear_transflag_iterate mode around n x).2.2 ht
        obtain ⟨m, hm⟩ := g2 (p0 ++ BoneStep.child :: r)
        rw [hm, h3 htx r, Option.map_map] at hz
        cases hc : bone_node_at bone (p0 ++ BoneStep.child :: r) with
        | none =>
          rw [hc] at hz
          cases hz
        | some x0 =>
          rw [hc, Option.map_some', Option.some.injEq, Function.comp_apply,
            ← Function.iterate_succ_apply, Function.iterate_succ_apply'] at hz
          exact ⟨_, hz.symm⟩
      · exact g3 p0 hp0 r y z hy ht hz

theorem pose_count_loop_spec (bone : Bone) :
    ∀ (l : List (List BoneStep)) (total : Nat),
      (∀ p ∈ l, (bone_node_at bone p).isSome = true) →
      pose_count_loop bone l total = some (total + l.countP (bone_transform_at bone))
  | [], total, _ => rfl
  | p :: rest, total, hv => by
    obtain ⟨x, hx⟩ := Option.isSome_iff_exists.1 (hv p (List.mem_cons_self _ _))
    have ih := fun t => pose_count_loop_spec bone rest t
      (fun p1 hp1 => hv p1 (List.mem_cons_of_mem _ hp1))
    simp only [pose_count_loop, hx, ih, List.countP_cons, bone_transform_at]
    by_cases ht : x.1 &&& BONE_TRANSFORM ≠ 0
    · simp only [ht, if_true, decide_True, ne_eq, not_false_eq_true]
      congr 1
      omega
    · simp only [ht, if_false, decide_False, Bool.false_eq_true]
      rfl

/-! ## Claim C21: the flags after `count_set_pose_transflags` -/

/-- Claim C21, as stated, fails in two ways.  For a rotation about the individual origins:
on the armature `example_bonebase` (a selected visible bone with a selected visible child
that is no hinge bone and not connected), with the pose channels `example_chanbase`, in the
mode `TFM_ROTATION` with the pivot `V3D_AROUND_LOCAL_ORIGINS`, the function returns 2, and
both the bone and its child are flagged `BONE_TRANSFORM` (the child with
`BONE_TRANSFORM_CHILD`), although the child is not a hinge bone.  For a bone without a pose
channel: on the armature `example_stale_bonebase` (a bone that is not selected and still
flagged `BONE_TRANSFORM`, with a selected visible child that is no hinge bone), with a pose
channel for the child only, in a translation, the bone keeps its flag, so a bone that is
not selected is flagged and the flagged child has a flagged ancestor.  A pose channel whose
bone is `NULL` makes the function read through `NULL`. -/
theorem count_set_pose_transflags_local_origins :
    TFM_ROTATION ≠ TFM_BONESIZE ∧ TFM_ROTATION ≠ TFM_BONE_ENVELOPE_DIST ∧
    count_set_pose_transflags 1 TFM_ROTATION V3D_AROUND_LOCAL_ORIGINS example_bonebase
        example_chanbase =
      some (Bone.mk (BONE_SELECTED ||| BONE_TRANSFORM) 1
        (Bone.mk (BONE_SELECTED ||| BONE_TRANSFORM ||| BONE_TRANSFORM_CHILD) 1
          Bone.null Bone.null) Bone.null, 2) ∧
    (BONE_SELECTED ||| BONE_TRANSFORM) &&& BONE_TRANSFORM ≠ 0 ∧
    (BONE_SELECTED ||| BONE_TRANSFORM ||| BONE_TRANSFORM_CHILD) &&& BONE_TRANSFORM ≠ 0 ∧
    (BONE_SELECTED ||| BONE_TRANSFORM ||| BONE_TRANSFORM_CHILD) &&& BONE_HINGE = 0 ∧
    (BONE_SELECTED ||| BONE_TRANSFORM ||| BONE_TRANSFORM_CHILD) &&& BONE_CONNECTED = 0 ∧
    TFM_TRANSLATION ≠ TFM_BONESIZE ∧ TFM_TRANSLATION ≠ TFM_BONE_ENVELOPE_DIST ∧
    count_set_pose_transflags 1 TFM_TRANSLATION 0 example_stale_bonebase
        [[BoneStep.child]] =
      some (Bone.mk BONE_TRANSFORM 1
        (Bone.mk (BONE_SELECTED ||| BONE_TRANSFORM) 1 Bone.null Bone.null) Bone.null, 1) ∧
    BONE_TRANSFORM &&& BONE_TRANSFORM ≠ 0 ∧ BONE_TRANSFORM &&& BONE_SELECTED = 0 ∧
    (BONE_SELECTED ||| BONE_TRANSFORM) &&& BONE_HINGE = 0 ∧
    count_set_pose_transflags 1 TFM_TRANSLATION 0 example_bonebase
        [[], [BoneStep.next]] = none := by
  decide

/-- Claim C21, amended: for every armature and every pose whose channels point to bones of
the armature, every transform mode other than `TFM_BONESIZE` and `TFM_BONE_ENVELOPE_DIST`
and every pivot setting, `count_set_pose_transflags` returns the number of pose channels
whose bone is flagged `BONE_TRANSFORM` and keeps the bones of the armature; each bone with
a pose channel that is flagged `BONE_TRANSFORM` is visible and selected; and each bone
flagged `BONE_TRANSFORM` below a bone with a pose channel that is flagged `BONE_TRANSFORM`
is a connected hinge bone, marked `BONE_HINGE_CHILD_TRANSFORM`, or the mode is
`TFM_ROTATION` or `TFM_TRACKBALL` with the pivot `V3D_AROUND_LOCAL_ORIGINS` and the bone is
marked `BONE_TRANSFORM_CHILD`. -/
theorem count_set_pose_transflags_spec (arm_layer mode around : Nat) (bonebase : Bone)
    (chanbase : List (List BoneStep))
    (hmode : mode ≠ TFM_BONESIZE ∧ mode ≠ TFM_BONE_ENVELOPE_DIST)
    (hvalid : ∀ p ∈ chanbase, p ∈ bone_addresses bonebase) :
    ∃ out, count_set_pose_transflags arm_layer mode around bonebase chanbase =
        some (out, chanbase.countP (bone_transform_at out)) ∧
      bone_addresses out = bone_addresses bonebase ∧
      (∀ q ∈ chanbase, ∀ flag layer, bone_node_at out q = some (flag, layer) →
        flag &&& BONE_TRANSFORM ≠ 0 →
        PBONE_VISIBLE arm_layer flag layer = true ∧ flag &&& BONE_SELECTED ≠ 0) ∧
      (∀ p ∈ chanbase, ∀ r flag layer flag_p layer_p,
        bone_node_at out (p ++ BoneStep.child :: r) = some (flag, layer) →
        bone_node_at out p = some (flag_p, layer_p) →
        flag &&& BONE_TRANSFORM ≠ 0 → flag_p &&& BONE_TRANSFORM ≠ 0 →
        (flag &&& BONE_HINGE ≠ 0 ∧ flag &&& BONE_CONNECTED ≠ 0 ∧
          flag &&& BONE_HINGE_CHILD_TRANSFORM ≠ 0) ∨
        ((mode = TFM_ROTATION ∨ mode = TFM_TRACKBALL) ∧
          around = V3D_AROUND_LOCAL_ORIGINS ∧ flag &&& BONE_TRANSFORM_CHILD ≠ 0)) := by
  have hv0 : ∀ p ∈ chanbase, (bone_node_at bonebase p).isSome = true :=
    fun p hp => (mem_bone_addresses bonebase p).1 (hvalid p hp)
  obtain ⟨bone1, e1, h1⟩ := pose_set_loop_spec arm_layer chanbase bonebase hv0
  have hv1 : ∀ p ∈ chanbase, (bone_node_at bone1 p).isSome = true := by
    intro p hp
    obtain ⟨n, hn, -⟩ := h1 p
    rw [hn, Option.isSome_map']
    exact hv0 p hp
  obtain ⟨bone2, e2, h2, h3⟩ := pose_clear_loop_spec mode around chanbase bone1 hv1
  have hv2 : ∀ p ∈ chanbase, (bone_node_at bone2 p).isSome = true := by
    intro p hp
    obtain ⟨n, hn⟩ := h2 p
    rw [hn, Option.isSome_map']
    exact hv1 p hp
  have hsome : ∀ q, (bone_node_at bone2 q).isSome = (bone_node_at bonebase q).isSome := by
    intro q
    obtain ⟨n, hn⟩ := h2 q
    obtain ⟨m, hm, -⟩ := h1 q
    rw [hn, hm, Option.isSome_map', Option.isSome_map']
  have hmode1 : ¬ (mode = TFM_BONESIZE ∨ mode = TFM_BONE_ENVELOPE_DIST) :=
    fun h => h.elim hmode.1 hmode.2
  refine ⟨bone2, ?_, ?_, ?_, ?_⟩
  · simp only [count_set_pose_transflags, e1, hmode1, not_false_eq_true, if_true, e2,
      pose_count_loop_spec bone2 chanbase 0 hv2, Nat.zero_add]
  · exact bone_addresses_congr bone2 bonebase hsome
  · intro q hqmem flag layer hq ht
    have ht3 : flag.testBit 3 = true := (bone_transform_iff flag).1 ht
    obtain ⟨n, hn⟩ := h2 q
    obtain ⟨m, hm, hm1⟩ := h1 q
    obtain ⟨x0, hx0⟩ := Option.isSome_iff_exists.1 (hv0 q hqmem)
    rw [hx0, Option.map_some'] at hm
    rw [hm, Option.map_some'] at hn
    rw [hq, Option.some.injEq] at hn
    obtain ⟨w1, w2, w3⟩ := node_clear_transflag_iterate mode around n
      ((node_set_transflag arm_layer)^[m] x0)
    rw [← hn] at w1 w2 w3
    simp only at w1 w2 w3
    obtain ⟨v, s⟩ := node_set_transflag_eligible arm_layer m x0 (hm1 hqmem) (w3 ht3)
    refine ⟨?_, ?_⟩
    · rw [← v, w1]
      exact PBONE_VISIBLE_congr _ _ _ _
        (w2 6 (by decide) (by decide) (by decide) (by decide))
    · rw [bone_selected_iff, w2 0 (by decide) (by decide) (by decide) (by decide)]
      exact s
  · intro p hpmem r flag layer flag_p layer_p hq hp ht htp
    have ht3 : flag.testBit 3 = true := (bone_transform_iff flag).1 ht
    obtain ⟨x, hx⟩ := h3 p hpmem r _ _ hp ((bone_transform_iff flag_p).1 htp) hq
    have hf : flag = bone_clear_transflag mode around x.1 := by
      have := congrArg Prod.fst hx
      simpa [node_clear_transflag] using this
    rw [hf] at ht3
    rw [bone_hinge_iff, bone_connected_iff, bone_hinge_child_iff, bone_transform_child_iff,
      hf]
    exact bone_clear_transflag_marked mode around x.1 ht3

/-- Witness for C21: the armature `example_bonebase` with a pose channel for each of its two
bones, in a translation: the bone stays flagged, its child is cleared, and the function
returns 1. -/
theorem count_set_pose_transflags_spec_witness :
    (TFM_TRANSLATION ≠ TFM_BONESIZE ∧ TFM_TRANSLATION ≠ TFM_BONE_ENVELOPE_DIST) ∧
    (∀ p ∈ example_chanbase, p ∈ bone_addresses example_bonebase) ∧
    count_set_pose_transflags 1 TFM_TRANSLATION 0 example_bonebase example_chanbase =
      some (Bone.mk (BONE_SELECTED ||| BONE_TRANSFORM) 1
        (Bone.mk BONE_SELECTED 1 Bone.null Bone.null) Bone.null, 1) ∧
    ∃ out, count_set_pose_transflags 1 TFM_TRANSLATION 0 example_bonebase example_chanbase =
        some (out, example_chanbase.countP (bone_transform_at out)) ∧
      bone_addresses out = bone_addresses example_bonebase ∧
      (∀ q ∈ example_chanbase, ∀ flag layer, bone_node_at out q = some (flag, layer) →
        flag &&& BONE_TRANSFORM ≠ 0 →
        PBONE_VISIBLE 1 flag layer = true ∧ flag &&& BONE_SELECTED ≠ 0) ∧
      (∀ p ∈ example_chanbase, ∀ r flag layer flag_p layer_p,
        bone_node_at out (p ++ BoneStep.child :: r) = some (flag, layer) →
        bone_node_at out p = some (flag_p, layer_p) →
        flag &&& BONE_TRANSFORM ≠ 0 → flag_p &&& BONE_TRANSFORM ≠ 0 →
        (flag &&& BONE_HINGE ≠ 0 ∧ flag &&& BONE_CONNECTED ≠ 0 ∧
          flag &&& BONE_HINGE_CHILD_TRANSFORM ≠ 0) ∨
        ((TFM_TRANSLATION = TFM_ROTATION ∨ TFM_TRANSLATION = TFM_TRACKBALL) ∧
          0 = V3D_AROUND_LOCAL_ORIGINS ∧ flag &&& BONE_TRANSFORM_CHILD ≠ 0)) :=
  ⟨by decide, by decide, by decide,
    count_set_pose_transflags_spec 1 TFM_TRANSLATION 0 example_bonebase example_chanbase
      (by decide) (by decide)⟩

end TransformConversions
